import Mathlib

/-!
# Graph-rewrite passes of the ONNC tutorial backend

A shallow embedding of the three rewrite passes of the tutorial NVDLA backend
(`NvDlaIdentifyShufflePass`, `NvDlaFuseAddMulReluPass`, `NvDlaReorderMulAddPass`)
over an arena model of the ONNC compute graph, and the properties proved of them.

Pointers to operators and to values are arena indices.  Erasing an object leaves
an empty slot behind, so that a later access through a stale pointer is a failure
(`none`), as is every other operation that C++ leaves undefined (reading element 0
of an empty vector, signed overflow, a failed cast that is dereferenced) and every
thrown exception (`vector::at`).
-/

namespace onnc

/-! ## Data model -/

/-- The closed set of operator kinds the passes distinguish (`isa<K>` / `dyn_cast<K>`). -/
inductive OpKind where
  | Add
  | Mul
  | Relu
  | Reshape
  | Transpose
  | Initializer
  | NvDlaShuffle
  | NvDlaAddMulRelu
  | Other
  deriving DecidableEq, Repr

/-- One entry of a value's use-list: the consuming operator and its input slot. -/
structure Use where
  user : Nat
  operandNo : Nat
  deriving DecidableEq, Repr

/-- The dynamic type of a tensor object together with its `getValues()` vector:
`FloatTensor` holds floats, `Int64Tensor` holds 64-bit integers. -/
inductive TensorData (F : Type) where
  | float (values : List F)
  | int64 (values : List Int)
  | other
  deriving DecidableEq, Repr

/-- A value (tensor edge) of the graph.  `define` is the producing operator,
`uses` the use-list. -/
structure Tensor (F : Type) where
  name : String
  dims : List Int
  data : TensorData F
  define : Option Nat
  uses : List Use
  deriving DecidableEq, Repr

/-- An operator (node) of the graph: kind tag, ordered input and output slots,
and the kind-specific attributes (`perm` of a Transpose, `group` of a Shuffle). -/
structure ComputeOperator where
  kind : OpKind
  inputs : List Nat
  outputs : List Nat
  perm : List Int := []
  group : Int := 0
  deriving DecidableEq, Repr

/-- The compute graph: an arena of operators, an arena of values, and the current
iteration order of the live operators. -/
structure ComputeGraph (F : Type) where
  nodes : List (Option ComputeOperator)
  values : List (Option (Tensor F))
  order : List Nat
  deriving DecidableEq, Repr

variable {F : Type}

namespace ComputeGraph

/-- Dereference an operator pointer. -/
def getNode (g : ComputeGraph F) (n : Nat) : Option ComputeOperator :=
  (g.nodes[n]?).join

/-- Dereference a value pointer. -/
def getValue (g : ComputeGraph F) (v : Nat) : Option (Tensor F) :=
  (g.values[v]?).join

/-- Overwrite an operator slot. -/
def setNode (g : ComputeGraph F) (n : Nat) (op : Option ComputeOperator) : ComputeGraph F :=
  { g with nodes := g.nodes.set n op }

/-- Overwrite a value slot. -/
def setValue (g : ComputeGraph F) (v : Nat) (t : Option (Tensor F)) : ComputeGraph F :=
  { g with values := g.values.set v t }

/-- The call `pNode->getInput(pIdx)`, that is `m_Inputs[pIdx]`. -/
def getInput (g : ComputeGraph F) (n idx : Nat) : Option Nat :=
  (g.getNode n).bind fun op => op.inputs[idx]?

/-- The call `pNode->getOutput(pIdx)`, that is `m_Outputs[pIdx]`. -/
def getOutput (g : ComputeGraph F) (n idx : Nat) : Option Nat :=
  (g.getNode n).bind fun op => op.outputs[idx]?

/-- The call `pValue->getUses()`. -/
def getUses (g : ComputeGraph F) (v : Nat) : Option (List Use) :=
  (g.getValue v).map fun t => t.uses

/-- The call `pValue->getDefine()`; a value without a producer yields a null
pointer, whose every later dereference fails. -/
def getDefine (g : ComputeGraph F) (v : Nat) : Option Nat :=
  (g.getValue v).bind fun t => t.define

/-- The test `isa<K>(pNode)`. -/
def isa (g : ComputeGraph F) (k : OpKind) (n : Nat) : Option Bool :=
  (g.getNode n).map fun op => decide (op.kind = k)

/-- The cast `dyn_cast<K>(pNode)` whose result is dereferenced unconditionally:
a null result is a failure. -/
def dynCast (g : ComputeGraph F) (k : OpKind) (n : Nat) : Option Nat :=
  (g.getNode n).bind fun op => if op.kind = k then some n else none

end ComputeGraph

open ComputeGraph

/-- Sequencing of two fallible steps: the second runs on the result of the first,
and a failure of the first is the failure of the whole (`Option.bind`, kept out of
line). -/
@[noinline] def andThen {α β : Type} (x : Option α) (f : α → Option β) : Option β :=
  x.bind f

/-! ## Graph-editing primitives of the host framework -/

/-- Remove operator `n` from a value's use-list. -/
def dropUser (n : Nat) (t : Tensor F) : Tensor F :=
  { t with uses := t.uses.filter fun u => decide (u.user ≠ n) }

/-- Forget a value's producer. -/
def clearDefine (t : Tensor F) : Tensor F :=
  { t with define := none }

namespace ComputeGraph

/-- One step of `removeAllInputs`: take operator `n` out of the use-list of `v`. -/
def detachUse (n : Nat) (g : ComputeGraph F) (v : Nat) : Option (ComputeGraph F) :=
  (g.getValue v).map fun t => g.setValue v (some (dropUser n t))

/-- One step of `removeAllOutputs`: value `v` loses its producer. -/
def detachDefine (g : ComputeGraph F) (v : Nat) : Option (ComputeGraph F) :=
  (g.getValue v).map fun t => g.setValue v (some (clearDefine t))

/-- Modelled from the spec: the host framework's `removeAllInputs` (section 4.3,
step 1, and section 6), which removes the node from each input value's use-list
and clears the node's own input slots. -/
def removeAllInputs (g : ComputeGraph F) (n : Nat) : Option (ComputeGraph F) :=
  (g.getNode n).bind fun op =>
    (op.inputs.foldlM (detachUse n) g).map fun g1 =>
      g1.setNode n (some { op with inputs := [] })

/-- Modelled from the spec: the host framework's `removeAllOutputs` (section 4.3,
step 1, and section 6), which detaches the node's output edges: each output value
loses its producer and the node's own output slots are cleared. -/
def removeAllOutputs (g : ComputeGraph F) (n : Nat) : Option (ComputeGraph F) :=
  (g.getNode n).bind fun op =>
    (op.outputs.foldlM detachDefine g).map fun g1 =>
      g1.setNode n (some { op with outputs := [] })

/-- Modelled from the spec: the host framework's `addInput` (section 4.3, step 4):
the value is appended to the node's input slots and the (node, slot) pair is
recorded in the value's use-list. -/
def addInput (g : ComputeGraph F) (n v : Nat) : Option (ComputeGraph F) :=
  (g.getNode n).bind fun op =>
    (g.getValue v).map fun t =>
      (g.setNode n (some { op with inputs := op.inputs ++ [v] })).setValue v
        (some { t with uses := t.uses ++ [⟨n, op.inputs.length⟩] })

/-- Modelled from the spec: the host framework's `addOutput` (section 4.3, step 4):
the value is appended to the node's output slots and the node becomes the value's
producer. -/
def addOutput (g : ComputeGraph F) (n v : Nat) : Option (ComputeGraph F) :=
  (g.getNode n).bind fun op =>
    (g.getValue v).map fun t =>
      (g.setNode n (some { op with outputs := op.outputs ++ [v] })).setValue v
        (some { t with define := some n })

/-- Modelled from the spec: the host framework's `erase` of an operator
(section 6): the node leaves the graph and its iteration order. -/
def eraseNode (g : ComputeGraph F) (n : Nat) : Option (ComputeGraph F) :=
  (g.getNode n).map fun _ =>
    { nodes := g.nodes.set n none, values := g.values, order := g.order.erase n }

/-- Modelled from the spec: the host framework's `erase` of a value (section 6):
the value leaves the graph. -/
def eraseValue (g : ComputeGraph F) (v : Nat) : Option (ComputeGraph F) :=
  (g.getValue v).map fun _ => g.setValue v none

/-- Modelled from the spec: the host framework's `addOperator<K>` (section 6): a
new node of kind `K` without any edge is appended to the graph; the result is the
graph and the pointer to the new node. -/
def addOperator (g : ComputeGraph F) (k : OpKind) (group : Int) : ComputeGraph F × Nat :=
  ({ nodes := g.nodes ++ [some { kind := k, inputs := [], outputs := [], group := group }],
     values := g.values,
     order := g.order ++ [g.nodes.length] }, g.nodes.length)

/-- Is there a live value of this name? -/
def hasName (g : ComputeGraph F) (name : String) : Bool :=
  g.values.any fun o => match o with
    | some t => decide (t.name = name)
    | none => false

/-- Modelled from the spec: the host framework's `addValue` (section 6).  The
source asserts that its result is not null with the message "The name must be
unique": a value whose name is already taken is not added. -/
def addValue (g : ComputeGraph F) (t : Tensor F) : Option (ComputeGraph F × Nat) :=
  if g.hasName t.name then none
  else some ({ nodes := g.nodes, values := g.values ++ [some t], order := g.order },
    g.values.length)

/-- The call `pValue->setName(name)`. -/
def setName (g : ComputeGraph F) (v : Nat) (name : String) : Option (ComputeGraph F) :=
  (g.getValue v).map fun t => g.setValue v (some { t with name := name })

/-- Replace the element vector of a tensor (the net effect of the `push_back`
loop on `getValues()`). -/
def setData (g : ComputeGraph F) (v : Nat) (d : TensorData F) : Option (ComputeGraph F) :=
  (g.getValue v).map fun t => g.setValue v (some { t with data := d })

end ComputeGraph

/-! ## Accessors and machine arithmetic used by the passes -/

namespace ComputeGraph

/-- The call `pNode->getNumOfOutputs()`. -/
def getNumOfOutputs (g : ComputeGraph F) (n : Nat) : Option Nat :=
  (g.getNode n).map fun op => op.outputs.length

/-- The call `pTensor->getNumOfDimensions()`. -/
def getNumOfDimensions (g : ComputeGraph F) (v : Nat) : Option Nat :=
  (g.getValue v).map fun t => t.dims.length

/-- The call `pTensor->dimension(pIdx)`. -/
def dimension (g : ComputeGraph F) (v idx : Nat) : Option Int :=
  (g.getValue v).bind fun t => t.dims[idx]?

/-- The call `pTensor->getName()`. -/
def getName (g : ComputeGraph F) (v : Nat) : Option String :=
  (g.getValue v).map fun t => t.name

/-- The call `pTranspose->getPerm()`. -/
def getPerm (g : ComputeGraph F) (n : Nat) : Option (List Int) :=
  (g.getNode n).map fun op => op.perm

/-- The expression `static_cast<Int64Tensor*>(pTensor)->getValues()`: defined only
when the object is an `Int64Tensor`. -/
def getInt64Values (g : ComputeGraph F) (v : Nat) : Option (List Int) :=
  (g.getValue v).bind fun t =>
    match t.data with
    | TensorData.int64 vs => some vs
    | _ => none

/-- The expression `dynamic_cast<FloatTensor*>(pTensor)->getValues()`: the cast
yields a null pointer unless the object is a `FloatTensor`. -/
def getFloatValues (g : ComputeGraph F) (v : Nat) : Option (List F) :=
  (g.getValue v).bind fun t =>
    match t.data with
    | TensorData.float vs => some vs
    | _ => none

/-- Are all producers of the inputs of operator `n` among `done`? -/
def producersReady (g : ComputeGraph F) (done : List Nat) (n : Nat) : Bool :=
  match g.getNode n with
  | none => true
  | some op => op.inputs.all fun v =>
      match g.getDefine v with
      | some p => done.contains p
      | none => true

/-- The selection loop of the topological sort: move the first operator whose
producers are all placed; operators on a cycle keep their relative order at the end. -/
def topologicalLoop (g : ComputeGraph F) : Nat → List Nat → List Nat → List Nat
  | 0, done, rest => done ++ rest
  | fuel + 1, done, rest =>
    match rest.find? (producersReady g done) with
    | none => done ++ rest
    | some n => topologicalLoop g fuel (done ++ [n]) (rest.erase n)

/-- Modelled from the spec: the host framework's `topologicalSort` (sections 4.3
and 6), which re-linearizes the iteration order of the graph so that every node
comes after the producers of its inputs.  Nodes and values are untouched. -/
def topologicalSort (g : ComputeGraph F) : ComputeGraph F :=
  { g with order := topologicalLoop g g.order.length [] g.order }

end ComputeGraph

/-- Conversion of a 64-bit integer to `int` (32 bits, two's complement). -/
def toInt (x : Int) : Int :=
  (x + 2 ^ 31) % 2 ^ 32 - 2 ^ 31

/-- Reduction of an integer to `int64_t` (64 bits, two's complement). -/
def toInt64 (x : Int) : Int :=
  (x + 2 ^ 63) % 2 ^ 64 - 2 ^ 63

/-- Product of two `int64_t` as the compiled code computes it: a product that does not
fit 64 bits wraps around. -/
def mulInt64 (a b : Int) : Int :=
  toInt64 (a * b)

/-- The flag `Pass::kModuleNoChanged`. -/
def kModuleNoChanged : Nat := 0

/-- The flag `Pass::kModuleChanged`. -/
def kModuleChanged : Nat := 1

/-! ## The arithmetic of the type `float` -/

/-- A value of the C++ type `float` (IEEE 754 binary32): a finite number given by
its sign and its magnitude, an infinity, or a NaN. -/
inductive Binary32 where
  | finite (negative : Bool) (magnitude : ℚ)
  | infinite (negative : Bool)
  | nan
  deriving DecidableEq

namespace Binary32

/-- The power `2 ^ e` for an integer exponent. -/
def twoPow (e : Int) : ℚ :=
  if 0 ≤ e then ((2 ^ e.toNat : Nat) : ℚ) else 1 / ((2 ^ (-e).toNat : Nat) : ℚ)

/-- The integer nearest to a nonnegative rational, the even one on a tie. -/
def nearestEven (r : ℚ) : Nat :=
  let f := r.num.toNat / r.den
  if 2 * (r - f) < 1 then f
  else if 1 < 2 * (r - f) then f + 1
  else if f % 2 = 0 then f else f + 1

/-- The number of halvings that bring a positive integer down to one: the largest
`k` with `2 ^ k ≤ n`, found in at most `fuel` steps. -/
def log2 : Nat → Nat → Nat
  | 0, _ => 0
  | fuel + 1, n => if n < 2 then 0 else log2 fuel (n / 2) + 1

/-- The binary exponent of a positive rational: the largest `e` with `2 ^ e ≤ q`. -/
def exponent (q : ℚ) : Int :=
  let e : Int := (log2 q.num.toNat q.num.toNat : Int) - (log2 q.den q.den : Int)
  if twoPow e ≤ q then e else e - 1

/-- Rounding of a magnitude to `float`, to nearest and ties to even: 24 significant
bits, least exponent `-126` with subnormal numbers below it, and an infinity when
the rounded magnitude exceeds the largest finite number. -/
def round (negative : Bool) (q : ℚ) : Binary32 :=
  if q = 0 then finite negative 0
  else
    let ulp := twoPow (max (exponent q) (-126) - 23)
    let r := (nearestEven (q / ulp) : ℚ) * ulp
    if r < twoPow 128 then finite negative r else infinite negative

/-- The value of a finite number. -/
def signed (negative : Bool) (magnitude : ℚ) : ℚ :=
  if negative then -magnitude else magnitude

/-- The operator `/` of the type `float`. -/
def div : Binary32 → Binary32 → Binary32
  | nan, _ => nan
  | _, nan => nan
  | infinite _, infinite _ => nan
  | infinite s, finite t _ => infinite (xor s t)
  | finite s _, infinite t => finite (xor s t) 0
  | finite s a, finite t b =>
    if b = 0 then (if a = 0 then nan else infinite (xor s t))
    else round (xor s t) (a / b)

/-- The operator `*` of the type `float`. -/
def mul : Binary32 → Binary32 → Binary32
  | nan, _ => nan
  | _, nan => nan
  | infinite s, infinite t => infinite (xor s t)
  | infinite s, finite t b => if b = 0 then nan else infinite (xor s t)
  | finite s a, infinite t => if a = 0 then nan else infinite (xor s t)
  | finite s a, finite t b => round (xor s t) (a * b)

/-- The operator `+` of the type `float`. -/
def add : Binary32 → Binary32 → Binary32
  | nan, _ => nan
  | _, nan => nan
  | infinite s, infinite t => if s = t then infinite s else nan
  | infinite s, finite _ _ => infinite s
  | finite _ _, infinite t => infinite t
  | finite s a, finite t b =>
    if signed s a + signed t b = 0 then finite (s && t) 0
    else round (decide (signed s a + signed t b < 0)) |signed s a + signed t b|

instance : Div Binary32 := ⟨div⟩

instance : Mul Binary32 := ⟨mul⟩

instance : Add Binary32 := ⟨add⟩

end Binary32

/-! ## Channel-shuffle identification pass -/

namespace NvDlaIdentifyShufflePass

/-- The macro `SHUFFLE_ASSERT(cond)`, that is `if (! (cond)) return false;`,
followed by the rest of the function. -/
def SHUFFLE_ASSERT (cond : Bool) (rest : Option Bool) : Option Bool :=
  if cond then rest else some false

/-- The section "Check the first Reshape" of `is_shuffle` (source lines 223-240).
A conjunction `a && b` inside one `SHUFFLE_ASSERT` is two assertions in a row, which
evaluates `b` only when `a` holds, as `&&` does. -/
def checkFirstReshape (g : ComputeGraph F) (reshape1 : Nat) : Option Bool := do
  let numOut1 ← g.getNumOfOutputs reshape1
  SHUFFLE_ASSERT (numOut1 == 1) <| do
  let reshape1_out ← g.getOutput reshape1 0
  let uses1 ← g.getUses reshape1_out
  SHUFFLE_ASSERT (uses1.length == 1) <| do
  let input ← g.getInput reshape1 0
  let inputRank ← g.getNumOfDimensions input
  SHUFFLE_ASSERT (inputRank == 4) <| do
  let shape1 ← g.getInput reshape1 1
  let shape1Rank ← g.getNumOfDimensions shape1
  SHUFFLE_ASSERT (shape1Rank == 1) <| do
  let reshape1_shape ← g.getInt64Values shape1
  SHUFFLE_ASSERT (reshape1_shape.length == 5) <| do
  let inputDim1 ← g.dimension input 1
  let s1 ← reshape1_shape[1]?
  let s2 ← reshape1_shape[2]?
  SHUFFLE_ASSERT (inputDim1 == mulInt64 s1 s2) <| do
  let inputDim2 ← g.dimension input 2
  let s3 ← reshape1_shape[3]?
  SHUFFLE_ASSERT (inputDim2 == s3) <| do
  let inputDim3 ← g.dimension input 3
  let s4 ← reshape1_shape[4]?
  SHUFFLE_ASSERT (inputDim3 == s4) <| do
  pure true

/-- The section "Check the middle Transpose" of `is_shuffle` after the cast
(source lines 251-262); the entries of `perm` are read with `at`, which throws
past the end. -/
def checkTranspose (g : ComputeGraph F) (transpose : Nat) : Option Bool := do
  let numOutT ← g.getNumOfOutputs transpose
  SHUFFLE_ASSERT (numOutT == 1) <| do
  let transpose_out ← g.getOutput transpose 0
  let usesT ← g.getUses transpose_out
  SHUFFLE_ASSERT (usesT.length == 1) <| do
  let transpose_in ← g.getInput transpose 0
  let transposeInRank ← g.getNumOfDimensions transpose_in
  SHUFFLE_ASSERT (transposeInRank == 5) <| do
  let perm ← g.getPerm transpose
  let p0 ← perm[0]?
  SHUFFLE_ASSERT (p0 == 0) <| do
  let p1 ← perm[1]?
  SHUFFLE_ASSERT (p1 == 2) <| do
  let p2 ← perm[2]?
  SHUFFLE_ASSERT (p2 == 1) <| do
  let p3 ← perm[3]?
  SHUFFLE_ASSERT (p3 == 3) <| do
  let p4 ← perm[4]?
  SHUFFLE_ASSERT (p4 == 4) <| do
  pure true

/-- The section "Check the last Reshape" of `is_shuffle` after the cast (source
lines 277-285). -/
def checkLastReshape (g : ComputeGraph F) (reshape2 : Nat) : Option Bool := do
  let reshape2_in ← g.getInput reshape2 0
  let reshape2InRank ← g.getNumOfDimensions reshape2_in
  SHUFFLE_ASSERT (reshape2InRank == 5) <| do
  let shape2 ← g.getInput reshape2 1
  let shape2Rank ← g.getNumOfDimensions shape2
  SHUFFLE_ASSERT (shape2Rank == 1) <| do
  let reshape2_shape ← g.getInt64Values shape2
  SHUFFLE_ASSERT (reshape2_shape.length == 4) <| do
  let d1 ← g.dimension reshape2_in 1
  let d2 ← g.dimension reshape2_in 2
  let t1 ← reshape2_shape[1]?
  SHUFFLE_ASSERT (mulInt64 d1 d2 == t1) <| do
  let d3 ← g.dimension reshape2_in 3
  let t2 ← reshape2_shape[2]?
  SHUFFLE_ASSERT (d3 == t2) <| do
  let d4 ← g.dimension reshape2_in 4
  let t3 ← reshape2_shape[3]?
  SHUFFLE_ASSERT (d4 == t3) <| do
  pure true

/-- The matcher `NvDlaIdentifyShufflePass::is_shuffle`: the three sections in
source order, with the two casts `dyn_cast<Transpose>` and `dyn_cast<Reshape>` of
the single users in between. -/
def is_shuffle (g : ComputeGraph F) (reshape1 : Nat) : Option Bool := do
  let first ← checkFirstReshape g reshape1
  SHUFFLE_ASSERT first <| do
  let reshape1_out ← g.getOutput reshape1 0
  let use1 ← (← g.getUses reshape1_out)[0]?
  let transpose := use1.user
  let isTranspose ← g.isa OpKind.Transpose transpose
  SHUFFLE_ASSERT isTranspose <| do
  let middle ← checkTranspose g transpose
  SHUFFLE_ASSERT middle <| do
  let transpose_out ← g.getOutput transpose 0
  let useT ← (← g.getUses transpose_out)[0]?
  let reshape2 := useT.user
  let isReshape ← g.isa OpKind.Reshape reshape2
  SHUFFLE_ASSERT isReshape <| do
  checkLastReshape g reshape2

/-- The body of the replacement loop of `runOnComputeGraph`, for one queued
first Reshape. -/
def rewrite (g : ComputeGraph F) (reshape1 : Nat) : Option (ComputeGraph F) :=
  -- Derive the Tranpose and the second Reshape.
  andThen (g.getOutput reshape1 0) fun reshape1_out =>
  andThen (g.getUses reshape1_out) fun uses1 =>
  andThen uses1[0]? fun use1 =>
  andThen (g.dynCast OpKind.Transpose use1.user) fun transpose =>
  andThen (g.getOutput transpose 0) fun transpose_out0 =>
  andThen (g.getUses transpose_out0) fun usesT =>
  andThen usesT[0]? fun useT =>
  andThen (g.dynCast OpKind.Reshape useT.user) fun reshape2 =>
  andThen (g.getInput reshape1 0) fun input_tensor =>
  andThen (g.getInput reshape1 1) fun shape1_tensor =>
  andThen (g.getDefine shape1_tensor) fun shape1_initializer =>
  andThen (g.getOutput reshape1 0) fun reshape1_out_tensor =>
  andThen (g.getOutput transpose 0) fun transpose_out =>
  andThen (g.getInput reshape2 1) fun shape2_tensor =>
  andThen (g.getDefine shape2_tensor) fun shape2_initializer =>
  andThen (g.getOutput reshape2 0) fun output_tensor =>
  -- Create a new Shuffle.
  andThen (g.getInput reshape1 1) fun shape1_again =>
  andThen (g.getInt64Values shape1_again) fun reshape_shape =>
  andThen reshape_shape[1]? fun group =>
  let g1 := (g.addOperator OpKind.NvDlaShuffle (toInt group)).1
  let shuffle := (g.addOperator OpKind.NvDlaShuffle (toInt group)).2
  -- Remove the edges between some operators and their input/output tensors.
  andThen (g1.removeAllInputs reshape1) fun g2 =>
  andThen (g2.removeAllOutputs reshape1) fun g3 =>
  andThen (g3.removeAllInputs transpose) fun g4 =>
  andThen (g4.removeAllOutputs transpose) fun g5 =>
  andThen (g5.removeAllInputs reshape2) fun g6 =>
  andThen (g6.removeAllOutputs reshape2) fun g7 =>
  andThen (g7.removeAllOutputs shape1_initializer) fun g8 =>
  andThen (g8.removeAllOutputs shape2_initializer) fun g9 =>
  -- Remove some un-used nodes in the ONNC IR graph.
  andThen (g9.eraseNode reshape1) fun g10 =>
  andThen (g10.eraseNode transpose) fun g11 =>
  andThen (g11.eraseNode reshape2) fun g12 =>
  andThen (g12.eraseNode shape1_initializer) fun g13 =>
  andThen (g13.eraseNode shape2_initializer) fun g14 =>
  andThen (g14.eraseValue shape1_tensor) fun g15 =>
  andThen (g15.eraseValue reshape1_out_tensor) fun g16 =>
  andThen (g16.eraseValue transpose_out) fun g17 =>
  andThen (g17.eraseValue shape2_tensor) fun g18 =>
  andThen (g18.addInput shuffle input_tensor) fun g19 =>
  g19.addOutput shuffle output_tensor

/-- The first loop of `runOnComputeGraph`: queue every Reshape that starts a
channel-shuffle pattern. -/
def collect (g : ComputeGraph F) : Option (List Nat × Nat) :=
  g.order.foldlM (fun (acc : List Nat × Nat) op => do
    if (← g.isa OpKind.Reshape op) then
      if (← is_shuffle g op) then pure (acc.1 ++ [op], acc.2 ||| kModuleChanged)
      else pure acc
    else pure acc) ([], kModuleNoChanged)

/-- The pass entry point `NvDlaIdentifyShufflePass::runOnComputeGraph`. -/
def runOnComputeGraph (g : ComputeGraph F) : Option (ComputeGraph F × Nat) := do
  let (reshapes, ret) ← collect g
  let g ← reshapes.foldlM rewrite g
  pure (g.topologicalSort, ret)

end NvDlaIdentifyShufflePass

/-! ## Add-Mul-Relu fusion pass -/

namespace NvDlaFuseAddMulReluPass

/-- The matcher `NvDlaFuseAddMulReluPass::isAddMulRelu`. -/
def isAddMulRelu (g : ComputeGraph F) (pNode : Nat) : Option Bool := do
  if !(← g.isa OpKind.Add pNode) then pure false else
  let addOut ← g.getOutput pNode 0
  if (← g.getUses addOut).length > 1 then pure false else
  let secondNode := (← (← g.getUses addOut)[0]?).user
  if !(← g.isa OpKind.Mul secondNode) then pure false else
  let mulOut ← g.getOutput secondNode 0
  if (← g.getUses mulOut).length > 1 then pure false else
  let thirdNode := (← (← g.getUses mulOut)[0]?).user
  if !(← g.isa OpKind.Relu thirdNode) then pure false else
  pure true

/-- The body of the replacement loop of `runOnComputeGraph`, for one queued Add. -/
def rewrite (g : ComputeGraph F) (node : Nat) : Option (ComputeGraph F) :=
  -- Derive original IRs.
  andThen (g.dynCast OpKind.Add node) fun add =>
  andThen (g.getOutput add 0) fun addOut =>
  andThen (g.getUses addOut) fun usesAdd =>
  andThen usesAdd[0]? fun useAdd =>
  andThen (g.dynCast OpKind.Mul useAdd.user) fun mul =>
  andThen (g.getOutput mul 0) fun mulOut =>
  andThen (g.getUses mulOut) fun usesMul =>
  andThen usesMul[0]? fun useMul =>
  andThen (g.dynCast OpKind.Relu useMul.user) fun relu =>
  andThen (g.getInput add 0) fun addA =>
  andThen (g.getInput add 1) fun addB =>
  andThen (g.getOutput add 0) fun addC =>
  andThen (g.getInput mul 0) fun mulIn0 =>
  andThen (if addC = mulIn0 then g.getInput mul 1 else g.getInput mul 0) fun mulB =>
  andThen (g.getOutput mul 0) fun mulC =>
  andThen (g.getOutput relu 0) fun reluY =>
  -- Create a new AddMulRelu IR.
  let g1 := (g.addOperator OpKind.NvDlaAddMulRelu 0).1
  let compound := (g.addOperator OpKind.NvDlaAddMulRelu 0).2
  andThen (g1.removeAllInputs add) fun g2 =>
  andThen (g2.removeAllOutputs add) fun g3 =>
  andThen (g3.removeAllInputs mul) fun g4 =>
  andThen (g4.removeAllOutputs mul) fun g5 =>
  andThen (g5.removeAllInputs relu) fun g6 =>
  andThen (g6.removeAllOutputs relu) fun g7 =>
  andThen (g7.eraseNode add) fun g8 =>
  andThen (g8.eraseNode mul) fun g9 =>
  andThen (g9.eraseNode relu) fun g10 =>
  andThen (g10.eraseValue addC) fun g11 =>
  andThen (g11.eraseValue mulC) fun g12 =>
  andThen (g12.addInput compound addA) fun g13 =>
  andThen (g13.addInput compound addB) fun g14 =>
  andThen (g14.addInput compound mulB) fun g15 =>
  g15.addOutput compound reluY

/-- The first loop of `runOnComputeGraph`: queue every Add that starts an
Add-Mul-Relu chain. -/
def collect (g : ComputeGraph F) : Option (List Nat × Nat) :=
  g.order.foldlM (fun (acc : List Nat × Nat) node => do
    if (← isAddMulRelu g node) then pure (acc.1 ++ [node], acc.2 ||| kModuleChanged)
    else pure acc) ([], kModuleNoChanged)

/-- The pass entry point `NvDlaFuseAddMulReluPass::runOnComputeGraph`. -/
def runOnComputeGraph (g : ComputeGraph F) : Option (ComputeGraph F × Nat) := do
  let (patternList, ret) ← collect g
  let g ← patternList.foldlM rewrite g
  pure (g.topologicalSort, ret)

/-- The Add-Mul-Relu chain in the words of the specification: `n` is an Add whose
output 0 has exactly one use, that user is a Mul whose output 0 has exactly one use,
and that user is a Relu. -/
def AddMulReluChain (g : ComputeGraph F) (n : Nat) : Prop :=
  ∃ add addC u mul mulC u2 relu,
    g.getNode n = some add ∧ add.kind = OpKind.Add ∧ add.outputs[0]? = some addC ∧
    g.getUses addC = some [u] ∧
    g.getNode u.user = some mul ∧ mul.kind = OpKind.Mul ∧ mul.outputs[0]? = some mulC ∧
    g.getUses mulC = some [u2] ∧
    g.getNode u2.user = some relu ∧ relu.kind = OpKind.Relu

end NvDlaFuseAddMulReluPass

/-! ## Mul-Add reordering pass -/

namespace NvDlaReorderMulAddPass

/-- The classifier `NvDlaReorderMulAddPass::isConstant`: the value's defining
operator is an Initializer (`isa` answers `false` on a null pointer). -/
def isConstant (g : ComputeGraph F) (pValue : Nat) : Option Bool :=
  (g.getValue pValue).bind fun t =>
    match t.define with
    | none => some false
    | some op => g.isa OpKind.Initializer op

/-- The matcher `NvDlaReorderMulAddPass::canBeReordered`. -/
def canBeReordered (g : ComputeGraph F) (pNode : Nat) : Option Bool := do
  if !(← g.isa OpKind.Mul pNode) then pure false else
  let neither ←
    if (← isConstant g (← g.getInput pNode 0)) then pure false
    else do pure (!(← isConstant g (← g.getInput pNode 1)))
  if neither then pure false else
  let outv ← g.getOutput pNode 0
  if (← g.getUses outv).length > 1 then pure false else
  let userNode := (← (← g.getUses outv)[0]?).user
  if !(← g.isa OpKind.Add userNode) then pure false else
  pure true

/-- The constant fold `gamma[i] = betaData[i] / alphaData[i]` for
`i < tensorSize`, where `int tensorSize = beta->getValues().size()`; a read past
the end of a vector is undefined. -/
def foldGamma [Div F] (betaData alphaData : List F) : Option (List F) :=
  (List.range (toInt betaData.length).toNat).mapM fun i => do
    pure ((← betaData[i]?) / (← alphaData[i]?))

/-- The name given to a new gamma tensor. -/
def gammaName (betaName : String) (tensorIdx : Nat) : String :=
  betaName ++ "__gamma_" ++ toString tensorIdx ++ ")"

/-- The body of the reordering loop of `runOnComputeGraph`, for one queued Mul;
the static counter `tensorIdx` (an `unsigned`) is threaded through. -/
def rewrite [Div F] (g : ComputeGraph F) (tensorIdx : Nat) (node : Nat) :
    Option (ComputeGraph F × Nat) :=
  andThen (g.dynCast OpKind.Mul node) fun mul =>
  andThen (g.getOutput node 0) fun nodeOut =>
  andThen (g.getUses nodeOut) fun usesMul =>
  andThen usesMul[0]? fun useMul =>
  andThen (g.dynCast OpKind.Add useMul.user) fun add =>
  -- Find alpha and inputX.
  andThen (g.getInput mul 0) fun mulIn0 =>
  andThen (isConstant g mulIn0) fun mulConst0 =>
  andThen (g.getInput mul 1) fun mulIn1 =>
  let alpha := if mulConst0 then mulIn0 else mulIn1
  let inputX := if mulConst0 then mulIn1 else mulIn0
  -- Find beta.
  andThen (g.getInput add 0) fun addIn0 =>
  andThen (isConstant g addIn0) fun addConst0 =>
  andThen (g.getInput add 1) fun addIn1 =>
  let beta := if addConst0 then addIn0 else addIn1
  let tmp := if addConst0 then addIn1 else addIn0
  -- Find outputY
  andThen (g.getOutput add 0) fun outputY =>
  andThen (g.getName outputY) fun addOutputTensorName =>
  andThen (g.getOutput mul 0) fun mulOut =>
  andThen (g.getName mulOut) fun mulOutputTensorName =>
  -- Remove the edges between Mul/Add and their input/output tensors.
  andThen (g.removeAllInputs mul) fun g1 =>
  andThen (g1.removeAllOutputs mul) fun g2 =>
  andThen (g2.removeAllInputs add) fun g3 =>
  andThen (g3.removeAllOutputs add) fun g4 =>
  -- Create a new tensor gamma (beta must be a FloatTensor), name it, size it.
  andThen (g4.getFloatValues beta) fun _ =>
  andThen (g4.getValue beta) fun betaT =>
  andThen (g4.addValue
    { name := gammaName betaT.name tensorIdx, dims := betaT.dims,
      data := TensorData.float [], define := none, uses := [] }) fun added =>
  let g5 := added.1
  let gamma := added.2
  -- Create a new Initializer operator for gamma tensor.
  let g6 := (g5.addOperator OpKind.Initializer 0).1
  let gammaInitializer := (g5.addOperator OpKind.Initializer 0).2
  andThen (g6.addOutput gammaInitializer gamma) fun g7 =>
  -- Calculate the constant data of gamma.
  andThen (g7.getFloatValues beta) fun betaData =>
  andThen (g7.getFloatValues alpha) fun alphaData =>
  andThen (foldGamma betaData alphaData) fun gammaData =>
  andThen (g7.setData gamma (TensorData.float gammaData)) fun g8 =>
  -- Remove beta from the ONNC IR graph.
  andThen (g8.getDefine beta) fun betaInitializer =>
  andThen (g8.eraseNode betaInitializer) fun g9 =>
  andThen (g9.eraseValue beta) fun g10 =>
  -- Re-connect the operators.
  andThen (g10.addInput add inputX) fun g11 =>
  andThen (g11.addInput add gamma) fun g12 =>
  andThen (g12.addOutput add tmp) fun g13 =>
  andThen (g13.addInput mul tmp) fun g14 =>
  andThen (g14.addInput mul alpha) fun g15 =>
  andThen (g15.addOutput mul outputY) fun g16 =>
  -- Rename the outputs.
  andThen (g16.getOutput add 0) fun addOutNow =>
  andThen (g16.setName addOutNow addOutputTensorName) fun g17 =>
  andThen (g17.getOutput mul 0) fun mulOutNow =>
  andThen (g17.setName mulOutNow mulOutputTensorName) fun g18 =>
  some (g18, (tensorIdx + 1) % 2 ^ 32)

/-- The first loop of `runOnComputeGraph`: queue every Mul that can be reordered. -/
def collect (g : ComputeGraph F) : Option (List Nat × Nat) :=
  g.order.foldlM (fun (acc : List Nat × Nat) node => do
    if (← canBeReordered g node) then pure (acc.1 ++ [node], acc.2 ||| kModuleChanged)
    else pure acc) ([], kModuleNoChanged)

/-- The pass entry point `NvDlaReorderMulAddPass::runOnComputeGraph`; the second
component of the state is the static counter `tensorIdx`. -/
def runOnComputeGraph [Div F] (g : ComputeGraph F) (tensorIdx : Nat) :
    Option ((ComputeGraph F × Nat) × Nat) := do
  let (mulList, ret) ← collect g
  let (g, tensorIdx) ← mulList.foldlM (fun (st : ComputeGraph F × Nat) node =>
    rewrite st.1 st.2 node) (g, tensorIdx)
  pure ((g.topologicalSort, tensorIdx), ret)

end NvDlaReorderMulAddPass

/-! ## The reordering loop before and after the erase of beta -/

/-- What the body of the reordering loop holds in its local variables once beta has
been erased. -/
structure ReorderLocals where
  mul : Nat
  add : Nat
  inputX : Nat
  alpha : Nat
  beta : Nat
  tmp : Nat
  outputY : Nat
  gamma : Nat
  addOutputTensorName : String
  mulOutputTensorName : String
  deriving DecidableEq, Repr

/-- The body of the reordering loop of `NvDlaReorderMulAddPass::runOnComputeGraph`
from its first statement to `pCG.erase(*beta)`: the graph and the local variables
at the comment "Re-connect the operators". -/
def NvDlaReorderMulAddPass.rewriteToErase [Div F] (g : ComputeGraph F) (tensorIdx : Nat)
    (node : Nat) : Option (ComputeGraph F × ReorderLocals) :=
  andThen (g.dynCast OpKind.Mul node) fun mul =>
  andThen (g.getOutput node 0) fun nodeOut =>
  andThen (g.getUses nodeOut) fun usesMul =>
  andThen usesMul[0]? fun useMul =>
  andThen (g.dynCast OpKind.Add useMul.user) fun add =>
  -- Find alpha and inputX.
  andThen (g.getInput mul 0) fun mulIn0 =>
  andThen (NvDlaReorderMulAddPass.isConstant g mulIn0) fun mulConst0 =>
  andThen (g.getInput mul 1) fun mulIn1 =>
  let alpha := if mulConst0 then mulIn0 else mulIn1
  let inputX := if mulConst0 then mulIn1 else mulIn0
  -- Find beta.
  andThen (g.getInput add 0) fun addIn0 =>
  andThen (NvDlaReorderMulAddPass.isConstant g addIn0) fun addConst0 =>
  andThen (g.getInput add 1) fun addIn1 =>
  let beta := if addConst0 then addIn0 else addIn1
  let tmp := if addConst0 then addIn1 else addIn0
  -- Find outputY
  andThen (g.getOutput add 0) fun outputY =>
  andThen (g.getName outputY) fun addOutputTensorName =>
  andThen (g.getOutput mul 0) fun mulOut =>
  andThen (g.getName mulOut) fun mulOutputTensorName =>
  -- Remove the edges between Mul/Add and their input/output tensors.
  andThen (g.removeAllInputs mul) fun g1 =>
  andThen (g1.removeAllOutputs mul) fun g2 =>
  andThen (g2.removeAllInputs add) fun g3 =>
  andThen (g3.removeAllOutputs add) fun g4 =>
  -- Create a new tensor gamma (beta must be a FloatTensor), name it, size it.
  andThen (g4.getFloatValues beta) fun _ =>
  andThen (g4.getValue beta) fun betaT =>
  andThen (g4.addValue
    { name := NvDlaReorderMulAddPass.gammaName betaT.name tensorIdx, dims := betaT.dims,
      data := TensorData.float [], define := none, uses := [] }) fun added =>
  let g5 := added.1
  let gamma := added.2
  -- Create a new Initializer operator for gamma tensor.
  let g6 := (g5.addOperator OpKind.Initializer 0).1
  let gammaInitializer := (g5.addOperator OpKind.Initializer 0).2
  andThen (g6.addOutput gammaInitializer gamma) fun g7 =>
  -- Calculate the constant data of gamma.
  andThen (g7.getFloatValues beta) fun betaData =>
  andThen (g7.getFloatValues alpha) fun alphaData =>
  andThen (NvDlaReorderMulAddPass.foldGamma betaData alphaData) fun gammaData =>
  andThen (g7.setData gamma (TensorData.float gammaData)) fun g8 =>
  -- Remove beta from the ONNC IR graph.
  andThen (g8.getDefine beta) fun betaInitializer =>
  andThen (g8.eraseNode betaInitializer) fun g9 =>
  andThen (g9.eraseValue beta) fun g10 =>
  some (g10,
    { mul := mul, add := add, inputX := inputX, alpha := alpha, beta := beta, tmp := tmp,
      outputY := outputY, gamma := gamma, addOutputTensorName := addOutputTensorName,
      mulOutputTensorName := mulOutputTensorName })

/-- The rest of the body of the reordering loop, from the comment "Re-connect the
operators" to its end. -/
def NvDlaReorderMulAddPass.rewriteReconnect (tensorIdx : Nat)
    (st : ComputeGraph F × ReorderLocals) : Option (ComputeGraph F × Nat) :=
  -- Re-connect the operators.
  andThen (st.1.addInput st.2.add st.2.inputX) fun g11 =>
  andThen (g11.addInput st.2.add st.2.gamma) fun g12 =>
  andThen (g12.addOutput st.2.add st.2.tmp) fun g13 =>
  andThen (g13.addInput st.2.mul st.2.tmp) fun g14 =>
  andThen (g14.addInput st.2.mul st.2.alpha) fun g15 =>
  andThen (g15.addOutput st.2.mul st.2.outputY) fun g16 =>
  -- Rename the outputs.
  andThen (g16.getOutput st.2.add 0) fun addOutNow =>
  andThen (g16.setName addOutNow st.2.addOutputTensorName) fun g17 =>
  andThen (g17.getOutput st.2.mul 0) fun mulOutNow =>
  andThen (g17.setName mulOutNow st.2.mulOutputTensorName) fun g18 =>
  some (g18, (tensorIdx + 1) % 2 ^ 32)

/-! ## Reading the counter back from a generated name -/

/-- The number written by a sequence of decimal digits. -/
def decimalValue (cs : List Char) : Nat :=
  cs.foldl (fun acc c => acc * 10 + (c.toNat - 48)) 0

/-- The number written by the digits that precede the last character of a name. -/
def trailingCounter (s : String) : Nat :=
  decimalValue (s.data.dropLast.reverse.takeWhile Char.isDigit).reverse

/-! ## Well-formed graphs -/

/-- The fixed arity of each operator kind. -/
def arityOK (op : ComputeOperator) : Bool :=
  match op.kind with
  | OpKind.Add => op.inputs.length == 2 && op.outputs.length == 1
  | OpKind.Mul => op.inputs.length == 2 && op.outputs.length == 1
  | OpKind.Reshape => op.inputs.length == 2 && op.outputs.length == 1
  | OpKind.Relu => op.inputs.length == 1 && op.outputs.length == 1
  | OpKind.Transpose => op.inputs.length == 1 && op.outputs.length == 1
  | OpKind.Initializer => op.inputs.length == 0 && op.outputs.length == 1
  | OpKind.NvDlaShuffle => op.inputs.length == 1 && op.outputs.length == 1
  | OpKind.NvDlaAddMulRelu => op.inputs.length == 3 && op.outputs.length == 1
  | OpKind.Other => true

/-- Does the tensor carry constant data? -/
def TensorData.present : TensorData F → Bool
  | TensorData.float vs => !vs.isEmpty
  | TensorData.int64 vs => !vs.isEmpty
  | TensorData.other => false

namespace ComputeGraph

/-- Value `v` is live and records the use (operator `n`, slot `i`). -/
def hasUse (g : ComputeGraph F) (v n i : Nat) : Bool :=
  match g.getValue v with
  | some t => decide ((⟨n, i⟩ : Use) ∈ t.uses)
  | none => false

/-- Value `v` is live and names operator `n` as its producer. -/
def definedBy (g : ComputeGraph F) (v n : Nat) : Bool :=
  match g.getValue v with
  | some t => decide (t.define = some n)
  | none => false

/-- An operator is well formed: its slot counts match its kind, every input slot is
recorded in the use-list of the value it holds, and every output value names the
operator as its producer. -/
def nodeOK (g : ComputeGraph F) (n : Nat) (op : ComputeOperator) : Bool :=
  arityOK op &&
  ((List.range op.inputs.length).all fun i =>
    match op.inputs[i]? with
    | some v => g.hasUse v n i
    | none => true) &&
  op.outputs.all fun v => g.definedBy v n

/-- A value is well formed: it has exactly one producer, a live operator that lists
the value among its outputs and that is an Initializer when the value carries
constant data; and every use entry's consuming operator lists the value at that
input slot. -/
def valueOK (g : ComputeGraph F) (v : Nat) (t : Tensor F) : Bool :=
  (match t.define with
   | none => false
   | some n =>
     match g.getNode n with
     | none => false
     | some op => decide (v ∈ op.outputs) &&
         (!t.data.present || decide (op.kind = OpKind.Initializer))) &&
  t.uses.all fun u => decide (g.getInput u.user u.operandNo = some v)

/-- The graph invariants of the data model (section 3 of the specification). -/
def wellFormed (g : ComputeGraph F) : Bool :=
  ((List.range g.nodes.length).all fun n =>
    match g.getNode n with
    | some op => g.nodeOK n op
    | none => true) &&
  (List.range g.values.length).all fun v =>
    match g.getValue v with
    | some t => g.valueOK v t
    | none => true

end ComputeGraph

/-- A matched Add-Mul-Relu chain with all its parts named: the three operators,
the Add's operands `addA`, `addB`, the interior values `addC`, `mulC`, the Mul's
other operand `mulB` and the boundary output `reluY`. -/
structure FuseMatch (g : ComputeGraph F) (n mulId reluId : Nat) (add mul relu : ComputeOperator)
    (addA addB addC mulB mulC reluY : Nat) : Prop where
  hadd : g.getNode n = some add
  addKind : add.kind = OpKind.Add
  addIn : add.inputs = [addA, addB]
  addOut : add.outputs = [addC]
  hmul : g.getNode mulId = some mul
  mulKind : mul.kind = OpKind.Mul
  mulIn : mul.inputs = [addC, mulB] ∨ mul.inputs = [mulB, addC]
  mulOut : mul.outputs = [mulC]
  hrelu : g.getNode reluId = some relu
  reluKind : relu.kind = OpKind.Relu
  reluIn : relu.inputs = [mulC]
  reluOut : relu.outputs = [reluY]
  usesAddC : ∃ i, g.getUses addC = some [⟨mulId, i⟩]
  usesMulC : g.getUses mulC = some [⟨reluId, 0⟩]
  mulB_ne : mulB ≠ addC

/-- A matched Mul-Add pair on which the reorder rewrite is defined, with all its
parts named: `Mul(x, alpha) -> tmp -> Add(tmp, beta) -> outputY`, operands in either
slot order, `x` not constant, `alpha` and `beta` distinct constant float tensors,
`beta` produced by the Initializer `betaInit`, and `alpha` with at least as many
elements as `beta`. -/
structure ReorderMatch (g : ComputeGraph F) (n addId : Nat) (mul add : ComputeOperator)
    (x alpha beta tmp outputY betaInit : Nat) (alphaData betaData : List F) : Prop where
  hmul : g.getNode n = some mul
  mulKind : mul.kind = OpKind.Mul
  mulIn : mul.inputs = [x, alpha] ∨ mul.inputs = [alpha, x]
  mulOut : mul.outputs = [tmp]
  hadd : g.getNode addId = some add
  addKind : add.kind = OpKind.Add
  addIn : add.inputs = [tmp, beta] ∨ add.inputs = [beta, tmp]
  addOut : add.outputs = [outputY]
  usesTmp : ∃ k, g.getUses tmp = some [⟨addId, k⟩]
  xNotConst : NvDlaReorderMulAddPass.isConstant g x = some false
  alphaConst : NvDlaReorderMulAddPass.isConstant g alpha = some true
  betaDefine : g.getDefine beta = some betaInit
  betaInitKind : g.isa OpKind.Initializer betaInit = some true
  alphaFloat : g.getFloatValues alpha = some alphaData
  betaFloat : g.getFloatValues beta = some betaData
  alpha_ne_beta : alpha ≠ beta
  hlen : betaData.length ≤ alphaData.length

/-- A matched Reshape-Transpose-Reshape pattern with all its parts named: the three
operators, the two shape Initializers, the data input, the four interior values
(the two shape tensors and the outputs of the first Reshape and of the Transpose),
the boundary output, the first target shape `s` and its element 1. -/
structure ShuffleMatch (g : ComputeGraph F) (r1 tId r2 init1 init2 : Nat)
    (op1 opT op2 opI1 opI2 : ComputeOperator)
    (input shape1 out1 outT shape2 output : Nat) (s : List Int) (grp : Int) : Prop where
  h1 : g.getNode r1 = some op1
  k1 : op1.kind = OpKind.Reshape
  in1 : op1.inputs = [input, shape1]
  o1 : op1.outputs = [out1]
  hT : g.getNode tId = some opT
  kT : opT.kind = OpKind.Transpose
  inT : opT.inputs = [out1]
  oT : opT.outputs = [outT]
  h2 : g.getNode r2 = some op2
  k2 : op2.kind = OpKind.Reshape
  in2 : op2.inputs = [outT, shape2]
  o2 : op2.outputs = [output]
  hI1 : g.getNode init1 = some opI1
  kI1 : opI1.kind = OpKind.Initializer
  oI1 : opI1.outputs = [shape1]
  hI2 : g.getNode init2 = some opI2
  kI2 : opI2.kind = OpKind.Initializer
  oI2 : opI2.outputs = [shape2]
  uses1 : ∃ k, g.getUses out1 = some [⟨tId, k⟩]
  usesT : ∃ k, g.getUses outT = some [⟨r2, k⟩]
  def1 : g.getDefine shape1 = some init1
  def2 : g.getDefine shape2 = some init2
  shape : g.getInt64Values shape1 = some s
  hgrp : s[1]? = some grp
  nodes_ne : r1 ≠ tId ∧ r1 ≠ r2 ∧ tId ≠ r2 ∧ init1 ≠ r1 ∧ init1 ≠ tId ∧ init1 ≠ r2 ∧
    init2 ≠ r1 ∧ init2 ≠ tId ∧ init2 ≠ r2 ∧ init1 ≠ init2
  values_ne : shape1 ≠ out1 ∧ shape1 ≠ outT ∧ shape1 ≠ shape2 ∧ out1 ≠ outT ∧
    out1 ≠ shape2 ∧ outT ≠ shape2 ∧ input ≠ shape1 ∧ input ≠ out1 ∧ input ≠ outT ∧
    input ≠ shape2 ∧ output ≠ shape1 ∧ output ≠ out1 ∧ output ≠ outT ∧ output ≠ shape2
  live : (g.getValue input).isSome ∧ (g.getValue shape1).isSome ∧ (g.getValue out1).isSome ∧
    (g.getValue outT).isSome ∧ (g.getValue shape2).isSome ∧ (g.getValue output).isSome

/-- The part of a value that no edge edit touches: name, shape and data. -/
def Tensor.static (t : Tensor F) : String × List Int × TensorData F :=
  (t.name, t.dims, t.data)

/-- The static part of the value behind a pointer (`none` for an erased value). -/
def ComputeGraph.statics (g : ComputeGraph F) (w : Nat) :
    Option (String × List Int × TensorData F) :=
  (g.getValue w).map Tensor.static

/-! ## Producer-to-consumer edges and acyclicity -/

namespace ComputeGraph

/-- A producer-to-consumer edge: some output value of the live operator `p` is an
input of the live operator `c`. -/
def precedes (g : ComputeGraph F) (p c : Nat) : Prop :=
  ∃ opp opc v, g.getNode p = some opp ∧ g.getNode c = some opc ∧
    v ∈ opp.outputs ∧ v ∈ opc.inputs

/-- The graph has no cycle of producer-to-consumer edges. -/
def Acyclic (g : ComputeGraph F) : Prop :=
  ∀ m, ¬ Relation.TransGen g.precedes m m

/-- A full topological ordering: a position for every operator such that every
producer comes before its consumers. -/
def HasTopologicalOrder (g : ComputeGraph F) : Prop :=
  ∃ r : Nat → Nat, ∀ p c, g.precedes p c → r p < r c

/-- A decidable certificate of acyclicity: the positions `r` (one per arena slot)
increase along every producer-to-consumer edge. -/
def rankCheck (g : ComputeGraph F) (r : List Nat) : Bool :=
  (List.range g.nodes.length).all fun p =>
    (List.range g.nodes.length).all fun c =>
      match g.getNode p, g.getNode c with
      | some opp, some opc =>
        !(opp.outputs.any fun v => opc.inputs.contains v) || decide (r.getD p 0 < r.getD c 0)
      | _, _ => true

end ComputeGraph

/-! ## Example graphs -/

/-- An Add-Mul-Relu chain `Add(a, b) -> Mul(_, m) -> Relu -> y`, where `y` has two
uses by a later operator. -/
def fuseExample : ComputeGraph ℚ :=
  { nodes := [
      some { kind := OpKind.Other, inputs := [], outputs := [0, 1, 3] },
      some { kind := OpKind.Add, inputs := [0, 1], outputs := [2] },
      some { kind := OpKind.Mul, inputs := [2, 3], outputs := [4] },
      some { kind := OpKind.Relu, inputs := [4], outputs := [5] },
      some { kind := OpKind.Other, inputs := [5, 5], outputs := [] }],
    values := [
      some { name := "a", dims := [1, 2], data := TensorData.other, define := some 0,
             uses := [⟨1, 0⟩] },
      some { name := "b", dims := [1, 2], data := TensorData.other, define := some 0,
             uses := [⟨1, 1⟩] },
      some { name := "addC", dims := [1, 2], data := TensorData.other, define := some 1,
             uses := [⟨2, 0⟩] },
      some { name := "m", dims := [1, 2], data := TensorData.other, define := some 0,
             uses := [⟨2, 1⟩] },
      some { name := "mulC", dims := [1, 2], data := TensorData.other, define := some 2,
             uses := [⟨3, 0⟩] },
      some { name := "y", dims := [1, 2], data := TensorData.other, define := some 3,
             uses := [⟨4, 0⟩, ⟨4, 1⟩] }],
    order := [0, 1, 2, 3, 4] }

/-- Two Adds feeding the same Mul: `Add(a, b) -> c1`, `Add(a, b) -> c2`,
`Mul(c1, c2) -> Relu -> y`; each Add's output has exactly one use. -/
def fuseShared : ComputeGraph ℚ :=
  { nodes := [
      some { kind := OpKind.Other, inputs := [], outputs := [0, 1] },
      some { kind := OpKind.Add, inputs := [0, 1], outputs := [2] },
      some { kind := OpKind.Add, inputs := [0, 1], outputs := [3] },
      some { kind := OpKind.Mul, inputs := [2, 3], outputs := [4] },
      some { kind := OpKind.Relu, inputs := [4], outputs := [5] }],
    values := [
      some { name := "a", dims := [1], data := TensorData.other, define := some 0,
             uses := [⟨1, 0⟩, ⟨2, 0⟩] },
      some { name := "b", dims := [1], data := TensorData.other, define := some 0,
             uses := [⟨1, 1⟩, ⟨2, 1⟩] },
      some { name := "c1", dims := [1], data := TensorData.other, define := some 1,
             uses := [⟨3, 0⟩] },
      some { name := "c2", dims := [1], data := TensorData.other, define := some 2,
             uses := [⟨3, 1⟩] },
      some { name := "mulC", dims := [1], data := TensorData.other, define := some 3,
             uses := [⟨4, 0⟩] },
      some { name := "y", dims := [1], data := TensorData.other, define := some 4,
             uses := [] }],
    order := [0, 1, 2, 3, 4] }

/-- Two Muls feeding the same Add: `Mul(x, a1) -> t1`, `Mul(x, a2) -> t2`,
`Add(t1, t2) -> z`. -/
def reorderShared : ComputeGraph ℚ :=
  { nodes := [
      some { kind := OpKind.Other, inputs := [], outputs := [0] },
      some { kind := OpKind.Initializer, inputs := [], outputs := [1] },
      some { kind := OpKind.Initializer, inputs := [], outputs := [2] },
      some { kind := OpKind.Mul, inputs := [0, 1], outputs := [3] },
      some { kind := OpKind.Mul, inputs := [0, 2], outputs := [4] },
      some { kind := OpKind.Add, inputs := [3, 4], outputs := [5] }],
    values := [
      some { name := "x", dims := [1], data := TensorData.other, define := some 0,
             uses := [⟨3, 0⟩, ⟨4, 0⟩] },
      some { name := "a1", dims := [1], data := TensorData.float [2], define := some 1,
             uses := [⟨3, 1⟩] },
      some { name := "a2", dims := [1], data := TensorData.float [4], define := some 2,
             uses := [⟨4, 1⟩] },
      some { name := "t1", dims := [1], data := TensorData.other, define := some 3,
             uses := [⟨5, 0⟩] },
      some { name := "t2", dims := [1], data := TensorData.other, define := some 4,
             uses := [⟨5, 1⟩] },
      some { name := "z", dims := [1], data := TensorData.other, define := some 5,
             uses := [] }],
    order := [0, 1, 2, 3, 4, 5] }

/-- The scenario `Mul(x, alpha = [2.0]) -> Add(_, beta = [6.0])` of the specification,
single use each; `x` comes from an operator of another kind. -/
def reorderExample : ComputeGraph ℚ :=
  { nodes := [
      some { kind := OpKind.Other, inputs := [], outputs := [0] },
      some { kind := OpKind.Initializer, inputs := [], outputs := [1] },
      some { kind := OpKind.Initializer, inputs := [], outputs := [2] },
      some { kind := OpKind.Mul, inputs := [0, 1], outputs := [3] },
      some { kind := OpKind.Add, inputs := [3, 2], outputs := [4] }],
    values := [
      some { name := "x", dims := [1], data := TensorData.other, define := some 0,
             uses := [⟨3, 0⟩] },
      some { name := "alpha", dims := [1], data := TensorData.float [2], define := some 1,
             uses := [⟨3, 1⟩] },
      some { name := "beta", dims := [1], data := TensorData.float [6], define := some 2,
             uses := [⟨4, 1⟩] },
      some { name := "tmp", dims := [1], data := TensorData.other, define := some 3,
             uses := [⟨4, 0⟩] },
      some { name := "y", dims := [1], data := TensorData.other, define := some 4,
             uses := [] }],
    order := [0, 1, 2, 3, 4] }

/-- A Mul of two constants feeding an Add: `Mul(c1, c2) -> Add(_, c3)`. -/
def mulOfConstants : ComputeGraph ℚ :=
  { nodes := [
      some { kind := OpKind.Initializer, inputs := [], outputs := [0] },
      some { kind := OpKind.Initializer, inputs := [], outputs := [1] },
      some { kind := OpKind.Initializer, inputs := [], outputs := [2] },
      some { kind := OpKind.Mul, inputs := [0, 1], outputs := [3] },
      some { kind := OpKind.Add, inputs := [3, 2], outputs := [4] }],
    values := [
      some { name := "c1", dims := [1], data := TensorData.float [4], define := some 0,
             uses := [⟨3, 0⟩] },
      some { name := "c2", dims := [1], data := TensorData.float [2], define := some 1,
             uses := [⟨3, 1⟩] },
      some { name := "c3", dims := [1], data := TensorData.float [6], define := some 2,
             uses := [⟨4, 1⟩] },
      some { name := "tmp", dims := [1], data := TensorData.other, define := some 3,
             uses := [⟨4, 0⟩] },
      some { name := "y", dims := [1], data := TensorData.other, define := some 4,
             uses := [] }],
    order := [0, 1, 2, 3, 4] }

/-- A Mul with a constant operand whose only user is an Add of two non-constant
values: `Mul(x, alpha) -> Add(_, w)`, where operator 0 produces both `x` and the
float tensor `w`. -/
def addOfActivations : ComputeGraph ℚ :=
  { nodes := [
      some { kind := OpKind.Other, inputs := [], outputs := [0, 2] },
      some { kind := OpKind.Initializer, inputs := [], outputs := [1] },
      some { kind := OpKind.Mul, inputs := [0, 1], outputs := [3] },
      some { kind := OpKind.Add, inputs := [3, 2], outputs := [4] }],
    values := [
      some { name := "x", dims := [1], data := TensorData.other, define := some 0,
             uses := [⟨2, 0⟩] },
      some { name := "alpha", dims := [1], data := TensorData.float [2], define := some 1,
             uses := [⟨2, 1⟩] },
      some { name := "w", dims := [1], data := TensorData.float [], define := some 0,
             uses := [⟨3, 1⟩] },
      some { name := "tmp", dims := [1], data := TensorData.other, define := some 2,
             uses := [⟨3, 0⟩] },
      some { name := "y", dims := [1], data := TensorData.other, define := some 3,
             uses := [] }],
    order := [0, 1, 2, 3] }

/-- The pair `Mul(x, alpha) -> Add(_, beta)` over the type `float`, with divisors that
are zero: `alpha = [+0.0, -0.0, +0.0, 2.0]` and `beta = [6.0, 6.0, 0.0, 6.0]`. -/
def reorderZero : ComputeGraph Binary32 :=
  { nodes := [
      some { kind := OpKind.Other, inputs := [], outputs := [0] },
      some { kind := OpKind.Initializer, inputs := [], outputs := [1] },
      some { kind := OpKind.Initializer, inputs := [], outputs := [2] },
      some { kind := OpKind.Mul, inputs := [0, 1], outputs := [3] },
      some { kind := OpKind.Add, inputs := [3, 2], outputs := [4] }],
    values := [
      some { name := "x", dims := [4], data := TensorData.other, define := some 0,
             uses := [⟨3, 0⟩] },
      some { name := "alpha", dims := [4],
             data := TensorData.float [Binary32.finite false 0, Binary32.finite true 0,
               Binary32.finite false 0, Binary32.finite false 2],
             define := some 1, uses := [⟨3, 1⟩] },
      some { name := "beta", dims := [4],
             data := TensorData.float [Binary32.finite false 6, Binary32.finite false 6,
               Binary32.finite false 0, Binary32.finite false 6],
             define := some 2, uses := [⟨4, 1⟩] },
      some { name := "tmp", dims := [4], data := TensorData.other, define := some 3,
             uses := [⟨4, 0⟩] },
      some { name := "y", dims := [4], data := TensorData.other, define := some 4,
             uses := [] }],
    order := [0, 1, 2, 3, 4] }

/-- The pair `Mul(x, alpha) -> Add(_, beta)` over the type `float`, with `alpha` of
`2147483648 = 2 ^ 31` elements, all `+0.0`, and `beta` of as many elements, all
`6.0`. -/
def reorderHugeZero : ComputeGraph Binary32 :=
  { nodes := [
      some { kind := OpKind.Other, inputs := [], outputs := [0] },
      some { kind := OpKind.Initializer, inputs := [], outputs := [1] },
      some { kind := OpKind.Initializer, inputs := [], outputs := [2] },
      some { kind := OpKind.Mul, inputs := [0, 1], outputs := [3] },
      some { kind := OpKind.Add, inputs := [3, 2], outputs := [4] }],
    values := [
      some { name := "x", dims := [2147483648], data := TensorData.other, define := some 0,
             uses := [⟨3, 0⟩] },
      some { name := "alpha", dims := [2147483648],
             data := TensorData.float (List.replicate 2147483648 (Binary32.finite false 0)),
             define := some 1, uses := [⟨3, 1⟩] },
      some { name := "beta", dims := [2147483648],
             data := TensorData.float (List.replicate 2147483648 (Binary32.finite false 6)),
             define := some 2, uses := [⟨4, 1⟩] },
      some { name := "tmp", dims := [2147483648], data := TensorData.other, define := some 3,
             uses := [⟨4, 0⟩] },
      some { name := "y", dims := [2147483648], data := TensorData.other, define := some 4,
             uses := [] }],
    order := [0, 1, 2, 3, 4] }

/-- The pair `Mul(x, alpha) -> Add(_, beta)` with `alpha` and `beta` of
`2147483648 = 2 ^ 31` elements each, all equal to one. -/
def reorderHuge : ComputeGraph ℚ :=
  { nodes := [
      some { kind := OpKind.Other, inputs := [], outputs := [0] },
      some { kind := OpKind.Initializer, inputs := [], outputs := [1] },
      some { kind := OpKind.Initializer, inputs := [], outputs := [2] },
      some { kind := OpKind.Mul, inputs := [0, 1], outputs := [3] },
      some { kind := OpKind.Add, inputs := [3, 2], outputs := [4] }],
    values := [
      some { name := "x", dims := [2147483648], data := TensorData.other, define := some 0,
             uses := [⟨3, 0⟩] },
      some { name := "alpha", dims := [2147483648],
             data := TensorData.float (List.replicate 2147483648 1), define := some 1,
             uses := [⟨3, 1⟩] },
      some { name := "beta", dims := [2147483648],
             data := TensorData.float (List.replicate 2147483648 1), define := some 2,
             uses := [⟨4, 1⟩] },
      some { name := "tmp", dims := [2147483648], data := TensorData.other, define := some 3,
             uses := [⟨4, 0⟩] },
      some { name := "y", dims := [2147483648], data := TensorData.other, define := some 4,
             uses := [] }],
    order := [0, 1, 2, 3, 4] }

/-- The scenario `Reshape(x, [1,3,4,5,6]) -> Transpose(perm = [0,2,1,3,4]) ->
Reshape(_, [1,12,5,6])` of the specification, with `x` of shape `[1,12,5,6]`. -/
def shuffleExample : ComputeGraph ℚ :=
  { nodes := [
      some { kind := OpKind.Other, inputs := [], outputs := [0] },
      some { kind := OpKind.Initializer, inputs := [], outputs := [1] },
      some { kind := OpKind.Reshape, inputs := [0, 1], outputs := [2] },
      some { kind := OpKind.Transpose, inputs := [2], outputs := [3], perm := [0, 2, 1, 3, 4] },
      some { kind := OpKind.Initializer, inputs := [], outputs := [4] },
      some { kind := OpKind.Reshape, inputs := [3, 4], outputs := [5] }],
    values := [
      some { name := "x", dims := [1, 12, 5, 6], data := TensorData.other, define := some 0,
             uses := [⟨2, 0⟩] },
      some { name := "shape1", dims := [5], data := TensorData.int64 [1, 3, 4, 5, 6],
             define := some 1, uses := [⟨2, 1⟩] },
      some { name := "r1", dims := [1, 3, 4, 5, 6], data := TensorData.other,
             define := some 2, uses := [⟨3, 0⟩] },
      some { name := "t", dims := [1, 4, 3, 5, 6], data := TensorData.other,
             define := some 3, uses := [⟨5, 0⟩] },
      some { name := "shape2", dims := [4], data := TensorData.int64 [1, 12, 5, 6],
             define := some 4, uses := [⟨5, 1⟩] },
      some { name := "y", dims := [1, 12, 5, 6], data := TensorData.other, define := some 5,
             uses := [] }],
    order := [0, 1, 2, 3, 4, 5] }

/-- The graph `shuffleExample` with a sixth entry in the Transpose's permutation. -/
def shuffleLongPerm : ComputeGraph ℚ :=
  { nodes := [
      some { kind := OpKind.Other, inputs := [], outputs := [0] },
      some { kind := OpKind.Initializer, inputs := [], outputs := [1] },
      some { kind := OpKind.Reshape, inputs := [0, 1], outputs := [2] },
      some { kind := OpKind.Transpose, inputs := [2], outputs := [3],
             perm := [0, 2, 1, 3, 4, 0] },
      some { kind := OpKind.Initializer, inputs := [], outputs := [4] },
      some { kind := OpKind.Reshape, inputs := [3, 4], outputs := [5] }],
    values := [
      some { name := "x", dims := [1, 12, 5, 6], data := TensorData.other, define := some 0,
             uses := [⟨2, 0⟩] },
      some { name := "shape1", dims := [5], data := TensorData.int64 [1, 3, 4, 5, 6],
             define := some 1, uses := [⟨2, 1⟩] },
      some { name := "r1", dims := [1, 3, 4, 5, 6], data := TensorData.other,
             define := some 2, uses := [⟨3, 0⟩] },
      some { name := "t", dims := [1, 4, 3, 5, 6], data := TensorData.other,
             define := some 3, uses := [⟨5, 0⟩] },
      some { name := "shape2", dims := [4], data := TensorData.int64 [1, 12, 5, 6],
             define := some 4, uses := [⟨5, 1⟩] },
      some { name := "y", dims := [1, 12, 5, 6], data := TensorData.other, define := some 5,
             uses := [] }],
    order := [0, 1, 2, 3, 4, 5] }

/-- A channel-shuffle pattern whose group count `4294967299 = 2 ^ 32 + 3` does not
fit a 32-bit `int`: `x` has shape `[1, 17179869196, 5, 6]` and the first target shape
is `[1, 4294967299, 4, 5, 6]`. -/
def shuffleWideGroup : ComputeGraph ℚ :=
  { nodes := [
      some { kind := OpKind.Other, inputs := [], outputs := [0] },
      some { kind := OpKind.Initializer, inputs := [], outputs := [1] },
      some { kind := OpKind.Reshape, inputs := [0, 1], outputs := [2] },
      some { kind := OpKind.Transpose, inputs := [2], outputs := [3], perm := [0, 2, 1, 3, 4] },
      some { kind := OpKind.Initializer, inputs := [], outputs := [4] },
      some { kind := OpKind.Reshape, inputs := [3, 4], outputs := [5] }],
    values := [
      some { name := "x", dims := [1, 17179869196, 5, 6], data := TensorData.other,
             define := some 0, uses := [⟨2, 0⟩] },
      some { name := "shape1", dims := [5],
             data := TensorData.int64 [1, 4294967299, 4, 5, 6], define := some 1,
             uses := [⟨2, 1⟩] },
      some { name := "r1", dims := [1, 4294967299, 4, 5, 6], data := TensorData.other,
             define := some 2, uses := [⟨3, 0⟩] },
      some { name := "t", dims := [1, 4, 4294967299, 5, 6], data := TensorData.other,
             define := some 3, uses := [⟨5, 0⟩] },
      some { name := "shape2", dims := [4], data := TensorData.int64 [1, 17179869196, 5, 6],
             define := some 4, uses := [⟨5, 1⟩] },
      some { name := "y", dims := [1, 17179869196, 5, 6], data := TensorData.other,
             define := some 5, uses := [] }],
    order := [0, 1, 2, 3, 4, 5] }

/-- The pattern of `shuffleExample` with the permutation of the Transpose left as a
parameter. -/
def shuffleWithPerm (perm : List Int) : ComputeGraph ℚ :=
  { nodes := [
      some { kind := OpKind.Other, inputs := [], outputs := [0] },
      some { kind := OpKind.Initializer, inputs := [], outputs := [1] },
      some { kind := OpKind.Reshape, inputs := [0, 1], outputs := [2] },
      some { kind := OpKind.Transpose, inputs := [2], outputs := [3], perm := perm },
      some { kind := OpKind.Initializer, inputs := [], outputs := [4] },
      some { kind := OpKind.Reshape, inputs := [3, 4], outputs := [5] }],
    values := [
      some { name := "x", dims := [1, 12, 5, 6], data := TensorData.other, define := some 0,
             uses := [⟨2, 0⟩] },
      some { name := "shape1", dims := [5], data := TensorData.int64 [1, 3, 4, 5, 6],
             define := some 1, uses := [⟨2, 1⟩] },
      some { name := "r1", dims := [1, 3, 4, 5, 6], data := TensorData.other,
             define := some 2, uses := [⟨3, 0⟩] },
      some { name := "t", dims := [1, 4, 3, 5, 6], data := TensorData.other,
             define := some 3, uses := [⟨5, 0⟩] },
      some { name := "shape2", dims := [4], data := TensorData.int64 [1, 12, 5, 6],
             define := some 4, uses := [⟨5, 1⟩] },
      some { name := "y", dims := [1, 12, 5, 6], data := TensorData.other, define := some 5,
             uses := [] }],
    order := [0, 1, 2, 3, 4, 5] }

/-- A channel-shuffle pattern whose channel product does not fit 64 bits: the first
target shape is `[1, 3, 6148914691236517206, 5, 6]`, and
`3 * 6148914691236517206 = 2 ^ 64 + 2`; `x` has shape `[1, 2, 5, 6]`. -/
def shuffleOverflow : ComputeGraph ℚ :=
  { nodes := [
      some { kind := OpKind.Other, inputs := [], outputs := [0] },
      some { kind := OpKind.Initializer, inputs := [], outputs := [1] },
      some { kind := OpKind.Reshape, inputs := [0, 1], outputs := [2] },
      some { kind := OpKind.Transpose, inputs := [2], outputs := [3], perm := [0, 2, 1, 3, 4] },
      some { kind := OpKind.Initializer, inputs := [], outputs := [4] },
      some { kind := OpKind.Reshape, inputs := [3, 4], outputs := [5] }],
    values := [
      some { name := "x", dims := [1, 2, 5, 6], data := TensorData.other, define := some 0,
             uses := [⟨2, 0⟩] },
      some { name := "shape1", dims := [5],
             data := TensorData.int64 [1, 3, 6148914691236517206, 5, 6], define := some 1,
             uses := [⟨2, 1⟩] },
      some { name := "r1", dims := [1, 3, 6148914691236517206, 5, 6], data := TensorData.other,
             define := some 2, uses := [⟨3, 0⟩] },
      some { name := "t", dims := [1, 6148914691236517206, 3, 5, 6], data := TensorData.other,
             define := some 3, uses := [⟨5, 0⟩] },
      some { name := "shape2", dims := [4], data := TensorData.int64 [1, 2, 5, 6],
             define := some 4, uses := [⟨5, 1⟩] },
      some { name := "y", dims := [1, 2, 5, 6], data := TensorData.other, define := some 5,
             uses := [] }],
    order := [0, 1, 2, 3, 4, 5] }

/-- A graph with three dead ends: `Add(a, b) -> Mul(_, c)` whose Mul's output is not
used, with `c` constant, and a second `Add(a, b)` whose output is not used. -/
def deadEnds : ComputeGraph ℚ :=
  { nodes := [
      some { kind := OpKind.Other, inputs := [], outputs := [0, 1] },
      some { kind := OpKind.Initializer, inputs := [], outputs := [2] },
      some { kind := OpKind.Add, inputs := [0, 1], outputs := [3] },
      some { kind := OpKind.Mul, inputs := [3, 2], outputs := [4] },
      some { kind := OpKind.Add, inputs := [0, 1], outputs := [5] }],
    values := [
      some { name := "a", dims := [1], data := TensorData.other, define := some 0,
             uses := [⟨2, 0⟩, ⟨4, 0⟩] },
      some { name := "b", dims := [1], data := TensorData.other, define := some 0,
             uses := [⟨2, 1⟩, ⟨4, 1⟩] },
      some { name := "c", dims := [1], data := TensorData.float [2], define := some 1,
             uses := [⟨3, 1⟩] },
      some { name := "s", dims := [1], data := TensorData.other, define := some 2,
             uses := [⟨3, 0⟩] },
      some { name := "p", dims := [1], data := TensorData.other, define := some 3,
             uses := [] },
      some { name := "q", dims := [1], data := TensorData.other, define := some 4,
             uses := [] }],
    order := [0, 1, 2, 3, 4] }

/-- The pattern of `shuffleExample` whose first shape tensor is also the shape
operand of another Reshape, `Reshape(z, shape1) -> w`. -/
def shuffleSharedShape : ComputeGraph ℚ :=
  { nodes := [
      some { kind := OpKind.Other, inputs := [], outputs := [0, 6] },
      some { kind := OpKind.Initializer, inputs := [], outputs := [1] },
      some { kind := OpKind.Reshape, inputs := [0, 1], outputs := [2] },
      some { kind := OpKind.Transpose, inputs := [2], outputs := [3], perm := [0, 2, 1, 3, 4] },
      some { kind := OpKind.Initializer, inputs := [], outputs := [4] },
      some { kind := OpKind.Reshape, inputs := [3, 4], outputs := [5] },
      some { kind := OpKind.Reshape, inputs := [6, 1], outputs := [7] }],
    values := [
      some { name := "x", dims := [1, 12, 5, 6], data := TensorData.other, define := some 0,
             uses := [⟨2, 0⟩] },
      some { name := "shape1", dims := [5], data := TensorData.int64 [1, 3, 4, 5, 6],
             define := some 1, uses := [⟨2, 1⟩, ⟨6, 1⟩] },
      some { name := "r1", dims := [1, 3, 4, 5, 6], data := TensorData.other,
             define := some 2, uses := [⟨3, 0⟩] },
      some { name := "t", dims := [1, 4, 3, 5, 6], data := TensorData.other,
             define := some 3, uses := [⟨5, 0⟩] },
      some { name := "shape2", dims := [4], data := TensorData.int64 [1, 12, 5, 6],
             define := some 4, uses := [⟨5, 1⟩] },
      some { name := "y", dims := [1, 12, 5, 6], data := TensorData.other, define := some 5,
             uses := [] },
      some { name := "z", dims := [1, 12, 5, 6], data := TensorData.other, define := some 0,
             uses := [⟨6, 0⟩] },
      some { name := "w", dims := [1, 3, 4, 5, 6], data := TensorData.other,
             define := some 6, uses := [] }],
    order := [0, 1, 2, 3, 4, 5, 6] }

/-- The pair of `reorderExample` whose `beta` is also an operand of a second Add,
`Add(z, beta) -> w`. -/
def reorderSharedBeta : ComputeGraph ℚ :=
  { nodes := [
      some { kind := OpKind.Other, inputs := [], outputs := [0, 5] },
      some { kind := OpKind.Initializer, inputs := [], outputs := [1] },
      some { kind := OpKind.Initializer, inputs := [], outputs := [2] },
      some { kind := OpKind.Mul, inputs := [0, 1], outputs := [3] },
      some { kind := OpKind.Add, inputs := [3, 2], outputs := [4] },
      some { kind := OpKind.Add, inputs := [5, 2], outputs := [6] }],
    values := [
      some { name := "x", dims := [1], data := TensorData.other, define := some 0,
             uses := [⟨3, 0⟩] },
      some { name := "alpha", dims := [1], data := TensorData.float [2], define := some 1,
             uses := [⟨3, 1⟩] },
      some { name := "beta", dims := [1], data := TensorData.float [6], define := some 2,
             uses := [⟨4, 1⟩, ⟨5, 1⟩] },
      some { name := "tmp", dims := [1], data := TensorData.other, define := some 3,
             uses := [⟨4, 0⟩] },
      some { name := "y", dims := [1], data := TensorData.other, define := some 4,
             uses := [] },
      some { name := "z", dims := [1], data := TensorData.other, define := some 0,
             uses := [⟨5, 0⟩] },
      some { name := "w", dims := [1], data := TensorData.other, define := some 5,
             uses := [] }],
    order := [0, 1, 2, 3, 4, 5] }

/-! ## The digit-recognition sample -/

/-- One iteration of the loop of `maximunloop`: the state is
`(return_type, type_value)`. -/
def maximunStep (img_buffer2 : List Int) (st : Nat × Int) (i : Nat) : Option (Nat × Int) :=
  (img_buffer2[i]?).map fun x => if st.2 < x then (i, x) else st

/-- The function `maximunloop` of the digit-recognition sample: the index of the
largest of the ten scores, found by a strict comparison against a running maximum
that starts at zero.  Reading past the end of the buffer is undefined. -/
def maximunloop (img_buffer2 : List Int) : Option Nat :=
  ((List.range 10).foldlM (maximunStep img_buffer2) (0, 0)).map fun st => st.1

/-! ## Erasing under a check of the graph at that moment -/

namespace ComputeGraph

/-- Operator `n` is live and both its slot lists are empty. -/
def slotsEmpty (g : ComputeGraph F) (n : Nat) : Bool :=
  match g.getNode n with
  | some op => op.inputs.isEmpty && op.outputs.isEmpty
  | none => false

/-- Operator `n` has been detached: both its slot lists are empty, or it has already
been erased. -/
def detached (g : ComputeGraph F) (n : Nat) : Bool :=
  match g.getNode n with
  | some op => op.inputs.isEmpty && op.outputs.isEmpty
  | none => true

/-- The erase of operator `n`, carried out only if the graph passes the check `ok` at
that moment. -/
def eraseNodeIf (ok : ComputeGraph F → Nat → Bool) (g : ComputeGraph F) (n : Nat) :
    Option (ComputeGraph F) :=
  if ok g n then g.eraseNode n else none

/-- The erase of value `v`, carried out only if the graph passes the check `ok` at
that moment. -/
def eraseValueIf (ok : ComputeGraph F → Nat → Bool) (g : ComputeGraph F) (v : Nat) :
    Option (ComputeGraph F) :=
  if ok g v then g.eraseValue v else none

end ComputeGraph

/-- The check that lets every erase through. -/
def anyErase (_ : List Nat) (_ : ComputeGraph F) (_ : Nat) : Bool := true

/-- The check "detachment precedes erasure" at the erase of an operator: the operator
has empty input and output slot lists, and every matched operator has been detached. -/
def detachedNodeErase (matched : List Nat) (g : ComputeGraph F) (n : Nat) : Bool :=
  g.slotsEmpty n && matched.all g.detached

/-- The check at any erase that every matched operator has been detached. -/
def afterDetachErase (matched : List Nat) (g : ComputeGraph F) (_ : Nat) : Bool :=
  matched.all g.detached

/-- The check at the erase of a value that its use-list is empty. -/
def unusedValueErase (_ : List Nat) (g : ComputeGraph F) (v : Nat) : Bool :=
  decide (g.getUses v = some [])

/-- The body of the second loop of `NvDlaIdentifyShufflePass::runOnComputeGraph` with
each erase put under a check; the checks are told the operators of the pattern. -/
def NvDlaIdentifyShufflePass.rewriteChecked
    (okNode okValue : List Nat → ComputeGraph F → Nat → Bool)
    (g : ComputeGraph F) (reshape1 : Nat) : Option (ComputeGraph F) :=
  -- Derive the Tranpose and the second Reshape.
  andThen (g.getOutput reshape1 0) fun reshape1_out =>
  andThen (g.getUses reshape1_out) fun uses1 =>
  andThen uses1[0]? fun use1 =>
  andThen (g.dynCast OpKind.Transpose use1.user) fun transpose =>
  andThen (g.getOutput transpose 0) fun transpose_out0 =>
  andThen (g.getUses transpose_out0) fun usesT =>
  andThen usesT[0]? fun useT =>
  andThen (g.dynCast OpKind.Reshape useT.user) fun reshape2 =>
  andThen (g.getInput reshape1 0) fun input_tensor =>
  andThen (g.getInput reshape1 1) fun shape1_tensor =>
  andThen (g.getDefine shape1_tensor) fun shape1_initializer =>
  andThen (g.getOutput reshape1 0) fun reshape1_out_tensor =>
  andThen (g.getOutput transpose 0) fun transpose_out =>
  andThen (g.getInput reshape2 1) fun shape2_tensor =>
  andThen (g.getDefine shape2_tensor) fun shape2_initializer =>
  andThen (g.getOutput reshape2 0) fun output_tensor =>
  -- Create a new Shuffle.
  andThen (g.getInput reshape1 1) fun shape1_again =>
  andThen (g.getInt64Values shape1_again) fun reshape_shape =>
  andThen reshape_shape[1]? fun group =>
  let g1 := (g.addOperator OpKind.NvDlaShuffle (toInt group)).1
  let shuffle := (g.addOperator OpKind.NvDlaShuffle (toInt group)).2
  -- Remove the edges between some operators and their input/output tensors.
  andThen (g1.removeAllInputs reshape1) fun g2 =>
  andThen (g2.removeAllOutputs reshape1) fun g3 =>
  andThen (g3.removeAllInputs transpose) fun g4 =>
  andThen (g4.removeAllOutputs transpose) fun g5 =>
  andThen (g5.removeAllInputs reshape2) fun g6 =>
  andThen (g6.removeAllOutputs reshape2) fun g7 =>
  andThen (g7.removeAllOutputs shape1_initializer) fun g8 =>
  andThen (g8.removeAllOutputs shape2_initializer) fun g9 =>
  -- Remove some un-used nodes in the ONNC IR graph.
  let matched := [reshape1, transpose, reshape2, shape1_initializer, shape2_initializer]
  andThen (g9.eraseNodeIf (okNode matched) reshape1) fun g10 =>
  andThen (g10.eraseNodeIf (okNode matched) transpose) fun g11 =>
  andThen (g11.eraseNodeIf (okNode matched) reshape2) fun g12 =>
  andThen (g12.eraseNodeIf (okNode matched) shape1_initializer) fun g13 =>
  andThen (g13.eraseNodeIf (okNode matched) shape2_initializer) fun g14 =>
  andThen (g14.eraseValueIf (okValue matched) shape1_tensor) fun g15 =>
  andThen (g15.eraseValueIf (okValue matched) reshape1_out_tensor) fun g16 =>
  andThen (g16.eraseValueIf (okValue matched) transpose_out) fun g17 =>
  andThen (g17.eraseValueIf (okValue matched) shape2_tensor) fun g18 =>
  andThen (g18.addInput shuffle input_tensor) fun g19 =>
  g19.addOutput shuffle output_tensor

/-- The body of the second loop of `NvDlaFuseAddMulReluPass::runOnComputeGraph` with
each erase put under a check; the checks are told the matched operators. -/
def NvDlaFuseAddMulReluPass.rewriteChecked
    (okNode okValue : List Nat → ComputeGraph F → Nat → Bool)
    (g : ComputeGraph F) (node : Nat) : Option (ComputeGraph F) :=
  -- Derive original IRs.
  andThen (g.dynCast OpKind.Add node) fun add =>
  andThen (g.getOutput add 0) fun addOut =>
  andThen (g.getUses addOut) fun usesAdd =>
  andThen usesAdd[0]? fun useAdd =>
  andThen (g.dynCast OpKind.Mul useAdd.user) fun mul =>
  andThen (g.getOutput mul 0) fun mulOut =>
  andThen (g.getUses mulOut) fun usesMul =>
  andThen usesMul[0]? fun useMul =>
  andThen (g.dynCast OpKind.Relu useMul.user) fun relu =>
  andThen (g.getInput add 0) fun addA =>
  andThen (g.getInput add 1) fun addB =>
  andThen (g.getOutput add 0) fun addC =>
  andThen (g.getInput mul 0) fun mulIn0 =>
  andThen (if addC = mulIn0 then g.getInput mul 1 else g.getInput mul 0) fun mulB =>
  andThen (g.getOutput mul 0) fun mulC =>
  andThen (g.getOutput relu 0) fun reluY =>
  -- Create a new AddMulRelu IR.
  let g1 := (g.addOperator OpKind.NvDlaAddMulRelu 0).1
  let compound := (g.addOperator OpKind.NvDlaAddMulRelu 0).2
  andThen (g1.removeAllInputs add) fun g2 =>
  andThen (g2.removeAllOutputs add) fun g3 =>
  andThen (g3.removeAllInputs mul) fun g4 =>
  andThen (g4.removeAllOutputs mul) fun g5 =>
  andThen (g5.removeAllInputs relu) fun g6 =>
  andThen (g6.removeAllOutputs relu) fun g7 =>
  andThen (g7.eraseNodeIf (okNode [add, mul, relu]) add) fun g8 =>
  andThen (g8.eraseNodeIf (okNode [add, mul, relu]) mul) fun g9 =>
  andThen (g9.eraseNodeIf (okNode [add, mul, relu]) relu) fun g10 =>
  andThen (g10.eraseValueIf (okValue [add, mul, relu]) addC) fun g11 =>
  andThen (g11.eraseValueIf (okValue [add, mul, relu]) mulC) fun g12 =>
  andThen (g12.addInput compound addA) fun g13 =>
  andThen (g13.addInput compound addB) fun g14 =>
  andThen (g14.addInput compound mulB) fun g15 =>
  g15.addOutput compound reluY

/-- The body of the second loop of `NvDlaReorderMulAddPass::runOnComputeGraph` with
each erase put under a check; the checks are told the matched Mul and Add. -/
def NvDlaReorderMulAddPass.rewriteChecked [Div F]
    (okNode okValue : List Nat → ComputeGraph F → Nat → Bool)
    (g : ComputeGraph F) (tensorIdx : Nat) (node : Nat) :
    Option (ComputeGraph F × Nat) :=
  andThen (g.dynCast OpKind.Mul node) fun mul =>
  andThen (g.getOutput node 0) fun nodeOut =>
  andThen (g.getUses nodeOut) fun usesMul =>
  andThen usesMul[0]? fun useMul =>
  andThen (g.dynCast OpKind.Add useMul.user) fun add =>
  -- Find alpha and inputX.
  andThen (g.getInput mul 0) fun mulIn0 =>
  andThen (NvDlaReorderMulAddPass.isConstant g mulIn0) fun mulConst0 =>
  andThen (g.getInput mul 1) fun mulIn1 =>
  let alpha := if mulConst0 then mulIn0 else mulIn1
  let inputX := if mulConst0 then mulIn1 else mulIn0
  -- Find beta.
  andThen (g.getInput add 0) fun addIn0 =>
  andThen (NvDlaReorderMulAddPass.isConstant g addIn0) fun addConst0 =>
  andThen (g.getInput add 1) fun addIn1 =>
  let beta := if addConst0 then addIn0 else addIn1
  let tmp := if addConst0 then addIn1 else addIn0
  -- Find outputY
  andThen (g.getOutput add 0) fun outputY =>
  andThen (g.getName outputY) fun addOutputTensorName =>
  andThen (g.getOutput mul 0) fun mulOut =>
  andThen (g.getName mulOut) fun mulOutputTensorName =>
  -- Remove the edges between Mul/Add and their input/output tensors.
  andThen (g.removeAllInputs mul) fun g1 =>
  andThen (g1.removeAllOutputs mul) fun g2 =>
  andThen (g2.removeAllInputs add) fun g3 =>
  andThen (g3.removeAllOutputs add) fun g4 =>
  -- Create a new tensor gamma (beta must be a FloatTensor), name it, size it.
  andThen (g4.getFloatValues beta) fun _ =>
  andThen (g4.getValue beta) fun betaT =>
  andThen (g4.addValue
    { name := NvDlaReorderMulAddPass.gammaName betaT.name tensorIdx, dims := betaT.dims,
      data := TensorData.float [], define := none, uses := [] }) fun added =>
  let g5 := added.1
  let gamma := added.2
  -- Create a new Initializer operator for gamma tensor.
  let g6 := (g5.addOperator OpKind.Initializer 0).1
  let gammaInitializer := (g5.addOperator OpKind.Initializer 0).2
  andThen (g6.addOutput gammaInitializer gamma) fun g7 =>
  -- Calculate the constant data of gamma.
  andThen (g7.getFloatValues beta) fun betaData =>
  andThen (g7.getFloatValues alpha) fun alphaData =>
  andThen (NvDlaReorderMulAddPass.foldGamma betaData alphaData) fun gammaData =>
  andThen (g7.setData gamma (TensorData.float gammaData)) fun g8 =>
  -- Remove beta from the ONNC IR graph.
  andThen (g8.getDefine beta) fun betaInitializer =>
  andThen (g8.eraseNodeIf (okNode [mul, add]) betaInitializer) fun g9 =>
  andThen (g9.eraseValueIf (okValue [mul, add]) beta) fun g10 =>
  -- Re-connect the operators.
  andThen (g10.addInput add inputX) fun g11 =>
  andThen (g11.addInput add gamma) fun g12 =>
  andThen (g12.addOutput add tmp) fun g13 =>
  andThen (g13.addInput mul tmp) fun g14 =>
  andThen (g14.addInput mul alpha) fun g15 =>
  andThen (g15.addOutput mul outputY) fun g16 =>
  -- Rename the outputs.
  andThen (g16.getOutput add 0) fun addOutNow =>
  andThen (g16.setName addOutNow addOutputTensorName) fun g17 =>
  andThen (g17.getOutput mul 0) fun mulOutNow =>
  andThen (g17.setName mulOutNow mulOutputTensorName) fun g18 =>
  some (g18, (tensorIdx + 1) % 2 ^ 32)

/-! ## The fusion pass run to its end -/

/-- The uses that the fusion rewrite records for its new operator `c`: slot 0 holds
`addA`, slot 1 holds `addB` and slot 2 holds `mulB`. -/
def fuseUses (c addA addB mulB w : Nat) : List Use :=
  (if w = addA then [⟨c, 0⟩] else []) ++ (if w = addB then [⟨c, 1⟩] else []) ++
    (if w = mulB then [⟨c, 2⟩] else [])

/-- The value that the fusion rewrite of the chain `(n, mulId, reluId)` leaves behind
the pointer `w` of a surviving value: the uses by the three erased operators are gone,
the uses by the new operator `c` are appended, and the boundary output `reluY` names
`c` as its producer. -/
def fuseTensor (n mulId reluId c addA addB mulB reluY w : Nat) (t : Tensor F) : Tensor F :=
  { t with
    uses := (dropUser reluId (dropUser mulId (dropUser n t))).uses ++
      fuseUses c addA addB mulB w,
    define := if w = reluY then some c else t.define }

namespace ComputeGraph

/-- One stage of the matcher `isAddMulRelu`: for an operator `n` of kind `k` whose
output 0 has exactly one use, the user; `some none` stands for a rejection (another
kind, or more than one use). -/
def singleUse (g : ComputeGraph F) (k : OpKind) (n : Nat) : Option (Option Nat) :=
  (g.getNode n).bind fun op =>
    if op.kind = k then
      (op.outputs[0]?).bind fun o =>
        (g.getUses o).bind fun us =>
          if us.length > 1 then some none else (us[0]?).map fun u => some u.user
    else some none

/-- The iteration order lists every live operator, lists it once, and lists nothing
else. -/
def listsItsNodes (g : ComputeGraph F) : Bool :=
  decide g.order.Nodup && g.order.all (fun n => (g.getNode n).isSome) &&
    (List.range g.nodes.length).all fun n => !(g.getNode n).isSome || decide (n ∈ g.order)

end ComputeGraph

/-- The operators of a match, derived from the queued Add as the second loop of
`NvDlaFuseAddMulReluPass::runOnComputeGraph` derives them. -/
def NvDlaFuseAddMulReluPass.matchedNodes (g : ComputeGraph F) (node : Nat) :
    Option (List Nat) :=
  andThen (g.dynCast OpKind.Add node) fun add =>
  andThen (g.getOutput add 0) fun addOut =>
  andThen (g.getUses addOut) fun usesAdd =>
  andThen usesAdd[0]? fun useAdd =>
  andThen (g.dynCast OpKind.Mul useAdd.user) fun mul =>
  andThen (g.getOutput mul 0) fun mulOut =>
  andThen (g.getUses mulOut) fun usesMul =>
  andThen usesMul[0]? fun useMul =>
  andThen (g.dynCast OpKind.Relu useMul.user) fun relu =>
  some [add, mul, relu]

/-- The matches that the first loop queues are pairwise node-disjoint. -/
def NvDlaFuseAddMulReluPass.disjointMatches (g : ComputeGraph F) : Bool :=
  g.order.all fun a => g.order.all fun b =>
    a == b || !(NvDlaFuseAddMulReluPass.isAddMulRelu g a == some true) ||
      !(NvDlaFuseAddMulReluPass.isAddMulRelu g b == some true) ||
      match NvDlaFuseAddMulReluPass.matchedNodes g a,
        NvDlaFuseAddMulReluPass.matchedNodes g b with
      | some la, some lb => la.all fun x => !lb.contains x
      | _, _ => true

/-- Two Add-Mul-Relu chains in a row, the output of the first Relu feeding the second
Add: `Add(a, b) -> Mul(_, m) -> Relu -> y`, `Add(y, a) -> Mul(_, m2) -> Relu -> y2`. -/
def fuseTwoChains : ComputeGraph ℚ :=
  { nodes := [
      some { kind := OpKind.Other, inputs := [], outputs := [0, 1, 3, 7] },
      some { kind := OpKind.Add, inputs := [0, 1], outputs := [2] },
      some { kind := OpKind.Mul, inputs := [2, 3], outputs := [4] },
      some { kind := OpKind.Relu, inputs := [4], outputs := [5] },
      some { kind := OpKind.Add, inputs := [5, 0], outputs := [6] },
      some { kind := OpKind.Mul, inputs := [6, 7], outputs := [8] },
      some { kind := OpKind.Relu, inputs := [8], outputs := [9] },
      some { kind := OpKind.Other, inputs := [9], outputs := [] }],
    values := [
      some { name := "a", dims := [1, 2], data := TensorData.other, define := some 0,
             uses := [⟨1, 0⟩, ⟨4, 1⟩] },
      some { name := "b", dims := [1, 2], data := TensorData.other, define := some 0,
             uses := [⟨1, 1⟩] },
      some { name := "c1", dims := [1, 2], data := TensorData.other, define := some 1,
             uses := [⟨2, 0⟩] },
      some { name := "m", dims := [1, 2], data := TensorData.other, define := some 0,
             uses := [⟨2, 1⟩] },
      some { name := "p1", dims := [1, 2], data := TensorData.other, define := some 2,
             uses := [⟨3, 0⟩] },
      some { name := "y", dims := [1, 2], data := TensorData.other, define := some 3,
             uses := [⟨4, 0⟩] },
      some { name := "c2", dims := [1, 2], data := TensorData.other, define := some 4,
             uses := [⟨5, 0⟩] },
      some { name := "m2", dims := [1, 2], data := TensorData.other, define := some 0,
             uses := [⟨5, 1⟩] },
      some { name := "p2", dims := [1, 2], data := TensorData.other, define := some 5,
             uses := [⟨6, 0⟩] },
      some { name := "y2", dims := [1, 2], data := TensorData.other, define := some 6,
             uses := [⟨7, 0⟩] }],
    order := [0, 1, 2, 3, 4, 5, 6, 7] }

/-- An Add-Mul-Relu chain followed by an Add whose output nobody consumes:
`Add(a, b) -> Mul(_, m) -> Relu -> y`, `Add(y, y) -> z`. -/
def fuseDeadEnd : ComputeGraph ℚ :=
  { nodes := [
      some { kind := OpKind.Other, inputs := [], outputs := [0, 1, 3] },
      some { kind := OpKind.Add, inputs := [0, 1], outputs := [2] },
      some { kind := OpKind.Mul, inputs := [2, 3], outputs := [4] },
      some { kind := OpKind.Relu, inputs := [4], outputs := [5] },
      some { kind := OpKind.Add, inputs := [5, 5], outputs := [6] }],
    values := [
      some { name := "a", dims := [1, 2], data := TensorData.other, define := some 0,
             uses := [⟨1, 0⟩] },
      some { name := "b", dims := [1, 2], data := TensorData.other, define := some 0,
             uses := [⟨1, 1⟩] },
      some { name := "addC", dims := [1, 2], data := TensorData.other, define := some 1,
             uses := [⟨2, 0⟩] },
      some { name := "m", dims := [1, 2], data := TensorData.other, define := some 0,
             uses := [⟨2, 1⟩] },
      some { name := "mulC", dims := [1, 2], data := TensorData.other, define := some 2,
             uses := [⟨3, 0⟩] },
      some { name := "y", dims := [1, 2], data := TensorData.other, define := some 3,
             uses := [⟨4, 0⟩, ⟨4, 1⟩] },
      some { name := "z", dims := [1, 2], data := TensorData.other, define := some 4,
             uses := [] }],
    order := [0, 1, 2, 3, 4] }

/-! ## Lookups after the primitive edits -/

namespace ComputeGraph

theorem getNode_lt {g : ComputeGraph F} {n : Nat} {op : ComputeOperator}
    (h : g.getNode n = some op) : n < g.nodes.length := by
  unfold getNode at h
  by_contra hlt
  rw [List.getElem?_eq_none (Nat.le_of_not_lt hlt)] at h
  simp at h

theorem getValue_lt {g : ComputeGraph F} {v : Nat} {t : Tensor F}
    (h : g.getValue v = some t) : v < g.values.length := by
  unfold getValue at h
  by_contra hlt
  rw [List.getElem?_eq_none (Nat.le_of_not_lt hlt)] at h
  simp at h

theorem getNode_setValue (g : ComputeGraph F) (v : Nat) (t : Option (Tensor F)) (n : Nat) :
    (g.setValue v t).getNode n = g.getNode n := rfl

theorem getValue_setNode (g : ComputeGraph F) (n : Nat) (op : Option ComputeOperator)
    (v : Nat) : (g.setNode n op).getValue v = g.getValue v := rfl

theorem getNode_setNode (g : ComputeGraph F) (n : Nat) (x : Option ComputeOperator) (m : Nat)
    (h : n < g.nodes.length) :
    (g.setNode n x).getNode m = if m = n then x else g.getNode m := by
  unfold getNode setNode
  by_cases hm : m = n
  · subst hm
    simp [List.getElem?_set, h]
  · have : ¬ n = m := fun e => hm e.symm
    simp [List.getElem?_set, hm, this]

theorem getValue_setValue (g : ComputeGraph F) (v : Nat) (x : Option (Tensor F)) (w : Nat)
    (h : v < g.values.length) :
    (g.setValue v x).getValue w = if w = v then x else g.getValue w := by
  unfold getValue setValue
  by_cases hm : w = v
  · subst hm
    simp [List.getElem?_set, h]
  · have : ¬ v = w := fun e => hm e.symm
    simp [List.getElem?_set, hm, this]

end ComputeGraph

theorem dropUser_dropUser (n : Nat) (t : Tensor F) : dropUser n (dropUser n t) = dropUser n t := by
  simp [dropUser, List.filter_filter]

theorem clearDefine_clearDefine (t : Tensor F) : clearDefine (clearDefine t) = clearDefine t := rfl

namespace ComputeGraph

theorem foldlM_detachUse (n : Nat) (vs : List Nat) :
    ∀ g : ComputeGraph F, (∀ v ∈ vs, (g.getValue v).isSome) →
      ∃ g', vs.foldlM (detachUse n) g = some g' ∧ g'.nodes = g.nodes ∧ g'.order = g.order ∧
        ∀ w, g'.getValue w = (g.getValue w).map fun t => if w ∈ vs then dropUser n t else t := by
  induction vs with
  | nil =>
    intro g _
    exact ⟨g, rfl, rfl, rfl, fun w => by cases g.getValue w <;> simp⟩
  | cons v vs ih =>
    intro g h
    obtain ⟨t, ht⟩ := Option.isSome_iff_exists.mp (h v (List.mem_cons_self v vs))
    have hlt := getValue_lt ht
    have hstep : detachUse n g v = some (g.setValue v (some (dropUser n t))) := by
      simp [detachUse, ht]
    have hlive : ∀ w ∈ vs, ((g.setValue v (some (dropUser n t))).getValue w).isSome := by
      intro w hw
      rw [getValue_setValue _ _ _ _ hlt]
      by_cases e : w = v
      · simp [e]
      · simpa [e] using h w (List.mem_cons_of_mem v hw)
    obtain ⟨g', hg', hn', ho', hv'⟩ := ih _ hlive
    refine ⟨g', ?_, ?_, ?_, ?_⟩
    · simp [List.foldlM_cons, hstep, hg']
    · rw [hn']; rfl
    · rw [ho']; rfl
    · intro w
      rw [hv' w, getValue_setValue _ _ _ _ hlt]
      by_cases e : w = v
      · subst e
        by_cases hm : w ∈ vs <;> simp [hm, ht, dropUser_dropUser]
      · by_cases hm : w ∈ vs <;> simp [e, hm]

theorem foldlM_detachDefine (vs : List Nat) :
    ∀ g : ComputeGraph F, (∀ v ∈ vs, (g.getValue v).isSome) →
      ∃ g', vs.foldlM detachDefine g = some g' ∧ g'.nodes = g.nodes ∧ g'.order = g.order ∧
        ∀ w, g'.getValue w = (g.getValue w).map fun t => if w ∈ vs then clearDefine t else t := by
  induction vs with
  | nil =>
    intro g _
    exact ⟨g, rfl, rfl, rfl, fun w => by cases g.getValue w <;> simp⟩
  | cons v vs ih =>
    intro g h
    obtain ⟨t, ht⟩ := Option.isSome_iff_exists.mp (h v (List.mem_cons_self v vs))
    have hlt := getValue_lt ht
    have hstep : detachDefine g v = some (g.setValue v (some (clearDefine t))) := by
      simp [detachDefine, ht]
    have hlive : ∀ w ∈ vs, ((g.setValue v (some (clearDefine t))).getValue w).isSome := by
      intro w hw
      rw [getValue_setValue _ _ _ _ hlt]
      by_cases e : w = v
      · simp [e]
      · simpa [e] using h w (List.mem_cons_of_mem v hw)
    obtain ⟨g', hg', hn', ho', hv'⟩ := ih _ hlive
    refine ⟨g', ?_, ?_, ?_, ?_⟩
    · simp [List.foldlM_cons, hstep, hg']
    · rw [hn']; rfl
    · rw [ho']; rfl
    · intro w
      rw [hv' w, getValue_setValue _ _ _ _ hlt]
      by_cases e : w = v
      · subst e
        by_cases hm : w ∈ vs <;> simp [hm, ht, clearDefine_clearDefine]
      · by_cases hm : w ∈ vs <;> simp [e, hm]

/-- What `removeAllInputs` does to every lookup. -/
theorem removeAllInputs_spec {g : ComputeGraph F} {n : Nat} {op : ComputeOperator}
    (hn : g.getNode n = some op) (hin : ∀ v ∈ op.inputs, (g.getValue v).isSome) :
    ∃ g', g.removeAllInputs n = some g' ∧
      (∀ m, g'.getNode m = if m = n then some { op with inputs := [] } else g.getNode m) ∧
      (∀ w, g'.getValue w =
        (g.getValue w).map fun t => if w ∈ op.inputs then dropUser n t else t) ∧
      g'.order = g.order := by
  obtain ⟨g1, h1, hnodes, hord, hval⟩ := foldlM_detachUse n op.inputs g hin
  refine ⟨g1.setNode n (some { op with inputs := [] }), ?_, ?_, ?_, ?_⟩
  · simp [removeAllInputs, hn, h1]
  · intro m
    have hlt : n < g1.nodes.length := by rw [hnodes]; exact getNode_lt hn
    rw [getNode_setNode _ _ _ _ hlt]
    have : g1.getNode m = g.getNode m := by unfold getNode; rw [hnodes]
    rw [this]
  · intro w
    rw [getValue_setNode, hval w]
  · show g1.order = g.order
    exact hord

/-- What `removeAllOutputs` does to every lookup. -/
theorem removeAllOutputs_spec {g : ComputeGraph F} {n : Nat} {op : ComputeOperator}
    (hn : g.getNode n = some op) (hout : ∀ v ∈ op.outputs, (g.getValue v).isSome) :
    ∃ g', g.removeAllOutputs n = some g' ∧
      (∀ m, g'.getNode m = if m = n then some { op with outputs := [] } else g.getNode m) ∧
      (∀ w, g'.getValue w =
        (g.getValue w).map fun t => if w ∈ op.outputs then clearDefine t else t) ∧
      g'.order = g.order := by
  obtain ⟨g1, h1, hnodes, hord, hval⟩ := foldlM_detachDefine op.outputs g hout
  refine ⟨g1.setNode n (some { op with outputs := [] }), ?_, ?_, ?_, ?_⟩
  · simp [removeAllOutputs, hn, h1]
  · intro m
    have hlt : n < g1.nodes.length := by rw [hnodes]; exact getNode_lt hn
    rw [getNode_setNode _ _ _ _ hlt]
    have : g1.getNode m = g.getNode m := by unfold getNode; rw [hnodes]
    rw [this]
  · intro w
    rw [getValue_setNode, hval w]
  · show g1.order = g.order
    exact hord

/-- What `addInput` does to every lookup. -/
theorem addInput_spec {g : ComputeGraph F} {n v : Nat} {op : ComputeOperator} {t : Tensor F}
    (hn : g.getNode n = some op) (hv : g.getValue v = some t) :
    ∃ g', g.addInput n v = some g' ∧
      (∀ m, g'.getNode m =
        if m = n then some { op with inputs := op.inputs ++ [v] } else g.getNode m) ∧
      (∀ w, g'.getValue w =
        if w = v then some { t with uses := t.uses ++ [⟨n, op.inputs.length⟩] }
        else g.getValue w) ∧
      g'.order = g.order := by
  refine ⟨(g.setNode n (some { op with inputs := op.inputs ++ [v] })).setValue v
    (some { t with uses := t.uses ++ [⟨n, op.inputs.length⟩] }), ?_, ?_, ?_, rfl⟩
  · simp [addInput, hn, hv]
  · intro m
    rw [getNode_setValue, getNode_setNode _ _ _ _ (getNode_lt hn)]
  · intro w
    have hlt : v < (g.setNode n (some { op with inputs := op.inputs ++ [v] })).values.length :=
      getValue_lt hv
    rw [getValue_setValue _ _ _ _ hlt, getValue_setNode]

/-- What `addOutput` does to every lookup. -/
theorem addOutput_spec {g : ComputeGraph F} {n v : Nat} {op : ComputeOperator} {t : Tensor F}
    (hn : g.getNode n = some op) (hv : g.getValue v = some t) :
    ∃ g', g.addOutput n v = some g' ∧
      (∀ m, g'.getNode m =
        if m = n then some { op with outputs := op.outputs ++ [v] } else g.getNode m) ∧
      (∀ w, g'.getValue w =
        if w = v then some { t with define := some n } else g.getValue w) ∧
      g'.order = g.order := by
  refine ⟨(g.setNode n (some { op with outputs := op.outputs ++ [v] })).setValue v
    (some { t with define := some n }), ?_, ?_, ?_, rfl⟩
  · simp [addOutput, hn, hv]
  · intro m
    rw [getNode_setValue, getNode_setNode _ _ _ _ (getNode_lt hn)]
  · intro w
    have hlt : v < (g.setNode n (some { op with outputs := op.outputs ++ [v] })).values.length :=
      getValue_lt hv
    rw [getValue_setValue _ _ _ _ hlt, getValue_setNode]

/-- What erasing an operator does to every lookup. -/
theorem eraseNode_spec {g : ComputeGraph F} {n : Nat} {op : ComputeOperator}
    (hn : g.getNode n = some op) :
    ∃ g', g.eraseNode n = some g' ∧
      (∀ m, g'.getNode m = if m = n then none else g.getNode m) ∧
      (∀ w, g'.getValue w = g.getValue w) ∧
      g'.order = g.order.erase n := by
  refine ⟨{ nodes := g.nodes.set n none, values := g.values, order := g.order.erase n },
    ?_, ?_, fun _ => rfl, rfl⟩
  · simp [eraseNode, hn]
  · intro m
    exact getNode_setNode g n none m (getNode_lt hn)

/-- What erasing a value does to every lookup. -/
theorem eraseValue_spec {g : ComputeGraph F} {v : Nat} {t : Tensor F}
    (hv : g.getValue v = some t) :
    ∃ g', g.eraseValue v = some g' ∧
      (∀ m, g'.getNode m = g.getNode m) ∧
      (∀ w, g'.getValue w = if w = v then none else g.getValue w) ∧
      g'.order = g.order := by
  refine ⟨g.setValue v none, ?_, fun _ => rfl, ?_, rfl⟩
  · simp [eraseValue, hv]
  · intro w
    exact getValue_setValue g v none w (getValue_lt hv)

/-- What `addOperator` does to every lookup; the new pointer is fresh. -/
theorem addOperator_spec (g : ComputeGraph F) (k : OpKind) (grp : Int) :
    (g.addOperator k grp).2 = g.nodes.length ∧
    (∀ m, (g.addOperator k grp).1.getNode m =
      if m = g.nodes.length then some { kind := k, inputs := [], outputs := [], group := grp }
      else g.getNode m) ∧
    (∀ w, (g.addOperator k grp).1.getValue w = g.getValue w) ∧
    (g.addOperator k grp).1.order = g.order ++ [g.nodes.length] := by
  refine ⟨rfl, ?_, fun _ => rfl, rfl⟩
  intro m
  unfold addOperator getNode
  by_cases hm : m = g.nodes.length
  · subst hm
    simp
  · rcases Nat.lt_or_gt_of_ne hm with h | h
    · simp [hm, List.getElem?_append_left h]
    · have h1 : g.nodes.length + 1 ≤ m := h
      simp [hm, List.getElem?_eq_none, Nat.le_of_lt h, h1]

/-- A live operator is never the pointer handed out by the next `addOperator`. -/
theorem ne_length_of_getNode {g : ComputeGraph F} {n : Nat} {op : ComputeOperator}
    (h : g.getNode n = some op) : n ≠ g.nodes.length :=
  Nat.ne_of_lt (getNode_lt h)

end ComputeGraph

/-! ## Consequences of well-formedness -/

namespace ComputeGraph

theorem wf_nodeOK {g : ComputeGraph F} (h : g.wellFormed = true) {n : Nat}
    {op : ComputeOperator} (hn : g.getNode n = some op) : g.nodeOK n op = true := by
  unfold wellFormed at h
  rw [Bool.and_eq_true, List.all_eq_true] at h
  have := h.1 n (List.mem_range.mpr (getNode_lt hn))
  simpa [hn] using this

theorem wf_valueOK {g : ComputeGraph F} (h : g.wellFormed = true) {v : Nat}
    {t : Tensor F} (hv : g.getValue v = some t) : g.valueOK v t = true := by
  unfold wellFormed at h
  rw [Bool.and_eq_true, List.all_eq_true, List.all_eq_true] at h
  have := h.2 v (List.mem_range.mpr (getValue_lt hv))
  simpa [hv] using this

theorem wf_arity {g : ComputeGraph F} (h : g.wellFormed = true) {n : Nat}
    {op : ComputeOperator} (hn : g.getNode n = some op) : arityOK op = true := by
  have := wf_nodeOK h hn
  unfold nodeOK at this
  simp only [Bool.and_eq_true] at this
  exact this.1.1

/-- Every input slot of a live operator holds a live value that records the use. -/
theorem wf_input {g : ComputeGraph F} (h : g.wellFormed = true) {n i v : Nat}
    {op : ComputeOperator} (hn : g.getNode n = some op) (hi : op.inputs[i]? = some v) :
    ∃ t, g.getValue v = some t ∧ (⟨n, i⟩ : Use) ∈ t.uses := by
  have := wf_nodeOK h hn
  unfold nodeOK at this
  simp only [Bool.and_eq_true, List.all_eq_true] at this
  have hlt : i < op.inputs.length := by
    by_contra hc
    rw [List.getElem?_eq_none (Nat.le_of_not_lt hc)] at hi
    simp at hi
  have h2 := this.1.2 i (List.mem_range.mpr hlt)
  rw [hi] at h2
  unfold hasUse at h2
  cases hv : g.getValue v with
  | none => simp [hv] at h2
  | some t =>
    refine ⟨t, rfl, ?_⟩
    simpa [hv] using h2

/-- Every output of a live operator is a live value produced by that operator. -/
theorem wf_output {g : ComputeGraph F} (h : g.wellFormed = true) {n v : Nat}
    {op : ComputeOperator} (hn : g.getNode n = some op) (hv : v ∈ op.outputs) :
    ∃ t, g.getValue v = some t ∧ t.define = some n := by
  have := wf_nodeOK h hn
  unfold nodeOK at this
  simp only [Bool.and_eq_true, List.all_eq_true] at this
  have h2 := this.2 v hv
  unfold definedBy at h2
  cases hg : g.getValue v with
  | none => simp [hg] at h2
  | some t =>
    refine ⟨t, rfl, ?_⟩
    simpa [hg] using h2

/-- Every live value has a live producer that lists it as an output, and the
producer of a value with constant data is an Initializer. -/
theorem wf_define {g : ComputeGraph F} (h : g.wellFormed = true) {v : Nat} {t : Tensor F}
    (hv : g.getValue v = some t) :
    ∃ n op, t.define = some n ∧ g.getNode n = some op ∧ v ∈ op.outputs ∧
      (t.data.present = true → op.kind = OpKind.Initializer) := by
  have := wf_valueOK h hv
  unfold valueOK at this
  simp only [Bool.and_eq_true] at this
  have h1 := this.1
  cases hd : t.define with
  | none => simp [hd] at h1
  | some n =>
    cases hn : g.getNode n with
    | none => simp [hd, hn] at h1
    | some op =>
      simp only [hd, hn, Bool.and_eq_true, decide_eq_true_eq, Bool.or_eq_true,
        Bool.not_eq_true'] at h1
      refine ⟨n, op, rfl, hn, h1.1, ?_⟩
      intro hp
      rcases h1.2 with h2 | h2
      · rw [hp] at h2
        exact absurd h2 (by simp)
      · exact h2

/-- Every use entry's consuming operator lists the value at that input slot. -/
theorem wf_use {g : ComputeGraph F} (h : g.wellFormed = true) {v : Nat} {t : Tensor F}
    (hv : g.getValue v = some t) {u : Use} (hu : u ∈ t.uses) :
    ∃ op, g.getNode u.user = some op ∧ op.inputs[u.operandNo]? = some v := by
  have := wf_valueOK h hv
  unfold valueOK at this
  simp only [Bool.and_eq_true, List.all_eq_true, decide_eq_true_eq] at this
  have h2 := this.2 u hu
  unfold getInput at h2
  cases hn : g.getNode u.user with
  | none => simp [hn] at h2
  | some op =>
    refine ⟨op, rfl, ?_⟩
    simpa [hn] using h2

end ComputeGraph

/-! ## Static parts of values across edits -/

namespace ComputeGraph

theorem statics_congr_map {g g' : ComputeGraph F} {f : Nat → Tensor F → Tensor F}
    (hf : ∀ w t, (f w t).static = t.static)
    (h : ∀ w, g'.getValue w = (g.getValue w).map (f w)) (w : Nat) :
    g'.statics w = g.statics w := by
  unfold statics
  rw [h w]
  cases g.getValue w <;> simp [hf]

theorem statics_congr_set {g g' : ComputeGraph F} {v : Nat} {t t' : Tensor F}
    (hv : g.getValue v = some t)
    (h : ∀ w, g'.getValue w = if w = v then some t' else g.getValue w)
    (ht : t'.static = t.static) (w : Nat) :
    g'.statics w = g.statics w := by
  unfold statics
  rw [h w]
  by_cases e : w = v
  · subst e
    simp [hv, ht]
  · simp [e]

theorem statics_congr_same {g g' : ComputeGraph F}
    (h : ∀ w, g'.getValue w = g.getValue w) (w : Nat) : g'.statics w = g.statics w := by
  unfold statics
  rw [h w]

theorem statics_erase {g g' : ComputeGraph F} {v : Nat}
    (h : ∀ w, g'.getValue w = if w = v then none else g.getValue w) (w : Nat) :
    g'.statics w = if w = v then none else g.statics w := by
  unfold statics
  rw [h w]
  by_cases e : w = v <;> simp [e]

theorem isSome_of_statics {g g' : ComputeGraph F} {w : Nat}
    (h : g'.statics w = g.statics w) {t : Tensor F} (hv : g.getValue w = some t) :
    (g'.getValue w).isSome = true := by
  unfold statics at h
  rw [hv] at h
  cases h' : g'.getValue w with
  | none => simp [h'] at h
  | some _ => rfl

theorem exists_of_statics {g g' : ComputeGraph F} {w : Nat}
    (h : g'.statics w = g.statics w) {t : Tensor F} (hv : g.getValue w = some t) :
    ∃ t', g'.getValue w = some t' ∧ t'.name = t.name ∧ t'.dims = t.dims ∧ t'.data = t.data := by
  unfold statics at h
  rw [hv] at h
  cases h' : g'.getValue w with
  | none => simp [h'] at h
  | some t' =>
    rw [h'] at h
    simp only [Option.map_some', Option.some.injEq, Tensor.static, Prod.mk.injEq] at h
    exact ⟨t', rfl, h.1, h.2.1, h.2.2⟩

end ComputeGraph

theorem dropUser_static (n : Nat) (t : Tensor F) : (dropUser n t).static = t.static := rfl

theorem clearDefine_static (t : Tensor F) : (clearDefine t).static = t.static := rfl

theorem ite_dropUser_static (c : Prop) [Decidable c] (n : Nat) (t : Tensor F) :
    (if c then dropUser n t else t).static = t.static := by
  by_cases h : c <;> simp [h, dropUser_static]

theorem ite_clearDefine_static (c : Prop) [Decidable c] (t : Tensor F) :
    (if c then clearDefine t else t).static = t.static := by
  by_cases h : c <;> simp [h, clearDefine_static]

/-! ## Shapes of the matched operators -/

theorem arity_two_one {op : ComputeOperator} (h : arityOK op = true)
    (hk : op.kind = OpKind.Add ∨ op.kind = OpKind.Mul ∨ op.kind = OpKind.Reshape) :
    ∃ a b c, op.inputs = [a, b] ∧ op.outputs = [c] := by
  have h2 : op.inputs.length = 2 ∧ op.outputs.length = 1 := by
    unfold arityOK at h
    rcases hk with hk | hk | hk <;> simpa [hk] using h
  obtain ⟨hi, ho⟩ := h2
  match hin : op.inputs, hout : op.outputs, hi, ho with
  | [a, b], [c], _, _ => exact ⟨a, b, c, rfl, rfl⟩

theorem arity_one_one {op : ComputeOperator} (h : arityOK op = true)
    (hk : op.kind = OpKind.Relu ∨ op.kind = OpKind.Transpose) :
    ∃ a c, op.inputs = [a] ∧ op.outputs = [c] := by
  have h2 : op.inputs.length = 1 ∧ op.outputs.length = 1 := by
    unfold arityOK at h
    rcases hk with hk | hk <;> simpa [hk] using h
  obtain ⟨hi, ho⟩ := h2
  match hin : op.inputs, hout : op.outputs, hi, ho with
  | [a], [c], _, _ => exact ⟨a, c, rfl, rfl⟩

theorem arity_zero_one {op : ComputeOperator} (h : arityOK op = true)
    (hk : op.kind = OpKind.Initializer) :
    ∃ c, op.inputs = [] ∧ op.outputs = [c] := by
  have h2 : op.inputs.length = 0 ∧ op.outputs.length = 1 := by
    unfold arityOK at h
    simpa [hk] using h
  obtain ⟨hi, ho⟩ := h2
  match hin : op.inputs, hout : op.outputs, hi, ho with
  | [], [c], _, _ => exact ⟨c, rfl, rfl⟩

/-! ## The Add-Mul-Relu matcher -/

open NvDlaFuseAddMulReluPass

theorem isAddMulRelu_eq_true_iff (g : ComputeGraph F) (n : Nat) :
    isAddMulRelu g n = some true ↔ AddMulReluChain g n := by
  constructor
  · intro h
    unfold isAddMulRelu at h
    simp only [ComputeGraph.isa, ComputeGraph.getOutput, ComputeGraph.getUses] at h
    cases hn : g.getNode n with
    | none => simp [hn] at h
    | some add =>
    by_cases hk : add.kind = OpKind.Add
    swap
    · simp [hn, hk] at h
    cases ho : add.outputs[0]? with
    | none => simp [hn, hk, ho] at h
    | some addC =>
    cases hv : g.getValue addC with
    | none => simp [hn, hk, ho, hv] at h
    | some t =>
    rcases hu : t.uses with _ | ⟨u, _ | ⟨u', rest⟩⟩
    · simp [hn, hk, ho, hv, hu] at h
    swap
    · simp [hn, hk, ho, hv, hu] at h
    simp only [hn, hk, ho, hv, hu, Option.map_some', Option.some_bind, decide_True,
      Bool.not_true, Bool.false_eq_true, if_false, List.length_singleton, lt_irrefl,
      List.getElem?_cons_zero, Option.bind_eq_bind, Option.pure_def] at h
    cases hm : g.getNode u.user with
    | none => simp [hm] at h
    | some mul =>
    by_cases hmk : mul.kind = OpKind.Mul
    swap
    · simp [hm, hmk] at h
    cases hmo : mul.outputs[0]? with
    | none => simp [hm, hmk, hmo] at h
    | some mulC =>
    cases hmv : g.getValue mulC with
    | none => simp [hm, hmk, hmo, hmv] at h
    | some t2 =>
    rcases hu2 : t2.uses with _ | ⟨u2, _ | ⟨u2', rest2⟩⟩
    · simp [hm, hmk, hmo, hmv, hu2] at h
    swap
    · simp [hm, hmk, hmo, hmv, hu2] at h
    simp only [hm, hmk, hmo, hmv, hu2, Option.map_some', Option.some_bind, decide_True,
      Bool.not_true, Bool.false_eq_true, if_false, List.length_singleton, lt_irrefl,
      List.getElem?_cons_zero, Option.bind_eq_bind, Option.pure_def] at h
    cases hr : g.getNode u2.user with
    | none => simp [hr] at h
    | some relu =>
    by_cases hrk : relu.kind = OpKind.Relu
    swap
    · simp [hr, hrk] at h
    exact ⟨add, addC, u, mul, mulC, u2, relu, hn, hk, ho, by simp [ComputeGraph.getUses, hv, hu],
      hm, hmk, hmo, by simp [ComputeGraph.getUses, hmv, hu2], hr, hrk⟩
  · rintro ⟨add, addC, u, mul, mulC, u2, relu, h1, h2, h3, h4, h5, h6, h7, h8, h9, h10⟩
    simp [isAddMulRelu, ComputeGraph.isa, ComputeGraph.getOutput, h1, h2, h3, h4, h5, h6, h7, h8,
      h9, h10]

/-- The matcher reads the graph only through the operators and through the
use-lists of output 0 of an Add and of a Mul. -/
theorem isAddMulRelu_congr (g g' : ComputeGraph F) (n : Nat)
    (hN : ∀ m, g'.getNode m = g.getNode m)
    (hU : ∀ m op v, g.getNode m = some op → op.kind = OpKind.Add ∨ op.kind = OpKind.Mul →
      op.outputs[0]? = some v → g'.getUses v = g.getUses v) :
    isAddMulRelu g' n = isAddMulRelu g n := by
  unfold isAddMulRelu
  simp only [ComputeGraph.isa, ComputeGraph.getOutput, hN, Option.bind_eq_bind,
    Option.pure_def]
  cases hn : g.getNode n with
  | none => simp
  | some add =>
  simp only [Option.map_some', Option.some_bind]
  by_cases hk : add.kind = OpKind.Add
  swap
  · simp [hk]
  cases ho : add.outputs[0]? with
  | none => simp [hk]
  | some addC =>
  simp only [Option.some_bind, hU n add addC hn (Or.inl hk) ho]
  cases hu : g.getUses addC with
  | none => simp
  | some us =>
  rcases us with _ | ⟨u, _ | ⟨u', rest⟩⟩
  · simp
  swap
  · simp
  simp only [Option.some_bind, List.getElem?_cons_zero]
  cases hm : g.getNode u.user with
  | none => simp
  | some mul =>
  simp only [Option.map_some', Option.some_bind]
  by_cases hmk : mul.kind = OpKind.Mul
  swap
  · simp [hmk]
  cases hmo : mul.outputs[0]? with
  | none => simp [hmk]
  | some mulC =>
  simp only [Option.some_bind, hU u.user mul mulC hm (Or.inr hmk) hmo]

/-- Replacing the use-list of a value that is not output 0 of an Add or of a Mul
leaves the matcher's answer unchanged. -/
theorem isAddMulRelu_setUses (g : ComputeGraph F) (n y : Nat) (t : Tensor F) (us : List Use)
    (hy : g.getValue y = some t)
    (hne : ∀ m op, g.getNode m = some op → op.kind = OpKind.Add ∨ op.kind = OpKind.Mul →
      op.outputs[0]? ≠ some y) :
    isAddMulRelu (g.setValue y (some { t with uses := us })) n = isAddMulRelu g n := by
  apply isAddMulRelu_congr
  · intro m
    rfl
  · intro m op v hm hk hv
    have hvy : v ≠ y := fun e => hne m op hm hk (by rw [hv, e])
    unfold ComputeGraph.getUses
    rw [getValue_setValue _ _ _ _ (getValue_lt hy), if_neg hvy]

theorem getUses_eq_some {g : ComputeGraph F} {v : Nat} {us : List Use}
    (h : g.getUses v = some us) : ∃ t, g.getValue v = some t ∧ t.uses = us := by
  unfold ComputeGraph.getUses at h
  cases hv : g.getValue v with
  | none => simp [hv] at h
  | some t => exact ⟨t, rfl, by simpa [hv] using h⟩

/-- In a well-formed graph an accepted Add determines the whole pattern. -/
theorem fuseMatch_of_accept {g : ComputeGraph F} {n : Nat} (hwf : g.wellFormed = true)
    (hacc : isAddMulRelu g n = some true) :
    ∃ mulId reluId add mul relu addA addB addC mulB mulC reluY,
      FuseMatch g n mulId reluId add mul relu addA addB addC mulB mulC reluY := by
  obtain ⟨add, addC, u, mul, mulC, u2, relu, hn, hk, ho, hu, hm, hmk, hmo, hu2, hr, hrk⟩ :=
    (isAddMulRelu_eq_true_iff g n).mp hacc
  obtain ⟨a, b, c, hai, hao⟩ := arity_two_one (wf_arity hwf hn) (Or.inl hk)
  obtain ⟨m0, m1, mc, hmi, hmou⟩ := arity_two_one (wf_arity hwf hm) (Or.inr (Or.inl hmk))
  obtain ⟨r0, ry, hri, hro⟩ := arity_one_one (wf_arity hwf hr) (Or.inl hrk)
  have hc : c = addC := by simpa [hao] using ho
  have hmc : mc = mulC := by simpa [hmou] using hmo
  subst hc hmc
  obtain ⟨t, ht, htu⟩ := getUses_eq_some hu
  obtain ⟨t2, ht2, htu2⟩ := getUses_eq_some hu2
  obtain ⟨op, hop, hopi⟩ := wf_use hwf ht (u := u) (by simp [htu])
  rw [hm] at hop
  cases hop
  obtain ⟨op2, hop2, hopi2⟩ := wf_use hwf ht2 (u := u2) (by simp [htu2])
  rw [hr] at hop2
  cases hop2
  obtain ⟨tm0, htm0, hum0⟩ := wf_input hwf hm (i := 0) (v := m0) (by simp [hmi])
  obtain ⟨tm1, htm1, hum1⟩ := wf_input hwf hm (i := 1) (v := m1) (by simp [hmi])
  have hr0 : r0 = mc ∧ u2.operandNo = 0 := by
    rw [hri] at hopi2
    rcases hk2 : u2.operandNo with _ | k
    · rw [hk2] at hopi2
      exact ⟨by simpa using hopi2, rfl⟩
    · rw [hk2] at hopi2
      simp at hopi2
  have hu2' : u2 = ⟨u2.user, 0⟩ := by
    cases u2
    simp only [Use.mk.injEq, true_and]
    exact hr0.2
  have hu' : u = ⟨u.user, u.operandNo⟩ := rfl
  have hcase : (m0 = c ∧ m1 ≠ c) ∨ (m1 = c ∧ m0 ≠ c) := by
    rw [hmi] at hopi
    rcases hk1 : u.operandNo with _ | _ | k
    · rw [hk1] at hopi
      have e0 : m0 = c := by simpa using hopi
      refine Or.inl ⟨e0, ?_⟩
      intro e1
      rw [e1, ht] at htm1
      cases htm1
      rw [htu] at hum1
      simp only [List.mem_singleton] at hum1
      rw [← hum1] at hk1
      simp at hk1
    · rw [hk1] at hopi
      have e1 : m1 = c := by simpa using hopi
      refine Or.inr ⟨e1, ?_⟩
      intro e0
      rw [e0, ht] at htm0
      cases htm0
      rw [htu] at hum0
      simp only [List.mem_singleton] at hum0
      rw [← hum0] at hk1
      simp at hk1
    · rw [hk1] at hopi
      simp at hopi
  rcases hcase with ⟨e0, hne⟩ | ⟨e1, hne⟩
  · exact ⟨u.user, u2.user, add, mul, relu, a, b, c, m1, mc, ry,
      { hadd := hn, addKind := hk, addIn := hai, addOut := hao, hmul := hm, mulKind := hmk,
        mulIn := Or.inl (by rw [hmi, e0]), mulOut := hmou, hrelu := hr, reluKind := hrk,
        reluIn := by rw [hri, hr0.1], reluOut := hro,
        usesAddC := ⟨u.operandNo, by rw [hu]⟩,
        usesMulC := by rw [hu2, ← hu2'],
        mulB_ne := hne }⟩
  · exact ⟨u.user, u2.user, add, mul, relu, a, b, c, m0, mc, ry,
      { hadd := hn, addKind := hk, addIn := hai, addOut := hao, hmul := hm, mulKind := hmk,
        mulIn := Or.inr (by rw [hmi, e1]), mulOut := hmou, hrelu := hr, reluKind := hrk,
        reluIn := by rw [hri, hr0.1], reluOut := hro,
        usesAddC := ⟨u.operandNo, by rw [hu]⟩,
        usesMulC := by rw [hu2, ← hu2'],
        mulB_ne := hne }⟩

/-- A value held in an input slot of operator `m` differs from a value whose only
use is by another operator. -/
theorem input_ne_of_single_use {g : ComputeGraph F} (hwf : g.wellFormed = true)
    {m i v w k j : Nat} {op : ComputeOperator} (hm : g.getNode m = some op)
    (hi : op.inputs[i]? = some v) (hu : g.getUses w = some [⟨k, j⟩]) (hne : m ≠ k) :
    v ≠ w := by
  intro e
  subst e
  obtain ⟨t, ht, hmem⟩ := wf_input hwf hm hi
  obtain ⟨t', ht', hu'⟩ := getUses_eq_some hu
  rw [ht] at ht'
  cases ht'
  rw [hu'] at hmem
  simp only [List.mem_singleton, Use.mk.injEq] at hmem
  exact hne hmem.1

/-- Outputs of different operators are different values. -/
theorem output_ne_of_ne {g : ComputeGraph F} (hwf : g.wellFormed = true)
    {a b v w : Nat} {opa opb : ComputeOperator} (ha : g.getNode a = some opa)
    (hb : g.getNode b = some opb) (hv : v ∈ opa.outputs) (hw : w ∈ opb.outputs)
    (hne : a ≠ b) : v ≠ w := by
  intro e
  subst e
  obtain ⟨t, ht, hd⟩ := wf_output hwf ha hv
  obtain ⟨t', ht', hd'⟩ := wf_output hwf hb hw
  rw [ht] at ht'
  cases ht'
  rw [hd] at hd'
  exact hne (Option.some.inj hd')

theorem node_ne_of_kind_ne {g : ComputeGraph F} {a b : Nat} {opa opb : ComputeOperator}
    (ha : g.getNode a = some opa) (hb : g.getNode b = some opb) (hk : opa.kind ≠ opb.kind) :
    a ≠ b := by
  intro e
  subst e
  rw [ha] at hb
  cases hb
  exact hk rfl

/-- The identities of a matched Add-Mul-Relu chain are pairwise distinct where the
rewrite needs them to be, and every value it touches is live. -/
theorem FuseMatch.distinct {g : ComputeGraph F} {n mulId reluId : Nat}
    {add mul relu : ComputeOperator} {addA addB addC mulB mulC reluY : Nat}
    (hwf : g.wellFormed = true)
    (h : FuseMatch g n mulId reluId add mul relu addA addB addC mulB mulC reluY) :
    (n ≠ mulId ∧ n ≠ reluId ∧ mulId ≠ reluId) ∧
    (addA ≠ addC ∧ addB ≠ addC ∧ addA ≠ mulC ∧ addB ≠ mulC ∧ mulB ≠ mulC ∧
      reluY ≠ addC ∧ reluY ≠ mulC ∧ addC ≠ mulC) ∧
    ((g.getValue addA).isSome ∧ (g.getValue addB).isSome ∧ (g.getValue addC).isSome ∧
      (g.getValue mulB).isSome ∧ (g.getValue mulC).isSome ∧ (g.getValue reluY).isSome) := by
  have h1 : n ≠ mulId := node_ne_of_kind_ne h.hadd h.hmul (by rw [h.addKind, h.mulKind]; decide)
  have h2 : n ≠ reluId :=
    node_ne_of_kind_ne h.hadd h.hrelu (by rw [h.addKind, h.reluKind]; decide)
  have h3 : mulId ≠ reluId :=
    node_ne_of_kind_ne h.hmul h.hrelu (by rw [h.mulKind, h.reluKind]; decide)
  obtain ⟨i, hi⟩ := h.usesAddC
  have hA0 : add.inputs[0]? = some addA := by rw [h.addIn]; rfl
  have hA1 : add.inputs[1]? = some addB := by rw [h.addIn]; rfl
  have hMB : ∃ k : Nat, mul.inputs[k]? = some mulB := by
    rcases h.mulIn with e | e
    · exact ⟨1, by rw [e]; rfl⟩
    · exact ⟨0, by rw [e]; rfl⟩
  obtain ⟨k, hk⟩ := hMB
  have live_in : ∀ {m j v : Nat} {op : ComputeOperator}, g.getNode m = some op →
      op.inputs[j]? = some v → (g.getValue v).isSome = true := by
    intro m j v op hm hj
    obtain ⟨t, ht, _⟩ := wf_input hwf hm hj
    rw [ht]; rfl
  have live_out : ∀ {m v : Nat} {op : ComputeOperator}, g.getNode m = some op →
      v ∈ op.outputs → (g.getValue v).isSome = true := by
    intro m v op hm hv
    obtain ⟨t, ht, _⟩ := wf_output hwf hm hv
    rw [ht]; rfl
  refine ⟨⟨h1, h2, h3⟩, ⟨?_, ?_, ?_, ?_, ?_, ?_, ?_, ?_⟩, ⟨?_, ?_, ?_, ?_, ?_, ?_⟩⟩
  · exact input_ne_of_single_use hwf h.hadd hA0 hi h1
  · exact input_ne_of_single_use hwf h.hadd hA1 hi h1
  · exact input_ne_of_single_use hwf h.hadd hA0 h.usesMulC h2
  · exact input_ne_of_single_use hwf h.hadd hA1 h.usesMulC h2
  · exact input_ne_of_single_use hwf h.hmul hk h.usesMulC h3
  · exact output_ne_of_ne hwf h.hrelu h.hadd (by simp [h.reluOut]) (by simp [h.addOut])
      (Ne.symm h2)
  · exact output_ne_of_ne hwf h.hrelu h.hmul (by simp [h.reluOut]) (by simp [h.mulOut])
      (Ne.symm h3)
  · exact output_ne_of_ne hwf h.hadd h.hmul (by simp [h.addOut]) (by simp [h.mulOut]) h1
  · exact live_in h.hadd hA0
  · exact live_in h.hadd hA1
  · exact live_out h.hadd (by simp [h.addOut])
  · exact live_in h.hmul hk
  · exact live_out h.hmul (by simp [h.mulOut])
  · exact live_out h.hrelu (by simp [h.reluOut])

/-! ## The fusion rewrite on a matched chain -/

namespace ComputeGraph

theorem live_of_statics {g g' : ComputeGraph F} (hS : ∀ w, g'.statics w = g.statics w)
    {w : Nat} (h : (g.getValue w).isSome = true) : (g'.getValue w).isSome = true := by
  obtain ⟨t, ht⟩ := Option.isSome_iff_exists.mp h
  exact isSome_of_statics (hS w) ht

theorem live_of_statics_eq {g g' : ComputeGraph F} {w : Nat}
    (hS : g'.statics w = g.statics w)
    (h : (g.getValue w).isSome = true) : ∃ t, g'.getValue w = some t := by
  obtain ⟨t, ht⟩ := Option.isSome_iff_exists.mp h
  exact Option.isSome_iff_exists.mp (isSome_of_statics hS ht)

end ComputeGraph

theorem andThen_some {α β : Type} (a : α) (f : α → Option β) : andThen (some a) f = f a := rfl

set_option maxHeartbeats 1600000 in
theorem rewrite_of_fuseMatch {g : ComputeGraph F} {n mulId reluId : Nat}
    {add mul relu : ComputeOperator} {addA addB addC mulB mulC reluY : Nat}
    (hwf : g.wellFormed = true)
    (h : FuseMatch g n mulId reluId add mul relu addA addB addC mulB mulC reluY) :
    ∃ g', NvDlaFuseAddMulReluPass.rewrite g n = some g' ∧
      (∀ m, g'.getNode m =
        if m = g.nodes.length then
          some { kind := OpKind.NvDlaAddMulRelu, inputs := [addA, addB, mulB],
                 outputs := [reluY] }
        else if m = n ∨ m = mulId ∨ m = reluId then none
        else g.getNode m) ∧
      (∀ w, g'.statics w = if w = addC ∨ w = mulC then none else g.statics w) ∧
      g'.getDefine reluY = some g.nodes.length := by
  obtain ⟨⟨h1, h2, h3⟩, ⟨d1, d2, d3, d4, d5, d6, d7, d8⟩, ⟨l1, l2, l3, l4, l5, l6⟩⟩ :=
    h.distinct hwf
  have hcn := ne_length_of_getNode h.hadd
  have hcm := ne_length_of_getNode h.hmul
  have hcr := ne_length_of_getNode h.hrelu
  obtain ⟨i, hi⟩ := h.usesAddC
  -- the new operator
  obtain ⟨g1, hg1⟩ : ∃ g1, (g.addOperator OpKind.NvDlaAddMulRelu 0).1 = g1 := ⟨_, rfl⟩
  obtain ⟨hc, hN1, hV1, -⟩ := addOperator_spec g OpKind.NvDlaAddMulRelu 0
  rw [hg1] at hN1 hV1
  have hS1 : ∀ w, g1.statics w = g.statics w := statics_congr_same hV1
  -- detach the Add
  have A1 : g1.getNode n = some add := by rw [hN1, if_neg hcn, h.hadd]
  obtain ⟨g2, e2, hN2, hV2, -⟩ := removeAllInputs_spec A1
    (by simp [h.addIn, live_of_statics hS1 l1, live_of_statics hS1 l2])
  have hS2 : ∀ w, g2.statics w = g.statics w := fun w =>
    (statics_congr_map (fun _ _ => ite_dropUser_static _ _ _) hV2 w).trans (hS1 w)
  have A2 := hN2 n
  rw [if_pos rfl] at A2
  obtain ⟨g3, e3, hN3, hV3, -⟩ := removeAllOutputs_spec A2
    (by simp [h.addOut, live_of_statics hS2 l3])
  have hS3 : ∀ w, g3.statics w = g.statics w := fun w =>
    (statics_congr_map (fun _ _ => ite_clearDefine_static _ _) hV3 w).trans (hS2 w)
  -- detach the Mul
  have M3 : g3.getNode mulId = some mul := by
    rw [hN3, if_neg (Ne.symm h1), hN2, if_neg (Ne.symm h1), hN1, if_neg hcm, h.hmul]
  have lMulIn : ∀ v ∈ mul.inputs, (g.getValue v).isSome = true := by
    intro v hv
    rcases h.mulIn with e | e <;> rw [e] at hv <;> simp at hv <;> rcases hv with rfl | rfl <;>
      assumption
  obtain ⟨g4, e4, hN4, hV4, -⟩ := removeAllInputs_spec M3
    (fun v hv => live_of_statics hS3 (lMulIn v hv))
  have hS4 : ∀ w, g4.statics w = g.statics w := fun w =>
    (statics_congr_map (fun _ _ => ite_dropUser_static _ _ _) hV4 w).trans (hS3 w)
  have M4 := hN4 mulId
  rw [if_pos rfl] at M4
  obtain ⟨g5, e5, hN5, hV5, -⟩ := removeAllOutputs_spec M4
    (by simp [h.mulOut, live_of_statics hS4 l5])
  have hS5 : ∀ w, g5.statics w = g.statics w := fun w =>
    (statics_congr_map (fun _ _ => ite_clearDefine_static _ _) hV5 w).trans (hS4 w)
  -- detach the Relu
  have R5 : g5.getNode reluId = some relu := by
    rw [hN5, if_neg (Ne.symm h3), hN4, if_neg (Ne.symm h3), hN3, if_neg (Ne.symm h2), hN2,
      if_neg (Ne.symm h2), hN1, if_neg hcr, h.hrelu]
  obtain ⟨g6, e6, hN6, hV6, -⟩ := removeAllInputs_spec R5
    (by simp [h.reluIn, live_of_statics hS5 l5])
  have hS6 : ∀ w, g6.statics w = g.statics w := fun w =>
    (statics_congr_map (fun _ _ => ite_dropUser_static _ _ _) hV6 w).trans (hS5 w)
  have R6 := hN6 reluId
  rw [if_pos rfl] at R6
  obtain ⟨g7, e7, hN7, hV7, -⟩ := removeAllOutputs_spec R6
    (by simp [h.reluOut, live_of_statics hS6 l6])
  have hS7 : ∀ w, g7.statics w = g.statics w := fun w =>
    (statics_congr_map (fun _ _ => ite_clearDefine_static _ _) hV7 w).trans (hS6 w)
  -- erase the three operators
  have A7 : ∃ op, g7.getNode n = some op := by
    rw [hN7, if_neg h2, hN6, if_neg h2, hN5, if_neg h1, hN4, if_neg h1, hN3, if_pos rfl]
    exact ⟨_, rfl⟩
  obtain ⟨opA, A7⟩ := A7
  obtain ⟨g8, e8, hN8, hV8, -⟩ := eraseNode_spec A7
  have hS8 : ∀ w, g8.statics w = g.statics w := fun w =>
    (statics_congr_same hV8 w).trans (hS7 w)
  have M8 : ∃ op, g8.getNode mulId = some op := by
    rw [hN8, if_neg (Ne.symm h1), hN7, if_neg h3, hN6, if_neg h3, hN5, if_pos rfl]
    exact ⟨_, rfl⟩
  obtain ⟨opM, M8⟩ := M8
  obtain ⟨g9, e9, hN9, hV9, -⟩ := eraseNode_spec M8
  have hS9 : ∀ w, g9.statics w = g.statics w := fun w =>
    (statics_congr_same hV9 w).trans (hS8 w)
  have R9 : ∃ op, g9.getNode reluId = some op := by
    rw [hN9, if_neg (Ne.symm h3), hN8, if_neg (Ne.symm h2), hN7, if_pos rfl]
    exact ⟨_, rfl⟩
  obtain ⟨opR, R9⟩ := R9
  obtain ⟨g10, e10, hN10, hV10, -⟩ := eraseNode_spec R9
  have hS10 : ∀ w, g10.statics w = g.statics w := fun w =>
    (statics_congr_same hV10 w).trans (hS9 w)
  -- erase the two interior values
  obtain ⟨tC, htC⟩ := live_of_statics_eq (hS10 addC) l3
  obtain ⟨g11, e11, hN11, hV11, -⟩ := eraseValue_spec htC
  have hS11 : ∀ w, g11.statics w = if w = addC then none else g.statics w := fun w => by
    rw [statics_erase hV11 w, hS10 w]
  have hMC11 : g11.statics mulC = g.statics mulC := by rw [hS11, if_neg (Ne.symm d8)]
  obtain ⟨tMC, htMC⟩ := live_of_statics_eq hMC11 l5
  obtain ⟨g12, e12, hN12, hV12, -⟩ := eraseValue_spec htMC
  have hS12 : ∀ w, g12.statics w = if w = addC ∨ w = mulC then none else g.statics w :=
    fun w => by
      rw [statics_erase hV12 w, hS11 w]
      by_cases ea : w = addC <;> by_cases em : w = mulC <;> simp [ea, em]
  -- connect the new operator
  have C12 : g12.getNode g.nodes.length =
      some { kind := OpKind.NvDlaAddMulRelu, inputs := [], outputs := [], group := 0 } := by
    rw [hN12, hN11, hN10, if_neg (Ne.symm hcr), hN9, if_neg (Ne.symm hcm), hN8,
      if_neg (Ne.symm hcn), hN7, if_neg (Ne.symm hcr), hN6, if_neg (Ne.symm hcr), hN5,
      if_neg (Ne.symm hcm), hN4, if_neg (Ne.symm hcm), hN3, if_neg (Ne.symm hcn), hN2,
      if_neg (Ne.symm hcn), hN1, if_pos rfl]
  have keep : ∀ {g' : ComputeGraph F} {w : Nat},
      (∀ w, g'.statics w = if w = addC ∨ w = mulC then none else g.statics w) →
      w ≠ addC → w ≠ mulC → g'.statics w = g.statics w := by
    intro g' w hS ha hm
    rw [hS, if_neg (by simp [ha, hm])]
  obtain ⟨tA, htA⟩ := live_of_statics_eq (keep hS12 d1 d3) l1
  obtain ⟨g13, e13, hN13, hV13, -⟩ := addInput_spec C12 htA
  have hS13 : ∀ w, g13.statics w = if w = addC ∨ w = mulC then none else g.statics w :=
    fun w => (statics_congr_set htA hV13 rfl w).trans (hS12 w)
  have C13 := hN13 g.nodes.length
  rw [if_pos rfl] at C13
  obtain ⟨tB, htB⟩ := live_of_statics_eq (keep hS13 d2 d4) l2
  obtain ⟨g14, e14, hN14, hV14, -⟩ := addInput_spec C13 htB
  have hS14 : ∀ w, g14.statics w = if w = addC ∨ w = mulC then none else g.statics w :=
    fun w => (statics_congr_set htB hV14 rfl w).trans (hS13 w)
  have C14 := hN14 g.nodes.length
  rw [if_pos rfl] at C14
  obtain ⟨tMB, htMB⟩ := live_of_statics_eq (keep hS14 h.mulB_ne d5) l4
  obtain ⟨g15, e15, hN15, hV15, -⟩ := addInput_spec C14 htMB
  have hS15 : ∀ w, g15.statics w = if w = addC ∨ w = mulC then none else g.statics w :=
    fun w => (statics_congr_set htMB hV15 rfl w).trans (hS14 w)
  have C15 := hN15 g.nodes.length
  rw [if_pos rfl] at C15
  obtain ⟨tY, htY⟩ := live_of_statics_eq (keep hS15 d6 d7) l6
  obtain ⟨g16, e16, hN16, hV16, -⟩ := addOutput_spec C15 htY
  have hS16 : ∀ w, g16.statics w = if w = addC ∨ w = mulC then none else g.statics w :=
    fun w => (statics_congr_set htY hV16 rfl w).trans (hS15 w)
  refine ⟨g16, ?_, ?_, hS16, ?_⟩
  · have hdA : g.dynCast OpKind.Add n = some n := by
      simp [ComputeGraph.dynCast, h.hadd, h.addKind]
    have hdM : g.dynCast OpKind.Mul mulId = some mulId := by
      simp [ComputeGraph.dynCast, h.hmul, h.mulKind]
    have hdR : g.dynCast OpKind.Relu reluId = some reluId := by
      simp [ComputeGraph.dynCast, h.hrelu, h.reluKind]
    have hoA : g.getOutput n 0 = some addC := by
      simp [ComputeGraph.getOutput, h.hadd, h.addOut]
    have hoM : g.getOutput mulId 0 = some mulC := by
      simp [ComputeGraph.getOutput, h.hmul, h.mulOut]
    have hoR : g.getOutput reluId 0 = some reluY := by
      simp [ComputeGraph.getOutput, h.hrelu, h.reluOut]
    have hiA0 : g.getInput n 0 = some addA := by
      simp [ComputeGraph.getInput, h.hadd, h.addIn]
    have hiA1 : g.getInput n 1 = some addB := by
      simp [ComputeGraph.getInput, h.hadd, h.addIn]
    have hiM : ∃ m0, g.getInput mulId 0 = some m0 ∧
        (if addC = m0 then g.getInput mulId 1 else some m0) = some mulB := by
      rcases h.mulIn with e | e
      · exact ⟨addC, by simp [ComputeGraph.getInput, h.hmul, e],
          by simp [ComputeGraph.getInput, h.hmul, e]⟩
      · exact ⟨mulB, by simp [ComputeGraph.getInput, h.hmul, e],
          by simp [Ne.symm h.mulB_ne]⟩
    obtain ⟨m0, hiM0, hiMB⟩ := hiM
    unfold NvDlaFuseAddMulReluPass.rewrite
    rw [hdA, andThen_some, hoA, andThen_some, hi, andThen_some, List.getElem?_cons_zero,
      andThen_some, hdM, andThen_some, hoM, andThen_some, h.usesMulC, andThen_some,
      List.getElem?_cons_zero, andThen_some, hdR, andThen_some, hiA0, andThen_some, hiA1,
      andThen_some, andThen_some, hiM0, andThen_some, hiMB, andThen_some, andThen_some, hoR,
      andThen_some]
    dsimp only
    rw [hg1, hc, e2, andThen_some, e3, andThen_some, e4, andThen_some, e5, andThen_some, e6,
      andThen_some, e7, andThen_some, e8, andThen_some, e9, andThen_some, e10, andThen_some,
      e11, andThen_some, e12, andThen_some, e13, andThen_some, e14, andThen_some, e15,
      andThen_some, e16]
  · intro m
    rw [hN16, hN15, hN14, hN13]
    by_cases hmc : m = g.nodes.length
    · simp [hmc]
    · simp only [if_neg hmc]
      rw [hN12, hN11, hN10, hN9, hN8, hN7, hN6, hN5, hN4, hN3, hN2, hN1, if_neg hmc]
      by_cases e1 : m = n
      · simp [e1, h1, h2]
      · by_cases e2' : m = mulId
        · simp [e2', Ne.symm h1, h3]
        · by_cases e3' : m = reluId
          · simp [e3', Ne.symm h2, Ne.symm h3]
          · simp [e1, e2', e3']
  · simp [ComputeGraph.getDefine, hV16]

/-! ## Acyclicity -/

namespace ComputeGraph

theorem lt_of_transGen_precedes {g : ComputeGraph F} {r : Nat → Nat}
    (hr : ∀ p c, g.precedes p c → r p < r c) {a b : Nat}
    (hab : Relation.TransGen g.precedes a b) : r a < r b := by
  induction hab with
  | single h => exact hr _ _ h
  | tail _ h ih => exact lt_trans ih (hr _ _ h)

theorem acyclic_of_hasTopologicalOrder {g : ComputeGraph F} (h : g.HasTopologicalOrder) :
    g.Acyclic := by
  obtain ⟨r, hr⟩ := h
  intro m hm
  exact lt_irrefl _ (lt_of_transGen_precedes hr hm)

theorem hasTopologicalOrder_of_rankCheck {g : ComputeGraph F} {r : List Nat}
    (h : g.rankCheck r = true) : g.HasTopologicalOrder := by
  refine ⟨fun m => r.getD m 0, ?_⟩
  rintro p c ⟨opp, opc, v, hp, hc, hvo, hvi⟩
  unfold rankCheck at h
  rw [List.all_eq_true] at h
  have h1 := h p (List.mem_range.mpr (getNode_lt hp))
  rw [List.all_eq_true] at h1
  have h2 := h1 c (List.mem_range.mpr (getNode_lt hc))
  rw [hp, hc] at h2
  simp only [Bool.or_eq_true, Bool.not_eq_true', decide_eq_true_eq] at h2
  rcases h2 with h2 | h2
  · have : (opp.outputs.any fun v => opc.inputs.contains v) = true := by
      rw [List.any_eq_true]
      exact ⟨v, hvo, by simpa using hvi⟩
    rw [this] at h2
    exact absurd h2 (by simp)
  · exact h2

theorem acyclic_of_rankCheck {g : ComputeGraph F} {r : List Nat}
    (h : g.rankCheck r = true) : g.Acyclic :=
  acyclic_of_hasTopologicalOrder (hasTopologicalOrder_of_rankCheck h)

/-- A finite acyclic graph has a full topological ordering: an operator's position
is the number of operators from which it can be reached. -/
theorem hasTopologicalOrder_of_acyclic {g : ComputeGraph F} (h : g.Acyclic) :
    g.HasTopologicalOrder := by
  classical
  refine ⟨fun m => ((Finset.range g.nodes.length).filter
    fun p => Relation.TransGen g.precedes p m).card, ?_⟩
  intro p c hpc
  apply Finset.card_lt_card
  rw [Finset.ssubset_iff_of_subset]
  · refine ⟨p, ?_, ?_⟩
    · have hlive : ∃ opp, g.getNode p = some opp := by
        obtain ⟨opp, _, _, hp, _⟩ := hpc
        exact ⟨opp, hp⟩
      obtain ⟨opp, hp⟩ := hlive
      simp only [Finset.mem_filter, Finset.mem_range]
      exact ⟨getNode_lt hp, Relation.TransGen.single hpc⟩
    · simp only [Finset.mem_filter, Finset.mem_range, not_and]
      intro _
      exact h p
  · intro q hq
    simp only [Finset.mem_filter, Finset.mem_range] at hq ⊢
    exact ⟨hq.1, Relation.TransGen.tail hq.2 hpc⟩

end ComputeGraph

/-- Every producer-to-consumer edge of the fused graph is a path of the original
graph, once the new operator is read as the Relu it replaces. -/
theorem fuse_precedes {g g' : ComputeGraph F} {n mulId reluId : Nat}
    {add mul relu : ComputeOperator} {addA addB addC mulB mulC reluY : Nat}
    (h : FuseMatch g n mulId reluId add mul relu addA addB addC mulB mulC reluY)
    (hN : ∀ m, g'.getNode m =
      if m = g.nodes.length then
        some { kind := OpKind.NvDlaAddMulRelu, inputs := [addA, addB, mulB],
               outputs := [reluY] }
      else if m = n ∨ m = mulId ∨ m = reluId then none
      else g.getNode m)
    (p c : Nat) (hpc : g'.precedes p c) :
    Relation.TransGen g.precedes (if p = g.nodes.length then reluId else p)
      (if c = g.nodes.length then reluId else c) := by
  have eam : g.precedes n mulId :=
    ⟨add, mul, addC, h.hadd, h.hmul, by simp [h.addOut],
      by rcases h.mulIn with e | e <;> simp [e]⟩
  have emr : g.precedes mulId reluId :=
    ⟨mul, relu, mulC, h.hmul, h.hrelu, by simp [h.mulOut], by simp [h.reluIn]⟩
  have old : ∀ {m : Nat} {op : ComputeOperator}, m ≠ g.nodes.length →
      g'.getNode m = some op → g.getNode m = some op := by
    intro m op hm hop
    rw [hN, if_neg hm] at hop
    by_cases hk : m = n ∨ m = mulId ∨ m = reluId
    · rw [if_pos hk] at hop
      exact absurd hop (by simp)
    · rwa [if_neg hk] at hop
  have new : ∀ {op : ComputeOperator}, g'.getNode g.nodes.length = some op →
      op.inputs = [addA, addB, mulB] ∧ op.outputs = [reluY] := by
    intro op hop
    rw [hN, if_pos rfl] at hop
    cases hop
    exact ⟨rfl, rfl⟩
  have toRelu : ∀ {q : Nat} {opq : ComputeOperator} {v : Nat}, g.getNode q = some opq →
      v ∈ opq.outputs → v ∈ [addA, addB, mulB] → Relation.TransGen g.precedes q reluId := by
    intro q opq v hq hvo hv
    simp only [List.mem_cons, List.mem_singleton, List.not_mem_nil, or_false] at hv
    have hA : v = addA ∨ v = addB → g.precedes q n := fun hv' =>
      ⟨opq, add, v, hq, h.hadd, hvo, by rcases hv' with e | e <;> simp [h.addIn, e]⟩
    rcases hv with e | e | e
    · exact ((Relation.TransGen.single (hA (Or.inl e))).tail eam).tail emr
    · exact ((Relation.TransGen.single (hA (Or.inr e))).tail eam).tail emr
    · have : g.precedes q mulId :=
        ⟨opq, mul, v, hq, h.hmul, hvo, by rcases h.mulIn with e' | e' <;> simp [e', e]⟩
      exact (Relation.TransGen.single this).tail emr
  obtain ⟨opp, opc, v, hp, hc, hvo, hvi⟩ := hpc
  by_cases ep : p = g.nodes.length
  · subst ep
    obtain ⟨-, hout⟩ := new hp
    rw [hout] at hvo
    simp only [List.mem_singleton] at hvo
    subst hvo
    rw [if_pos rfl]
    by_cases ec : c = g.nodes.length
    · subst ec
      obtain ⟨hin, -⟩ := new hc
      rw [hin] at hvi
      rw [if_pos rfl]
      exact toRelu h.hrelu (by simp [h.reluOut]) hvi
    · rw [if_neg ec]
      exact Relation.TransGen.single
        ⟨relu, opc, v, h.hrelu, old ec hc, by simp [h.reluOut], hvi⟩
  · rw [if_neg ep]
    by_cases ec : c = g.nodes.length
    · subst ec
      obtain ⟨hin, -⟩ := new hc
      rw [hin] at hvi
      rw [if_pos rfl]
      exact toRelu (old ep hp) hvo hvi
    · rw [if_neg ec]
      exact Relation.TransGen.single ⟨opp, opc, v, old ep hp, old ec hc, hvo, hvi⟩

theorem fuse_acyclic {g g' : ComputeGraph F} {n mulId reluId : Nat}
    {add mul relu : ComputeOperator} {addA addB addC mulB mulC reluY : Nat}
    (h : FuseMatch g n mulId reluId add mul relu addA addB addC mulB mulC reluY)
    (hN : ∀ m, g'.getNode m =
      if m = g.nodes.length then
        some { kind := OpKind.NvDlaAddMulRelu, inputs := [addA, addB, mulB],
               outputs := [reluY] }
      else if m = n ∨ m = mulId ∨ m = reluId then none
      else g.getNode m)
    (hacyc : g.Acyclic) : g'.Acyclic := by
  intro m hm
  exact hacyc _ (Relation.TransGen.lift' (fun q => if q = g.nodes.length then reluId else q)
    (fuse_precedes h hN) hm)

/-! ## The constant classifier and the reorder matcher -/

open NvDlaReorderMulAddPass

theorem isConstant_eq_true_iff (g : ComputeGraph F) (v : Nat) :
    isConstant g v = some true ↔
      ∃ t p op, g.getValue v = some t ∧ t.define = some p ∧ g.getNode p = some op ∧
        op.kind = OpKind.Initializer := by
  unfold isConstant
  cases hv : g.getValue v with
  | none => simp
  | some t =>
    cases hd : t.define with
    | none => simp [hd]
    | some p =>
      cases hp : g.getNode p with
      | none => simp [hd, ComputeGraph.isa, hp]
      | some op => simp [hd, ComputeGraph.isa, hp]

/-- What an accepting run of `canBeReordered` has checked. -/
theorem canBeReordered_eq_true {g : ComputeGraph F} {n : Nat}
    (h : canBeReordered g n = some true) :
    ∃ mul in0 outv u add,
      g.getNode n = some mul ∧ mul.kind = OpKind.Mul ∧ mul.inputs[0]? = some in0 ∧
      (isConstant g in0 = some true ∨
        (isConstant g in0 = some false ∧
          ∃ in1, mul.inputs[1]? = some in1 ∧ isConstant g in1 = some true)) ∧
      mul.outputs[0]? = some outv ∧ g.getUses outv = some [u] ∧
      g.getNode u.user = some add ∧ add.kind = OpKind.Add := by
  unfold canBeReordered at h
  simp only [ComputeGraph.isa, ComputeGraph.getOutput, ComputeGraph.getInput,
    Option.bind_eq_bind, Option.pure_def] at h
  cases hn : g.getNode n with
  | none => simp [hn] at h
  | some mul =>
  by_cases hk : mul.kind = OpKind.Mul
  swap
  · simp [hn, hk] at h
  cases hi0 : mul.inputs[0]? with
  | none => simp [hn, hk, hi0] at h
  | some in0 =>
  cases hc0 : isConstant g in0 with
  | none => simp [hn, hk, hi0, hc0] at h
  | some c0 =>
  have hrest : ∀ (hconst : isConstant g in0 = some true ∨
      (isConstant g in0 = some false ∧
        ∃ in1, mul.inputs[1]? = some in1 ∧ isConstant g in1 = some true)),
      ((mul.outputs[0]?).bind fun outv =>
        (g.getUses outv).bind fun us =>
          if us.length > 1 then some false
          else (g.getUses outv).bind fun us' => (us'[0]?).bind fun u =>
            ((g.getNode u.user).map fun op => decide (op.kind = OpKind.Add)).bind fun b =>
              if (!b) = true then some false else some true) = some true →
      ∃ mul' in0' outv u add,
        some mul = some mul' ∧ mul'.kind = OpKind.Mul ∧ mul'.inputs[0]? = some in0' ∧
        (isConstant g in0' = some true ∨
          (isConstant g in0' = some false ∧
            ∃ in1, mul'.inputs[1]? = some in1 ∧ isConstant g in1 = some true)) ∧
        mul'.outputs[0]? = some outv ∧ g.getUses outv = some [u] ∧
        g.getNode u.user = some add ∧ add.kind = OpKind.Add := by
    intro hconst h'
    cases ho : mul.outputs[0]? with
    | none => simp [ho] at h'
    | some outv =>
    cases hu : g.getUses outv with
    | none => simp [ho, hu] at h'
    | some us =>
    rcases us with _ | ⟨u, _ | ⟨u', rest⟩⟩
    · simp [ho, hu] at h'
    swap
    · simp [ho, hu] at h'
    cases ha : g.getNode u.user with
    | none => simp [ho, hu, ha] at h'
    | some add =>
    by_cases hak : add.kind = OpKind.Add
    swap
    · simp [ho, hu, ha, hak] at h'
    exact ⟨mul, in0, outv, u, add, rfl, hk, hi0, hconst, ho, hu, ha, hak⟩
  cases c0 with
  | true =>
    apply hrest (Or.inl hc0)
    simpa [hn, hk, hi0, hc0] using h
  | false =>
    cases hi1 : mul.inputs[1]? with
    | none => simp [hn, hk, hi0, hc0, hi1] at h
    | some in1 =>
    cases hc1 : isConstant g in1 with
    | none => simp [hn, hk, hi0, hc0, hi1, hc1] at h
    | some c1 =>
    cases c1 with
    | false => simp [hn, hk, hi0, hc0, hi1, hc1] at h
    | true =>
      apply hrest (Or.inr ⟨hc0, in1, hi1, hc1⟩)
      simpa [hn, hk, hi0, hc0, hi1, hc1] using h

/-! ## The constant fold -/

theorem toInt_of_lt {x : Int} (h0 : 0 ≤ x) (h1 : x < 2 ^ 31) : toInt x = x := by
  unfold toInt
  have h2 : (0 : Int) ≤ x + 2 ^ 31 := by positivity
  have h3 : x + 2 ^ 31 < 2 ^ 32 := by
    have : (2 : Int) ^ 32 = 2 ^ 31 + 2 ^ 31 := by norm_num
    omega
  rw [Int.emod_eq_of_lt h2 h3]
  omega

/-- The loop of the constant fold over the first `k` indices. -/
theorem foldGamma_range [Div F] (betaData alphaData : List F) (k : Nat)
    (hk : k ≤ betaData.length) (hk' : k ≤ alphaData.length) :
    (List.range k).mapM (fun i => do
        pure ((← betaData[i]?) / (← alphaData[i]?)) : Nat → Option F) =
      some ((List.zipWith (fun b a => b / a) betaData alphaData).take k) := by
  induction k with
  | zero =>
    rw [List.range_zero, List.mapM_nil]
    rfl
  | succ k ih =>
    have hb : k < betaData.length := hk
    have ha : k < alphaData.length := hk'
    rw [List.range_succ, List.mapM_append, ih (Nat.le_of_lt hb) (Nat.le_of_lt ha),
      List.take_succ, List.getElem?_zipWith, List.mapM_cons, List.mapM_nil]
    simp [List.getElem?_eq_getElem hb, List.getElem?_eq_getElem ha]

/-- For tensors whose element count fits the `int` loop counter the fold is the
element-wise quotient, in source order. -/
theorem foldGamma_eq_zipWith [Div F] (betaData alphaData : List F)
    (hsize : betaData.length < 2 ^ 31) (hlen : betaData.length ≤ alphaData.length) :
    foldGamma betaData alphaData =
      some (List.zipWith (fun b a => b / a) betaData alphaData) := by
  unfold foldGamma
  have h1 : toInt (betaData.length : Int) = (betaData.length : Int) :=
    toInt_of_lt (Int.natCast_nonneg _) (by exact_mod_cast hsize)
  rw [h1, Int.toNat_ofNat, foldGamma_range betaData alphaData betaData.length le_rfl hlen]
  rw [List.take_of_length_le]
  simp [List.length_zipWith]

/-! ## More lookups: new values, names, data, producers -/

namespace ComputeGraph

theorem hasName_eq_false_iff (g : ComputeGraph F) (nm : String) :
    g.hasName nm = false ↔ ∀ w t, g.getValue w = some t → t.name ≠ nm := by
  unfold hasName
  rw [List.any_eq_false]
  constructor
  · intro h w t hw
    have hmem : some t ∈ g.values := by
      unfold getValue at hw
      cases hv : g.values[w]? with
      | none => simp [hv] at hw
      | some o =>
        rw [hv] at hw
        simp only [Option.join] at hw
        subst hw
        exact List.getElem?_mem hv
    have := h (some t) hmem
    simpa using this
  · intro h o ho
    cases o with
    | none => simp
    | some t =>
      obtain ⟨w, hw⟩ := List.mem_iff_getElem?.mp ho
      have : g.getValue w = some t := by simp [getValue, hw]
      simpa using h w t this

theorem hasName_of_statics {g g' : ComputeGraph F} (hS : ∀ w, g'.statics w = g.statics w)
    {nm : String} (h : g.hasName nm = false) : g'.hasName nm = false := by
  rw [hasName_eq_false_iff] at h ⊢
  intro w t' hw
  have h1 := hS w
  unfold statics at h1
  rw [hw] at h1
  cases hv : g.getValue w with
  | none => simp [hv] at h1
  | some t =>
    rw [hv] at h1
    simp only [Option.map_some', Option.some.injEq, Tensor.static, Prod.mk.injEq] at h1
    rw [h1.1]
    exact h w t hv

/-- What `addValue` does to every lookup; the new pointer is fresh. -/
theorem addValue_spec {g : ComputeGraph F} {t : Tensor F} (h : g.hasName t.name = false) :
    ∃ g', g.addValue t = some (g', g.values.length) ∧
      (∀ m, g'.getNode m = g.getNode m) ∧
      (∀ w, g'.getValue w = if w = g.values.length then some t else g.getValue w) ∧
      g'.nodes = g.nodes ∧ g'.order = g.order := by
  refine ⟨{ nodes := g.nodes, values := g.values ++ [some t], order := g.order }, ?_,
    fun _ => rfl, ?_, rfl, rfl⟩
  · simp [addValue, h]
  · intro w
    unfold getValue
    by_cases hw : w = g.values.length
    · subst hw
      simp
    · rcases Nat.lt_or_gt_of_ne hw with h1 | h1
      · simp [hw, List.getElem?_append_left h1]
      · have h2 : g.values.length + 1 ≤ w := h1
        simp [hw, List.getElem?_eq_none, Nat.le_of_lt h1, h2]

/-- What `setName` does to every lookup. -/
theorem setName_spec {g : ComputeGraph F} {v : Nat} {t : Tensor F} (nm : String)
    (hv : g.getValue v = some t) :
    ∃ g', g.setName v nm = some g' ∧
      (∀ m, g'.getNode m = g.getNode m) ∧
      (∀ w, g'.getValue w = if w = v then some { t with name := nm } else g.getValue w) ∧
      g'.order = g.order := by
  refine ⟨g.setValue v (some { t with name := nm }), ?_, fun _ => rfl, ?_, rfl⟩
  · simp [setName, hv]
  · intro w
    exact getValue_setValue g v _ w (getValue_lt hv)

/-- What `setData` does to every lookup. -/
theorem setData_spec {g : ComputeGraph F} {v : Nat} {t : Tensor F} (d : TensorData F)
    (hv : g.getValue v = some t) :
    ∃ g', g.setData v d = some g' ∧
      (∀ m, g'.getNode m = g.getNode m) ∧
      (∀ w, g'.getValue w = if w = v then some { t with data := d } else g.getValue w) ∧
      g'.order = g.order := by
  refine ⟨g.setValue v (some { t with data := d }), ?_, fun _ => rfl, ?_, rfl⟩
  · simp [setData, hv]
  · intro w
    exact getValue_setValue g v _ w (getValue_lt hv)

theorem ne_length_of_getValue {g : ComputeGraph F} {v : Nat} {t : Tensor F}
    (h : g.getValue v = some t) : v ≠ g.values.length :=
  Nat.ne_of_lt (getValue_lt h)

theorem getDefine_congr_map {g g' : ComputeGraph F} {f : Nat → Tensor F → Tensor F}
    (hf : ∀ w t, (f w t).define = t.define)
    (h : ∀ w, g'.getValue w = (g.getValue w).map (f w)) (w : Nat) :
    g'.getDefine w = g.getDefine w := by
  unfold getDefine
  rw [h w]
  cases g.getValue w <;> simp [hf]

theorem getDefine_congr_set {g g' : ComputeGraph F} {v : Nat} {t t' : Tensor F}
    (hv : g.getValue v = some t)
    (h : ∀ w, g'.getValue w = if w = v then some t' else g.getValue w)
    (ht : t'.define = t.define) (w : Nat) :
    g'.getDefine w = g.getDefine w := by
  unfold getDefine
  rw [h w]
  by_cases e : w = v
  · subst e
    simp [hv, ht]
  · simp [e]

theorem getDefine_congr_same {g g' : ComputeGraph F}
    (h : ∀ w, g'.getValue w = g.getValue w) (w : Nat) : g'.getDefine w = g.getDefine w := by
  unfold getDefine
  rw [h w]

theorem getDefine_of_ne {g g' : ComputeGraph F} {v : Nat} {x : Option (Tensor F)}
    (h : ∀ w, g'.getValue w = if w = v then x else g.getValue w) {w : Nat} (hw : w ≠ v) :
    g'.getDefine w = g.getDefine w := by
  unfold getDefine
  rw [h w, if_neg hw]

theorem getDefine_of_not_output {g g' : ComputeGraph F} {outs : List Nat}
    (h : ∀ w, g'.getValue w =
      (g.getValue w).map fun t => if w ∈ outs then clearDefine t else t)
    {w : Nat} (hw : w ∉ outs) : g'.getDefine w = g.getDefine w := by
  unfold getDefine
  rw [h w]
  cases g.getValue w <;> simp [hw]

theorem getFloatValues_of_statics {g g' : ComputeGraph F} {w : Nat}
    (h : g'.statics w = g.statics w) : g'.getFloatValues w = g.getFloatValues w := by
  unfold statics at h
  unfold getFloatValues
  cases h1 : g'.getValue w <;> cases h2 : g.getValue w <;> rw [h1, h2] at h <;>
    simp [Tensor.static] at h ⊢
  rw [h.2.2]

end ComputeGraph

theorem ite_dropUser_define (c : Prop) [Decidable c] (n : Nat) (t : Tensor F) :
    (if c then dropUser n t else t).define = t.define := by
  by_cases h : c <;> simp [h, dropUser]

/-- A constant value and a non-constant value are different values. -/
theorem ne_of_isConstant {g : ComputeGraph F} {a b : Nat}
    (ha : NvDlaReorderMulAddPass.isConstant g a = some true)
    (hb : NvDlaReorderMulAddPass.isConstant g b = some false) : a ≠ b := by
  intro e
  rw [e, hb] at ha
  exact absurd ha (by simp)

/-- The output of a Mul or of an Add is not constant. -/
theorem isConstant_output_false {g : ComputeGraph F} (hwf : g.wellFormed = true)
    {n v : Nat} {op : ComputeOperator} (hn : g.getNode n = some op) (hv : v ∈ op.outputs)
    (hk : op.kind ≠ OpKind.Initializer) :
    NvDlaReorderMulAddPass.isConstant g v = some false := by
  obtain ⟨t, ht, hd⟩ := wf_output hwf hn hv
  simp [NvDlaReorderMulAddPass.isConstant, ht, hd, ComputeGraph.isa, hn, hk]



theorem toInt_toNat_le (n : Nat) : (toInt (n : Int)).toNat ≤ n := by
  unfold toInt
  have h1 : (2 : Int) ^ 31 = 2147483648 := by norm_num
  have h2 : (2 : Int) ^ 32 = 4294967296 := by norm_num
  rw [h1, h2]
  omega

/-- Whatever the element count, the fold yields a prefix of the element-wise
quotient. -/
theorem foldGamma_eq_take [Div F] (betaData alphaData : List F)
    (hlen : betaData.length ≤ alphaData.length) :
    foldGamma betaData alphaData =
      some ((List.zipWith (fun b a => b / a) betaData alphaData).take
        (toInt (betaData.length : Int)).toNat) := by
  unfold foldGamma
  exact foldGamma_range betaData alphaData _ (toInt_toNat_le _)
    (le_trans (toInt_toNat_le _) hlen)

namespace ComputeGraph

theorem detachUse_size {n v : Nat} {g g' : ComputeGraph F} (h : detachUse n g v = some g') :
    g'.nodes.length = g.nodes.length ∧ g'.values.length = g.values.length := by
  unfold detachUse at h
  cases hv : g.getValue v with
  | none => simp [hv] at h
  | some t =>
    simp only [hv, Option.map_some', Option.some.injEq] at h
    subst h
    simp [setValue]

theorem detachDefine_size {v : Nat} {g g' : ComputeGraph F} (h : detachDefine g v = some g') :
    g'.nodes.length = g.nodes.length ∧ g'.values.length = g.values.length := by
  unfold detachDefine at h
  cases hv : g.getValue v with
  | none => simp [hv] at h
  | some t =>
    simp only [hv, Option.map_some', Option.some.injEq] at h
    subst h
    simp [setValue]

theorem foldlM_size {f : ComputeGraph F → Nat → Option (ComputeGraph F)}
    (hf : ∀ g v g', f g v = some g' →
      g'.nodes.length = g.nodes.length ∧ g'.values.length = g.values.length)
    (vs : List Nat) : ∀ g g' : ComputeGraph F, vs.foldlM f g = some g' →
      g'.nodes.length = g.nodes.length ∧ g'.values.length = g.values.length := by
  induction vs with
  | nil =>
    intro g g' h
    simp only [List.foldlM_nil, Option.pure_def, Option.some.injEq] at h
    subst h
    exact ⟨rfl, rfl⟩
  | cons v vs ih =>
    intro g g' h
    rw [List.foldlM_cons] at h
    cases h1 : f g v with
    | none => simp [h1] at h
    | some g1 =>
      rw [h1] at h
      simp only [Option.bind_eq_bind, Option.some_bind] at h
      obtain ⟨a, b⟩ := ih g1 g' h
      obtain ⟨c, d⟩ := hf g v g1 h1
      exact ⟨a.trans c, b.trans d⟩

theorem removeAllInputs_size {n : Nat} {g g' : ComputeGraph F}
    (h : g.removeAllInputs n = some g') :
    g'.nodes.length = g.nodes.length ∧ g'.values.length = g.values.length := by
  unfold removeAllInputs at h
  cases hn : g.getNode n with
  | none => simp [hn] at h
  | some op =>
    rw [hn] at h
    simp only [Option.some_bind] at h
    cases h1 : op.inputs.foldlM (detachUse n) g with
    | none => simp [h1] at h
    | some g1 =>
      simp only [h1, Option.map_some', Option.some.injEq] at h
      subst h
      obtain ⟨a, b⟩ := foldlM_size (fun _ _ _ => detachUse_size) op.inputs g g1 h1
      simp [setNode, a, b]

theorem removeAllOutputs_size {n : Nat} {g g' : ComputeGraph F}
    (h : g.removeAllOutputs n = some g') :
    g'.nodes.length = g.nodes.length ∧ g'.values.length = g.values.length := by
  unfold removeAllOutputs at h
  cases hn : g.getNode n with
  | none => simp [hn] at h
  | some op =>
    rw [hn] at h
    simp only [Option.some_bind] at h
    cases h1 : op.outputs.foldlM detachDefine g with
    | none => simp [h1] at h
    | some g1 =>
      simp only [h1, Option.map_some', Option.some.injEq] at h
      subst h
      obtain ⟨a, b⟩ := foldlM_size (fun _ _ _ => detachDefine_size) op.outputs g g1 h1
      simp [setNode, a, b]

theorem statics_set {g g' : ComputeGraph F} {v : Nat} {t' : Tensor F}
    (h : ∀ w, g'.getValue w = if w = v then some t' else g.getValue w) (w : Nat) :
    g'.statics w = if w = v then some t'.static else g.statics w := by
  unfold statics
  rw [h w]
  by_cases e : w = v <;> simp [e]

theorem static_of_statics {g g' : ComputeGraph F} {w : Nat} {t t' : Tensor F}
    (h : g'.statics w = g.statics w) (hv : g.getValue w = some t)
    (hv' : g'.getValue w = some t') : t'.static = t.static := by
  unfold statics at h
  rw [hv, hv'] at h
  simpa using h

theorem getDefine_eq_some {g : ComputeGraph F} {v p : Nat} {t : Tensor F}
    (hv : g.getValue v = some t) (h : g.getDefine v = some p) : t.define = some p := by
  simpa [getDefine, hv] using h

theorem isa_eq_true {g : ComputeGraph F} {k : OpKind} {n : Nat}
    (h : g.isa k n = some true) : ∃ op, g.getNode n = some op ∧ op.kind = k := by
  unfold isa at h
  cases hn : g.getNode n with
  | none => simp [hn] at h
  | some op =>
    refine ⟨op, rfl, ?_⟩
    simpa [hn] using h

end ComputeGraph


/-! ## The reorder rewrite on a matched pair -/

/-- In a well-formed graph the parts of a matched Mul-Add pair are live and
pairwise different where the rewrite needs it. -/
theorem reorderMatch_distinct {g : ComputeGraph F} {n addId : Nat}
    {mul add : ComputeOperator} {x alpha beta tmp outputY betaInit : Nat}
    {alphaData betaData : List F} (hwf : g.wellFormed = true)
    (h : ReorderMatch g n addId mul add x alpha beta tmp outputY betaInit alphaData betaData) :
    (n ≠ addId ∧ betaInit ≠ n ∧ betaInit ≠ addId ∧ ∃ opI, g.getNode betaInit = some opI) ∧
    (beta ≠ x ∧ beta ≠ tmp ∧ beta ≠ outputY ∧ tmp ≠ outputY ∧ x ≠ tmp ∧ alpha ≠ tmp ∧
      alpha ≠ outputY) ∧
    ((g.getValue x).isSome ∧ (g.getValue alpha).isSome ∧ (g.getValue beta).isSome ∧
      (g.getValue tmp).isSome ∧ (g.getValue outputY).isSome) ∧
    isConstant g beta = some true ∧ isConstant g tmp = some false := by
  have h1 : n ≠ addId := node_ne_of_kind_ne h.hmul h.hadd (by rw [h.mulKind, h.addKind]; decide)
  obtain ⟨opI, hI, hIk⟩ := ComputeGraph.isa_eq_true h.betaInitKind
  have h2 : betaInit ≠ n := node_ne_of_kind_ne hI h.hmul (by rw [hIk, h.mulKind]; decide)
  have h3 : betaInit ≠ addId := node_ne_of_kind_ne hI h.hadd (by rw [hIk, h.addKind]; decide)
  obtain ⟨k, hk⟩ := h.usesTmp
  have hX : ∃ j : Nat, mul.inputs[j]? = some x := by
    rcases h.mulIn with e | e
    · exact ⟨0, by rw [e]; rfl⟩
    · exact ⟨1, by rw [e]; rfl⟩
  have hA : ∃ j : Nat, mul.inputs[j]? = some alpha := by
    rcases h.mulIn with e | e
    · exact ⟨1, by rw [e]; rfl⟩
    · exact ⟨0, by rw [e]; rfl⟩
  obtain ⟨jx, hjx⟩ := hX
  obtain ⟨ja, hja⟩ := hA
  obtain ⟨tx, htx, -⟩ := ComputeGraph.wf_input hwf h.hmul hjx
  obtain ⟨ta, hta, -⟩ := ComputeGraph.wf_input hwf h.hmul hja
  obtain ⟨tt, htt, -⟩ := ComputeGraph.wf_output hwf h.hmul (show tmp ∈ mul.outputs by simp [h.mulOut])
  obtain ⟨ty, hty, -⟩ := ComputeGraph.wf_output hwf h.hadd
    (show outputY ∈ add.outputs by simp [h.addOut])
  have hbl : ∃ tb, g.getValue beta = some tb := by
    have := h.betaDefine
    unfold ComputeGraph.getDefine at this
    cases hb : g.getValue beta with
    | none => simp [hb] at this
    | some tb => exact ⟨tb, rfl⟩
  obtain ⟨tb, htb⟩ := hbl
  have hbd := ComputeGraph.getDefine_eq_some htb h.betaDefine
  have cB : isConstant g beta = some true :=
    (isConstant_eq_true_iff g beta).mpr ⟨tb, betaInit, opI, htb, hbd, hI, hIk⟩
  have cT : isConstant g tmp = some false :=
    isConstant_output_false hwf h.hmul (by simp [h.mulOut]) (by rw [h.mulKind]; decide)
  have cY : isConstant g outputY = some false :=
    isConstant_output_false hwf h.hadd (by simp [h.addOut]) (by rw [h.addKind]; decide)
  refine ⟨⟨h1, h2, h3, opI, hI⟩, ⟨?_, ?_, ?_, ?_, ?_, ?_, ?_⟩, ⟨?_, ?_, ?_, ?_, ?_⟩, cB, cT⟩
  · exact ne_of_isConstant cB h.xNotConst
  · exact ne_of_isConstant cB cT
  · exact ne_of_isConstant cB cY
  · exact output_ne_of_ne hwf h.hmul h.hadd (by simp [h.mulOut]) (by simp [h.addOut]) h1
  · exact input_ne_of_single_use hwf h.hmul hjx hk h1
  · exact ne_of_isConstant h.alphaConst cT
  · exact ne_of_isConstant h.alphaConst cY
  · rw [htx]; rfl
  · rw [hta]; rfl
  · rw [htb]; rfl
  · rw [htt]; rfl
  · rw [hty]; rfl


namespace ComputeGraph

theorem live_of_statics_some {g : ComputeGraph F} {w : Nat} {s : String × List Int × TensorData F}
    (h : g.statics w = some s) : ∃ t, g.getValue w = some t := by
  unfold statics at h
  cases hv : g.getValue w with
  | none => simp [hv] at h
  | some t => exact ⟨t, rfl⟩

theorem ne_length_of_live {g : ComputeGraph F} {v : Nat} (h : (g.getValue v).isSome = true) :
    v ≠ g.values.length := by
  obtain ⟨t, ht⟩ := Option.isSome_iff_exists.mp h
  exact ne_length_of_getValue ht

end ComputeGraph

set_option maxHeartbeats 3200000 in
theorem rewrite_of_reorderMatch [Div F] {g : ComputeGraph F} {n addId : Nat}
    {mul add : ComputeOperator} {x alpha beta tmp outputY betaInit : Nat}
    {alphaData betaData : List F} {betaT tmpT yT : Tensor F} (tensorIdx : Nat)
    (hwf : g.wellFormed = true)
    (h : ReorderMatch g n addId mul add x alpha beta tmp outputY betaInit alphaData betaData)
    (hbeta : g.getValue beta = some betaT) (htmp : g.getValue tmp = some tmpT)
    (hy : g.getValue outputY = some yT)
    (hfresh : g.hasName (gammaName betaT.name tensorIdx) = false) :
    ∃ g' gammaData,
      NvDlaReorderMulAddPass.rewrite g tensorIdx n = some (g', (tensorIdx + 1) % 2 ^ 32) ∧
      foldGamma betaData alphaData = some gammaData ∧
      (∀ m, g'.getNode m =
        if m = g.nodes.length then
          some { kind := OpKind.Initializer, inputs := [], outputs := [g.values.length] }
        else if m = betaInit then none
        else if m = addId then some { add with inputs := [x, g.values.length], outputs := [tmp] }
        else if m = n then some { mul with inputs := [tmp, alpha], outputs := [outputY] }
        else g.getNode m) ∧
      (∀ w, g'.statics w =
        if w = outputY then some (tmpT.name, yT.dims, yT.data)
        else if w = tmp then some (yT.name, tmpT.dims, tmpT.data)
        else if w = beta then none
        else if w = g.values.length then
          some (gammaName betaT.name tensorIdx, betaT.dims, TensorData.float gammaData)
        else g.statics w) ∧
      g'.getDefine g.values.length = some g.nodes.length ∧
      g'.getDefine tmp = some addId ∧
      g'.getDefine outputY = some n := by
  obtain ⟨⟨h1, h2, h3, opI, hI⟩, ⟨d1, d2, d3, d4, d5, d6, d7⟩, ⟨l1, l2, l3, l4, l5⟩, cB, cT⟩ :=
    reorderMatch_distinct hwf h
  have hcn := ne_length_of_getNode h.hmul
  have hca := ne_length_of_getNode h.hadd
  have hci := ne_length_of_getNode hI
  have vx := ne_length_of_live l1
  have va := ne_length_of_live l2
  have vb := ne_length_of_live l3
  have vt := ne_length_of_live l4
  have vy := ne_length_of_live l5
  obtain ⟨k, hk⟩ := h.usesTmp
  obtain ⟨gammaData, hfold⟩ : ∃ gd, foldGamma betaData alphaData = some gd :=
    ⟨_, foldGamma_eq_take betaData alphaData h.hlen⟩
  -- detach the Mul
  have lMulIn : ∀ v ∈ mul.inputs, (g.getValue v).isSome = true := by
    intro v hv
    rcases h.mulIn with e | e <;> rw [e] at hv <;> simp at hv <;> rcases hv with rfl | rfl <;>
      assumption
  have lAddIn : ∀ v ∈ add.inputs, (g.getValue v).isSome = true := by
    intro v hv
    rcases h.addIn with e | e <;> rw [e] at hv <;> simp at hv <;> rcases hv with rfl | rfl <;>
      assumption
  obtain ⟨g1, e1, hN1, hV1, -⟩ := removeAllInputs_spec h.hmul lMulIn
  have hS1 : ∀ w, g1.statics w = g.statics w :=
    statics_congr_map (fun _ _ => ite_dropUser_static _ _ _) hV1
  have hD1 : g1.getDefine beta = some betaInit := by
    rw [getDefine_congr_map (fun _ _ => ite_dropUser_define _ _ _) hV1, h.betaDefine]
  have M1 := hN1 n
  rw [if_pos rfl] at M1
  obtain ⟨g2, e2, hN2, hV2, -⟩ := removeAllOutputs_spec M1
    (by simp [h.mulOut, live_of_statics hS1 l4])
  have hS2 : ∀ w, g2.statics w = g.statics w := fun w =>
    (statics_congr_map (fun _ _ => ite_clearDefine_static _ _) hV2 w).trans (hS1 w)
  have hD2 : g2.getDefine beta = some betaInit := by
    rw [getDefine_of_not_output hV2 (by simp [h.mulOut, d2]), hD1]
  -- detach the Add
  have A2 : g2.getNode addId = some add := by
    rw [hN2, if_neg (Ne.symm h1), hN1, if_neg (Ne.symm h1), h.hadd]
  obtain ⟨g3, e3, hN3, hV3, -⟩ := removeAllInputs_spec A2
    (fun v hv => live_of_statics hS2 (lAddIn v hv))
  have hS3 : ∀ w, g3.statics w = g.statics w := fun w =>
    (statics_congr_map (fun _ _ => ite_dropUser_static _ _ _) hV3 w).trans (hS2 w)
  have hD3 : g3.getDefine beta = some betaInit := by
    rw [getDefine_congr_map (fun _ _ => ite_dropUser_define _ _ _) hV3, hD2]
  have A3 := hN3 addId
  rw [if_pos rfl] at A3
  obtain ⟨g4, e4, hN4, hV4, -⟩ := removeAllOutputs_spec A3
    (by simp [h.addOut, live_of_statics hS3 l5])
  have hS4 : ∀ w, g4.statics w = g.statics w := fun w =>
    (statics_congr_map (fun _ _ => ite_clearDefine_static _ _) hV4 w).trans (hS3 w)
  have hD4 : g4.getDefine beta = some betaInit := by
    rw [getDefine_of_not_output hV4 (by simp [h.addOut, d3]), hD3]
  have hsz : g4.nodes.length = g.nodes.length ∧ g4.values.length = g.values.length := by
    obtain ⟨a1, b1⟩ := removeAllInputs_size e1
    obtain ⟨a2, b2⟩ := removeAllOutputs_size e2
    obtain ⟨a3, b3⟩ := removeAllInputs_size e3
    obtain ⟨a4, b4⟩ := removeAllOutputs_size e4
    exact ⟨a4.trans (a3.trans (a2.trans a1)), b4.trans (b3.trans (b2.trans b1))⟩
  -- the new tensor gamma and its Initializer
  have hbf4 : g4.getFloatValues beta = some betaData := by
    rw [getFloatValues_of_statics (hS4 beta), h.betaFloat]
  obtain ⟨bT4, hb4, hname, hdims, -⟩ := exists_of_statics (hS4 beta) hbeta
  have hfresh4 : g4.hasName (gammaName bT4.name tensorIdx) = false := by
    rw [hname]
    exact hasName_of_statics hS4 hfresh
  obtain ⟨g5, e5, hN5, hV5, hnodes5, -⟩ := addValue_spec
    (t := { name := gammaName bT4.name tensorIdx, dims := bT4.dims,
            data := TensorData.float [], define := none, uses := [] }) hfresh4
  rw [hsz.2] at e5 hV5
  have hS5 : ∀ w, w ≠ g.values.length → g5.statics w = g.statics w := fun w hw => by
    rw [statics_set hV5 w, if_neg hw, hS4 w]
  have hD5 : g5.getDefine beta = some betaInit := by
    rw [getDefine_of_ne hV5 vb, hD4]
  obtain ⟨g6, hg6⟩ : ∃ g6, (g5.addOperator OpKind.Initializer 0).1 = g6 := ⟨_, rfl⟩
  obtain ⟨hc, hN6, hV6, -⟩ := addOperator_spec g5 OpKind.Initializer 0
  have hlen5 : g5.nodes.length = g.nodes.length := by rw [hnodes5, hsz.1]
  rw [hg6, hlen5] at hN6
  rw [hg6] at hV6
  rw [hlen5] at hc
  have hD6 : g6.getDefine beta = some betaInit := by
    rw [getDefine_congr_same hV6, hD5]
  have C6 := hN6 g.nodes.length
  rw [if_pos rfl] at C6
  have G6 := hV6 g.values.length
  rw [hV5, if_pos rfl] at G6
  obtain ⟨g7, e7, hN7, hV7, -⟩ := addOutput_spec C6 G6
  have hS7 : ∀ w, w ≠ g.values.length → g7.statics w = g.statics w := fun w hw => by
    rw [statics_set hV7 w, if_neg hw, statics_congr_same hV6 w, hS5 w hw]
  have hD7 : g7.getDefine beta = some betaInit := by
    rw [getDefine_of_ne hV7 vb, hD6]
  have G7 := hV7 g.values.length
  rw [if_pos rfl] at G7
  have hG7d : g7.getDefine g.values.length = some g.nodes.length := by
    simp [ComputeGraph.getDefine, G7]
  have bf7 : g7.getFloatValues beta = some betaData := by
    rw [getFloatValues_of_statics (hS7 beta vb), h.betaFloat]
  have af7 : g7.getFloatValues alpha = some alphaData := by
    rw [getFloatValues_of_statics (hS7 alpha va), h.alphaFloat]
  obtain ⟨g8, e8, hN8, hV8, -⟩ := setData_spec (TensorData.float gammaData) G7
  have hS8 : ∀ w, g8.statics w =
      if w = g.values.length then
        some (gammaName betaT.name tensorIdx, betaT.dims, TensorData.float gammaData)
      else g.statics w := fun w => by
    rw [statics_set hV8 w]
    by_cases e : w = g.values.length
    · simp [e, Tensor.static, hname, hdims]
    · rw [if_neg e, if_neg e, hS7 w e]
  have hD8 : g8.getDefine beta = some betaInit := by
    rw [getDefine_of_ne hV8 vb, hD7]
  have hG8d : g8.getDefine g.values.length = some g.nodes.length := by
    rw [getDefine_congr_set G7 hV8 rfl, hG7d]
  -- erase beta and its Initializer
  have I8 : g8.getNode betaInit = some opI := by
    rw [hN8, hN7, if_neg hci, hN6, if_neg hci, hN5, hN4, if_neg h3, hN3, if_neg h3, hN2,
      if_neg h2, hN1, if_neg h2, hI]
  obtain ⟨g9, e9, hN9, hV9, -⟩ := eraseNode_spec I8
  have hS9 : ∀ w, g9.statics w = g8.statics w := statics_congr_same hV9
  have hG9d : g9.getDefine g.values.length = some g.nodes.length := by
    rw [getDefine_congr_same hV9, hG8d]
  have hB9 : g9.statics beta = g.statics beta := by rw [hS9, hS8, if_neg vb]
  obtain ⟨tB9, htB9⟩ := live_of_statics_eq hB9 l3
  obtain ⟨g10, e10, hN10, hV10, -⟩ := eraseValue_spec htB9
  have hS10 : ∀ w, g10.statics w =
      if w = beta then none
      else if w = g.values.length then
        some (gammaName betaT.name tensorIdx, betaT.dims, TensorData.float gammaData)
      else g.statics w := fun w => by
    rw [statics_erase hV10 w, hS9 w, hS8 w]
  have hG10d : g10.getDefine g.values.length = some g.nodes.length := by
    rw [getDefine_of_ne hV10 (Ne.symm vb), hG9d]
  have keep : ∀ {g' : ComputeGraph F} {w : Nat},
      (∀ w, g'.statics w =
        if w = beta then none
        else if w = g.values.length then
          some (gammaName betaT.name tensorIdx, betaT.dims, TensorData.float gammaData)
        else g.statics w) →
      w ≠ beta → w ≠ g.values.length → g'.statics w = g.statics w := by
    intro g' w hS hb hl
    rw [hS, if_neg hb, if_neg hl]
  have keepG : ∀ {g' : ComputeGraph F},
      (∀ w, g'.statics w =
        if w = beta then none
        else if w = g.values.length then
          some (gammaName betaT.name tensorIdx, betaT.dims, TensorData.float gammaData)
        else g.statics w) →
      ∃ t, g'.getValue g.values.length = some t := by
    intro g' hS
    have := hS g.values.length
    rw [if_neg (Ne.symm vb), if_pos rfl] at this
    exact live_of_statics_some this
  -- re-connect the Add
  have A10 : g10.getNode addId = some { { add with inputs := [] } with outputs := [] } := by
    rw [hN10, hN9, if_neg (Ne.symm h3), hN8, hN7, if_neg hca, hN6, if_neg hca, hN5, hN4,
      if_pos rfl]
  obtain ⟨tX, htX⟩ := live_of_statics_eq (keep hS10 (Ne.symm d1) vx) l1
  obtain ⟨g11, e11, hN11, hV11, -⟩ := addInput_spec A10 htX
  have hS11 := fun w => (statics_congr_set htX hV11 rfl w).trans (hS10 w)
  have hG11d : g11.getDefine g.values.length = some g.nodes.length := by
    rw [getDefine_congr_set htX hV11 rfl, hG10d]
  have A11 := hN11 addId
  rw [if_pos rfl] at A11
  obtain ⟨tG, htG⟩ := keepG hS11
  obtain ⟨g12, e12, hN12, hV12, -⟩ := addInput_spec A11 htG
  have hS12 := fun w => (statics_congr_set htG hV12 rfl w).trans (hS11 w)
  have hG12d : g12.getDefine g.values.length = some g.nodes.length := by
    rw [getDefine_congr_set htG hV12 rfl, hG11d]
  have A12 := hN12 addId
  rw [if_pos rfl] at A12
  obtain ⟨tT, htT⟩ := live_of_statics_eq (keep hS12 (Ne.symm d2) vt) l4
  obtain ⟨g13, e13, hN13, hV13, -⟩ := addOutput_spec A12 htT
  have hS13 := fun w => (statics_congr_set htT hV13 rfl w).trans (hS12 w)
  have hG13d : g13.getDefine g.values.length = some g.nodes.length := by
    rw [getDefine_of_ne hV13 (Ne.symm vt), hG12d]
  have hT13d : g13.getDefine tmp = some addId := by
    simp [ComputeGraph.getDefine, hV13]
  -- re-connect the Mul
  have M13 : g13.getNode n = some { { mul with inputs := [] } with outputs := [] } := by
    rw [hN13, if_neg h1, hN12, if_neg h1, hN11, if_neg h1, hN10, hN9, if_neg (Ne.symm h2),
      hN8, hN7, if_neg hcn, hN6, if_neg hcn, hN5, hN4, if_neg h1, hN3, if_neg h1, hN2,
      if_pos rfl]
  obtain ⟨tT13, htT13⟩ := live_of_statics_eq (keep hS13 (Ne.symm d2) vt) l4
  obtain ⟨g14, e14, hN14, hV14, -⟩ := addInput_spec M13 htT13
  have hS14 := fun w => (statics_congr_set htT13 hV14 rfl w).trans (hS13 w)
  have hG14d : g14.getDefine g.values.length = some g.nodes.length := by
    rw [getDefine_congr_set htT13 hV14 rfl, hG13d]
  have hT14d : g14.getDefine tmp = some addId := by
    rw [getDefine_congr_set htT13 hV14 rfl, hT13d]
  have M14 := hN14 n
  rw [if_pos rfl] at M14
  obtain ⟨tA14, htA14⟩ := live_of_statics_eq (keep hS14 h.alpha_ne_beta va) l2
  obtain ⟨g15, e15, hN15, hV15, -⟩ := addInput_spec M14 htA14
  have hS15 := fun w => (statics_congr_set htA14 hV15 rfl w).trans (hS14 w)
  have hG15d : g15.getDefine g.values.length = some g.nodes.length := by
    rw [getDefine_congr_set htA14 hV15 rfl, hG14d]
  have hT15d : g15.getDefine tmp = some addId := by
    rw [getDefine_congr_set htA14 hV15 rfl, hT14d]
  have M15 := hN15 n
  rw [if_pos rfl] at M15
  obtain ⟨tY15, htY15⟩ := live_of_statics_eq (keep hS15 (Ne.symm d3) vy) l5
  obtain ⟨g16, e16, hN16, hV16, -⟩ := addOutput_spec M15 htY15
  have hS16 := fun w => (statics_congr_set htY15 hV16 rfl w).trans (hS15 w)
  have hG16d : g16.getDefine g.values.length = some g.nodes.length := by
    rw [getDefine_of_ne hV16 (Ne.symm vy), hG15d]
  have hT16d : g16.getDefine tmp = some addId := by
    rw [getDefine_of_ne hV16 d4, hT15d]
  have hY16d : g16.getDefine outputY = some n := by
    simp [ComputeGraph.getDefine, hV16]
  -- rename the two outputs
  have A16 : g16.getNode addId = some
      { { { { { add with inputs := [] } with outputs := [] } with inputs := [] ++ [x] } with
          inputs := [] ++ [x] ++ [g.values.length] } with outputs := [] ++ [tmp] } := by
    rw [hN16, if_neg (Ne.symm h1), hN15, if_neg (Ne.symm h1), hN14, if_neg (Ne.symm h1), hN13,
      if_pos rfl]
  have hoA16 : g16.getOutput addId 0 = some tmp := by
    simp [ComputeGraph.getOutput, A16]
  obtain ⟨tT16, htT16⟩ := live_of_statics_eq (keep hS16 (Ne.symm d2) vt) l4
  have sT := static_of_statics (keep hS16 (Ne.symm d2) vt) htmp htT16
  obtain ⟨g17, e17, hN17, hV17, -⟩ := setName_spec yT.name htT16
  have hG17d : g17.getDefine g.values.length = some g.nodes.length := by
    rw [getDefine_congr_set htT16 hV17 rfl, hG16d]
  have hT17d : g17.getDefine tmp = some addId := by
    rw [getDefine_congr_set htT16 hV17 rfl, hT16d]
  have hY17d : g17.getDefine outputY = some n := by
    rw [getDefine_congr_set htT16 hV17 rfl, hY16d]
  have M17 : g17.getNode n = some
      { { { { { mul with inputs := [] } with outputs := [] } with inputs := [] ++ [tmp] } with
          inputs := [] ++ [tmp] ++ [alpha] } with outputs := [] ++ [outputY] } := by
    rw [hN17, hN16, if_pos rfl]
  have hoM17 : g17.getOutput n 0 = some outputY := by
    simp [ComputeGraph.getOutput, M17]
  have hY17s : g17.statics outputY = g.statics outputY := by
    rw [statics_set hV17, if_neg (Ne.symm d4)]
    exact keep hS16 (Ne.symm d3) vy
  obtain ⟨tY17, htY17⟩ := live_of_statics_eq hY17s l5
  have sY := static_of_statics hY17s hy htY17
  obtain ⟨g18, e18, hN18, hV18, -⟩ := setName_spec tmpT.name htY17
  have hG18d : g18.getDefine g.values.length = some g.nodes.length := by
    rw [getDefine_congr_set htY17 hV18 rfl, hG17d]
  have hT18d : g18.getDefine tmp = some addId := by
    rw [getDefine_congr_set htY17 hV18 rfl, hT17d]
  have hY18d : g18.getDefine outputY = some n := by
    rw [getDefine_congr_set htY17 hV18 rfl, hY17d]
  simp only [Tensor.static, Prod.mk.injEq] at sT sY
  refine ⟨g18, gammaData, ?_, hfold, ?_, ?_, hG18d, hT18d, hY18d⟩
  · have hdM : g.dynCast OpKind.Mul n = some n := by
      simp [ComputeGraph.dynCast, h.hmul, h.mulKind]
    have hdA : g.dynCast OpKind.Add addId = some addId := by
      simp [ComputeGraph.dynCast, h.hadd, h.addKind]
    have hoM : g.getOutput n 0 = some tmp := by
      simp [ComputeGraph.getOutput, h.hmul, h.mulOut]
    have hoA : g.getOutput addId 0 = some outputY := by
      simp [ComputeGraph.getOutput, h.hadd, h.addOut]
    have hnY : g.getName outputY = some yT.name := by
      simp [ComputeGraph.getName, hy]
    have hnT : g.getName tmp = some tmpT.name := by
      simp [ComputeGraph.getName, htmp]
    have hiM : ∃ m0 m1 c0, g.getInput n 0 = some m0 ∧ isConstant g m0 = some c0 ∧
        g.getInput n 1 = some m1 ∧ (if c0 = true then m0 else m1) = alpha ∧
        (if c0 = true then m1 else m0) = x := by
      rcases h.mulIn with e | e
      · exact ⟨x, alpha, false, by simp [ComputeGraph.getInput, h.hmul, e], h.xNotConst,
          by simp [ComputeGraph.getInput, h.hmul, e], by simp, by simp⟩
      · exact ⟨alpha, x, true, by simp [ComputeGraph.getInput, h.hmul, e], h.alphaConst,
          by simp [ComputeGraph.getInput, h.hmul, e], by simp, by simp⟩
    have hiA : ∃ a0 a1 c1, g.getInput addId 0 = some a0 ∧ isConstant g a0 = some c1 ∧
        g.getInput addId 1 = some a1 ∧ (if c1 = true then a0 else a1) = beta ∧
        (if c1 = true then a1 else a0) = tmp := by
      rcases h.addIn with e | e
      · exact ⟨tmp, beta, false, by simp [ComputeGraph.getInput, h.hadd, e], cT,
          by simp [ComputeGraph.getInput, h.hadd, e], by simp, by simp⟩
      · exact ⟨beta, tmp, true, by simp [ComputeGraph.getInput, h.hadd, e], cB,
          by simp [ComputeGraph.getInput, h.hadd, e], by simp, by simp⟩
    obtain ⟨m0, m1, c0, hiM0, hcM0, hiM1, hα, hx⟩ := hiM
    obtain ⟨a0, a1, c1, hiA0, hcA0, hiA1, hβ, ht⟩ := hiA
    unfold NvDlaReorderMulAddPass.rewrite
    rw [hdM, andThen_some, hoM, andThen_some, hk, andThen_some, List.getElem?_cons_zero,
      andThen_some, hdA, andThen_some, hiM0, andThen_some, hcM0, andThen_some, hiM1,
      andThen_some]
    dsimp only
    rw [hα, hx, hiA0, andThen_some, hcA0, andThen_some, hiA1, andThen_some]
    rw [hβ, ht, hoA, andThen_some, hnY, andThen_some, andThen_some, hnT, andThen_some,
      e1, andThen_some, e2, andThen_some, e3, andThen_some, e4, andThen_some, hbf4,
      andThen_some, hb4, andThen_some, e5, andThen_some]
    dsimp only
    rw [hg6, hc, e7, andThen_some, bf7, andThen_some, af7, andThen_some, hfold, andThen_some,
      e8, andThen_some, hD8, andThen_some, e9, andThen_some, e10, andThen_some, e11,
      andThen_some, e12, andThen_some, e13, andThen_some, e14, andThen_some, e15,
      andThen_some, e16, andThen_some, hoA16, andThen_some, e17, andThen_some, hoM17,
      andThen_some, e18, andThen_some]
  · intro m
    rw [hN18, hN17, hN16, hN15, hN14, hN13, hN12, hN11, hN10, hN9, hN8, hN7, hN6, hN5, hN4,
      hN3, hN2, hN1]
    by_cases c1 : m = g.nodes.length
    · subst c1
      simp [Ne.symm hcn, Ne.symm hca, Ne.symm hci]
    · by_cases c2 : m = betaInit
      · subst c2
        simp [c1, h2, h3]
      · by_cases c3 : m = addId
        · subst c3
          simp [c1, c2, Ne.symm h1]
        · by_cases c4 : m = n
          · subst c4
            simp [c1, c2, c3]
          · simp [c1, c2, c3, c4]
  · intro w
    rw [statics_set hV18 w, statics_set hV17 w, hS16 w]
    by_cases c1 : w = outputY
    · simp [c1, Tensor.static, sY]
    · by_cases c2 : w = tmp
      · simp [c2, d4, Tensor.static, sT]
      · simp [c1, c2]

/-! ## The scanning loop of the pass drivers -/

theorem or_kModuleChanged_idem (a : Nat) :
    (a ||| kModuleChanged) ||| kModuleChanged = a ||| kModuleChanged := by
  rw [Nat.or_assoc, Nat.or_self]

/-- The scanning loop queues exactly the accepted operators, in iteration order, and
raises the flag when there is one; it is defined when the matcher is defined on every
operator it visits. -/
theorem foldlM_collect (f : List Nat × Nat → Nat → Option (List Nat × Nat))
    (m : Nat → Option Bool)
    (hf : ∀ acc node, f acc node =
      (m node).map fun b => if b then (acc.1 ++ [node], acc.2 ||| kModuleChanged) else acc)
    (l : List Nat) :
    ∀ acc : List Nat × Nat, (∀ n ∈ l, (m n).isSome = true) →
      l.foldlM f acc =
        some (acc.1 ++ l.filter (fun n => m n == some true),
          if l.any (fun n => m n == some true) then acc.2 ||| kModuleChanged else acc.2) := by
  induction l with
  | nil => intro acc _; simp
  | cons a l ih =>
    intro acc hdef
    obtain ⟨b, hb⟩ := Option.isSome_iff_exists.mp (hdef a (List.mem_cons_self a l))
    have hdef' : ∀ n ∈ l, (m n).isSome = true := fun n hn => hdef n (List.mem_cons_of_mem a hn)
    rw [List.foldlM_cons, hf, hb]
    cases b with
    | true =>
      simp only [Option.map_some', if_true, Option.bind_eq_bind, Option.some_bind]
      rw [ih _ hdef']
      simp [hb, or_kModuleChanged_idem]
    | false =>
      simp only [Option.map_some', Bool.false_eq_true, if_false, Option.bind_eq_bind,
        Option.some_bind]
      rw [ih _ hdef']
      simp [hb]

/-- A scanning loop that returns has found the matcher defined on every operator. -/
theorem foldlM_collect_defined (f : List Nat × Nat → Nat → Option (List Nat × Nat))
    (m : Nat → Option Bool)
    (hf : ∀ acc node, f acc node =
      (m node).map fun b => if b then (acc.1 ++ [node], acc.2 ||| kModuleChanged) else acc)
    (l : List Nat) :
    ∀ acc r : List Nat × Nat, l.foldlM f acc = some r → ∀ n ∈ l, (m n).isSome = true := by
  induction l with
  | nil => intro _ _ _ n hn; simp at hn
  | cons a l ih =>
    intro acc r hr n hn
    rw [List.foldlM_cons, hf] at hr
    cases hma : m a with
    | none => simp [hma] at hr
    | some b =>
      rw [hma] at hr
      simp only [Option.map_some', Option.bind_eq_bind, Option.some_bind] at hr
      rcases List.mem_cons.mp hn with e | e
      · rw [e, hma]; rfl
      · exact ih _ _ hr n e

/-- The flag computed by a scanning loop started from the empty queue. -/
theorem collect_flag (f : List Nat × Nat → Nat → Option (List Nat × Nat))
    (m : Nat → Option Bool)
    (hf : ∀ acc node, f acc node =
      (m node).map fun b => if b then (acc.1 ++ [node], acc.2 ||| kModuleChanged) else acc)
    (l : List Nat) :
    ((∀ n ∈ l, (m n).isSome = true) →
      ∃ q ret, l.foldlM f ([], kModuleNoChanged) = some (q, ret)) ∧
    (∀ q ret, l.foldlM f ([], kModuleNoChanged) = some (q, ret) →
      (ret = kModuleChanged ↔ ∃ n ∈ l, m n = some true) ∧
      (ret = kModuleNoChanged ↔ ¬ ∃ n ∈ l, m n = some true)) := by
  constructor
  · intro hdef
    exact ⟨_, _, foldlM_collect f m hf l _ hdef⟩
  · intro q ret hr
    have hdef := foldlM_collect_defined f m hf l _ _ hr
    rw [foldlM_collect f m hf l _ hdef] at hr
    have hret : ret = if l.any (fun n => m n == some true) then kModuleChanged
        else kModuleNoChanged := by
      have := (Prod.mk.inj (Option.some.inj hr)).2
      rw [← this]
      by_cases hany : l.any (fun n => m n == some true) = true
      · simp [hany, kModuleNoChanged, kModuleChanged]
      · simp [hany]
    have hiff : l.any (fun n => m n == some true) = true ↔ ∃ n ∈ l, m n = some true := by
      simp [List.any_eq_true]
    by_cases hany : l.any (fun n => m n == some true) = true
    · rw [hret, if_pos hany]
      exact ⟨⟨fun _ => hiff.mp hany, fun _ => rfl⟩,
        ⟨fun e => absurd e (by decide), fun e => absurd (hiff.mp hany) e⟩⟩
    · rw [hret, if_neg hany]
      exact ⟨⟨fun e => absurd e (by decide), fun e => absurd (hiff.mpr e) hany⟩,
        ⟨fun _ e => hany (hiff.mpr e), fun _ => rfl⟩⟩

/-! ## Properties of the matchers -/

/-- C1: `isAddMulRelu` answers true exactly on an Add whose output 0 has exactly one
use, by a Mul whose output 0 has exactly one use, by a Relu.  It answers false when
the output of the Add, or of the Mul, has two or more uses, and its answer does not
change when the use-list of a value that is not output 0 of an Add or a Mul (such as
the output of the Relu) is replaced by any other list. -/
theorem isAddMulRelu_exactly_single_use_chain (g : ComputeGraph F) (n : Nat) :
    (isAddMulRelu g n = some true ↔ AddMulReluChain g n) ∧
    (∀ add addC us, g.getNode n = some add → add.outputs[0]? = some addC →
      g.getUses addC = some us → 2 ≤ us.length → isAddMulRelu g n = some false) ∧
    (∀ add addC u mul mulC us, g.getNode n = some add → add.outputs[0]? = some addC →
      g.getUses addC = some [u] → g.getNode u.user = some mul →
      mul.outputs[0]? = some mulC → g.getUses mulC = some us → 2 ≤ us.length →
      isAddMulRelu g n = some false) ∧
    (∀ y t us, g.getValue y = some t →
      (∀ m op, g.getNode m = some op → op.kind = OpKind.Add ∨ op.kind = OpKind.Mul →
        op.outputs[0]? ≠ some y) →
      isAddMulRelu (g.setValue y (some { t with uses := us })) n = isAddMulRelu g n) := by
  refine ⟨isAddMulRelu_eq_true_iff g n, ?_, ?_, ?_⟩
  · intro add addC us hn ho hu hlen
    have hlt : 1 < us.length := hlen
    by_cases hk : add.kind = OpKind.Add
    · simp [isAddMulRelu, ComputeGraph.isa, ComputeGraph.getOutput, hn, hk, ho, hu, hlt]
    · simp [isAddMulRelu, ComputeGraph.isa, hn, hk]
  · intro add addC u mul mulC us hn ho hu hm hmo hu2 hlen
    have hlt : 1 < us.length := hlen
    by_cases hk : add.kind = OpKind.Add
    · by_cases hmk : mul.kind = OpKind.Mul
      · simp [isAddMulRelu, ComputeGraph.isa, ComputeGraph.getOutput, hn, hk, ho, hu, hm, hmk,
          hmo, hu2, hlt]
      · simp [isAddMulRelu, ComputeGraph.isa, ComputeGraph.getOutput, hn, hk, ho, hu, hm, hmk]
    · simp [isAddMulRelu, ComputeGraph.isa, hn, hk]
  · intro y t us hy hne
    exact isAddMulRelu_setUses g n y t us hy hne

/-- C7 (as amended): `canBeReordered` answers true only on a Mul with at least one
constant operand: operand 0 is constant, or operand 0 is not and operand 1 is. -/
theorem canBeReordered_mul_has_constant_operand (g : ComputeGraph F) (n : Nat)
    (h : canBeReordered g n = some true) :
    ∃ mul in0, g.getNode n = some mul ∧ mul.kind = OpKind.Mul ∧ mul.inputs[0]? = some in0 ∧
      (isConstant g in0 = some true ∨
        (isConstant g in0 = some false ∧
          ∃ in1, mul.inputs[1]? = some in1 ∧ isConstant g in1 = some true)) := by
  obtain ⟨mul, in0, _, _, _, h1, h2, h3, h4, _⟩ := canBeReordered_eq_true h
  exact ⟨mul, in0, h1, h2, h3, h4⟩

/-- C7, witness: the Mul of the specification's scenario. -/
theorem canBeReordered_mul_has_constant_operand_witness :
    canBeReordered reorderExample 3 = some true ∧
    ∃ mul in0, reorderExample.getNode 3 = some mul ∧ mul.kind = OpKind.Mul ∧
      mul.inputs[0]? = some in0 ∧
      (isConstant reorderExample in0 = some true ∨
        (isConstant reorderExample in0 = some false ∧
          ∃ in1, mul.inputs[1]? = some in1 ∧ isConstant reorderExample in1 = some true)) :=
  ⟨by decide, canBeReordered_mul_has_constant_operand reorderExample 3 (by decide)⟩

/-- C7, counterexample: in the well-formed graph `Mul(c1, c2) -> Add(_, c3)` both
operands of the Mul are constant and `canBeReordered` accepts the Mul. -/
theorem canBeReordered_accepts_mul_of_two_constants :
    mulOfConstants.wellFormed = true ∧
    mulOfConstants.getInput 3 0 = some 0 ∧ mulOfConstants.getInput 3 1 = some 1 ∧
    isConstant mulOfConstants 0 = some true ∧ isConstant mulOfConstants 1 = some true ∧
    canBeReordered mulOfConstants 3 = some true := by
  decide

/-- C8, the failing input: in the well-formed graph `Mul(x, alpha) -> Add(_, w)` the
only user of the Mul is an Add neither of whose operands is constant, and
`canBeReordered` accepts the Mul. -/
theorem canBeReordered_accepts_add_of_two_activations :
    addOfActivations.wellFormed = true ∧
    addOfActivations.getUses 3 = some [⟨3, 0⟩] ∧
    (addOfActivations.getNode 3).map (fun op => (op.kind, op.inputs)) =
      some (OpKind.Add, [3, 2]) ∧
    isConstant addOfActivations 3 = some false ∧ isConstant addOfActivations 2 = some false ∧
    canBeReordered addOfActivations 2 = some true := by
  decide

/-- C18: `isConstant` answers true exactly when the operator that produces the value
is an Initializer, and its answer is determined by the value's own record and the
kind of that one operator: the operator's inputs, and every other operator and
value, play no part. -/
theorem isConstant_iff_producer_is_Initializer (g : ComputeGraph F) (v : Nat) :
    (isConstant g v = some true ↔
      ∃ t p op, g.getValue v = some t ∧ t.define = some p ∧ g.getNode p = some op ∧
        op.kind = OpKind.Initializer) ∧
    (∀ g' : ComputeGraph F, g'.getValue v = g.getValue v →
      (∀ p, g.getDefine v = some p →
        (g'.getNode p).map (fun op => op.kind) = (g.getNode p).map (fun op => op.kind)) →
      isConstant g' v = isConstant g v) := by
  refine ⟨isConstant_eq_true_iff g v, ?_⟩
  intro g' hv hp
  unfold isConstant
  rw [hv]
  cases hval : g.getValue v with
  | none => rfl
  | some t =>
    cases hd : t.define with
    | none => simp [hd]
    | some p =>
      have := hp p (by simp [ComputeGraph.getDefine, hval, hd])
      simp only [Option.some_bind, hd, ComputeGraph.isa]
      cases h1 : g'.getNode p <;> cases h2 : g.getNode p <;> simp_all

/-! ## Properties of the fusion rewrite -/

/-- C2: in a well-formed graph, the fusion rewrite of an Add accepted by
`isAddMulRelu` succeeds; afterwards the Add, the Mul and the Relu and the two
interior values (the Add's output, the Mul's output) are gone, one new AddMulRelu
operator exists whose inputs are, in this order, the Add's input 0, the Add's input
1 and the Mul's operand that is not the Add's output, and whose single output is
the value that was the Relu's output, with its name and shape unchanged; every
other operator and the name, shape and data of every other value are untouched. -/
theorem fusion_rewrite_replaces_chain (g : ComputeGraph F) (n : Nat)
    (hwf : g.wellFormed = true) (hacc : isAddMulRelu g n = some true) :
    ∃ mulId reluId add mul relu addA addB addC mulB mulC reluY g',
      FuseMatch g n mulId reluId add mul relu addA addB addC mulB mulC reluY ∧
      NvDlaFuseAddMulReluPass.rewrite g n = some g' ∧
      g'.getNode n = none ∧ g'.getNode mulId = none ∧ g'.getNode reluId = none ∧
      g'.getValue addC = none ∧ g'.getValue mulC = none ∧
      g.getNode g.nodes.length = none ∧
      g'.getNode g.nodes.length =
        some { kind := OpKind.NvDlaAddMulRelu, inputs := [addA, addB, mulB],
               outputs := [reluY] } ∧
      (∀ m, m ≠ g.nodes.length → m ≠ n → m ≠ mulId → m ≠ reluId →
        g'.getNode m = g.getNode m) ∧
      (∃ y y', g.getValue reluY = some y ∧ g'.getValue reluY = some y' ∧
        y'.name = y.name ∧ y'.dims = y.dims ∧ y'.define = some g.nodes.length) ∧
      (∀ w, w ≠ addC → w ≠ mulC → g'.statics w = g.statics w) := by
  obtain ⟨mulId, reluId, add, mul, relu, addA, addB, addC, mulB, mulC, reluY, h⟩ :=
    fuseMatch_of_accept hwf hacc
  obtain ⟨g', hrw, hN, hS, hD⟩ := rewrite_of_fuseMatch hwf h
  obtain ⟨⟨h1, h2, h3⟩, ⟨d1, d2, d3, d4, d5, d6, d7, d8⟩, ⟨l1, l2, l3, l4, l5, l6⟩⟩ :=
    h.distinct hwf
  have hcn := ne_length_of_getNode h.hadd
  have hcm := ne_length_of_getNode h.hmul
  have hcr := ne_length_of_getNode h.hrelu
  have dead : ∀ w, g'.statics w = none → g'.getValue w = none := by
    intro w hw
    unfold ComputeGraph.statics at hw
    cases hv : g'.getValue w with
    | none => rfl
    | some t => simp [hv] at hw
  refine ⟨mulId, reluId, add, mul, relu, addA, addB, addC, mulB, mulC, reluY, g', h, hrw,
    ?_, ?_, ?_, ?_, ?_, ?_, ?_, ?_, ?_, ?_⟩
  · rw [hN, if_neg hcn, if_pos (Or.inl rfl)]
  · rw [hN, if_neg hcm, if_pos (Or.inr (Or.inl rfl))]
  · rw [hN, if_neg hcr, if_pos (Or.inr (Or.inr rfl))]
  · exact dead _ (by rw [hS, if_pos (Or.inl rfl)])
  · exact dead _ (by rw [hS, if_pos (Or.inr rfl)])
  · unfold ComputeGraph.getNode
    rw [List.getElem?_eq_none (le_refl _)]
    rfl
  · rw [hN, if_pos rfl]
  · intro m hm e1 e2 e3
    rw [hN, if_neg hm, if_neg (by simp [e1, e2, e3])]
  · obtain ⟨y, hy⟩ := Option.isSome_iff_exists.mp l6
    have hSy : g'.statics reluY = g.statics reluY := by
      rw [hS, if_neg (by simp [d6, d7])]
    obtain ⟨y', hy', hn', hd', -⟩ := exists_of_statics hSy hy
    refine ⟨y, y', hy, hy', hn', hd', ?_⟩
    unfold ComputeGraph.getDefine at hD
    simpa [hy'] using hD
  · intro w e1 e2
    rw [hS, if_neg (by simp [e1, e2])]

/-- C2, witness: the chain `Add(a, b) -> Mul(_, m) -> Relu -> y` becomes the single
operator `AddMulRelu(a, b, m) -> y`. -/
theorem fusion_rewrite_replaces_chain_witness :
    fuseExample.wellFormed = true ∧ isAddMulRelu fuseExample 1 = some true ∧
    ((NvDlaFuseAddMulReluPass.rewrite fuseExample 1).map fun g' => g'.nodes) =
      some [some { kind := OpKind.Other, inputs := [], outputs := [0, 1, 3] }, none, none, none,
        some { kind := OpKind.Other, inputs := [5, 5], outputs := [] },
        some { kind := OpKind.NvDlaAddMulRelu, inputs := [0, 1, 3], outputs := [5] }] ∧
    ((NvDlaFuseAddMulReluPass.rewrite fuseExample 1).map fun g' =>
      g'.values.map fun o => o.map fun t => t.name) =
      some [some "a", some "b", none, some "m", none, some "y"] ∧
    ∃ mulId reluId add mul relu addA addB addC mulB mulC reluY g',
      FuseMatch fuseExample 1 mulId reluId add mul relu addA addB addC mulB mulC reluY ∧
      NvDlaFuseAddMulReluPass.rewrite fuseExample 1 = some g' ∧
      g'.getNode 1 = none ∧ g'.getNode mulId = none ∧ g'.getNode reluId = none ∧
      g'.getValue addC = none ∧ g'.getValue mulC = none ∧
      fuseExample.getNode fuseExample.nodes.length = none ∧
      g'.getNode fuseExample.nodes.length =
        some { kind := OpKind.NvDlaAddMulRelu, inputs := [addA, addB, mulB],
               outputs := [reluY] } ∧
      (∀ m, m ≠ fuseExample.nodes.length → m ≠ 1 → m ≠ mulId → m ≠ reluId →
        g'.getNode m = fuseExample.getNode m) ∧
      (∃ y y', fuseExample.getValue reluY = some y ∧ g'.getValue reluY = some y' ∧
        y'.name = y.name ∧ y'.dims = y.dims ∧
        y'.define = some fuseExample.nodes.length) ∧
      (∀ w, w ≠ addC → w ≠ mulC → g'.statics w = fuseExample.statics w) :=
  ⟨by decide, by decide, by decide, by decide,
    fusion_rewrite_replaces_chain fuseExample 1 (by decide) (by decide)⟩

/-- C13, the failing input: in the well-formed graph `fuseShared` the two distinct
Adds 1 and 2 are both accepted by `isAddMulRelu`, the Mul and the Relu derived from
the first are the Mul and the Relu derived from the second (operators 3 and 4), and
the pass, which erases them with the first match, fails on the second. -/
theorem fusion_matches_share_mul_and_relu :
    fuseShared.wellFormed = true ∧
    isAddMulRelu fuseShared 1 = some true ∧ isAddMulRelu fuseShared 2 = some true ∧
    (fuseShared.getOutput 1 0).bind fuseShared.getUses = some [⟨3, 0⟩] ∧
    (fuseShared.getOutput 2 0).bind fuseShared.getUses = some [⟨3, 1⟩] ∧
    (fuseShared.getOutput 3 0).bind fuseShared.getUses = some [⟨4, 0⟩] ∧
    NvDlaFuseAddMulReluPass.collect fuseShared = some ([1, 2], kModuleChanged) ∧
    NvDlaFuseAddMulReluPass.runOnComputeGraph fuseShared = none := by
  decide

/-- C15: in a well-formed acyclic graph, the fusion rewrite of an accepted Add
succeeds and leaves an acyclic graph, which therefore has a full topological
ordering; no producer of one of the three inputs of the new AddMulRelu operator can
be reached from that operator along producer-to-consumer edges. -/
theorem fusion_rewrite_preserves_acyclicity (g : ComputeGraph F) (n : Nat)
    (hwf : g.wellFormed = true) (hacyc : g.Acyclic)
    (hacc : isAddMulRelu g n = some true) :
    ∃ g' addA addB mulB reluY,
      NvDlaFuseAddMulReluPass.rewrite g n = some g' ∧
      g'.getNode g.nodes.length =
        some { kind := OpKind.NvDlaAddMulRelu, inputs := [addA, addB, mulB],
               outputs := [reluY] } ∧
      g'.Acyclic ∧ g'.HasTopologicalOrder ∧
      ∀ p opp v, g'.getNode p = some opp → v ∈ opp.outputs → v ∈ [addA, addB, mulB] →
        ¬ Relation.ReflTransGen g'.precedes g.nodes.length p := by
  obtain ⟨mulId, reluId, add, mul, relu, addA, addB, addC, mulB, mulC, reluY, h⟩ :=
    fuseMatch_of_accept hwf hacc
  obtain ⟨g', hrw, hN, -, -⟩ := rewrite_of_fuseMatch hwf h
  have hnew := hN g.nodes.length
  rw [if_pos rfl] at hnew
  have hac : g'.Acyclic := fuse_acyclic h hN hacyc
  refine ⟨g', addA, addB, mulB, reluY, hrw, hnew, hac, hasTopologicalOrder_of_acyclic hac, ?_⟩
  intro p opp v hp hvo hvi hreach
  exact hac _ (Relation.TransGen.tail' hreach ⟨opp, _, v, hp, hnew, hvo, hvi⟩)

/-- C15, witness: the chain of `fuseExample`. -/
theorem fusion_rewrite_preserves_acyclicity_witness :
    fuseExample.wellFormed = true ∧ fuseExample.rankCheck [0, 1, 2, 3, 4] = true ∧
    isAddMulRelu fuseExample 1 = some true ∧
    ∃ g' addA addB mulB reluY,
      NvDlaFuseAddMulReluPass.rewrite fuseExample 1 = some g' ∧
      g'.getNode fuseExample.nodes.length =
        some { kind := OpKind.NvDlaAddMulRelu, inputs := [addA, addB, mulB],
               outputs := [reluY] } ∧
      g'.Acyclic ∧ g'.HasTopologicalOrder ∧
      ∀ p opp v, g'.getNode p = some opp → v ∈ opp.outputs → v ∈ [addA, addB, mulB] →
        ¬ Relation.ReflTransGen g'.precedes fuseExample.nodes.length p :=
  ⟨by decide, by decide, by decide,
    fusion_rewrite_preserves_acyclicity fuseExample 1 (by decide)
      (acyclic_of_rankCheck (r := [0, 1, 2, 3, 4]) (by decide)) (by decide)⟩

/-! ## Properties of the reorder pass -/

/-- C14, the failing input: in the well-formed graph `reorderShared` the two
distinct Muls 3 and 4 are both accepted by `canBeReordered`, and the Add derived as
the user of the first Mul's output is the Add derived for the second (operator 5);
the pass fails on it. -/
theorem reorder_matches_share_add :
    reorderShared.wellFormed = true ∧
    canBeReordered reorderShared 3 = some true ∧ canBeReordered reorderShared 4 = some true ∧
    (reorderShared.getOutput 3 0).bind reorderShared.getUses = some [⟨5, 0⟩] ∧
    (reorderShared.getOutput 4 0).bind reorderShared.getUses = some [⟨5, 1⟩] ∧
    NvDlaReorderMulAddPass.collect reorderShared = some ([3, 4], kModuleChanged) ∧
    NvDlaReorderMulAddPass.runOnComputeGraph reorderShared 0 = none := by
  decide

/-- C16, the failing input: the graph `addOfActivations` is well formed and acyclic
and its Mul is accepted by `canBeReordered`; the reorder rewrite succeeds and erases
operator 0, which it takes for the Initializer of beta, so that afterwards the live
value `x` names an erased operator as its producer and no live operator lists `x`
among its outputs. -/
theorem reorder_rewrite_erases_a_producer :
    addOfActivations.wellFormed = true ∧ addOfActivations.rankCheck [0, 0, 1, 2] = true ∧
    canBeReordered addOfActivations 2 = some true ∧
    ((NvDlaReorderMulAddPass.rewrite addOfActivations 0 2).map fun r => r.1.getName 0) =
      some (some "x") ∧
    ((NvDlaReorderMulAddPass.rewrite addOfActivations 0 2).map fun r => r.1.getDefine 0) =
      some (some 0) ∧
    ((NvDlaReorderMulAddPass.rewrite addOfActivations 0 2).map fun r => r.1.getNode 0) =
      some none ∧
    ((NvDlaReorderMulAddPass.rewrite addOfActivations 0 2).map fun r =>
      r.1.nodes.map fun o => o.map fun op => decide (0 ∈ op.outputs)) =
      some [none, some false, some false, some false, some false] ∧
    ((NvDlaReorderMulAddPass.rewrite addOfActivations 0 2).map fun r => r.1.wellFormed) =
      some false := by
  decide

/-! ## Properties of the pass drivers -/

theorem fuse_collect_step (g : ComputeGraph F) (acc : List Nat × Nat) (node : Nat) :
    (do
      if (← isAddMulRelu g node) then pure (acc.1 ++ [node], acc.2 ||| kModuleChanged)
      else pure acc : Option (List Nat × Nat)) =
    (isAddMulRelu g node).map fun b =>
      if b then (acc.1 ++ [node], acc.2 ||| kModuleChanged) else acc := by
  cases h : isAddMulRelu g node with
  | none => rfl
  | some b => cases b <;> rfl

theorem reorder_collect_step (g : ComputeGraph F) (acc : List Nat × Nat) (node : Nat) :
    (do
      if (← canBeReordered g node) then pure (acc.1 ++ [node], acc.2 ||| kModuleChanged)
      else pure acc : Option (List Nat × Nat)) =
    (canBeReordered g node).map fun b =>
      if b then (acc.1 ++ [node], acc.2 ||| kModuleChanged) else acc := by
  cases h : canBeReordered g node with
  | none => rfl
  | some b => cases b <;> rfl

theorem shuffle_collect_step (g : ComputeGraph F) (acc : List Nat × Nat) (op : Nat) :
    (do
      if (← g.isa OpKind.Reshape op) then
        if (← NvDlaIdentifyShufflePass.is_shuffle g op) then
          pure (acc.1 ++ [op], acc.2 ||| kModuleChanged)
        else pure acc
      else pure acc : Option (List Nat × Nat)) =
    ((g.isa OpKind.Reshape op).bind fun r =>
      if r then NvDlaIdentifyShufflePass.is_shuffle g op else some false).map fun b =>
      if b then (acc.1 ++ [op], acc.2 ||| kModuleChanged) else acc := by
  cases h : g.isa OpKind.Reshape op with
  | none => rfl
  | some r =>
    cases r with
    | false => rfl
    | true =>
      cases h2 : NvDlaIdentifyShufflePass.is_shuffle g op with
      | none => simp [h2]
      | some b => cases b <;> simp [h2]

theorem shuffle_accept_iff (g : ComputeGraph F) (op : Nat) :
    ((g.isa OpKind.Reshape op).bind fun r =>
      if r then NvDlaIdentifyShufflePass.is_shuffle g op else some false) = some true ↔
    g.isa OpKind.Reshape op = some true ∧
      NvDlaIdentifyShufflePass.is_shuffle g op = some true := by
  cases h : g.isa OpKind.Reshape op with
  | none => simp
  | some r => cases r <;> simp

/-- The flag of a run that returns: whenever one of the three passes returns, its flag
is `kModuleChanged` if and only if at least one operator in the iteration order of the
input graph is accepted by the pass's matcher (for the shuffle pass: is a Reshape
accepted by `is_shuffle`), and `kModuleNoChanged` otherwise; the scan itself returns
whenever the matcher is defined on every operator. -/
theorem runOnComputeGraph_flag_iff_match [Div F] (g : ComputeGraph F) :
    ((∀ g' ret, NvDlaIdentifyShufflePass.runOnComputeGraph g = some (g', ret) →
        (ret = kModuleChanged ↔ ∃ n ∈ g.order, g.isa OpKind.Reshape n = some true ∧
          NvDlaIdentifyShufflePass.is_shuffle g n = some true) ∧
        (ret = kModuleNoChanged ↔ ¬ ∃ n ∈ g.order, g.isa OpKind.Reshape n = some true ∧
          NvDlaIdentifyShufflePass.is_shuffle g n = some true)) ∧
      (∀ g' ret, NvDlaFuseAddMulReluPass.runOnComputeGraph g = some (g', ret) →
        (ret = kModuleChanged ↔ ∃ n ∈ g.order, isAddMulRelu g n = some true) ∧
        (ret = kModuleNoChanged ↔ ¬ ∃ n ∈ g.order, isAddMulRelu g n = some true)) ∧
      (∀ idx g' idx' ret,
        NvDlaReorderMulAddPass.runOnComputeGraph g idx = some ((g', idx'), ret) →
        (ret = kModuleChanged ↔ ∃ n ∈ g.order, canBeReordered g n = some true) ∧
        (ret = kModuleNoChanged ↔ ¬ ∃ n ∈ g.order, canBeReordered g n = some true))) ∧
    (((∀ n ∈ g.order, (isAddMulRelu g n).isSome = true) →
        (NvDlaFuseAddMulReluPass.collect g).isSome = true) ∧
      ((∀ n ∈ g.order, (canBeReordered g n).isSome = true) →
        (NvDlaReorderMulAddPass.collect g).isSome = true)) := by
  refine ⟨⟨?_, ?_, ?_⟩, ⟨?_, ?_⟩⟩
  · intro g' ret hrun
    unfold NvDlaIdentifyShufflePass.runOnComputeGraph at hrun
    cases hc : NvDlaIdentifyShufflePass.collect g with
    | none => simp [hc] at hrun
    | some qr =>
      obtain ⟨q, r⟩ := qr
      rw [hc] at hrun
      simp only [Option.bind_eq_bind, Option.some_bind] at hrun
      cases hfold : List.foldlM NvDlaIdentifyShufflePass.rewrite g q with
      | none => simp [hfold] at hrun
      | some g2 =>
        simp only [hfold, Option.some_bind, Option.pure_def, Option.some.injEq,
          Prod.mk.injEq] at hrun
        obtain ⟨-, rfl⟩ := hrun
        have := (collect_flag _ _ (shuffle_collect_step g) g.order).2 q r hc
        simpa only [shuffle_accept_iff] using this
  · intro g' ret hrun
    unfold NvDlaFuseAddMulReluPass.runOnComputeGraph at hrun
    cases hc : NvDlaFuseAddMulReluPass.collect g with
    | none => simp [hc] at hrun
    | some qr =>
      obtain ⟨q, r⟩ := qr
      rw [hc] at hrun
      simp only [Option.bind_eq_bind, Option.some_bind] at hrun
      cases hfold : List.foldlM NvDlaFuseAddMulReluPass.rewrite g q with
      | none => simp [hfold] at hrun
      | some g2 =>
        simp only [hfold, Option.some_bind, Option.pure_def, Option.some.injEq,
          Prod.mk.injEq] at hrun
        obtain ⟨-, rfl⟩ := hrun
        exact (collect_flag _ _ (fuse_collect_step g) g.order).2 q r hc
  · intro idx g' idx' ret hrun
    unfold NvDlaReorderMulAddPass.runOnComputeGraph at hrun
    cases hc : NvDlaReorderMulAddPass.collect g with
    | none => simp [hc] at hrun
    | some qr =>
      obtain ⟨q, r⟩ := qr
      rw [hc] at hrun
      simp only [Option.bind_eq_bind, Option.some_bind] at hrun
      cases hfold : List.foldlM (fun (st : ComputeGraph F × Nat) node =>
          NvDlaReorderMulAddPass.rewrite st.1 st.2 node) (g, idx) q with
      | none => simp [hfold] at hrun
      | some st =>
        simp only [hfold, Option.some_bind, Option.pure_def, Option.some.injEq,
          Prod.mk.injEq] at hrun
        obtain ⟨-, rfl⟩ := hrun
        exact (collect_flag _ _ (reorder_collect_step g) g.order).2 q r hc
  · intro hdef
    obtain ⟨q, r, h⟩ := (collect_flag _ _ (fuse_collect_step g) g.order).1 hdef
    unfold NvDlaFuseAddMulReluPass.collect
    rw [h]; rfl
  · intro hdef
    obtain ⟨q, r, h⟩ := (collect_flag _ _ (reorder_collect_step g) g.order).1 hdef
    unfold NvDlaReorderMulAddPass.collect
    rw [h]; rfl

/-! ## Properties of the reorder rewrite -/

namespace ComputeGraph

theorem getValue_eq_none_of_statics {g : ComputeGraph F} {w : Nat}
    (h : g.statics w = none) : g.getValue w = none := by
  unfold statics at h
  cases hv : g.getValue w with
  | none => rfl
  | some t => simp [hv] at h

theorem exists_of_statics_some {g : ComputeGraph F} {w : Nat} {a : String} {b : List Int}
    {c : TensorData F} (h : g.statics w = some (a, b, c)) :
    ∃ t, g.getValue w = some t ∧ t.name = a ∧ t.dims = b ∧ t.data = c := by
  unfold statics at h
  cases hv : g.getValue w with
  | none => simp [hv] at h
  | some t =>
    rw [hv] at h
    simp only [Option.map_some', Option.some.injEq, Tensor.static, Prod.mk.injEq] at h
    exact ⟨t, rfl, h.1, h.2.1, h.2.2⟩

theorem getFloatValues_of_statics_some {g : ComputeGraph F} {w : Nat} {a : String}
    {b : List Int} {vs : List F} (h : g.statics w = some (a, b, TensorData.float vs)) :
    g.getFloatValues w = some vs := by
  obtain ⟨t, ht, -, -, hd⟩ := exists_of_statics_some h
  simp [getFloatValues, ht, hd]

theorem getValue_length (g : ComputeGraph F) : g.getValue g.values.length = none := by
  unfold getValue
  rw [List.getElem?_eq_none (le_refl _)]
  rfl

theorem getNode_length (g : ComputeGraph F) : g.getNode g.nodes.length = none := by
  unfold getNode
  rw [List.getElem?_eq_none (le_refl _)]
  rfl

end ComputeGraph

/-- The reorder rewrite on a pair it is defined on.  In a well-formed graph containing
`Mul(x, alpha) -> Add(_, beta)`, operands in either slot order, with `x` not constant,
`alpha` and `beta` two distinct constant float tensors, `alpha` with at least as many
elements as `beta`, the Mul's output used only by the Add, and the name generated for
gamma not yet taken, the reorder rewrite succeeds.  Afterwards the Add's inputs are
exactly `[x, gamma]` and its single output is the value that was the Mul's output, the
Mul's inputs are exactly that value and `alpha`, and the Mul's single output is the
value that was the Add's output, now produced by the Mul; gamma is a new value,
produced by a new Initializer and holding the folded data; beta and its Initializer
are gone and every other operator is untouched, so every consumer of the Add's former
output reads the Mul's result. -/
theorem reorder_rewrite_rewires_pair [Div F] (g : ComputeGraph F) (tensorIdx n addId : Nat)
    (mul add : ComputeOperator) (x alpha beta tmp outputY betaInit : Nat)
    (alphaData betaData : List F) (betaName : String)
    (hwf : g.wellFormed = true)
    (h : ReorderMatch g n addId mul add x alpha beta tmp outputY betaInit alphaData betaData)
    (hname : g.getName beta = some betaName)
    (hfresh : g.hasName (gammaName betaName tensorIdx) = false) :
    ∃ g' gammaData,
      NvDlaReorderMulAddPass.rewrite g tensorIdx n = some (g', (tensorIdx + 1) % 2 ^ 32) ∧
      g.getValue g.values.length = none ∧ g.getNode g.nodes.length = none ∧
      g'.getNode addId = some { add with inputs := [x, g.values.length], outputs := [tmp] } ∧
      g'.getNode n = some { mul with inputs := [tmp, alpha], outputs := [outputY] } ∧
      g'.getNode g.nodes.length =
        some { kind := OpKind.Initializer, inputs := [], outputs := [g.values.length] } ∧
      g'.getNode betaInit = none ∧ g'.getValue beta = none ∧
      (∀ m, m ≠ g.nodes.length → m ≠ betaInit → m ≠ addId → m ≠ n →
        g'.getNode m = g.getNode m) ∧
      g'.getDefine g.values.length = some g.nodes.length ∧
      g'.getDefine tmp = some addId ∧ g'.getDefine outputY = some n ∧
      foldGamma betaData alphaData = some gammaData ∧
      g'.getFloatValues g.values.length = some gammaData ∧
      g'.getFloatValues alpha = some alphaData := by
  obtain ⟨⟨h1, h2, h3, opI, hI⟩, ⟨d1, d2, d3, d4, d5, d6, d7⟩, ⟨l1, l2, l3, l4, l5⟩, -, -⟩ :=
    reorderMatch_distinct hwf h
  have hcn := ne_length_of_getNode h.hmul
  have hca := ne_length_of_getNode h.hadd
  have hci := ne_length_of_getNode hI
  have va := ne_length_of_live l2
  have vb := ne_length_of_live l3
  have vt := ne_length_of_live l4
  have vy := ne_length_of_live l5
  obtain ⟨betaT, hbeta⟩ := Option.isSome_iff_exists.mp l3
  obtain ⟨tmpT, htmp⟩ := Option.isSome_iff_exists.mp l4
  obtain ⟨yT, hy⟩ := Option.isSome_iff_exists.mp l5
  have hbn : betaT.name = betaName := by
    simpa [ComputeGraph.getName, hbeta] using hname
  obtain ⟨g', gammaData, hrw, hfold, hN, hS, hDg, hDt, hDy⟩ :=
    rewrite_of_reorderMatch tensorIdx hwf h hbeta htmp hy (by rw [hbn]; exact hfresh)
  refine ⟨g', gammaData, hrw, getValue_length g, getNode_length g, ?_, ?_, ?_, ?_, ?_, ?_,
    hDg, hDt, hDy, hfold, ?_, ?_⟩
  · rw [hN, if_neg hca, if_neg (Ne.symm h3), if_pos rfl]
  · rw [hN, if_neg hcn, if_neg (Ne.symm h2), if_neg h1, if_pos rfl]
  · rw [hN, if_pos rfl]
  · rw [hN, if_neg hci, if_pos rfl]
  · exact getValue_eq_none_of_statics
      (by rw [hS, if_neg d3, if_neg d2, if_pos rfl])
  · intro m e1 e2 e3 e4
    rw [hN, if_neg e1, if_neg e2, if_neg e3, if_neg e4]
  · exact getFloatValues_of_statics_some (a := gammaName betaT.name tensorIdx) (b := betaT.dims)
      (by rw [hS, if_neg (Ne.symm vy), if_neg (Ne.symm vt), if_neg (Ne.symm vb), if_pos rfl])
  · rw [getFloatValues_of_statics (w := alpha) (g := g)
      (by rw [hS, if_neg d7, if_neg d6, if_neg h.alpha_ne_beta, if_neg va]), h.alphaFloat]

/-- The scenario of the specification: `Mul(x, [2.0]) -> Add(_, [6.0])` becomes
`Add(x, [3.0]) -> Mul(_, [2.0])`. -/
theorem reorder_rewrite_rewires_pair_witness :
    reorderExample.wellFormed = true ∧ foldGamma [(6 : ℚ)] [2] = some [3] ∧
    ((NvDlaReorderMulAddPass.rewrite reorderExample 0 3).map fun r => r.1.nodes) =
      some [some { kind := OpKind.Other, inputs := [], outputs := [0] },
        some { kind := OpKind.Initializer, inputs := [], outputs := [1] },
        none,
        some { kind := OpKind.Mul, inputs := [3, 1], outputs := [4] },
        some { kind := OpKind.Add, inputs := [0, 5], outputs := [3] },
        some { kind := OpKind.Initializer, inputs := [], outputs := [5] }] ∧
    ∃ g' gammaData,
      NvDlaReorderMulAddPass.rewrite reorderExample 0 3 = some (g', (0 + 1) % 2 ^ 32) ∧
      reorderExample.getValue reorderExample.values.length = none ∧
      reorderExample.getNode reorderExample.nodes.length = none ∧
      g'.getNode 4 =
        some { kind := OpKind.Add, inputs := [0, reorderExample.values.length],
               outputs := [3] } ∧
      g'.getNode 3 = some { kind := OpKind.Mul, inputs := [3, 1], outputs := [4] } ∧
      g'.getNode reorderExample.nodes.length =
        some { kind := OpKind.Initializer, inputs := [],
               outputs := [reorderExample.values.length] } ∧
      g'.getNode 2 = none ∧ g'.getValue 2 = none ∧
      (∀ m, m ≠ reorderExample.nodes.length → m ≠ 2 → m ≠ 4 → m ≠ 3 →
        g'.getNode m = reorderExample.getNode m) ∧
      g'.getDefine reorderExample.values.length = some reorderExample.nodes.length ∧
      g'.getDefine 3 = some 4 ∧ g'.getDefine 4 = some 3 ∧
      foldGamma [(6 : ℚ)] [2] = some gammaData ∧
      g'.getFloatValues reorderExample.values.length = some gammaData ∧
      g'.getFloatValues 1 = some [2] :=
  ⟨by decide, by with_unfolding_all decide, by with_unfolding_all decide,
    reorder_rewrite_rewires_pair reorderExample 0 3 4
      { kind := OpKind.Mul, inputs := [0, 1], outputs := [3] }
      { kind := OpKind.Add, inputs := [3, 2], outputs := [4] } 0 1 2 3 4 2 [2] [6] "beta"
      (by decide)
      ⟨rfl, rfl, Or.inl rfl, rfl, rfl, rfl, Or.inl rfl, rfl, ⟨0, rfl⟩, by decide, by decide,
        rfl, by decide, rfl, rfl, by decide, by decide⟩
      rfl (by decide)⟩

/-- C10 (amended): under the conditions of the reorder rewrite (a matched pair in a
well-formed graph, distinct constant float operands, gamma's name not yet taken), the
output value of the Mul after the rewrite is the value that was the Add's output,
with the shape it had, but it carries the name that the Mul's output had before the
rewrite; the name that the Add's output had is carried by the Add's new output, the
value that was the Mul's output, whose shape is unchanged as well. -/
theorem reorder_rewrite_swaps_output_names [Div F] (g : ComputeGraph F)
    (tensorIdx n addId : Nat) (mul add : ComputeOperator)
    (x alpha beta tmp outputY betaInit : Nat) (alphaData betaData : List F)
    (betaName : String) (hwf : g.wellFormed = true)
    (h : ReorderMatch g n addId mul add x alpha beta tmp outputY betaInit alphaData betaData)
    (hname : g.getName beta = some betaName)
    (hfresh : g.hasName (gammaName betaName tensorIdx) = false) :
    ∃ g' tmpT yT mulOut addOut,
      NvDlaReorderMulAddPass.rewrite g tensorIdx n = some (g', (tensorIdx + 1) % 2 ^ 32) ∧
      g.getOutput n 0 = some tmp ∧ g.getValue tmp = some tmpT ∧
      g.getOutput addId 0 = some outputY ∧ g.getValue outputY = some yT ∧
      g'.getOutput n 0 = some outputY ∧ g'.getValue outputY = some mulOut ∧
      mulOut.name = tmpT.name ∧ mulOut.dims = yT.dims ∧
      g'.getOutput addId 0 = some tmp ∧ g'.getValue tmp = some addOut ∧
      addOut.name = yT.name ∧ addOut.dims = tmpT.dims := by
  obtain ⟨⟨h1, h2, h3, opI, hI⟩, ⟨d1, d2, d3, d4, d5, d6, d7⟩, ⟨l1, l2, l3, l4, l5⟩, -, -⟩ :=
    reorderMatch_distinct hwf h
  have hcn := ne_length_of_getNode h.hmul
  have hca := ne_length_of_getNode h.hadd
  obtain ⟨betaT, hbeta⟩ := Option.isSome_iff_exists.mp l3
  obtain ⟨tmpT, htmp⟩ := Option.isSome_iff_exists.mp l4
  obtain ⟨yT, hy⟩ := Option.isSome_iff_exists.mp l5
  have hbn : betaT.name = betaName := by
    simpa [ComputeGraph.getName, hbeta] using hname
  obtain ⟨g', gammaData, hrw, hfold, hN, hS, hDg, hDt, hDy⟩ :=
    rewrite_of_reorderMatch tensorIdx hwf h hbeta htmp hy (by rw [hbn]; exact hfresh)
  have hNa : g'.getNode addId =
      some { add with inputs := [x, g.values.length], outputs := [tmp] } := by
    rw [hN, if_neg hca, if_neg (Ne.symm h3), if_pos rfl]
  have hNm : g'.getNode n = some { mul with inputs := [tmp, alpha], outputs := [outputY] } := by
    rw [hN, if_neg hcn, if_neg (Ne.symm h2), if_neg h1, if_pos rfl]
  obtain ⟨mulOut, hmo, hmn, hmd, -⟩ := exists_of_statics_some
    (show g'.statics outputY = some (tmpT.name, yT.dims, yT.data) by rw [hS, if_pos rfl])
  obtain ⟨addOut, hao, han, had, -⟩ := exists_of_statics_some
    (show g'.statics tmp = some (yT.name, tmpT.dims, tmpT.data) by
      rw [hS, if_neg d4, if_pos rfl])
  refine ⟨g', tmpT, yT, mulOut, addOut, hrw, ?_, htmp, ?_, hy, ?_, hmo, hmn, hmd, ?_, hao, han,
    had⟩
  · simp [ComputeGraph.getOutput, h.hmul, h.mulOut]
  · simp [ComputeGraph.getOutput, h.hadd, h.addOut]
  · simp [ComputeGraph.getOutput, hNm]
  · simp [ComputeGraph.getOutput, hNa]

/-- C10, witness: in `reorderExample` the Mul's output after the rewrite is the value
that was the Add's output `y`, now named `tmp`. -/
theorem reorder_rewrite_swaps_output_names_witness :
    reorderExample.wellFormed = true ∧
    ∃ g' tmpT yT mulOut addOut,
      NvDlaReorderMulAddPass.rewrite reorderExample 0 3 = some (g', (0 + 1) % 2 ^ 32) ∧
      reorderExample.getOutput 3 0 = some 3 ∧ reorderExample.getValue 3 = some tmpT ∧
      reorderExample.getOutput 4 0 = some 4 ∧ reorderExample.getValue 4 = some yT ∧
      g'.getOutput 3 0 = some 4 ∧ g'.getValue 4 = some mulOut ∧
      mulOut.name = tmpT.name ∧ mulOut.dims = yT.dims ∧
      g'.getOutput 4 0 = some 3 ∧ g'.getValue 3 = some addOut ∧
      addOut.name = yT.name ∧ addOut.dims = tmpT.dims :=
  ⟨by decide,
    reorder_rewrite_swaps_output_names reorderExample 0 3 4
      { kind := OpKind.Mul, inputs := [0, 1], outputs := [3] }
      { kind := OpKind.Add, inputs := [3, 2], outputs := [4] } 0 1 2 3 4 2 [2] [6] "beta"
      (by decide)
      ⟨rfl, rfl, Or.inl rfl, rfl, rfl, rfl, Or.inl rfl, rfl, ⟨0, rfl⟩, by decide, by decide,
        rfl, by decide, rfl, rfl, by decide, by decide⟩
      rfl (by decide)⟩

/-- C10, counterexample: in the well-formed graph `reorderExample` the Add's output is
named `y` before the rewrite; after the rewrite the output of the Mul, the final
output of the rewritten chain, is named `tmp`, and `y` names the Add's output. -/
theorem reorder_final_output_is_renamed :
    reorderExample.wellFormed = true ∧ canBeReordered reorderExample 3 = some true ∧
    (reorderExample.getOutput 4 0).bind reorderExample.getName = some "y" ∧
    (reorderExample.getOutput 3 0).bind reorderExample.getName = some "tmp" ∧
    ((NvDlaReorderMulAddPass.rewrite reorderExample 0 3).bind fun r =>
      (r.1.getOutput 3 0).bind r.1.getName) = some "tmp" ∧
    ((NvDlaReorderMulAddPass.rewrite reorderExample 0 3).bind fun r =>
      (r.1.getOutput 4 0).bind r.1.getName) = some "y" := by
  with_unfolding_all decide

/-- C11 (amended): under the conditions of the reorder rewrite, for constant tensors
`beta` and `alpha` with the same number of elements, fewer than `2 ^ 31`, the gamma
tensor built by the rewrite has the dimensions of `beta`, the number of elements of
`beta`, and `gamma[i] = beta[i] / alpha[i]` at every flattened index, in source
order. -/
theorem reorder_gamma_is_elementwise_quotient [Div F] (g : ComputeGraph F)
    (tensorIdx n addId : Nat) (mul add : ComputeOperator)
    (x alpha beta tmp outputY betaInit : Nat) (alphaData betaData : List F)
    (betaT : Tensor F) (hwf : g.wellFormed = true)
    (h : ReorderMatch g n addId mul add x alpha beta tmp outputY betaInit alphaData betaData)
    (hbeta : g.getValue beta = some betaT)
    (hfresh : g.hasName (gammaName betaT.name tensorIdx) = false)
    (hsame : alphaData.length = betaData.length) (hsize : betaData.length < 2 ^ 31) :
    ∃ g' gamma gammaData,
      NvDlaReorderMulAddPass.rewrite g tensorIdx n = some (g', (tensorIdx + 1) % 2 ^ 32) ∧
      g'.getValue g.values.length = some gamma ∧
      gamma.dims = betaT.dims ∧ gamma.data = TensorData.float gammaData ∧
      gammaData = List.zipWith (fun b a => b / a) betaData alphaData ∧
      gammaData.length = betaData.length ∧
      ∀ (i : Nat) (b a : F), betaData[i]? = some b → alphaData[i]? = some a →
        gammaData[i]? = some (b / a) := by
  obtain ⟨-, ⟨d1, d2, d3, d4, d5, d6, d7⟩, ⟨l1, l2, l3, l4, l5⟩, -, -⟩ :=
    reorderMatch_distinct hwf h
  have vb := ne_length_of_live l3
  have vt := ne_length_of_live l4
  have vy := ne_length_of_live l5
  obtain ⟨tmpT, htmp⟩ := Option.isSome_iff_exists.mp l4
  obtain ⟨yT, hy⟩ := Option.isSome_iff_exists.mp l5
  obtain ⟨g', gammaData, hrw, hfold, hN, hS, hDg, hDt, hDy⟩ :=
    rewrite_of_reorderMatch tensorIdx hwf h hbeta htmp hy hfresh
  rw [foldGamma_eq_zipWith betaData alphaData hsize h.hlen] at hfold
  have hgd : gammaData = List.zipWith (fun b a => b / a) betaData alphaData :=
    (Option.some.inj hfold).symm
  obtain ⟨gamma, hg, -, hgdims, hgdata⟩ := exists_of_statics_some
    (show g'.statics g.values.length =
        some (gammaName betaT.name tensorIdx, betaT.dims, TensorData.float gammaData) by
      rw [hS, if_neg (Ne.symm vy), if_neg (Ne.symm vt), if_neg (Ne.symm vb), if_pos rfl])
  refine ⟨g', gamma, gammaData, hrw, hg, hgdims, hgdata, hgd, ?_, ?_⟩
  · rw [hgd, List.length_zipWith, hsame, Nat.min_self]
  · intro i b a hb ha
    rw [hgd, List.getElem?_zipWith, ha, hb]

/-- C11, witness: `beta = [6.0]` and `alpha = [2.0]` give `gamma = [3.0]`. -/
theorem reorder_gamma_is_elementwise_quotient_witness :
    List.zipWith (fun b a => b / a) [(6 : ℚ)] [2] = [3] ∧
    ∃ g' gamma gammaData,
      NvDlaReorderMulAddPass.rewrite reorderExample 0 3 = some (g', (0 + 1) % 2 ^ 32) ∧
      g'.getValue reorderExample.values.length = some gamma ∧
      gamma.dims = [1] ∧ gamma.data = TensorData.float gammaData ∧
      gammaData = List.zipWith (fun b a => b / a) [(6 : ℚ)] [2] ∧
      gammaData.length = [(6 : ℚ)].length ∧
      ∀ (i : Nat) (b a : ℚ), [(6 : ℚ)][i]? = some b → [(2 : ℚ)][i]? = some a →
        gammaData[i]? = some (b / a) :=
  ⟨by with_unfolding_all decide,
    reorder_gamma_is_elementwise_quotient reorderExample 0 3 4
      { kind := OpKind.Mul, inputs := [0, 1], outputs := [3] }
      { kind := OpKind.Add, inputs := [3, 2], outputs := [4] } 0 1 2 3 4 2 [2] [6]
      { name := "beta", dims := [1], data := TensorData.float [6], define := some 2,
        uses := [⟨4, 1⟩] }
      (by decide)
      ⟨rfl, rfl, Or.inl rfl, rfl, rfl, rfl, Or.inl rfl, rfl, ⟨0, rfl⟩, by decide, by decide,
        rfl, by decide, rfl, rfl, by decide, by decide⟩
      rfl (by decide) rfl (by decide)⟩

/-- C11, counterexample: in the well-formed graph `reorderHuge`, whose `beta` and
`alpha` have the same shape and `2 ^ 31` elements each, the Mul is a match and the
rewrite succeeds, but the element count wraps to a negative `int`, the folding loop
does not run, and gamma has `beta`'s dimensions and no element at all. -/
theorem reorder_gamma_empty_at_int_limit :
    reorderHuge.wellFormed = true ∧ canBeReordered reorderHuge 3 = some true ∧
    reorderHuge.getFloatValues 1 = some (List.replicate 2147483648 1) ∧
    reorderHuge.getFloatValues 2 = some (List.replicate 2147483648 1) ∧
    (List.replicate 2147483648 (1 : ℚ)).length = 2 ^ 31 ∧
    ∃ g' gamma, NvDlaReorderMulAddPass.rewrite reorderHuge 0 3 = some (g', (0 + 1) % 2 ^ 32) ∧
      g'.getValue reorderHuge.values.length = some gamma ∧
      gamma.dims = [2147483648] ∧ gamma.data = TensorData.float [] := by
  have hwf : reorderHuge.wellFormed = true := by decide
  have hm : ReorderMatch reorderHuge 3 4
      { kind := OpKind.Mul, inputs := [0, 1], outputs := [3] }
      { kind := OpKind.Add, inputs := [3, 2], outputs := [4] } 0 1 2 3 4 2
      (List.replicate 2147483648 1) (List.replicate 2147483648 1) :=
    ⟨rfl, rfl, Or.inl rfl, rfl, rfl, rfl, Or.inl rfl, rfl, ⟨0, rfl⟩, by decide, by decide,
      rfl, by decide, rfl, rfl, by decide, le_refl _⟩
  refine ⟨hwf, by decide, rfl, rfl, by rw [List.length_replicate]; norm_num, ?_⟩
  have hb : reorderHuge.getValue 2 = some
      { name := "beta", dims := [2147483648],
        data := TensorData.float (List.replicate 2147483648 1), define := some 2,
        uses := [⟨4, 1⟩] } := rfl
  have ht : reorderHuge.getValue 3 = some
      { name := "tmp", dims := [2147483648], data := TensorData.other, define := some 3,
        uses := [⟨4, 0⟩] } := rfl
  have hy : reorderHuge.getValue 4 = some
      { name := "y", dims := [2147483648], data := TensorData.other, define := some 4,
        uses := [] } := rfl
  obtain ⟨g', gammaData, hrw, hfold, -, hS, -, -, -⟩ :=
    rewrite_of_reorderMatch 0 hwf hm hb ht hy (by decide)
  rw [foldGamma_eq_take _ _ (le_refl _)] at hfold
  have hz : (toInt ((List.replicate 2147483648 (1 : ℚ)).length : Int)).toNat = 0 := by
    rw [List.length_replicate]
    decide
  rw [hz, List.take_zero] at hfold
  have hgd : gammaData = [] := (Option.some.inj hfold).symm
  subst hgd
  obtain ⟨gamma, hg, -, hgdims, hgdata⟩ := exists_of_statics_some
    (show g'.statics reorderHuge.values.length =
        some (gammaName "beta" 0, [2147483648], TensorData.float []) by
      rw [hS, if_neg (by decide), if_neg (by decide), if_neg (by decide), if_pos rfl])
  exact ⟨g', gamma, hrw, hg, hgdims, hgdata⟩

/-! ## Generated names -/

theorem digitChar_value {m : Nat} (h : m < 10) :
    (Nat.digitChar m).toNat - 48 = m ∧ (Nat.digitChar m).isDigit = true := by
  interval_cases m <;> decide

theorem toDigitsCore_append (fuel : Nat) : ∀ (n : Nat) (ds : List Char),
    Nat.toDigitsCore 10 fuel n ds = Nat.toDigitsCore 10 fuel n [] ++ ds := by
  induction fuel with
  | zero =>
    intro n ds
    rfl
  | succ fuel ih =>
    intro n ds
    simp only [Nat.toDigitsCore]
    by_cases h0 : n / 10 = 0
    · simp [h0]
    · simp only [h0, if_false]
      rw [ih (n / 10) (Nat.digitChar (n % 10) :: ds), ih (n / 10) [Nat.digitChar (n % 10)]]
      simp

theorem decimalValue_concat (l : List Char) (c : Char) :
    decimalValue (l ++ [c]) = decimalValue l * 10 + (c.toNat - 48) := by
  simp [decimalValue, List.foldl_append]

theorem toDigitsCore_spec (fuel : Nat) : ∀ n : Nat, n < fuel →
    decimalValue (Nat.toDigitsCore 10 fuel n []) = n ∧
    ∀ c ∈ Nat.toDigitsCore 10 fuel n [], c.isDigit = true := by
  induction fuel with
  | zero =>
    intro n h
    omega
  | succ fuel ih =>
    intro n h
    have hd := digitChar_value (Nat.mod_lt n (by decide : 10 > 0))
    simp only [Nat.toDigitsCore]
    by_cases h0 : n / 10 = 0
    · simp only [h0, if_true]
      have hn : n % 10 = n := Nat.mod_eq_of_lt (by omega)
      refine ⟨?_, ?_⟩
      · have := decimalValue_concat [] (Nat.digitChar (n % 10))
        simp only [List.nil_append] at this
        rw [this, hd.1, hn]
        simp [decimalValue]
      · intro c hc
        simp only [List.mem_singleton] at hc
        rw [hc]
        exact hd.2
    · simp only [h0, if_false]
      rw [toDigitsCore_append fuel (n / 10) [Nat.digitChar (n % 10)]]
      obtain ⟨hv, hall⟩ := ih (n / 10) (by omega)
      refine ⟨?_, ?_⟩
      · rw [decimalValue_concat, hv, hd.1]
        omega
      · intro c hc
        rw [List.mem_append] at hc
        rcases hc with hc | hc
        · exact hall c hc
        · simp only [List.mem_singleton] at hc
          rw [hc]
          exact hd.2

theorem gammaName_data (b : String) (i : Nat) :
    (gammaName b i).data =
      b.data ++ ['_', '_', 'g', 'a', 'm', 'm', 'a', '_'] ++ Nat.toDigits 10 i ++ [')'] := by
  unfold gammaName
  rw [String.data_append, String.data_append, String.data_append]
  rfl

/-- The counter can be read back from a generated name. -/
theorem trailingCounter_gammaName (b : String) (i : Nat) :
    trailingCounter (gammaName b i) = i := by
  obtain ⟨hv, hall⟩ := toDigitsCore_spec (i + 1) i (Nat.lt_succ_self i)
  unfold trailingCounter
  rw [gammaName_data, List.dropLast_concat, List.reverse_append, List.reverse_append]
  unfold Nat.toDigits
  rw [List.takeWhile_append_of_pos (fun c hc => hall c (List.mem_reverse.mp hc))]
  have : List.takeWhile Char.isDigit
      (['_', '_', 'g', 'a', 'm', 'm', 'a', '_'].reverse ++ b.data.reverse) = [] := by
    rfl
  rw [this, List.append_nil, List.reverse_reverse]
  exact hv

theorem andThen_eq_some {α β : Type} {a : Option α} {f : α → Option β} {r : β}
    (h : andThen a f = some r) : ∃ x, a = some x ∧ f x = some r := by
  cases a with
  | none => exact absurd h (by simp [andThen])
  | some x => exact ⟨x, rfl, h⟩

/-- C17, counterexample: a rewrite started with the counter at `2 ^ 32 - 1` leaves
the counter at `0`, the value it had before the first rewrite, so the rewrite that
comes next names its gamma for a tensor `beta` as the first rewrite did:
`beta__gamma_0)`. -/
theorem gamma_counter_wraps_around :
    reorderExample.wellFormed = true ∧
    ((NvDlaReorderMulAddPass.rewrite reorderExample 4294967295 3).map fun r => r.2) = some 0 ∧
    ((NvDlaReorderMulAddPass.rewrite reorderExample 4294967295 3).bind fun r =>
      r.1.getName 5) = some "beta__gamma_4294967295)" ∧
    gammaName "beta" ((4294967295 + 1) % 2 ^ 32) = gammaName "beta" 0 ∧
    ((NvDlaReorderMulAddPass.rewrite reorderExample 0 3).bind fun r =>
      r.1.getName 5) = some "beta__gamma_0)" ∧
    ((NvDlaReorderMulAddPass.rewrite reorderExample 4294967295 3).bind fun r =>
      (NvDlaReorderMulAddPass.rewrite reorderExample r.2 3).bind fun r2 =>
        r2.1.getName 5) = some "beta__gamma_0)" := by
  with_unfolding_all decide

/-! ## The division by a zero divisor -/

theorem canBeReordered_setData {g g' : ComputeGraph F} {v : Nat} {d : TensorData F}
    (h : g.setData v d = some g') (n : Nat) : canBeReordered g' n = canBeReordered g n := by
  have ht : ∃ t, g.getValue v = some t := by
    unfold ComputeGraph.setData at h
    cases hv : g.getValue v with
    | none => simp [hv] at h
    | some t => exact ⟨t, rfl⟩
  obtain ⟨t, ht⟩ := ht
  obtain ⟨g'', e, hN, hV, -⟩ := setData_spec d ht
  rw [h] at e
  cases e
  have hisa : ∀ k m, g'.isa k m = g.isa k m := fun k m => by
    unfold ComputeGraph.isa
    rw [hN]
  have hin : ∀ m i, g'.getInput m i = g.getInput m i := fun m i => by
    unfold ComputeGraph.getInput
    rw [hN]
  have hout : ∀ m i, g'.getOutput m i = g.getOutput m i := fun m i => by
    unfold ComputeGraph.getOutput
    rw [hN]
  have hus : ∀ w, g'.getUses w = g.getUses w := fun w => by
    unfold ComputeGraph.getUses
    rw [hV]
    by_cases e : w = v
    · subst e
      simp [ht]
    · simp [e]
  have hc : ∀ w, isConstant g' w = isConstant g w := fun w => by
    unfold isConstant
    rw [hV]
    by_cases e : w = v
    · subst e
      simp [ht, hisa]
    · simp [e, hisa]
  unfold canBeReordered
  simp only [hisa, hin, hout, hus, hc]

/-! ## The channel-shuffle matcher -/

open NvDlaIdentifyShufflePass

theorem SHUFFLE_ASSERT_eq_some_true (c : Bool) (rest : Option Bool) :
    SHUFFLE_ASSERT c rest = some true ↔ c = true ∧ rest = some true := by
  cases c <;> simp [SHUFFLE_ASSERT]

theorem toInt64_of_range {x : Int} (h0 : -(2 ^ 63) ≤ x) (h1 : x < 2 ^ 63) : toInt64 x = x := by
  unfold toInt64
  rw [Int.emod_eq_of_lt (by omega) (by omega)]
  omega

theorem mulInt64_of_range {a b : Int} (h0 : -(2 ^ 63) ≤ a * b) (h1 : a * b < 2 ^ 63) :
    mulInt64 a b = a * b :=
  toInt64_of_range h0 h1

theorem mulInt64_comm (a b : Int) : mulInt64 a b = mulInt64 b a := by
  unfold mulInt64
  rw [Int.mul_comm]

theorem singleton_of_length_one {α : Type} {l : List α} {a : α} (hl : l.length = 1)
    (h0 : l[0]? = some a) : l = [a] := by
  match l, hl, h0 with
  | [b], _, h0 =>
    simp only [List.getElem?_cons_zero, Option.some.injEq] at h0
    rw [h0]

/-- What an accepting run of `is_shuffle` has gone through: the three sections and
the two casts. -/
theorem is_shuffle_eq_true {g : ComputeGraph F} {r : Nat} (h : is_shuffle g r = some true) :
    checkFirstReshape g r = some true ∧
    ∃ out us u, g.getOutput r 0 = some out ∧ g.getUses out = some us ∧ us[0]? = some u ∧
      g.isa OpKind.Transpose u.user = some true ∧ checkTranspose g u.user = some true ∧
      ∃ outT usT u2, g.getOutput u.user 0 = some outT ∧ g.getUses outT = some usT ∧
        usT[0]? = some u2 ∧ g.isa OpKind.Reshape u2.user = some true ∧
        checkLastReshape g u2.user = some true := by
  unfold is_shuffle at h
  simp only [Option.bind_eq_bind, Option.bind_eq_some, SHUFFLE_ASSERT_eq_some_true,
    Option.pure_def, beq_iff_eq] at h
  obtain ⟨_, hf, rfl, out, ho, us, hus, u, hu, _, hta, rfl, _, hct, rfl, outT, hoT, usT,
    husT, u2, hu2, _, hra, rfl, hcl⟩ := h
  exact ⟨hf, out, us, u, ho, hus, hu, hta, hct, outT, usT, u2, hoT, husT, hu2, hra, hcl⟩

/-- The chain of single uses that an accepting run of `is_shuffle` has followed. -/
theorem is_shuffle_chain {g : ComputeGraph F} {r : Nat} (h : is_shuffle g r = some true) :
    ∃ out u outT u2, g.getOutput r 0 = some out ∧ g.getUses out = some [u] ∧
      g.isa OpKind.Transpose u.user = some true ∧
      g.getNumOfOutputs u.user = some 1 ∧
      g.getOutput u.user 0 = some outT ∧ g.getUses outT = some [u2] ∧
      g.isa OpKind.Reshape u2.user = some true ∧
      checkFirstReshape g r = some true ∧ checkTranspose g u.user = some true ∧
      checkLastReshape g u2.user = some true := by
  obtain ⟨hf, out, us, u, ho, hus, hu, hta, hct, outT, usT, u2, hoT, husT, hu2, hra, hcl⟩ :=
    is_shuffle_eq_true h
  have hf' := hf
  have hct' := hct
  unfold checkFirstReshape at hf
  simp only [Option.bind_eq_bind, Option.bind_eq_some, SHUFFLE_ASSERT_eq_some_true,
    Option.pure_def, beq_iff_eq] at hf
  obtain ⟨_, -, rfl, out', ho', us', hus', hlen, -⟩ := hf
  rw [ho] at ho'
  cases ho'
  rw [hus] at hus'
  cases hus'
  unfold checkTranspose at hct
  simp only [Option.bind_eq_bind, Option.bind_eq_some, SHUFFLE_ASSERT_eq_some_true,
    Option.pure_def, beq_iff_eq] at hct
  obtain ⟨_, hnT, rfl, outT', hoT', usT', husT', hlenT, -⟩ := hct
  rw [hoT] at hoT'
  cases hoT'
  rw [husT] at husT'
  cases husT'
  rw [singleton_of_length_one hlen hu] at hus
  rw [singleton_of_length_one hlenT hu2] at husT
  exact ⟨out, u, outT, u2, ho, hus, hta, hnT, hoT, husT, hra, hf', hct', hcl⟩

/-- A value that holds a non-empty vector of 64-bit integers is the single output
of an Initializer. -/
theorem producer_of_int64 {g : ComputeGraph F} (hwf : g.wellFormed = true) {v : Nat}
    {vs : List Int} (hv : g.getInt64Values v = some vs) (hne : vs ≠ []) :
    ∃ n op, g.getDefine v = some n ∧ g.getNode n = some op ∧
      op.kind = OpKind.Initializer ∧ op.outputs = [v] := by
  unfold ComputeGraph.getInt64Values at hv
  cases ht : g.getValue v with
  | none => simp [ht] at hv
  | some t =>
    rw [ht] at hv
    simp only [Option.some_bind] at hv
    obtain ⟨n, op, hd, hn, hmem, hinit⟩ := wf_define hwf ht
    have hp : t.data.present = true := by
      cases hdta : t.data with
      | int64 ws =>
        rw [hdta] at hv
        simp only [Option.some.injEq] at hv
        subst hv
        cases ws with
        | nil => exact absurd rfl hne
        | cons a l => rfl
      | float ws =>
        rw [hdta] at hv
        simp at hv
      | other =>
        rw [hdta] at hv
        simp at hv
    have hk := hinit hp
    obtain ⟨c, -, hout⟩ := arity_zero_one (wf_arity hwf hn) hk
    rw [hout] at hmem
    simp only [List.mem_singleton] at hmem
    subst hmem
    exact ⟨n, op, by simp [ComputeGraph.getDefine, ht, hd], hn, hk, hout⟩

theorem ne_of_rank {g : ComputeGraph F} {a b m k : Nat}
    (ha : g.getNumOfDimensions a = some m) (hb : g.getNumOfDimensions b = some k)
    (hne : m ≠ k) : a ≠ b := by
  intro e
  rw [e, hb] at ha
  exact hne (Option.some.inj ha).symm

theorem slot_of_singleton {k a v : Nat} (h : [a][k]? = some v) : k = 0 ∧ a = v := by
  cases k with
  | zero => exact ⟨rfl, by simpa using h⟩
  | succ k => simp at h

set_option maxHeartbeats 1600000 in
/-- In a well-formed graph a Reshape accepted by `is_shuffle` starts a full
Reshape-Transpose-Reshape pattern, whose second Reshape reads the Transpose's output
in slot 0. -/
theorem shuffleMatch_of_accept {g : ComputeGraph F} {r : Nat} (hwf : g.wellFormed = true)
    (hk : g.isa OpKind.Reshape r = some true) (h : is_shuffle g r = some true) :
    ∃ tId r2 init1 init2 op1 opT op2 opI1 opI2 input shape1 out1 outT shape2 output s grp,
      ShuffleMatch g r tId r2 init1 init2 op1 opT op2 opI1 opI2 input shape1 out1 outT
        shape2 output s grp ∧
      ∃ t e1 e2 e3 e4, g.getNumOfDimensions outT = some 5 ∧
        g.getInt64Values shape2 = some t ∧ t.length = 4 ∧
        g.dimension outT 1 = some e1 ∧ g.dimension outT 2 = some e2 ∧
        g.dimension outT 3 = some e3 ∧ g.dimension outT 4 = some e4 ∧
        t[1]? = some (mulInt64 e1 e2) ∧ t[2]? = some e3 ∧ t[3]? = some e4 := by
  obtain ⟨out, u, outT, u2, ho, hus, hta, -, hoT, husT, hra, hf, hct, hcl⟩ :=
    is_shuffle_chain h
  unfold checkFirstReshape at hf
  simp only [Option.bind_eq_bind, Option.bind_eq_some, SHUFFLE_ASSERT_eq_some_true,
    Option.pure_def, beq_iff_eq] at hf
  obtain ⟨_, -, rfl, _, -, _, -, -, input, hi, _, hrk, rfl, shape1, hs1, _, hrk1, rfl, s, hs,
    hslen, _, -, s1, hs1', -⟩ := hf
  unfold checkTranspose at hct
  simp only [Option.bind_eq_bind, Option.bind_eq_some, SHUFFLE_ASSERT_eq_some_true,
    Option.pure_def, beq_iff_eq] at hct
  obtain ⟨_, -, rfl, _, -, _, -, -, tin, hti, _, htrk, rfl, -⟩ := hct
  unfold checkLastReshape at hcl
  simp only [Option.bind_eq_bind, Option.bind_eq_some, SHUFFLE_ASSERT_eq_some_true,
    Option.pure_def, beq_iff_eq] at hcl
  obtain ⟨in2, hi2, _, hrk2, rfl, shape2, hs2i, _, hrks2, rfl, t, ht, htlen, e1, he1, e2, he2,
    t1, ht1, rfl, e3, he3, t2, ht2, rfl, e4, he4, t3, ht3, rfl, -⟩ := hcl
  -- the three operators
  obtain ⟨op1, h1, k1⟩ := isa_eq_true hk
  obtain ⟨opT, hT, kT⟩ := isa_eq_true hta
  obtain ⟨op2, h2, k2⟩ := isa_eq_true hra
  obtain ⟨a, b, c, hin1, ho1⟩ := arity_two_one (wf_arity hwf h1) (Or.inr (Or.inr k1))
  obtain ⟨x, y, hinT, hoT1⟩ := arity_one_one (wf_arity hwf hT) (Or.inr kT)
  obtain ⟨a2, b2, output, hin2, o2⟩ := arity_two_one (wf_arity hwf h2) (Or.inr (Or.inr k2))
  have ea : a = input := by simpa [ComputeGraph.getInput, h1, hin1] using hi
  have eb : b = shape1 := by simpa [ComputeGraph.getInput, h1, hin1] using hs1
  have ec : c = out := by simpa [ComputeGraph.getOutput, h1, ho1] using ho
  have ey : y = outT := by simpa [ComputeGraph.getOutput, hT, hoT1] using hoT
  have ex : x = tin := by simpa [ComputeGraph.getInput, hT, hinT] using hti
  have ea2 : a2 = in2 := by simpa [ComputeGraph.getInput, h2, hin2] using hi2
  have eb2 : b2 = shape2 := by simpa [ComputeGraph.getInput, h2, hin2] using hs2i
  have in1 : op1.inputs = [input, shape1] := by rw [hin1, ea, eb]
  have o1 : op1.outputs = [out] := by rw [ho1, ec]
  have oT : opT.outputs = [outT] := by rw [hoT1, ey]
  -- the single uses
  obtain ⟨tout, htout, htu⟩ := getUses_eq_some hus
  obtain ⟨opT', hopT', hslot⟩ := wf_use hwf htout (u := u) (by simp [htu])
  have eT : opT' = opT := Option.some.inj (hopT'.symm.trans hT)
  rw [eT, hinT] at hslot
  obtain ⟨-, hxo⟩ := slot_of_singleton hslot
  have inT : opT.inputs = [out] := by rw [hinT, hxo]
  have rk_o1 : g.getNumOfDimensions out = some 5 := by
    rw [← hxo, ex]
    exact htrk
  obtain ⟨toutT, htoutT, htuT⟩ := getUses_eq_some husT
  obtain ⟨op2', hop2', hslot2⟩ := wf_use hwf htoutT (u := u2) (by simp [htuT])
  have e2' : op2' = op2 := Option.some.inj (hop2'.symm.trans h2)
  rw [e2', hin2] at hslot2
  -- the two shape Initializers
  have hsne : s ≠ [] := by
    intro e
    rw [e] at hslen
    simp at hslen
  have htne : t ≠ [] := by
    intro e
    rw [e] at htlen
    simp at htlen
  obtain ⟨init1, opI1, hdef1, hI1, kI1, hoI1⟩ := producer_of_int64 hwf hs hsne
  obtain ⟨init2, opI2, hdef2, hI2, kI2, hoI2⟩ := producer_of_int64 hwf ht htne
  -- the second Reshape reads the Transpose's output in slot 0
  have ha2 : a2 = outT := by
    rcases hk2 : u2.operandNo with _ | _ | k
    · rw [hk2] at hslot2
      simpa using hslot2
    · rw [hk2] at hslot2
      have e1' : b2 = outT := by simpa using hslot2
      exfalso
      have e3' : shape2 = outT := by rw [← eb2, e1']
      obtain ⟨t', ht', hd'⟩ := wf_output hwf hT (show outT ∈ opT.outputs by simp [oT])
      have hd2 : g.getDefine outT = some u.user := by simp [ComputeGraph.getDefine, ht', hd']
      rw [e3', hd2] at hdef2
      have e4' : u.user = init2 := Option.some.inj hdef2
      rw [e4', hI2] at hT
      have e5' : opI2 = opT := Option.some.inj hT
      rw [e5', kT] at kI2
      exact absurd kI2 (by decide)
    · rw [hk2] at hslot2
      simp at hslot2
  have in2' : op2.inputs = [outT, shape2] := by rw [hin2, ha2, eb2]
  have ein2 : in2 = outT := ea2.symm.trans ha2
  rw [ein2] at hrk2 he1 he2 he3 he4
  -- distinct values
  have v_in_s1 : input ≠ shape1 := ne_of_rank hrk hrk1 (by decide)
  have v_in_o1 : input ≠ out := ne_of_rank hrk rk_o1 (by decide)
  have v_in_oT : input ≠ outT := ne_of_rank hrk hrk2 (by decide)
  have v_in_s2 : input ≠ shape2 := ne_of_rank hrk hrks2 (by decide)
  have v_s1_s2 : shape1 ≠ shape2 := by
    intro e
    rw [e, ht] at hs
    have e' := Option.some.inj hs
    rw [e', hslen] at htlen
    exact absurd htlen (by decide)
  -- distinct operators
  have n0 : r ≠ u.user := node_ne_of_kind_ne h1 hT (by rw [k1, kT]; decide)
  have n1 : r ≠ u2.user := by
    intro e
    have h2' : g.getNode r = some op2 := by rw [e]; exact h2
    have hop : op1 = op2 := Option.some.inj (h1.symm.trans h2')
    have hl : [input, shape1] = [outT, shape2] := by rw [← in1, ← in2', hop]
    exact v_in_oT (List.cons.inj hl).1
  have n2 : u.user ≠ u2.user := node_ne_of_kind_ne hT h2 (by rw [kT, k2]; decide)
  have n3 : init1 ≠ r := node_ne_of_kind_ne hI1 h1 (by rw [kI1, k1]; decide)
  have n4 : init1 ≠ u.user := node_ne_of_kind_ne hI1 hT (by rw [kI1, kT]; decide)
  have n5 : init1 ≠ u2.user := node_ne_of_kind_ne hI1 h2 (by rw [kI1, k2]; decide)
  have n6 : init2 ≠ r := node_ne_of_kind_ne hI2 h1 (by rw [kI2, k1]; decide)
  have n7 : init2 ≠ u.user := node_ne_of_kind_ne hI2 hT (by rw [kI2, kT]; decide)
  have n8 : init2 ≠ u2.user := node_ne_of_kind_ne hI2 h2 (by rw [kI2, k2]; decide)
  have n9 : init1 ≠ init2 := by
    intro e
    have hI2' : g.getNode init1 = some opI2 := by rw [e]; exact hI2
    have hop : opI1 = opI2 := Option.some.inj (hI1.symm.trans hI2')
    have hl : [shape1] = [shape2] := by rw [← hoI1, ← hoI2, hop]
    exact v_s1_s2 (List.cons.inj hl).1
  have m_s1 : shape1 ∈ opI1.outputs := by simp [hoI1]
  have m_s2 : shape2 ∈ opI2.outputs := by simp [hoI2]
  have m_o1 : out ∈ op1.outputs := by simp [o1]
  have m_oT : outT ∈ opT.outputs := by simp [oT]
  have m_out : output ∈ op2.outputs := by simp [o2]
  have live_out : ∀ {m v : Nat} {op : ComputeOperator}, g.getNode m = some op →
      v ∈ op.outputs → (g.getValue v).isSome = true := by
    intro m v op hm hv
    obtain ⟨t, ht, _⟩ := wf_output hwf hm hv
    rw [ht]; rfl
  obtain ⟨tI, htI, -⟩ := wf_input hwf h1 (i := 0) (v := input) (by simp [in1])
  refine ⟨u.user, u2.user, init1, init2, op1, opT, op2, opI1, opI2, input, shape1, out, outT,
    shape2, output, s, s1,
    { h1 := h1, k1 := k1, in1 := in1, o1 := o1, hT := hT, kT := kT, inT := inT, oT := oT,
      h2 := h2, k2 := k2, in2 := in2', o2 := o2, hI1 := hI1, kI1 := kI1, oI1 := hoI1,
      hI2 := hI2, kI2 := kI2, oI2 := hoI2,
      uses1 := ⟨u.operandNo, hus⟩, usesT := ⟨u2.operandNo, husT⟩,
      def1 := hdef1, def2 := hdef2, shape := hs, hgrp := hs1',
      nodes_ne := ⟨n0, n1, n2, n3, n4, n5, n6, n7, n8, n9⟩,
      values_ne := ⟨output_ne_of_ne hwf hI1 h1 m_s1 m_o1 n3,
        output_ne_of_ne hwf hI1 hT m_s1 m_oT n4, v_s1_s2,
        output_ne_of_ne hwf h1 hT m_o1 m_oT n0,
        output_ne_of_ne hwf h1 hI2 m_o1 m_s2 (Ne.symm n6),
        output_ne_of_ne hwf hT hI2 m_oT m_s2 (Ne.symm n7),
        v_in_s1, v_in_o1, v_in_oT, v_in_s2,
        output_ne_of_ne hwf h2 hI1 m_out m_s1 (Ne.symm n5),
        output_ne_of_ne hwf h2 h1 m_out m_o1 (Ne.symm n1),
        output_ne_of_ne hwf h2 hT m_out m_oT (Ne.symm n2),
        output_ne_of_ne hwf h2 hI2 m_out m_s2 (Ne.symm n8)⟩,
      live := ⟨by rw [htI]; rfl, live_out hI1 m_s1, live_out h1 m_o1, live_out hT m_oT,
        live_out hI2 m_s2, live_out h2 m_out⟩ },
    t, e1, e2, e3, e4, hrk2, ht, htlen, he1, he2, he3, he4, ht1, ht2, ht3⟩


set_option maxHeartbeats 3200000 in
theorem rewrite_of_shuffleMatch {g : ComputeGraph F} {r1 tId r2 init1 init2 : Nat}
    {op1 opT op2 opI1 opI2 : ComputeOperator}
    {input shape1 out1 outT shape2 output : Nat} {s : List Int} {grp : Int}
    (h : ShuffleMatch g r1 tId r2 init1 init2 op1 opT op2 opI1 opI2 input shape1 out1 outT
      shape2 output s grp) :
    ∃ g', NvDlaIdentifyShufflePass.rewrite g r1 = some g' ∧
      (∀ m, g'.getNode m =
        if m = g.nodes.length then
          some { kind := OpKind.NvDlaShuffle, inputs := [input], outputs := [output],
                 group := toInt grp }
        else if m = r1 ∨ m = tId ∨ m = r2 ∨ m = init1 ∨ m = init2 then none
        else g.getNode m) ∧
      (∀ w, g'.statics w =
        if w = shape1 ∨ w = out1 ∨ w = outT ∨ w = shape2 then none else g.statics w) ∧
      g'.getDefine output = some g.nodes.length := by
  obtain ⟨n0, n1, n2, n3, n4, n5, n6, n7, n8, n9⟩ := h.nodes_ne
  obtain ⟨v_s1_o1, v_s1_oT, v_s1_s2, v_o1_oT, v_o1_s2, v_oT_s2, v_in_s1, v_in_o1, v_in_oT,
    v_in_s2, v_out_s1, v_out_o1, v_out_oT, v_out_s2⟩ := h.values_ne
  obtain ⟨l_in, l_s1, l_o1, l_oT, l_s2, l_out⟩ := h.live
  have ne_r1_tId : r1 ≠ tId := n0
  have ne_tId_r1 : tId ≠ r1 := Ne.symm n0
  have ne_r1_r2 : r1 ≠ r2 := n1
  have ne_r2_r1 : r2 ≠ r1 := Ne.symm n1
  have ne_tId_r2 : tId ≠ r2 := n2
  have ne_r2_tId : r2 ≠ tId := Ne.symm n2
  have ne_init1_r1 : init1 ≠ r1 := n3
  have ne_r1_init1 : r1 ≠ init1 := Ne.symm n3
  have ne_init1_tId : init1 ≠ tId := n4
  have ne_tId_init1 : tId ≠ init1 := Ne.symm n4
  have ne_init1_r2 : init1 ≠ r2 := n5
  have ne_r2_init1 : r2 ≠ init1 := Ne.symm n5
  have ne_init2_r1 : init2 ≠ r1 := n6
  have ne_r1_init2 : r1 ≠ init2 := Ne.symm n6
  have ne_init2_tId : init2 ≠ tId := n7
  have ne_tId_init2 : tId ≠ init2 := Ne.symm n7
  have ne_init2_r2 : init2 ≠ r2 := n8
  have ne_r2_init2 : r2 ≠ init2 := Ne.symm n8
  have ne_init1_init2 : init1 ≠ init2 := n9
  have ne_init2_init1 : init2 ≠ init1 := Ne.symm n9
  have ne_r1_c : r1 ≠ g.nodes.length := ne_length_of_getNode h.h1
  have ne_c_r1 : g.nodes.length ≠ r1 := Ne.symm ne_r1_c
  have ne_tId_c : tId ≠ g.nodes.length := ne_length_of_getNode h.hT
  have ne_c_tId : g.nodes.length ≠ tId := Ne.symm ne_tId_c
  have ne_r2_c : r2 ≠ g.nodes.length := ne_length_of_getNode h.h2
  have ne_c_r2 : g.nodes.length ≠ r2 := Ne.symm ne_r2_c
  have ne_init1_c : init1 ≠ g.nodes.length := ne_length_of_getNode h.hI1
  have ne_c_init1 : g.nodes.length ≠ init1 := Ne.symm ne_init1_c
  have ne_init2_c : init2 ≠ g.nodes.length := ne_length_of_getNode h.hI2
  have ne_c_init2 : g.nodes.length ≠ init2 := Ne.symm ne_init2_c
  obtain ⟨k1, hk1⟩ := h.uses1
  obtain ⟨kT, hkT⟩ := h.usesT
  -- the new operator
  obtain ⟨g1, hg1⟩ : ∃ g1, (g.addOperator OpKind.NvDlaShuffle (toInt grp)).1 = g1 :=
    ⟨_, rfl⟩
  obtain ⟨hc, hN1, hV1, -⟩ := addOperator_spec g OpKind.NvDlaShuffle (toInt grp)
  rw [hg1] at hN1 hV1
  have hS1 : ∀ w, g1.statics w = g.statics w := statics_congr_same hV1
  -- detach the first Reshape
  have A1 : g1.getNode r1 = some op1 := by rw [hN1, if_neg ne_r1_c, h.h1]
  obtain ⟨g2, e2, hN2, hV2, -⟩ := removeAllInputs_spec A1
    (by simp [h.in1, live_of_statics hS1 l_in, live_of_statics hS1 l_s1])
  have hS2 : ∀ w, g2.statics w = g.statics w := fun w =>
    (statics_congr_map (fun _ _ => ite_dropUser_static _ _ _) hV2 w).trans (hS1 w)
  have A2 := hN2 r1
  rw [if_pos rfl] at A2
  obtain ⟨g3, e3, hN3, hV3, -⟩ := removeAllOutputs_spec A2
    (by simp [h.o1, live_of_statics hS2 l_o1])
  have hS3 : ∀ w, g3.statics w = g.statics w := fun w =>
    (statics_congr_map (fun _ _ => ite_clearDefine_static _ _) hV3 w).trans (hS2 w)
  -- detach the Transpose
  have T3 : g3.getNode tId = some opT := by rw [hN3, if_neg ne_tId_r1, hN2, if_neg ne_tId_r1,
    hN1, if_neg ne_tId_c, h.hT]
  obtain ⟨g4, e4, hN4, hV4, -⟩ := removeAllInputs_spec T3
    (by simp [h.inT, live_of_statics hS3 l_o1])
  have hS4 : ∀ w, g4.statics w = g.statics w := fun w =>
    (statics_congr_map (fun _ _ => ite_dropUser_static _ _ _) hV4 w).trans (hS3 w)
  have T4 := hN4 tId
  rw [if_pos rfl] at T4
  obtain ⟨g5, e5, hN5, hV5, -⟩ := removeAllOutputs_spec T4
    (by simp [h.oT, live_of_statics hS4 l_oT])
  have hS5 : ∀ w, g5.statics w = g.statics w := fun w =>
    (statics_congr_map (fun _ _ => ite_clearDefine_static _ _) hV5 w).trans (hS4 w)
  -- detach the second Reshape
  have R5 : g5.getNode r2 = some op2 := by rw [hN5, if_neg ne_r2_tId, hN4, if_neg ne_r2_tId, hN3,
    if_neg ne_r2_r1, hN2, if_neg ne_r2_r1, hN1, if_neg ne_r2_c, h.h2]
  obtain ⟨g6, e6, hN6, hV6, -⟩ := removeAllInputs_spec R5
    (by simp [h.in2, live_of_statics hS5 l_oT, live_of_statics hS5 l_s2])
  have hS6 : ∀ w, g6.statics w = g.statics w := fun w =>
    (statics_congr_map (fun _ _ => ite_dropUser_static _ _ _) hV6 w).trans (hS5 w)
  have R6 := hN6 r2
  rw [if_pos rfl] at R6
  obtain ⟨g7, e7, hN7, hV7, -⟩ := removeAllOutputs_spec R6
    (by simp [h.o2, live_of_statics hS6 l_out])
  have hS7 : ∀ w, g7.statics w = g.statics w := fun w =>
    (statics_congr_map (fun _ _ => ite_clearDefine_static _ _) hV7 w).trans (hS6 w)
  -- detach the two shape Initializers
  have I7 : g7.getNode init1 = some opI1 := by rw [hN7, if_neg ne_init1_r2, hN6,
    if_neg ne_init1_r2, hN5, if_neg ne_init1_tId, hN4, if_neg ne_init1_tId, hN3,
    if_neg ne_init1_r1, hN2, if_neg ne_init1_r1, hN1, if_neg ne_init1_c, h.hI1]
  obtain ⟨g8, e8, hN8, hV8, -⟩ := removeAllOutputs_spec I7
    (by simp [h.oI1, live_of_statics hS7 l_s1])
  have hS8 : ∀ w, g8.statics w = g.statics w := fun w =>
    (statics_congr_map (fun _ _ => ite_clearDefine_static _ _) hV8 w).trans (hS7 w)
  have J8 : g8.getNode init2 = some opI2 := by rw [hN8, if_neg ne_init2_init1, hN7,
    if_neg ne_init2_r2, hN6, if_neg ne_init2_r2, hN5, if_neg ne_init2_tId, hN4,
    if_neg ne_init2_tId, hN3, if_neg ne_init2_r1, hN2, if_neg ne_init2_r1, hN1,
    if_neg ne_init2_c, h.hI2]
  obtain ⟨g9, e9, hN9, hV9, -⟩ := removeAllOutputs_spec J8
    (by simp [h.oI2, live_of_statics hS8 l_s2])
  have hS9 : ∀ w, g9.statics w = g.statics w := fun w =>
    (statics_congr_map (fun _ _ => ite_clearDefine_static _ _) hV9 w).trans (hS8 w)
  -- erase the five operators
  have A9 : ∃ op, g9.getNode r1 = some op := by
    rw [hN9, if_neg ne_r1_init2, hN8, if_neg ne_r1_init1, hN7, if_neg ne_r1_r2, hN6,
      if_neg ne_r1_r2, hN5, if_neg ne_r1_tId, hN4, if_neg ne_r1_tId, hN3, if_pos rfl]
    exact ⟨_, rfl⟩
  obtain ⟨x9, A9⟩ := A9
  obtain ⟨g10, e10, hN10, hV10, -⟩ := eraseNode_spec A9
  have hS10 : ∀ w, g10.statics w = g.statics w := fun w =>
    (statics_congr_same hV10 w).trans (hS9 w)
  have T10 : ∃ op, g10.getNode tId = some op := by
    rw [hN10, if_neg ne_tId_r1, hN9, if_neg ne_tId_init2, hN8, if_neg ne_tId_init1, hN7,
      if_neg ne_tId_r2, hN6, if_neg ne_tId_r2, hN5, if_pos rfl]
    exact ⟨_, rfl⟩
  obtain ⟨x10, T10⟩ := T10
  obtain ⟨g11, e11, hN11, hV11, -⟩ := eraseNode_spec T10
  have hS11 : ∀ w, g11.statics w = g.statics w := fun w =>
    (statics_congr_same hV11 w).trans (hS10 w)
  have R11 : ∃ op, g11.getNode r2 = some op := by
    rw [hN11, if_neg ne_r2_tId, hN10, if_neg ne_r2_r1, hN9, if_neg ne_r2_init2, hN8,
      if_neg ne_r2_init1, hN7, if_pos rfl]
    exact ⟨_, rfl⟩
  obtain ⟨x11, R11⟩ := R11
  obtain ⟨g12, e12, hN12, hV12, -⟩ := eraseNode_spec R11
  have hS12 : ∀ w, g12.statics w = g.statics w := fun w =>
    (statics_congr_same hV12 w).trans (hS11 w)
  have I12 : ∃ op, g12.getNode init1 = some op := by
    rw [hN12, if_neg ne_init1_r2, hN11, if_neg ne_init1_tId, hN10, if_neg ne_init1_r1, hN9,
      if_neg ne_init1_init2, hN8, if_pos rfl]
    exact ⟨_, rfl⟩
  obtain ⟨x12, I12⟩ := I12
  obtain ⟨g13, e13, hN13, hV13, -⟩ := eraseNode_spec I12
  have hS13 : ∀ w, g13.statics w = g.statics w := fun w =>
    (statics_congr_same hV13 w).trans (hS12 w)
  have J13 : ∃ op, g13.getNode init2 = some op := by
    rw [hN13, if_neg ne_init2_init1, hN12, if_neg ne_init2_r2, hN11, if_neg ne_init2_tId, hN10,
      if_neg ne_init2_r1, hN9, if_pos rfl]
    exact ⟨_, rfl⟩
  obtain ⟨x13, J13⟩ := J13
  obtain ⟨g14, e14, hN14, hV14, -⟩ := eraseNode_spec J13
  have hS14 : ∀ w, g14.statics w = g.statics w := fun w =>
    (statics_congr_same hV14 w).trans (hS13 w)
  -- erase the four interior values
  obtain ⟨t14, ht14⟩ := live_of_statics_eq (hS14 shape1) l_s1
  obtain ⟨g15, e15, hN15, hV15, -⟩ := eraseValue_spec ht14
  have hS15 : ∀ w, g15.statics w = if w = shape1 then none else g.statics w := fun w => by
    rw [statics_erase hV15 w, hS14 w]
  obtain ⟨t15, ht15⟩ := live_of_statics_eq
    (show g15.statics out1 = g.statics out1 by rw [hS15, if_neg (Ne.symm v_s1_o1)]) l_o1
  obtain ⟨g16, e16, hN16, hV16, -⟩ := eraseValue_spec ht15
  have hS16 : ∀ w, g16.statics w =
      if w = out1 then none else if w = shape1 then none else g.statics w := fun w => by
    rw [statics_erase hV16 w, hS15 w]
  obtain ⟨t16, ht16⟩ := live_of_statics_eq
    (show g16.statics outT = g.statics outT by
      rw [hS16, if_neg (Ne.symm v_o1_oT), if_neg (Ne.symm v_s1_oT)]) l_oT
  obtain ⟨g17, e17, hN17, hV17, -⟩ := eraseValue_spec ht16
  have hS17 : ∀ w, g17.statics w =
      if w = outT then none else if w = out1 then none else if w = shape1 then none
      else g.statics w := fun w => by
    rw [statics_erase hV17 w, hS16 w]
  obtain ⟨t17, ht17⟩ := live_of_statics_eq
    (show g17.statics shape2 = g.statics shape2 by
      rw [hS17, if_neg (Ne.symm v_oT_s2), if_neg (Ne.symm v_o1_s2), if_neg (Ne.symm v_s1_s2)])
    l_s2
  obtain ⟨g18, e18, hN18, hV18, -⟩ := eraseValue_spec ht17
  have hS18 : ∀ w, g18.statics w =
      if w = shape1 ∨ w = out1 ∨ w = outT ∨ w = shape2 then none else g.statics w :=
    fun w => by
      rw [statics_erase hV18 w, hS17 w]
      by_cases c1 : w = shape1 <;> by_cases c2 : w = out1 <;> by_cases c3 : w = outT <;>
        by_cases c4 : w = shape2 <;> simp [c1, c2, c3, c4]
  have keep : ∀ {g' : ComputeGraph F} {w : Nat},
      (∀ w, g'.statics w =
        if w = shape1 ∨ w = out1 ∨ w = outT ∨ w = shape2 then none else g.statics w) →
      w ≠ shape1 → w ≠ out1 → w ≠ outT → w ≠ shape2 → g'.statics w = g.statics w := by
    intro g' w hS a1 a2 a3 a4
    rw [hS, if_neg (by simp [a1, a2, a3, a4])]
  -- connect the new operator
  have C18 : g18.getNode g.nodes.length =
      some { kind := OpKind.NvDlaShuffle, inputs := [], outputs := [],
             group := toInt grp } := by
    rw [hN18, hN17, hN16, hN15, hN14, if_neg ne_c_init2, hN13, if_neg ne_c_init1, hN12,
      if_neg ne_c_r2, hN11, if_neg ne_c_tId, hN10, if_neg ne_c_r1, hN9, if_neg ne_c_init2, hN8,
      if_neg ne_c_init1, hN7, if_neg ne_c_r2, hN6, if_neg ne_c_r2, hN5, if_neg ne_c_tId, hN4,
      if_neg ne_c_tId, hN3, if_neg ne_c_r1, hN2, if_neg ne_c_r1, hN1, if_pos rfl]
  obtain ⟨tI, htI⟩ := live_of_statics_eq (keep hS18 v_in_s1 v_in_o1 v_in_oT v_in_s2) l_in
  obtain ⟨g19, e19, hN19, hV19, -⟩ := addInput_spec C18 htI
  have hS19 : ∀ w, g19.statics w =
      if w = shape1 ∨ w = out1 ∨ w = outT ∨ w = shape2 then none else g.statics w :=
    fun w => (statics_congr_set htI hV19 rfl w).trans (hS18 w)
  have C19 := hN19 g.nodes.length
  rw [if_pos rfl] at C19
  obtain ⟨tO, htO⟩ := live_of_statics_eq (keep hS19 v_out_s1 v_out_o1 v_out_oT v_out_s2) l_out
  obtain ⟨g20, e20, hN20, hV20, -⟩ := addOutput_spec C19 htO
  have hS20 : ∀ w, g20.statics w =
      if w = shape1 ∨ w = out1 ∨ w = outT ∨ w = shape2 then none else g.statics w :=
    fun w => (statics_congr_set htO hV20 rfl w).trans (hS19 w)
  refine ⟨g20, ?_, ?_, hS20, ?_⟩
  · have hoR1 : g.getOutput r1 0 = some out1 := by
      simp [ComputeGraph.getOutput, h.h1, h.o1]
    have hoT : g.getOutput tId 0 = some outT := by
      simp [ComputeGraph.getOutput, h.hT, h.oT]
    have hoR2 : g.getOutput r2 0 = some output := by
      simp [ComputeGraph.getOutput, h.h2, h.o2]
    have hdT : g.dynCast OpKind.Transpose tId = some tId := by
      simp [ComputeGraph.dynCast, h.hT, h.kT]
    have hdR2 : g.dynCast OpKind.Reshape r2 = some r2 := by
      simp [ComputeGraph.dynCast, h.h2, h.k2]
    have hi10 : g.getInput r1 0 = some input := by
      simp [ComputeGraph.getInput, h.h1, h.in1]
    have hi11 : g.getInput r1 1 = some shape1 := by
      simp [ComputeGraph.getInput, h.h1, h.in1]
    have hi21 : g.getInput r2 1 = some shape2 := by
      simp [ComputeGraph.getInput, h.h2, h.in2]
    unfold NvDlaIdentifyShufflePass.rewrite
    rw [hoR1, andThen_some, hk1, andThen_some, List.getElem?_cons_zero, andThen_some, hdT,
      andThen_some, hoT, andThen_some, hkT, andThen_some, List.getElem?_cons_zero,
      andThen_some, hdR2, andThen_some, hi10, andThen_some, hi11, andThen_some, h.def1,
      andThen_some, andThen_some, andThen_some, hi21, andThen_some, h.def2, andThen_some,
      hoR2, andThen_some, andThen_some, h.shape, andThen_some, h.hgrp, andThen_some]
    dsimp only
    rw [hg1, hc, e2, andThen_some, e3, andThen_some, e4, andThen_some, e5, andThen_some, e6,
      andThen_some, e7, andThen_some, e8, andThen_some, e9, andThen_some, e10, andThen_some,
      e11, andThen_some, e12, andThen_some, e13, andThen_some, e14, andThen_some, e15,
      andThen_some, e16, andThen_some, e17, andThen_some, e18, andThen_some, e19,
      andThen_some, e20]
  · intro m
    rw [hN20, hN19]
    by_cases hmc : m = g.nodes.length
    · simp [hmc]
    · simp only [if_neg hmc]
      rw [hN18, hN17, hN16, hN15, hN14, hN13, hN12, hN11, hN10, hN9, hN8, hN7, hN6, hN5, hN4,
        hN3, hN2, hN1, if_neg hmc]
      by_cases c1 : m = r1
      · simp [c1, ne_r1_tId, ne_r1_r2, ne_r1_init1, ne_r1_init2]
      · by_cases c2 : m = tId
        · simp [c2, ne_tId_r1, ne_tId_r2, ne_tId_init1, ne_tId_init2]
        · by_cases c3 : m = r2
          · simp [c3, ne_r2_r1, ne_r2_tId, ne_r2_init1, ne_r2_init2]
          · by_cases c4 : m = init1
            · simp [c4, ne_init1_r1, ne_init1_tId, ne_init1_r2, ne_init1_init2]
            · by_cases c5 : m = init2
              · simp [c5, ne_init2_r1, ne_init2_tId, ne_init2_r2, ne_init2_init1]
              · simp [c1, c2, c3, c4, c5]
  · simp [ComputeGraph.getDefine, hV20]



/-! ## Properties of the channel-shuffle pass -/

/-- C3 (amended): in a well-formed graph, the shuffle rewrite of a Reshape accepted
by `is_shuffle` succeeds; afterwards the two Reshapes, the Transpose, the two shape
Initializers and the four interior values are gone and one new Shuffle operator
exists, whose only input is the first Reshape's data input and whose only output is
the value that was the second Reshape's output, with its name and shape unchanged;
its group attribute is element 1 of the first Reshape's target shape converted to a
32-bit `int`, which is that element whenever it lies in `[0, 2 ^ 31)`; every other
operator and the name, shape and data of every other value are untouched. -/
theorem shuffle_rewrite_replaces_pattern (g : ComputeGraph F) (r : Nat)
    (hwf : g.wellFormed = true) (hk : g.isa OpKind.Reshape r = some true)
    (h : is_shuffle g r = some true) :
    ∃ tId r2 init1 init2 op1 opT op2 opI1 opI2 input shape1 out1 outT shape2 output s grp g',
      ShuffleMatch g r tId r2 init1 init2 op1 opT op2 opI1 opI2 input shape1 out1 outT
        shape2 output s grp ∧
      NvDlaIdentifyShufflePass.rewrite g r = some g' ∧
      g'.getNode r = none ∧ g'.getNode tId = none ∧ g'.getNode r2 = none ∧
      g'.getNode init1 = none ∧ g'.getNode init2 = none ∧
      g'.getValue shape1 = none ∧ g'.getValue out1 = none ∧ g'.getValue outT = none ∧
      g'.getValue shape2 = none ∧
      g.getNode g.nodes.length = none ∧
      g'.getNode g.nodes.length =
        some { kind := OpKind.NvDlaShuffle, inputs := [input], outputs := [output],
               group := toInt grp } ∧
      (0 ≤ grp → grp < 2 ^ 31 → toInt grp = grp) ∧
      (∀ m, m ≠ g.nodes.length → m ≠ r → m ≠ tId → m ≠ r2 → m ≠ init1 → m ≠ init2 →
        g'.getNode m = g.getNode m) ∧
      (∃ y y', g.getValue output = some y ∧ g'.getValue output = some y' ∧
        y'.name = y.name ∧ y'.dims = y.dims ∧ y'.define = some g.nodes.length) ∧
      (∀ w, w ≠ shape1 → w ≠ out1 → w ≠ outT → w ≠ shape2 →
        g'.statics w = g.statics w) := by
  obtain ⟨tId, r2, init1, init2, op1, opT, op2, opI1, opI2, input, shape1, out1, outT, shape2,
    output, s, grp, hm, -⟩ := shuffleMatch_of_accept hwf hk h
  obtain ⟨g', hrw, hN, hS, hD⟩ := rewrite_of_shuffleMatch hm
  obtain ⟨v1, v2, v3, v4, v5, v6, v7, v8, v9, v10, v11, v12, v13, v14⟩ := hm.values_ne
  obtain ⟨l_in, l_s1, l_o1, l_oT, l_s2, l_out⟩ := hm.live
  have c1 := ne_length_of_getNode hm.h1
  have c2 := ne_length_of_getNode hm.hT
  have c3 := ne_length_of_getNode hm.h2
  have c4 := ne_length_of_getNode hm.hI1
  have c5 := ne_length_of_getNode hm.hI2
  refine ⟨tId, r2, init1, init2, op1, opT, op2, opI1, opI2, input, shape1, out1, outT, shape2,
    output, s, grp, g', hm, hrw, ?_, ?_, ?_, ?_, ?_, ?_, ?_, ?_, ?_, getNode_length g, ?_,
    fun h0 h1 => toInt_of_lt h0 h1, ?_, ?_, ?_⟩
  · rw [hN, if_neg c1, if_pos (by simp)]
  · rw [hN, if_neg c2, if_pos (by simp)]
  · rw [hN, if_neg c3, if_pos (by simp)]
  · rw [hN, if_neg c4, if_pos (by simp)]
  · rw [hN, if_neg c5, if_pos (by simp)]
  · exact getValue_eq_none_of_statics (by rw [hS, if_pos (by simp)])
  · exact getValue_eq_none_of_statics (by rw [hS, if_pos (by simp)])
  · exact getValue_eq_none_of_statics (by rw [hS, if_pos (by simp)])
  · exact getValue_eq_none_of_statics (by rw [hS, if_pos (by simp)])
  · rw [hN, if_pos rfl]
  · intro m e0 e1 e2 e3 e4 e5
    rw [hN, if_neg e0, if_neg (by simp [e1, e2, e3, e4, e5])]
  · obtain ⟨y, hy⟩ := Option.isSome_iff_exists.mp l_out
    have hSy : g'.statics output = g.statics output := by
      rw [hS, if_neg (by simp [v11, v12, v13, v14])]
    obtain ⟨y', hy', hn', hd', -⟩ := exists_of_statics hSy hy
    refine ⟨y, y', hy, hy', hn', hd', ?_⟩
    unfold ComputeGraph.getDefine at hD
    simpa [hy'] using hD
  · intro w e1 e2 e3 e4
    rw [hS, if_neg (by simp [e1, e2, e3, e4])]

/-- C3, witness: `Reshape(x, [1,3,4,5,6]) -> Transpose(perm = [0,2,1,3,4]) ->
Reshape(_, [1,12,5,6])` with `x` of shape `[1,12,5,6]` becomes the single operator
`Shuffle(group = 3)` taking `x` and producing `y`. -/
theorem shuffle_rewrite_replaces_pattern_witness :
    ((NvDlaIdentifyShufflePass.rewrite shuffleExample 2).map fun g' => g'.nodes) =
      some [some { kind := OpKind.Other, inputs := [], outputs := [0] }, none, none, none,
        none, none,
        some { kind := OpKind.NvDlaShuffle, inputs := [0], outputs := [5], group := 3 }] ∧
    ((NvDlaIdentifyShufflePass.rewrite shuffleExample 2).map fun g' =>
      g'.values.map fun o => o.map fun t => (t.name, t.dims)) =
      some [some ("x", [1, 12, 5, 6]), none, none, none, none,
        some ("y", [1, 12, 5, 6])] ∧
    ∃ tId r2 init1 init2 op1 opT op2 opI1 opI2 input shape1 out1 outT shape2 output s grp g',
      ShuffleMatch shuffleExample 2 tId r2 init1 init2 op1 opT op2 opI1 opI2 input shape1
        out1 outT shape2 output s grp ∧
      NvDlaIdentifyShufflePass.rewrite shuffleExample 2 = some g' ∧
      g'.getNode 2 = none ∧ g'.getNode tId = none ∧ g'.getNode r2 = none ∧
      g'.getNode init1 = none ∧ g'.getNode init2 = none ∧
      g'.getValue shape1 = none ∧ g'.getValue out1 = none ∧ g'.getValue outT = none ∧
      g'.getValue shape2 = none ∧
      shuffleExample.getNode shuffleExample.nodes.length = none ∧
      g'.getNode shuffleExample.nodes.length =
        some { kind := OpKind.NvDlaShuffle, inputs := [input], outputs := [output],
               group := toInt grp } ∧
      (0 ≤ grp → grp < 2 ^ 31 → toInt grp = grp) ∧
      (∀ m, m ≠ shuffleExample.nodes.length → m ≠ 2 → m ≠ tId → m ≠ r2 → m ≠ init1 →
        m ≠ init2 → g'.getNode m = shuffleExample.getNode m) ∧
      (∃ y y', shuffleExample.getValue output = some y ∧ g'.getValue output = some y' ∧
        y'.name = y.name ∧ y'.dims = y.dims ∧
        y'.define = some shuffleExample.nodes.length) ∧
      (∀ w, w ≠ shape1 → w ≠ out1 → w ≠ outT → w ≠ shape2 →
        g'.statics w = shuffleExample.statics w) :=
  ⟨by decide, by decide,
    shuffle_rewrite_replaces_pattern shuffleExample 2 (by decide) (by decide) (by decide)⟩

/-- C3, counterexample: the graph `shuffleWideGroup` is well formed and its Reshape 2
is accepted by `is_shuffle`; element 1 of its target shape is `4294967299`, and the
Shuffle operator created by the rewrite has the group attribute `3`. -/
theorem shuffle_group_is_narrowed :
    shuffleWideGroup.wellFormed = true ∧
    shuffleWideGroup.isa OpKind.Reshape 2 = some true ∧
    is_shuffle shuffleWideGroup 2 = some true ∧
    ((shuffleWideGroup.getInput 2 1).bind shuffleWideGroup.getInt64Values) =
      some [1, 4294967299, 4, 5, 6] ∧
    ((NvDlaIdentifyShufflePass.rewrite shuffleWideGroup 2).map fun g' => g'.getNode 6) =
      some (some { kind := OpKind.NvDlaShuffle, inputs := [0], outputs := [5],
                   group := 3 }) := by
  decide

/-- C4 (amended): `is_shuffle` answers true only if the first Reshape has exactly one
output, that output has exactly one use, whose user is a Transpose, the data input has
rank 4, and the target shape `s` has exactly 5 entries with the 64-bit product of
`s[1]` and `s[2]` (the product reduced modulo `2 ^ 64`) equal to dimension 1 of the
input, `s[3]` to dimension 2 and `s[4]` to dimension 3; `s[1] * s[2]` itself equals
dimension 1 whenever it lies in the range of `int64_t`. -/
theorem is_shuffle_checks_first_reshape (g : ComputeGraph F) (r : Nat)
    (h : is_shuffle g r = some true) :
    ∃ out u input shape1 s s1 s2 s3 s4 d1 d2 d3,
      g.getNumOfOutputs r = some 1 ∧ g.getOutput r 0 = some out ∧
      g.getUses out = some [u] ∧ g.isa OpKind.Transpose u.user = some true ∧
      g.getInput r 0 = some input ∧ g.getNumOfDimensions input = some 4 ∧
      g.getInput r 1 = some shape1 ∧ g.getInt64Values shape1 = some s ∧ s.length = 5 ∧
      s[1]? = some s1 ∧ s[2]? = some s2 ∧ s[3]? = some s3 ∧ s[4]? = some s4 ∧
      g.dimension input 1 = some d1 ∧ g.dimension input 2 = some d2 ∧
      g.dimension input 3 = some d3 ∧
      mulInt64 s1 s2 = d1 ∧ s3 = d2 ∧ s4 = d3 ∧
      (-(2 ^ 63) ≤ s1 * s2 → s1 * s2 < 2 ^ 63 → s1 * s2 = d1) := by
  obtain ⟨out, u, outT, u2, ho, hus, hta, -, -, -, -, hf, -, -⟩ := is_shuffle_chain h
  unfold checkFirstReshape at hf
  simp only [Option.bind_eq_bind, Option.bind_eq_some, SHUFFLE_ASSERT_eq_some_true,
    Option.pure_def, beq_iff_eq] at hf
  obtain ⟨_, hn, rfl, out', ho', _, -, -, input, hi, _, hrk, rfl, shape1, hs1, _, -,
    rfl, s, hs, hslen, d1, hd1, s1, hs1', s2, hs2, hprod, d2, hd2, s3, hs3, rfl, d3, hd3,
    s4, hs4, rfl, -⟩ := hf
  exact ⟨out, u, input, shape1, s, s1, s2, d2, d3, d1, d2, d3, hn, ho, hus, hta, hi, hrk, hs1,
    hs, hslen, hs1', hs2, hs3, hs4, hd1, hd2, hd3, hprod.symm, rfl, rfl,
    fun h0 h1 => (mulInt64_of_range h0 h1).symm.trans hprod.symm⟩

/-- C4, witness: the first Reshape of `shuffleExample`. -/
theorem is_shuffle_checks_first_reshape_witness :
    is_shuffle shuffleExample 2 = some true ∧
    ∃ out u input shape1 s s1 s2 s3 s4 d1 d2 d3,
      shuffleExample.getNumOfOutputs 2 = some 1 ∧ shuffleExample.getOutput 2 0 = some out ∧
      shuffleExample.getUses out = some [u] ∧
      shuffleExample.isa OpKind.Transpose u.user = some true ∧
      shuffleExample.getInput 2 0 = some input ∧
      shuffleExample.getNumOfDimensions input = some 4 ∧
      shuffleExample.getInput 2 1 = some shape1 ∧
      shuffleExample.getInt64Values shape1 = some s ∧ s.length = 5 ∧
      s[1]? = some s1 ∧ s[2]? = some s2 ∧ s[3]? = some s3 ∧ s[4]? = some s4 ∧
      shuffleExample.dimension input 1 = some d1 ∧
      shuffleExample.dimension input 2 = some d2 ∧
      shuffleExample.dimension input 3 = some d3 ∧
      mulInt64 s1 s2 = d1 ∧ s3 = d2 ∧ s4 = d3 ∧
      (-(2 ^ 63) ≤ s1 * s2 → s1 * s2 < 2 ^ 63 → s1 * s2 = d1) :=
  ⟨by decide, is_shuffle_checks_first_reshape shuffleExample 2 (by decide)⟩

/-- C4, counterexample: the graph `shuffleOverflow` is well formed and `is_shuffle`
accepts its Reshape 2, whose target shape is `[1, 3, 6148914691236517206, 5, 6]` and
whose data input has dimension 1 equal to 2: the 64-bit product of
`3` and `6148914691236517206` is `2 ^ 64 + 2` reduced to `2`, while `s[1] * s[2]` is
not `2`. -/
theorem is_shuffle_accepts_a_wrapped_first_product :
    shuffleOverflow.wellFormed = true ∧
    shuffleOverflow.isa OpKind.Reshape 2 = some true ∧
    is_shuffle shuffleOverflow 2 = some true ∧
    shuffleOverflow.getInput 2 0 = some 0 ∧ shuffleOverflow.getInput 2 1 = some 1 ∧
    shuffleOverflow.getInt64Values 1 = some [1, 3, 6148914691236517206, 5, 6] ∧
    shuffleOverflow.dimension 0 1 = some 2 ∧
    (3 : Int) * 6148914691236517206 = 2 ^ 64 + 2 ∧
    mulInt64 3 6148914691236517206 = 2 ∧
    (3 : Int) * 6148914691236517206 ≠ 2 := by
  decide

/-- What `is_shuffle` does check of the Transpose: it answers true only if the
Transpose that consumes the first Reshape's output has an input of rank 5 and a
permutation whose first five entries are `0, 2, 1, 3, 4` (so the permutation is
exactly `[0,2,1,3,4]` when it has five entries), has exactly one output, and that
output has exactly one use, whose user is a Reshape. -/
theorem is_shuffle_checks_transpose (g : ComputeGraph F) (r : Nat)
    (h : is_shuffle g r = some true) :
    ∃ out u tin perm outT u2,
      g.getOutput r 0 = some out ∧ g.getUses out = some [u] ∧
      g.isa OpKind.Transpose u.user = some true ∧
      g.getInput u.user 0 = some tin ∧ g.getNumOfDimensions tin = some 5 ∧
      g.getPerm u.user = some perm ∧ perm.take 5 = [0, 2, 1, 3, 4] ∧
      (perm.length = 5 → perm = [0, 2, 1, 3, 4]) ∧
      g.getNumOfOutputs u.user = some 1 ∧ g.getOutput u.user 0 = some outT ∧
      g.getUses outT = some [u2] ∧ g.isa OpKind.Reshape u2.user = some true := by
  obtain ⟨out, u, outT, u2, ho, hus, hta, hnT, hoT, husT, hra, -, hct, -⟩ := is_shuffle_chain h
  unfold checkTranspose at hct
  simp only [Option.bind_eq_bind, Option.bind_eq_some, SHUFFLE_ASSERT_eq_some_true,
    Option.pure_def, beq_iff_eq] at hct
  obtain ⟨_, -, rfl, _, -, _, -, -, tin, hti, _, htrk, rfl, perm, hperm, _, hp0, rfl, _, hp1,
    rfl, _, hp2, rfl, _, hp3, rfl, _, hp4, rfl, -⟩ := hct
  have hp : ∃ rest, perm = 0 :: 2 :: 1 :: 3 :: 4 :: rest := by
    rcases perm with _ | ⟨a0, _ | ⟨a1, _ | ⟨a2, _ | ⟨a3, _ | ⟨a4, rest⟩⟩⟩⟩⟩
    · simp at hp0
    · simp at hp1
    · simp at hp2
    · simp at hp3
    · simp at hp4
    · simp only [List.getElem?_cons_zero, List.getElem?_cons_succ, Option.some.injEq]
        at hp0 hp1 hp2 hp3 hp4
      subst hp0 hp1 hp2 hp3 hp4
      exact ⟨rest, rfl⟩
  obtain ⟨rest, rfl⟩ := hp
  refine ⟨out, u, tin, _, outT, u2, ho, hus, hta, hti, htrk, hperm, rfl, ?_, hnT, hoT, husT,
    hra⟩
  intro hl
  simp only [List.length_cons, Nat.add_right_cancel_iff] at hl
  have : rest = [] := List.eq_nil_of_length_eq_zero (by omega)
  rw [this]

/-- The checks of the Transpose on `shuffleExample`. -/
theorem is_shuffle_checks_transpose_witness :
    is_shuffle shuffleExample 2 = some true ∧
    ∃ out u tin perm outT u2,
      shuffleExample.getOutput 2 0 = some out ∧ shuffleExample.getUses out = some [u] ∧
      shuffleExample.isa OpKind.Transpose u.user = some true ∧
      shuffleExample.getInput u.user 0 = some tin ∧
      shuffleExample.getNumOfDimensions tin = some 5 ∧
      shuffleExample.getPerm u.user = some perm ∧ perm.take 5 = [0, 2, 1, 3, 4] ∧
      (perm.length = 5 → perm = [0, 2, 1, 3, 4]) ∧
      shuffleExample.getNumOfOutputs u.user = some 1 ∧
      shuffleExample.getOutput u.user 0 = some outT ∧
      shuffleExample.getUses outT = some [u2] ∧
      shuffleExample.isa OpKind.Reshape u2.user = some true :=
  ⟨by decide, is_shuffle_checks_transpose shuffleExample 2 (by decide)⟩

/-- C5, the failing input: the graph `shuffleLongPerm` is well formed and its
Reshape 2 is accepted by `is_shuffle`, although the permutation of the Transpose that
consumes the Reshape's output is not `[0,2,1,3,4]`: it has six entries,
`[0,2,1,3,4,0]`, on an input of rank 5.  The matcher reads the first five entries and
never the length; the pass then replaces the pattern by a Shuffle. -/
theorem is_shuffle_accepts_longer_perm :
    shuffleLongPerm.wellFormed = true ∧
    shuffleLongPerm.isa OpKind.Reshape 2 = some true ∧
    is_shuffle shuffleLongPerm 2 = some true ∧
    ((shuffleLongPerm.getOutput 2 0).bind shuffleLongPerm.getUses) = some [⟨3, 0⟩] ∧
    shuffleLongPerm.getPerm 3 = some [0, 2, 1, 3, 4, 0] ∧
    ((shuffleLongPerm.getInput 3 0).bind shuffleLongPerm.getNumOfDimensions) = some 5 ∧
    ((NvDlaIdentifyShufflePass.runOnComputeGraph shuffleLongPerm).map fun r =>
      ((r.1.getNode 6).map fun op => op.kind, r.2)) =
      some (some OpKind.NvDlaShuffle, kModuleChanged) := by
  decide

/-- C6 (amended): in a well-formed graph, `is_shuffle` answers true on a Reshape only
if the second Reshape, the single user of the Transpose's output, reads that output
in slot 0, the output has rank 5, and the target shape `t` has exactly 4 entries with
`t[1]` equal to the 64-bit product of `d[1]` and `d[2]` (the product reduced modulo
`2 ^ 64`), `t[2] = d[3]` and `t[3] = d[4]`, where `d` are the dimensions of the
Transpose's output; `t[1] = d[1] * d[2]` whenever that product lies in the range of
`int64_t`; `t[0]` is not looked at. -/
theorem is_shuffle_checks_last_reshape (g : ComputeGraph F) (r : Nat)
    (hwf : g.wellFormed = true) (hk : g.isa OpKind.Reshape r = some true)
    (h : is_shuffle g r = some true) :
    ∃ out1 tId outT r2 shape2 t d1 d2 d3 d4,
      g.getOutput r 0 = some out1 ∧ (∃ k, g.getUses out1 = some [⟨tId, k⟩]) ∧
      g.isa OpKind.Transpose tId = some true ∧ g.getOutput tId 0 = some outT ∧
      (∃ k, g.getUses outT = some [⟨r2, k⟩]) ∧ g.isa OpKind.Reshape r2 = some true ∧
      g.getInput r2 0 = some outT ∧ g.getNumOfDimensions outT = some 5 ∧
      g.getInput r2 1 = some shape2 ∧ g.getInt64Values shape2 = some t ∧ t.length = 4 ∧
      g.dimension outT 1 = some d1 ∧ g.dimension outT 2 = some d2 ∧
      g.dimension outT 3 = some d3 ∧ g.dimension outT 4 = some d4 ∧
      t[1]? = some (mulInt64 d1 d2) ∧ t[2]? = some d3 ∧ t[3]? = some d4 ∧
      (-(2 ^ 63) ≤ d1 * d2 → d1 * d2 < 2 ^ 63 → t[1]? = some (d1 * d2)) := by
  obtain ⟨tId, r2, init1, init2, op1, opT, op2, opI1, opI2, input, shape1, out1, outT, shape2,
    output, s, grp, hm, t, e1, e2, e3, e4, hrk, ht, htlen, he1, he2, he3, he4, ht1, ht2, ht3⟩ :=
    shuffleMatch_of_accept hwf hk h
  refine ⟨out1, tId, outT, r2, shape2, t, e1, e2, e3, e4, ?_, hm.uses1, ?_, ?_, hm.usesT, ?_, ?_,
    hrk, ?_, ht, htlen, he1, he2, he3, he4, ht1, ht2, ht3, ?_⟩
  · simp [ComputeGraph.getOutput, hm.h1, hm.o1]
  · simp [ComputeGraph.isa, hm.hT, hm.kT]
  · simp [ComputeGraph.getOutput, hm.hT, hm.oT]
  · simp [ComputeGraph.isa, hm.h2, hm.k2]
  · simp [ComputeGraph.getInput, hm.h2, hm.in2]
  · simp [ComputeGraph.getInput, hm.h2, hm.in2]
  · intro h0 h1
    rw [ht1, mulInt64_of_range h0 h1]

/-- C6, witness: the second Reshape of `shuffleExample`, whose target shape
`[1,12,5,6]` matches the Transpose's output of shape `[1,4,3,5,6]`. -/
theorem is_shuffle_checks_last_reshape_witness :
    shuffleExample.getInt64Values 4 = some [1, 12, 5, 6] ∧
    (shuffleExample.getValue 3).map (fun t => t.dims) = some [1, 4, 3, 5, 6] ∧
    ∃ out1 tId outT r2 shape2 t d1 d2 d3 d4,
      shuffleExample.getOutput 2 0 = some out1 ∧
      (∃ k, shuffleExample.getUses out1 = some [⟨tId, k⟩]) ∧
      shuffleExample.isa OpKind.Transpose tId = some true ∧
      shuffleExample.getOutput tId 0 = some outT ∧
      (∃ k, shuffleExample.getUses outT = some [⟨r2, k⟩]) ∧
      shuffleExample.isa OpKind.Reshape r2 = some true ∧
      shuffleExample.getInput r2 0 = some outT ∧
      shuffleExample.getNumOfDimensions outT = some 5 ∧
      shuffleExample.getInput r2 1 = some shape2 ∧
      shuffleExample.getInt64Values shape2 = some t ∧ t.length = 4 ∧
      shuffleExample.dimension outT 1 = some d1 ∧ shuffleExample.dimension outT 2 = some d2 ∧
      shuffleExample.dimension outT 3 = some d3 ∧ shuffleExample.dimension outT 4 = some d4 ∧
      t[1]? = some (mulInt64 d1 d2) ∧ t[2]? = some d3 ∧ t[3]? = some d4 ∧
      (-(2 ^ 63) ≤ d1 * d2 → d1 * d2 < 2 ^ 63 → t[1]? = some (d1 * d2)) :=
  ⟨by decide, by decide,
    is_shuffle_checks_last_reshape shuffleExample 2 (by decide) (by decide) (by decide)⟩

/-- C6, counterexample: in the well-formed graph `shuffleOverflow`, accepted by
`is_shuffle`, the Transpose's output (value 3) has the dimensions
`[1, 6148914691236517206, 3, 5, 6]` and the second target shape is `[1, 2, 5, 6]`:
`t[1] = 2` is the 64-bit product of `d[1]` and `d[2]`, not `d[1] * d[2]`. -/
theorem is_shuffle_accepts_a_wrapped_last_product :
    shuffleOverflow.wellFormed = true ∧
    is_shuffle shuffleOverflow 2 = some true ∧
    shuffleOverflow.getInput 5 0 = some 3 ∧ shuffleOverflow.getInput 5 1 = some 4 ∧
    (shuffleOverflow.getValue 3).map (fun t => t.dims) =
      some [1, 6148914691236517206, 3, 5, 6] ∧
    shuffleOverflow.getInt64Values 4 = some [1, 2, 5, 6] ∧
    checkLastReshape shuffleOverflow 5 = some true ∧
    mulInt64 6148914691236517206 3 = 2 ∧
    (6148914691236517206 : Int) * 3 ≠ 2 := by
  decide

/-! ## Candidates on which a matcher is not defined -/

/-- C21, the failing input: the graphs `shuffleWithPerm [0,2,1,3]` and
`shuffleWithPerm []` are well formed and differ from `shuffleExample` only in the
permutation of the Transpose, which has four entries and none; on the Reshape
candidate 2 the first section and the checks of the Transpose before the permutation
pass, and `is_shuffle` yields no boolean: `perm.at` throws. -/
theorem is_shuffle_throws_on_short_perm :
    (shuffleWithPerm [0, 2, 1, 3]).wellFormed = true ∧ (shuffleWithPerm []).wellFormed = true ∧
    (shuffleWithPerm [0, 2, 1, 3]).isa OpKind.Reshape 2 = some true ∧
    (shuffleWithPerm []).isa OpKind.Reshape 2 = some true ∧
    checkFirstReshape (shuffleWithPerm [0, 2, 1, 3]) 2 = some true ∧
    checkFirstReshape (shuffleWithPerm []) 2 = some true ∧
    (shuffleWithPerm [0, 2, 1, 3]).getPerm 3 = some [0, 2, 1, 3] ∧
    (shuffleWithPerm []).getPerm 3 = some [] ∧
    is_shuffle (shuffleWithPerm [0, 2, 1, 3]) 2 = none ∧
    is_shuffle (shuffleWithPerm []) 2 = none ∧
    NvDlaIdentifyShufflePass.collect (shuffleWithPerm [0, 2, 1, 3]) = none ∧
    (NvDlaIdentifyShufflePass.runOnComputeGraph (shuffleWithPerm [])).isNone = true ∧
    is_shuffle (shuffleWithPerm [0, 2, 1, 3, 4]) 2 = some true ∧
    is_shuffle (shuffleWithPerm [0, 1, 2, 3, 4]) 2 = some false := by
  decide

/-- C22, the failing input: in the well-formed graph `deadEnds` the output of the
Add 4 has an empty use-list, the output of the Mul 3, the single user of the Add 2,
has an empty use-list, and the Mul 3 has a constant operand; `isAddMulRelu` on the
Adds 4 and 2 and `canBeReordered` on the Mul 3 pass the test `size() > 1` and read
element 0 of the empty use-list, which is not defined: no matcher yields `false`,
and neither pass returns. -/
theorem matchers_read_an_empty_use_list :
    deadEnds.wellFormed = true ∧
    deadEnds.isa OpKind.Add 4 = some true ∧
    (deadEnds.getOutput 4 0).bind deadEnds.getUses = some [] ∧
    isAddMulRelu deadEnds 4 = none ∧
    deadEnds.isa OpKind.Add 2 = some true ∧
    (deadEnds.getOutput 2 0).bind deadEnds.getUses = some [⟨3, 0⟩] ∧
    deadEnds.isa OpKind.Mul 3 = some true ∧
    (deadEnds.getOutput 3 0).bind deadEnds.getUses = some [] ∧
    isAddMulRelu deadEnds 2 = none ∧
    (deadEnds.getInput 3 1).bind (isConstant deadEnds) = some true ∧
    canBeReordered deadEnds 3 = none ∧
    (NvDlaFuseAddMulReluPass.runOnComputeGraph deadEnds).isNone = true ∧
    (NvDlaReorderMulAddPass.runOnComputeGraph deadEnds 0).isNone = true := by
  decide

/-! ## Values erased while still in use -/

/-- C23, the failing input: the graph `shuffleSharedShape` is well formed and its
Reshape 2 is accepted by `is_shuffle`; the first shape tensor (value 1) is also the
shape operand of the Reshape 6.  The rewrite erases value 1 all the same: afterwards
the surviving Reshape 6 still holds the erased value in input slot 1, and the graph
is no longer well formed.  Run with the check that a value's use-list is empty when it
is erased, the rewrite stops at that erase, while on `shuffleExample` it passes. -/
theorem shuffle_rewrite_erases_a_shared_shape :
    shuffleSharedShape.wellFormed = true ∧
    shuffleSharedShape.isa OpKind.Reshape 2 = some true ∧
    is_shuffle shuffleSharedShape 2 = some true ∧
    shuffleSharedShape.getInput 2 1 = some 1 ∧
    shuffleSharedShape.getUses 1 = some [⟨2, 1⟩, ⟨6, 1⟩] ∧
    ((shuffleSharedShape.removeAllInputs 2).bind fun g => g.getUses 1) = some [⟨6, 1⟩] ∧
    ((NvDlaIdentifyShufflePass.rewrite shuffleSharedShape 2).map fun g' => g'.getValue 1) =
      some none ∧
    ((NvDlaIdentifyShufflePass.rewrite shuffleSharedShape 2).map fun g' => g'.getNode 6) =
      some (some { kind := OpKind.Reshape, inputs := [6, 1], outputs := [7] }) ∧
    ((NvDlaIdentifyShufflePass.rewrite shuffleSharedShape 2).map fun g' => g'.wellFormed) =
      some false ∧
    ((NvDlaIdentifyShufflePass.runOnComputeGraph shuffleSharedShape).map fun r =>
      (r.1.getNode 6, r.1.getValue 1, r.2)) =
      some (some { kind := OpKind.Reshape, inputs := [6, 1], outputs := [7] }, none,
        kModuleChanged) ∧
    NvDlaIdentifyShufflePass.rewriteChecked anyErase unusedValueErase shuffleSharedShape 2 =
      none ∧
    NvDlaIdentifyShufflePass.rewriteChecked anyErase unusedValueErase shuffleExample 2 =
      NvDlaIdentifyShufflePass.rewrite shuffleExample 2 := by
  decide

/-- C24, the failing input: the graph `reorderSharedBeta` is well formed and its
Mul 3 is accepted by `canBeReordered`; `beta` (value 2) is an operand of the matched
Add 4 and of the Add 5.  The rewrite erases `beta` all the same: afterwards the
surviving Add 5 still holds the erased value in input slot 1, and the graph is no
longer well formed.  Run with the check that a value's use-list is empty when it is
erased, the rewrite stops at that erase, while on `reorderExample` it passes. -/
theorem reorder_rewrite_erases_a_shared_beta :
    reorderSharedBeta.wellFormed = true ∧
    canBeReordered reorderSharedBeta 3 = some true ∧
    reorderSharedBeta.getUses 2 = some [⟨4, 1⟩, ⟨5, 1⟩] ∧
    ((reorderSharedBeta.removeAllInputs 4).bind fun g => g.getUses 2) = some [⟨5, 1⟩] ∧
    ((NvDlaReorderMulAddPass.rewrite reorderSharedBeta 0 3).map fun r => r.1.getValue 2) =
      some none ∧
    ((NvDlaReorderMulAddPass.rewrite reorderSharedBeta 0 3).map fun r => r.1.getNode 5) =
      some (some { kind := OpKind.Add, inputs := [5, 2], outputs := [6] }) ∧
    ((NvDlaReorderMulAddPass.rewrite reorderSharedBeta 0 3).map fun r => r.1.wellFormed) =
      some false ∧
    ((NvDlaReorderMulAddPass.runOnComputeGraph reorderSharedBeta 0).map fun r =>
      (r.1.1.getNode 5, r.2)) =
      some (some { kind := OpKind.Add, inputs := [5, 2], outputs := [6] },
        kModuleChanged) ∧
    NvDlaReorderMulAddPass.rewriteChecked anyErase unusedValueErase reorderSharedBeta 0 3 =
      none ∧
    NvDlaReorderMulAddPass.rewriteChecked anyErase unusedValueErase reorderExample 0 3 =
      NvDlaReorderMulAddPass.rewrite reorderExample 0 3 := by
  with_unfolding_all decide

/-! ## Sizes kept by the channel-shuffle pattern -/

theorem toInt_of_range {x : Int} (h0 : -(2 ^ 31) ≤ x) (h1 : x < 2 ^ 31) : toInt x = x := by
  unfold toInt
  rw [Int.emod_eq_of_lt (by omega) (by omega)]
  omega

/-- C28 (amended): in a well-formed graph, whenever `is_shuffle` accepts a Reshape
whose target shape is `s`, the rewrite goes through and creates a Shuffle whose group
is `s[1]` converted to `int`.  If the intermediate tensors carry shape-consistent
dimensions (the first Reshape's output has the dimensions `s` and the Transpose's
output has them permuted by `[0,2,1,3,4]`), then the second Reshape's target shape
`t` has `t[1]`, `t[2]`, `t[3]` equal to dimensions 1, 2, 3 of the first Reshape's
data input.  The Shuffle's group divides dimension 1 of the data input whenever
`s[1]` lies in the range of `int` and `s[1] * s[2]` in the range of `int64_t`. -/
theorem shuffle_pattern_keeps_sizes (g : ComputeGraph F) (r : Nat)
    (hwf : g.wellFormed = true) (hk : g.isa OpKind.Reshape r = some true)
    (h : is_shuffle g r = some true) :
    ∃ input shape1 out1 tId outT r2 shape2 output s0 s1 s2 s3 s4 t d1 g',
      g.getInput r 0 = some input ∧ g.getInput r 1 = some shape1 ∧
      g.getInt64Values shape1 = some [s0, s1, s2, s3, s4] ∧
      g.getOutput r 0 = some out1 ∧ (∃ k, g.getUses out1 = some [⟨tId, k⟩]) ∧
      g.getOutput tId 0 = some outT ∧ (∃ k, g.getUses outT = some [⟨r2, k⟩]) ∧
      g.getInput r2 1 = some shape2 ∧ g.getInt64Values shape2 = some t ∧
      g.dimension input 1 = some d1 ∧
      NvDlaIdentifyShufflePass.rewrite g r = some g' ∧
      g'.getNode g.nodes.length =
        some { kind := OpKind.NvDlaShuffle, inputs := [input], outputs := [output],
               group := toInt s1 } ∧
      (-(2 ^ 31) ≤ s1 → s1 < 2 ^ 31 → -(2 ^ 63) ≤ s1 * s2 → s1 * s2 < 2 ^ 63 →
        toInt s1 ∣ d1) ∧
      ((g.getValue out1).map (fun x => x.dims) = some [s0, s1, s2, s3, s4] →
        (∀ i p : Nat, [0, 2, 1, 3, 4][i]? = some p →
          g.dimension outT i = g.dimension out1 p) →
        t[1]? = g.dimension input 1 ∧ t[2]? = g.dimension input 2 ∧
        t[3]? = g.dimension input 3) := by
  obtain ⟨tId, r2, init1, init2, op1, opT, op2, opI1, opI2, input, shape1, out1, outT, shape2,
    output, s, grp, hm, t, e1, e2, e3, e4, hrk, ht, htlen, he1, he2, he3, he4, ht1, ht2, ht3⟩ :=
    shuffleMatch_of_accept hwf hk h
  obtain ⟨g', hg', hN', -, -⟩ := rewrite_of_shuffleMatch hm
  obtain ⟨_, _, _, _, -, -, -, -, -, -, -, hf, -, -⟩ := is_shuffle_chain h
  have hi0 : g.getInput r 0 = some input := by
    simp [ComputeGraph.getInput, hm.h1, hm.in1]
  have hi1 : g.getInput r 1 = some shape1 := by
    simp [ComputeGraph.getInput, hm.h1, hm.in1]
  unfold checkFirstReshape at hf
  simp only [Option.bind_eq_bind, Option.bind_eq_some, SHUFFLE_ASSERT_eq_some_true,
    Option.pure_def, beq_iff_eq] at hf
  obtain ⟨_, -, rfl, _, -, _, -, -, input', hi', _, -, rfl, shape1', hs1', _, -,
    rfl, s', hs', hslen, d1, hd1, s1, hs1, s2, hs2, hprod, d2, hd2, s3, hs3, rfl, d3, hd3,
    s4, hs4, rfl, -⟩ := hf
  rw [hi0] at hi'
  cases hi'
  rw [hi1] at hs1'
  cases hs1'
  rw [hm.shape] at hs'
  cases hs'
  have hgrp : grp = s1 := Option.some.inj (hm.hgrp.symm.trans hs1)
  have hs : ∃ s0, s = [s0, s1, s2, d2, d3] := by
    rcases s with _ | ⟨a0, _ | ⟨a1, _ | ⟨a2, _ | ⟨a3, _ | ⟨a4, _ | ⟨a5, rest⟩⟩⟩⟩⟩⟩ <;>
      simp at hslen
    simp only [List.getElem?_cons_zero, List.getElem?_cons_succ, Option.some.injEq]
      at hs1 hs2 hs3 hs4
    subst hs1 hs2 hs3 hs4
    exact ⟨a0, rfl⟩
  obtain ⟨s0, rfl⟩ := hs
  refine ⟨input, shape1, out1, tId, outT, r2, shape2, output, s0, s1, s2, d2, d3, t, d1, g',
    hi0, hi1, hm.shape, ?_, hm.uses1, ?_, hm.usesT, ?_, ht, hd1, hg', ?_, ?_, ?_⟩
  · simp [ComputeGraph.getOutput, hm.h1, hm.o1]
  · simp [ComputeGraph.getOutput, hm.hT, hm.oT]
  · simp [ComputeGraph.getInput, hm.h2, hm.in2]
  · rw [hN', if_pos rfl, hgrp]
  · intro a0 a1 b0 b1
    rw [toInt_of_range a0 a1, hprod, mulInt64_of_range b0 b1]
    exact ⟨s2, rfl⟩
  · intro hdims hperm
    have hdim : ∀ p : Nat, g.dimension out1 p = [s0, s1, s2, d2, d3][p]? := by
      intro p
      unfold ComputeGraph.dimension
      cases hv : g.getValue out1 with
      | none => simp [hv] at hdims
      | some x =>
        rw [hv] at hdims
        simp only [Option.map_some', Option.some.injEq] at hdims
        simp [hdims]
    have q1 := hperm 1 2 rfl
    have q2 := hperm 2 1 rfl
    have q3 := hperm 3 3 rfl
    have q4 := hperm 4 4 rfl
    rw [hdim, he1] at q1
    rw [hdim, he2] at q2
    rw [hdim, he3] at q3
    rw [hdim, he4] at q4
    simp only [List.getElem?_cons_zero, List.getElem?_cons_succ, Option.some.injEq]
      at q1 q2 q3 q4
    subst q1 q2 q3 q4
    refine ⟨?_, ?_, ?_⟩
    · rw [ht1, hd1, hprod, mulInt64_comm]
    · rw [ht2, hd2]
    · rw [ht3, hd3]

/-- C28, witness: in `shuffleExample` the second target shape `[1,12,5,6]` repeats the
sizes 12, 5, 6 of the input `x`, and the group 3 of the created Shuffle divides 12. -/
theorem shuffle_pattern_keeps_sizes_witness :
    (shuffleExample.getValue 2).map (fun x => x.dims) = some [1, 3, 4, 5, 6] ∧
    (shuffleExample.getValue 3).map (fun x => x.dims) = some [1, 4, 3, 5, 6] ∧
    ((NvDlaIdentifyShufflePass.rewrite shuffleExample 2).map fun g' => g'.getNode 6) =
      some (some { kind := OpKind.NvDlaShuffle, inputs := [0], outputs := [5],
                   group := 3 }) ∧
    ∃ input shape1 out1 tId outT r2 shape2 output s0 s1 s2 s3 s4 t d1 g',
      shuffleExample.getInput 2 0 = some input ∧ shuffleExample.getInput 2 1 = some shape1 ∧
      shuffleExample.getInt64Values shape1 = some [s0, s1, s2, s3, s4] ∧
      shuffleExample.getOutput 2 0 = some out1 ∧
      (∃ k, shuffleExample.getUses out1 = some [⟨tId, k⟩]) ∧
      shuffleExample.getOutput tId 0 = some outT ∧
      (∃ k, shuffleExample.getUses outT = some [⟨r2, k⟩]) ∧
      shuffleExample.getInput r2 1 = some shape2 ∧
      shuffleExample.getInt64Values shape2 = some t ∧
      shuffleExample.dimension input 1 = some d1 ∧
      NvDlaIdentifyShufflePass.rewrite shuffleExample 2 = some g' ∧
      g'.getNode shuffleExample.nodes.length =
        some { kind := OpKind.NvDlaShuffle, inputs := [input], outputs := [output],
               group := toInt s1 } ∧
      (-(2 ^ 31) ≤ s1 → s1 < 2 ^ 31 → -(2 ^ 63) ≤ s1 * s2 → s1 * s2 < 2 ^ 63 →
        toInt s1 ∣ d1) ∧
      ((shuffleExample.getValue out1).map (fun x => x.dims) = some [s0, s1, s2, s3, s4] →
        (∀ i p : Nat, [0, 2, 1, 3, 4][i]? = some p →
          shuffleExample.dimension outT i = shuffleExample.dimension out1 p) →
        t[1]? = shuffleExample.dimension input 1 ∧ t[2]? = shuffleExample.dimension input 2 ∧
        t[3]? = shuffleExample.dimension input 3) :=
  ⟨by decide, by decide, by decide,
    shuffle_pattern_keeps_sizes shuffleExample 2 (by decide) (by decide) (by decide)⟩

/-- C28, counterexample: two well-formed graphs accepted by `is_shuffle`, with
shape-consistent intermediate tensors, in which the group of the created Shuffle does
not divide the channel size.  In `shuffleWideGroup` `s[1] = 4294967299` is converted
to the `int` 3, which does not divide `input.dim(1) = 17179869196`.  In
`shuffleOverflow` `s[1] = 3` does not divide `input.dim(1) = 2`, because the check
compares the channel size with a product that has wrapped around. -/
theorem shuffle_group_need_not_divide_channels :
    shuffleWideGroup.wellFormed = true ∧ is_shuffle shuffleWideGroup 2 = some true ∧
    shuffleWideGroup.getInt64Values 1 = some [1, 4294967299, 4, 5, 6] ∧
    (shuffleWideGroup.getValue 2).map (fun x => x.dims) = some [1, 4294967299, 4, 5, 6] ∧
    (shuffleWideGroup.getValue 3).map (fun x => x.dims) = some [1, 4, 4294967299, 5, 6] ∧
    shuffleWideGroup.dimension 0 1 = some 17179869196 ∧
    ((NvDlaIdentifyShufflePass.rewrite shuffleWideGroup 2).map fun g' =>
      (g'.getNode 6).map fun op => (op.kind, op.group)) =
      some (some (OpKind.NvDlaShuffle, 3)) ∧
    ¬ ((3 : Int) ∣ 17179869196) ∧
    shuffleOverflow.wellFormed = true ∧ is_shuffle shuffleOverflow 2 = some true ∧
    shuffleOverflow.getInt64Values 1 = some [1, 3, 6148914691236517206, 5, 6] ∧
    (shuffleOverflow.getValue 2).map (fun x => x.dims) =
      some [1, 3, 6148914691236517206, 5, 6] ∧
    (shuffleOverflow.getValue 3).map (fun x => x.dims) =
      some [1, 6148914691236517206, 3, 5, 6] ∧
    shuffleOverflow.dimension 0 1 = some 2 ∧
    ((NvDlaIdentifyShufflePass.rewrite shuffleOverflow 2).map fun g' =>
      (g'.getNode 6).map fun op => (op.kind, op.group)) =
      some (some (OpKind.NvDlaShuffle, 3)) ∧
    ¬ ((3 : Int) ∣ 2) := by
  decide

/-! ## The index of the largest score -/

theorem maximunloop_prefix (img : List Int) : ∀ k, k ≤ img.length →
    ∃ r m, (List.range k).foldlM (maximunStep img) (0, 0) = some (r, m) ∧
      (∀ j y, j < k → img[j]? = some y → y ≤ m) ∧ 0 ≤ m ∧
      ((m = 0 ∧ r = 0) ∨
        (0 < m ∧ r < k ∧ img[r]? = some m ∧ ∀ j y, j < r → img[j]? = some y → y < m)) := by
  intro k
  induction k with
  | zero =>
    intro _
    exact ⟨0, 0, rfl, fun j y hj => absurd hj (Nat.not_lt_zero j), le_refl _, Or.inl ⟨rfl, rfl⟩⟩
  | succ k ih =>
    intro hk
    obtain ⟨r, m, hf, hmax, hm0, hcase⟩ := ih (Nat.le_of_succ_le hk)
    have hlt : k < img.length := hk
    have hx : img[k]? = some img[k] := List.getElem?_eq_getElem hlt
    rw [List.range_succ, List.foldlM_append, hf]
    simp only [Option.bind_eq_bind, Option.some_bind, List.foldlM_cons, List.foldlM_nil,
      maximunStep, hx, Option.map_some', Option.pure_def, Option.bind_some]
    by_cases hgt : m < img[k]
    · refine ⟨k, img[k], by simp [hgt], ?_, by omega, Or.inr ⟨by omega, Nat.lt_succ_self k, hx, ?_⟩⟩
      · intro j y hj hy
        rcases Nat.lt_succ_iff_lt_or_eq.mp hj with h | h
        · exact le_of_lt (lt_of_le_of_lt (hmax j y h hy) hgt)
        · subst h
          rw [hx] at hy
          exact le_of_eq (Option.some.inj hy).symm
      · intro j y hj hy
        exact lt_of_le_of_lt (hmax j y hj hy) hgt
    · refine ⟨r, m, by simp [hgt], ?_, hm0, ?_⟩
      · intro j y hj hy
        rcases Nat.lt_succ_iff_lt_or_eq.mp hj with h | h
        · exact hmax j y h hy
        · subst h
          rw [hx] at hy
          rw [← Option.some.inj hy]
          exact not_lt.mp hgt
      · rcases hcase with h | ⟨h1, h2, h3, h4⟩
        · exact Or.inl h
        · exact Or.inr ⟨h1, Nat.lt_succ_of_lt h2, h3, h4⟩

/-- C29: for every array of 10 scores, `maximunloop` returns an index `r` with
`0 ≤ r ≤ 9`; if some score is greater than 0, the score at `r` is the maximum of the
ten scores and every score at a smaller index is smaller, so `r` is the smallest
index whose score equals the maximum; if every score is at most 0, `r` is 0. -/
theorem maximunloop_returns_first_maximum (img : List Int) (h : img.length = 10) :
    ∃ r, maximunloop img = some r ∧ r ≤ 9 ∧
      ((∃ x ∈ img, 0 < x) →
        ∃ m, img[r]? = some m ∧ (∀ x ∈ img, x ≤ m) ∧
          ∀ j y, j < r → img[j]? = some y → y < m) ∧
      ((∀ x ∈ img, x ≤ 0) → r = 0) := by
  obtain ⟨r, m, hf, hmax, hm0, hcase⟩ := maximunloop_prefix img 10 (le_of_eq h.symm)
  have hall : ∀ x ∈ img, x ≤ m := by
    intro x hx
    obtain ⟨j, hj⟩ := List.mem_iff_getElem?.mp hx
    have hj10 : j < 10 := by
      rw [← h]
      exact (List.getElem?_eq_some.mp hj).1
    exact hmax j x hj10 hj
  refine ⟨r, by unfold maximunloop; rw [hf]; rfl, ?_, ?_, ?_⟩
  · rcases hcase with ⟨-, h2⟩ | ⟨-, h2, -, -⟩ <;> omega
  · rintro ⟨x, hx, hpos⟩
    rcases hcase with ⟨h1, -⟩ | ⟨-, -, h3, h4⟩
    · have := hall x hx
      omega
    · exact ⟨m, h3, hall, h4⟩
  · intro hle
    rcases hcase with ⟨-, h2⟩ | ⟨h1, -, h3, -⟩
    · exact h2
    · have := hle m (List.getElem?_mem h3)
      omega

/-- C29, witness: the scores `[-3, 7, 2, 7, 0, 1, -8, 5, 7, 6]` give index 1. -/
theorem maximunloop_returns_first_maximum_witness :
    maximunloop [-3, 7, 2, 7, 0, 1, -8, 5, 7, 6] = some 1 ∧
    maximunloop [-3, 0, -2, -7, 0, -1, -8, -5, -7, -6] = some 0 ∧
    ∃ r, maximunloop [-3, 7, 2, 7, 0, 1, -8, 5, 7, 6] = some r ∧ r ≤ 9 ∧
      ((∃ x ∈ [-3, 7, 2, 7, 0, 1, -8, 5, 7, 6], 0 < x) →
        ∃ m, [-3, 7, 2, 7, 0, 1, -8, 5, 7, 6][r]? = some m ∧
          (∀ x ∈ [-3, 7, 2, 7, 0, 1, -8, 5, 7, 6], x ≤ m) ∧
          ∀ j y, j < r → [-3, 7, 2, 7, 0, 1, -8, 5, 7, 6][j]? = some y → y < m) ∧
      ((∀ x ∈ [-3, 7, 2, 7, 0, 1, -8, 5, 7, 6], x ≤ 0) → r = 0) :=
  ⟨by decide, by decide, maximunloop_returns_first_maximum _ rfl⟩

/-! ## The iteration order across the edits -/

namespace ComputeGraph

theorem addValue_order {t : Tensor F} {g : ComputeGraph F} {r : ComputeGraph F × Nat}
    (h : g.addValue t = some r) : r.1.order = g.order ∧ r.1.nodes = g.nodes := by
  unfold addValue at h
  split at h
  · exact absurd h (by simp)
  · simp only [Option.some.injEq] at h
    subst h
    exact ⟨rfl, rfl⟩

/-- The selection loop only permutes the operators it is given. -/
theorem topologicalLoop_perm (g : ComputeGraph F) :
    ∀ (fuel : Nat) (done rest : List Nat),
      (g.topologicalLoop fuel done rest).Perm (done ++ rest) := by
  intro fuel
  induction fuel with
  | zero =>
    intro done rest
    exact List.Perm.refl _
  | succ fuel ih =>
    intro done rest
    unfold topologicalLoop
    cases hf : rest.find? (g.producersReady done) with
    | none => exact List.Perm.refl _
    | some n =>
      have hmem : n ∈ rest := List.mem_of_find?_eq_some hf
      refine (ih (done ++ [n]) (rest.erase n)).trans ?_
      rw [List.append_assoc]
      exact List.Perm.append_left done (List.perm_cons_erase hmem).symm

end ComputeGraph

theorem fuse_run_eq (g : ComputeGraph F) :
    NvDlaFuseAddMulReluPass.runOnComputeGraph g =
      (NvDlaFuseAddMulReluPass.collect g).bind fun c =>
        (c.1.foldlM NvDlaFuseAddMulReluPass.rewrite g).map fun gf =>
          (gf.topologicalSort, c.2) := by
  unfold NvDlaFuseAddMulReluPass.runOnComputeGraph
  cases hc : NvDlaFuseAddMulReluPass.collect g with
  | none => rfl
  | some c =>
    obtain ⟨q, ret⟩ := c
    simp only [Option.bind_eq_bind, Option.some_bind]
    cases q.foldlM NvDlaFuseAddMulReluPass.rewrite g <;> simp

theorem reorder_run_eq [Div F] (g : ComputeGraph F) (idx : Nat) :
    NvDlaReorderMulAddPass.runOnComputeGraph g idx =
      (NvDlaReorderMulAddPass.collect g).bind fun c =>
        (c.1.foldlM (fun (st : ComputeGraph F × Nat) node =>
            NvDlaReorderMulAddPass.rewrite st.1 st.2 node) (g, idx)).map fun st =>
          ((st.1.topologicalSort, st.2), c.2) := by
  unfold NvDlaReorderMulAddPass.runOnComputeGraph
  cases hc : NvDlaReorderMulAddPass.collect g with
  | none => rfl
  | some c =>
    obtain ⟨q, ret⟩ := c
    simp only [Option.bind_eq_bind, Option.some_bind]
    cases q.foldlM (fun (st : ComputeGraph F × Nat) node =>
      NvDlaReorderMulAddPass.rewrite st.1 st.2 node) (g, idx) <;> simp

/-! ## Operators across the edits -/

namespace ComputeGraph

theorem detachUse_nodes {n v : Nat} {g g' : ComputeGraph F} (h : detachUse n g v = some g') :
    g'.nodes = g.nodes := by
  unfold detachUse at h
  cases hv : g.getValue v with
  | none => simp [hv] at h
  | some t =>
    simp only [hv, Option.map_some', Option.some.injEq] at h
    subst h
    rfl

theorem detachDefine_nodes {v : Nat} {g g' : ComputeGraph F} (h : detachDefine g v = some g') :
    g'.nodes = g.nodes := by
  unfold detachDefine at h
  cases hv : g.getValue v with
  | none => simp [hv] at h
  | some t =>
    simp only [hv, Option.map_some', Option.some.injEq] at h
    subst h
    rfl

theorem foldlM_nodes {f : ComputeGraph F → Nat → Option (ComputeGraph F)}
    (hf : ∀ g v g', f g v = some g' → g'.nodes = g.nodes)
    (vs : List Nat) : ∀ g g' : ComputeGraph F, vs.foldlM f g = some g' →
      g'.nodes = g.nodes := by
  induction vs with
  | nil =>
    intro g g' h
    simp only [List.foldlM_nil, Option.pure_def, Option.some.injEq] at h
    subst h
    rfl
  | cons v vs ih =>
    intro g g' h
    rw [List.foldlM_cons] at h
    cases h1 : f g v with
    | none => simp [h1] at h
    | some g1 =>
      rw [h1] at h
      simp only [Option.bind_eq_bind, Option.some_bind] at h
      exact (ih g1 g' h).trans (hf g v g1 h1)

/-- The operators after a successful `removeAllInputs`. -/
theorem removeAllInputs_nodes {n : Nat} {g g' : ComputeGraph F}
    (h : g.removeAllInputs n = some g') :
    ∃ op, g.getNode n = some op ∧
      ∀ m, g'.getNode m = if m = n then some { op with inputs := [] } else g.getNode m := by
  unfold removeAllInputs at h
  cases hn : g.getNode n with
  | none => simp [hn] at h
  | some op =>
    rw [hn] at h
    simp only [Option.some_bind] at h
    cases h1 : op.inputs.foldlM (detachUse n) g with
    | none => simp [h1] at h
    | some g1 =>
      simp only [h1, Option.map_some', Option.some.injEq] at h
      subst h
      have hnodes := foldlM_nodes (fun _ _ _ => detachUse_nodes) op.inputs g g1 h1
      refine ⟨op, rfl, fun m => ?_⟩
      have hlt : n < g1.nodes.length := by rw [hnodes]; exact getNode_lt hn
      rw [getNode_setNode _ _ _ _ hlt]
      have : g1.getNode m = g.getNode m := by unfold getNode; rw [hnodes]
      rw [this]

/-- The operators after a successful `removeAllOutputs`. -/
theorem removeAllOutputs_nodes {n : Nat} {g g' : ComputeGraph F}
    (h : g.removeAllOutputs n = some g') :
    ∃ op, g.getNode n = some op ∧
      ∀ m, g'.getNode m = if m = n then some { op with outputs := [] } else g.getNode m := by
  unfold removeAllOutputs at h
  cases hn : g.getNode n with
  | none => simp [hn] at h
  | some op =>
    rw [hn] at h
    simp only [Option.some_bind] at h
    cases h1 : op.outputs.foldlM detachDefine g with
    | none => simp [h1] at h
    | some g1 =>
      simp only [h1, Option.map_some', Option.some.injEq] at h
      subst h
      have hnodes := foldlM_nodes (fun _ _ _ => detachDefine_nodes) op.outputs g g1 h1
      refine ⟨op, rfl, fun m => ?_⟩
      have hlt : n < g1.nodes.length := by rw [hnodes]; exact getNode_lt hn
      rw [getNode_setNode _ _ _ _ hlt]
      have : g1.getNode m = g.getNode m := by unfold getNode; rw [hnodes]
      rw [this]

/-- The operators after a successful erase of an operator. -/
theorem eraseNode_nodes {n : Nat} {g g' : ComputeGraph F} (h : g.eraseNode n = some g') :
    (∃ op, g.getNode n = some op) ∧
      ∀ m, g'.getNode m = if m = n then none else g.getNode m := by
  cases hn : g.getNode n with
  | none => simp [eraseNode, hn] at h
  | some op =>
    obtain ⟨g2, e, hN, -, -⟩ := eraseNode_spec hn
    rw [h] at e
    rw [Option.some.inj e]
    exact ⟨⟨op, rfl⟩, hN⟩

/-- The operators after a successful erase of a value. -/
theorem eraseValue_nodes {v : Nat} {g g' : ComputeGraph F} (h : g.eraseValue v = some g') :
    ∀ m, g'.getNode m = g.getNode m := by
  cases hv : g.getValue v with
  | none => simp [eraseValue, hv] at h
  | some t =>
    obtain ⟨g2, e, hN, -, -⟩ := eraseValue_spec hv
    rw [h] at e
    rw [Option.some.inj e]
    exact hN

/-- The operators after a successful `addOutput`. -/
theorem addOutput_nodes {n v : Nat} {g g' : ComputeGraph F} (h : g.addOutput n v = some g') :
    ∃ op, g.getNode n = some op ∧
      ∀ m, g'.getNode m =
        if m = n then some { op with outputs := op.outputs ++ [v] } else g.getNode m := by
  cases hn : g.getNode n with
  | none => simp [addOutput, hn] at h
  | some op =>
    cases hv : g.getValue v with
    | none => simp [addOutput, hn, hv] at h
    | some t =>
      obtain ⟨g2, e, hN, -, -⟩ := addOutput_spec hn hv
      rw [h] at e
      rw [Option.some.inj e]
      exact ⟨op, rfl, hN⟩

/-- The operators after a successful `setData`. -/
theorem setData_nodes {v : Nat} {d : TensorData F} {g g' : ComputeGraph F}
    (h : g.setData v d = some g') : ∀ m, g'.getNode m = g.getNode m := by
  unfold setData at h
  cases hv : g.getValue v with
  | none => simp [hv] at h
  | some t =>
    simp only [hv, Option.map_some', Option.some.injEq] at h
    subst h
    intro m
    rfl

theorem slotsEmpty_iff {g : ComputeGraph F} {n : Nat} :
    g.slotsEmpty n = true ↔ ∃ op, g.getNode n = some op ∧ op.inputs = [] ∧ op.outputs = [] := by
  unfold slotsEmpty
  cases g.getNode n with
  | none => simp
  | some op => simp [List.isEmpty_iff]

theorem detached_iff {g : ComputeGraph F} {n : Nat} :
    g.detached n = true ↔ ∀ op, g.getNode n = some op → op.inputs = [] ∧ op.outputs = [] := by
  unfold detached
  cases g.getNode n with
  | none => simp
  | some op => simp [List.isEmpty_iff]

theorem detached_of_slotsEmpty {g : ComputeGraph F} {n : Nat} (h : g.slotsEmpty n = true) :
    g.detached n = true := by
  obtain ⟨op, hn, hi, ho⟩ := slotsEmpty_iff.mp h
  rw [detached_iff]
  intro op2 h2
  rw [hn] at h2
  cases h2
  exact ⟨hi, ho⟩

theorem slotsEmpty_of_detached {g : ComputeGraph F} {n : Nat} {op : ComputeOperator}
    (h : g.detached n = true) (hn : g.getNode n = some op) : g.slotsEmpty n = true := by
  obtain ⟨hi, ho⟩ := detached_iff.mp h op hn
  exact slotsEmpty_iff.mpr ⟨op, hn, hi, ho⟩

/-- Emptying the input slots of one operator leaves every emptied operator emptied. -/
theorem slotsEmpty_removeAllInputs {n : Nat} {g g' : ComputeGraph F}
    (h : g.removeAllInputs n = some g') {x : Nat} (hx : g.slotsEmpty x = true) :
    g'.slotsEmpty x = true := by
  obtain ⟨op, hn, hN⟩ := removeAllInputs_nodes h
  obtain ⟨opx, hnx, hi, ho⟩ := slotsEmpty_iff.mp hx
  rw [slotsEmpty_iff, hN]
  by_cases e : x = n
  · subst e
    rw [hn] at hnx
    cases hnx
    exact ⟨_, if_pos rfl, rfl, ho⟩
  · exact ⟨opx, by rw [if_neg e, hnx], hi, ho⟩

/-- Emptying the output slots of one operator leaves every emptied operator emptied. -/
theorem slotsEmpty_removeAllOutputs {n : Nat} {g g' : ComputeGraph F}
    (h : g.removeAllOutputs n = some g') {x : Nat} (hx : g.slotsEmpty x = true) :
    g'.slotsEmpty x = true := by
  obtain ⟨op, hn, hN⟩ := removeAllOutputs_nodes h
  obtain ⟨opx, hnx, hi, ho⟩ := slotsEmpty_iff.mp hx
  rw [slotsEmpty_iff, hN]
  by_cases e : x = n
  · subst e
    rw [hn] at hnx
    cases hnx
    exact ⟨_, if_pos rfl, hi, rfl⟩
  · exact ⟨opx, by rw [if_neg e, hnx], hi, ho⟩

/-- An operator has no slot left after `removeAllInputs` and `removeAllOutputs`. -/
theorem slotsEmpty_of_removeAll {n : Nat} {g g1 g2 : ComputeGraph F}
    (h1 : g.removeAllInputs n = some g1) (h2 : g1.removeAllOutputs n = some g2) :
    g2.slotsEmpty n = true := by
  obtain ⟨op, -, hN1⟩ := removeAllInputs_nodes h1
  obtain ⟨op1, hn1, hN2⟩ := removeAllOutputs_nodes h2
  rw [hN1, if_pos rfl] at hn1
  cases hn1
  exact slotsEmpty_iff.mpr ⟨_, by rw [hN2, if_pos rfl], rfl, rfl⟩

/-- An operator without input slots has no slot left after `removeAllOutputs`. -/
theorem slotsEmpty_of_removeAllOutputs {n : Nat} {g g' : ComputeGraph F}
    (h : g.removeAllOutputs n = some g')
    (hx : ∃ op, g.getNode n = some op ∧ op.inputs = []) : g'.slotsEmpty n = true := by
  obtain ⟨op, hn, hi⟩ := hx
  obtain ⟨op1, hn1, hN⟩ := removeAllOutputs_nodes h
  rw [hn] at hn1
  cases hn1
  exact slotsEmpty_iff.mpr ⟨{ op with outputs := [] }, by rw [hN, if_pos rfl], hi, rfl⟩

theorem noInputs_removeAllInputs {n : Nat} {g g' : ComputeGraph F}
    (h : g.removeAllInputs n = some g') {x : Nat}
    (hx : ∃ op, g.getNode x = some op ∧ op.inputs = []) :
    ∃ op, g'.getNode x = some op ∧ op.inputs = [] := by
  obtain ⟨op, hn, hN⟩ := removeAllInputs_nodes h
  obtain ⟨opx, hnx, hi⟩ := hx
  rw [hN]
  by_cases e : x = n
  · exact ⟨_, if_pos e, rfl⟩
  · exact ⟨opx, by rw [if_neg e, hnx], hi⟩

theorem noInputs_removeAllOutputs {n : Nat} {g g' : ComputeGraph F}
    (h : g.removeAllOutputs n = some g') {x : Nat}
    (hx : ∃ op, g.getNode x = some op ∧ op.inputs = []) :
    ∃ op, g'.getNode x = some op ∧ op.inputs = [] := by
  obtain ⟨op, hn, hN⟩ := removeAllOutputs_nodes h
  obtain ⟨opx, hnx, hi⟩ := hx
  rw [hN]
  by_cases e : x = n
  · subst e
    rw [hn] at hnx
    cases hnx
    exact ⟨{ op with outputs := [] }, if_pos rfl, hi⟩
  · exact ⟨opx, by rw [if_neg e, hnx], hi⟩

theorem noInputs_addOperator (g : ComputeGraph F) (k : OpKind) (grp : Int) {x : Nat}
    (hx : ∃ op, g.getNode x = some op ∧ op.inputs = []) :
    ∃ op, (g.addOperator k grp).1.getNode x = some op ∧ op.inputs = [] := by
  obtain ⟨opx, hnx, hi⟩ := hx
  obtain ⟨-, hN, -, -⟩ := addOperator_spec g k grp
  exact ⟨opx, by rw [hN, if_neg (ne_length_of_getNode hnx), hnx], hi⟩

theorem slotsEmpty_of_nodes {g g' : ComputeGraph F} (hN : ∀ m, g'.getNode m = g.getNode m)
    {x : Nat} (hx : g.slotsEmpty x = true) : g'.slotsEmpty x = true := by
  unfold slotsEmpty at hx ⊢
  rw [hN]
  exact hx

theorem slotsEmpty_addValue {t : Tensor F} {g : ComputeGraph F} {r : ComputeGraph F × Nat}
    (h : g.addValue t = some r) {x : Nat} (hx : g.slotsEmpty x = true) :
    r.1.slotsEmpty x = true := by
  refine slotsEmpty_of_nodes (fun m => ?_) hx
  unfold getNode
  rw [(addValue_order h).2]

theorem slotsEmpty_setData {v : Nat} {d : TensorData F} {g g' : ComputeGraph F}
    (h : g.setData v d = some g') {x : Nat} (hx : g.slotsEmpty x = true) :
    g'.slotsEmpty x = true :=
  slotsEmpty_of_nodes (setData_nodes h) hx

theorem slotsEmpty_addOutput {n v : Nat} {g g' : ComputeGraph F}
    (h : g.addOutput n v = some g') {x : Nat} (hx : g.slotsEmpty x = true) (hne : x ≠ n) :
    g'.slotsEmpty x = true := by
  obtain ⟨op, -, hN⟩ := addOutput_nodes h
  unfold slotsEmpty at hx ⊢
  rw [hN, if_neg hne]
  exact hx

theorem detached_eraseNode {n : Nat} {g g' : ComputeGraph F}
    (h : g.eraseNode n = some g') {x : Nat} (hx : g.detached x = true) :
    g'.detached x = true := by
  obtain ⟨-, hN⟩ := eraseNode_nodes h
  rw [detached_iff, hN]
  by_cases e : x = n
  · rw [if_pos e]
    intro op hop
    cases hop
  · rw [if_neg e]
    exact detached_iff.mp hx

theorem detached_eraseValue {v : Nat} {g g' : ComputeGraph F}
    (h : g.eraseValue v = some g') {x : Nat} (hx : g.detached x = true) :
    g'.detached x = true := by
  rw [detached_iff, eraseValue_nodes h]
  exact detached_iff.mp hx

/-- At a successful erase a detached operator is live with no slot left. -/
theorem slotsEmpty_at_erase {n : Nat} {g g' : ComputeGraph F}
    (h : g.eraseNode n = some g') (hx : g.detached n = true) : g.slotsEmpty n = true := by
  obtain ⟨⟨op, hn⟩, -⟩ := eraseNode_nodes h
  exact slotsEmpty_of_detached hx hn

theorem all_detached_eraseNode {n : Nat} {g g' : ComputeGraph F}
    (h : g.eraseNode n = some g') {l : List Nat} (hl : l.all g.detached = true) :
    l.all g'.detached = true := by
  rw [List.all_eq_true] at hl ⊢
  exact fun x hx => detached_eraseNode h (hl x hx)

theorem all_detached_eraseValue {v : Nat} {g g' : ComputeGraph F}
    (h : g.eraseValue v = some g') {l : List Nat} (hl : l.all g.detached = true) :
    l.all g'.detached = true := by
  rw [List.all_eq_true] at hl ⊢
  exact fun x hx => detached_eraseValue h (hl x hx)

/-- The check at the erase of a matched operator, from the detachment of all of them. -/
theorem detachedNodeErase_of_all {n : Nat} {g g' : ComputeGraph F}
    (h : g.eraseNode n = some g') {l : List Nat} (hl : l.all g.detached = true)
    (hn : n ∈ l) : detachedNodeErase l g n = true := by
  unfold detachedNodeErase
  rw [slotsEmpty_at_erase h (List.all_eq_true.mp hl n hn), hl]
  rfl

theorem slotsEmpty_addOperator (g : ComputeGraph F) (k : OpKind) (grp : Int) {x : Nat}
    (hx : g.slotsEmpty x = true) : (g.addOperator k grp).1.slotsEmpty x = true := by
  obtain ⟨opx, hnx, hi, ho⟩ := slotsEmpty_iff.mp hx
  obtain ⟨-, hN, -, -⟩ := addOperator_spec g k grp
  exact slotsEmpty_iff.mpr ⟨opx, by rw [hN, if_neg (ne_length_of_getNode hnx), hnx], hi, ho⟩

theorem eraseNodeIf_pos {ok : ComputeGraph F → Nat → Bool} {g : ComputeGraph F} {n : Nat}
    (h : ok g n = true) : g.eraseNodeIf ok n = g.eraseNode n := by
  unfold eraseNodeIf
  rw [if_pos h]

theorem eraseValueIf_pos {ok : ComputeGraph F → Nat → Bool} {g : ComputeGraph F} {v : Nat}
    (h : ok g v = true) : g.eraseValueIf ok v = g.eraseValue v := by
  unfold eraseValueIf
  rw [if_pos h]

end ComputeGraph

/-! ## Detachment before erasure -/

theorem andThen_of_some {α β : Type} {a : Option α} {f : α → Option β} {x : α} {r : β}
    (ha : a = some x) (h : f x = some r) : andThen a f = some r := by
  subst ha
  exact h

theorem all_detached3 {g : ComputeGraph F} {a b c : Nat} (ha : g.detached a = true)
    (hb : g.detached b = true) (hc : g.detached c = true) :
    [a, b, c].all g.detached = true := by
  simp [ha, hb, hc]

/-- Whenever the fusion rewrite goes through, each operator it erases is live with no
slot left at that moment, and the three matched operators are detached at each of the
five erases. -/
theorem fuse_rewrite_checked {g g' : ComputeGraph F} {n : Nat}
    (h : NvDlaFuseAddMulReluPass.rewrite g n = some g') :
    NvDlaFuseAddMulReluPass.rewriteChecked detachedNodeErase afterDetachErase g n =
      some g' := by
  unfold NvDlaFuseAddMulReluPass.rewrite at h
  unfold NvDlaFuseAddMulReluPass.rewriteChecked
  obtain ⟨add, r, h⟩ := andThen_eq_some h
  refine andThen_of_some r ?_
  iterate 3 obtain ⟨_, r, h⟩ := andThen_eq_some h; refine andThen_of_some r ?_
  obtain ⟨mul, r, h⟩ := andThen_eq_some h
  refine andThen_of_some r ?_
  iterate 3 obtain ⟨_, r, h⟩ := andThen_eq_some h; refine andThen_of_some r ?_
  obtain ⟨relu, r, h⟩ := andThen_eq_some h
  refine andThen_of_some r ?_
  iterate 7 obtain ⟨_, r, h⟩ := andThen_eq_some h; refine andThen_of_some r ?_
  obtain ⟨g2, e2, h⟩ := andThen_eq_some h
  obtain ⟨g3, e3, h⟩ := andThen_eq_some h
  obtain ⟨g4, e4, h⟩ := andThen_eq_some h
  obtain ⟨g5, e5, h⟩ := andThen_eq_some h
  obtain ⟨g6, e6, h⟩ := andThen_eq_some h
  obtain ⟨g7, e7, h⟩ := andThen_eq_some h
  obtain ⟨g8, e8, h⟩ := andThen_eq_some h
  obtain ⟨g9, e9, h⟩ := andThen_eq_some h
  obtain ⟨g10, e10, h⟩ := andThen_eq_some h
  obtain ⟨g11, e11, h⟩ := andThen_eq_some h
  obtain ⟨g12, e12, h⟩ := andThen_eq_some h
  -- the three operators have no slot left once the six detaching calls are done
  have sA : g7.slotsEmpty add = true :=
    slotsEmpty_removeAllOutputs e7 (slotsEmpty_removeAllInputs e6
      (slotsEmpty_removeAllOutputs e5 (slotsEmpty_removeAllInputs e4
        (slotsEmpty_of_removeAll e2 e3))))
  have sM : g7.slotsEmpty mul = true :=
    slotsEmpty_removeAllOutputs e7 (slotsEmpty_removeAllInputs e6
      (slotsEmpty_of_removeAll e4 e5))
  have sR : g7.slotsEmpty relu = true := slotsEmpty_of_removeAll e6 e7
  have dA7 := detached_of_slotsEmpty sA
  have dM7 := detached_of_slotsEmpty sM
  have dR7 := detached_of_slotsEmpty sR
  have dA8 := detached_eraseNode e8 dA7
  have dM8 := detached_eraseNode e8 dM7
  have dR8 := detached_eraseNode e8 dR7
  have dA9 := detached_eraseNode e9 dA8
  have dM9 := detached_eraseNode e9 dM8
  have dR9 := detached_eraseNode e9 dR8
  have dA10 := detached_eraseNode e10 dA9
  have dM10 := detached_eraseNode e10 dM9
  have dR10 := detached_eraseNode e10 dR9
  have dA11 := detached_eraseValue e11 dA10
  have dM11 := detached_eraseValue e11 dM10
  have dR11 := detached_eraseValue e11 dR10
  have c8 : detachedNodeErase [add, mul, relu] g7 add = true := by
    unfold detachedNodeErase
    rw [sA, all_detached3 dA7 dM7 dR7]
    rfl
  have c9 : detachedNodeErase [add, mul, relu] g8 mul = true := by
    unfold detachedNodeErase
    rw [slotsEmpty_at_erase e9 dM8, all_detached3 dA8 dM8 dR8]
    rfl
  have c10 : detachedNodeErase [add, mul, relu] g9 relu = true := by
    unfold detachedNodeErase
    rw [slotsEmpty_at_erase e10 dR9, all_detached3 dA9 dM9 dR9]
    rfl
  refine andThen_of_some e2 (andThen_of_some e3 (andThen_of_some e4 (andThen_of_some e5
    (andThen_of_some e6 (andThen_of_some e7 ?_)))))
  refine andThen_of_some ((eraseNodeIf_pos c8).trans e8) ?_
  refine andThen_of_some ((eraseNodeIf_pos c9).trans e9) ?_
  refine andThen_of_some ((eraseNodeIf_pos c10).trans e10) ?_
  refine andThen_of_some ((eraseValueIf_pos (all_detached3 dA10 dM10 dR10)).trans e11) ?_
  refine andThen_of_some ((eraseValueIf_pos (all_detached3 dA11 dM11 dR11)).trans e12) ?_
  exact h

/-- Whenever the rewrite of an accepted channel-shuffle pattern goes through, each of
the five operators it erases is live with no slot left at that moment, and all five
are detached at each of the nine erases. -/
theorem shuffle_rewrite_checked {g g' : ComputeGraph F} {r1 tId r2 init1 init2 : Nat}
    {op1 opT op2 opI1 opI2 : ComputeOperator}
    {input shape1 out1 outT shape2 output : Nat} {s : List Int} {grp : Int}
    (hwf : g.wellFormed = true)
    (h : ShuffleMatch g r1 tId r2 init1 init2 op1 opT op2 opI1 opI2 input shape1 out1 outT
      shape2 output s grp)
    (hr : NvDlaIdentifyShufflePass.rewrite g r1 = some g') :
    NvDlaIdentifyShufflePass.rewriteChecked detachedNodeErase afterDetachErase g r1 =
      some g' := by
  obtain ⟨k1, hk1⟩ := h.uses1
  obtain ⟨kT, hkT⟩ := h.usesT
  have hoR1 : g.getOutput r1 0 = some out1 := by
    simp [ComputeGraph.getOutput, h.h1, h.o1]
  have hoT : g.getOutput tId 0 = some outT := by
    simp [ComputeGraph.getOutput, h.hT, h.oT]
  have hoR2 : g.getOutput r2 0 = some output := by
    simp [ComputeGraph.getOutput, h.h2, h.o2]
  have hdT : g.dynCast OpKind.Transpose tId = some tId := by
    simp [ComputeGraph.dynCast, h.hT, h.kT]
  have hdR2 : g.dynCast OpKind.Reshape r2 = some r2 := by
    simp [ComputeGraph.dynCast, h.h2, h.k2]
  have hi10 : g.getInput r1 0 = some input := by
    simp [ComputeGraph.getInput, h.h1, h.in1]
  have hi11 : g.getInput r1 1 = some shape1 := by
    simp [ComputeGraph.getInput, h.h1, h.in1]
  have hi21 : g.getInput r2 1 = some shape2 := by
    simp [ComputeGraph.getInput, h.h2, h.in2]
  have nI1 : ∃ op, g.getNode init1 = some op ∧ op.inputs = [] := by
    obtain ⟨c, hi, -⟩ := arity_zero_one (wf_arity hwf h.hI1) h.kI1
    exact ⟨opI1, h.hI1, hi⟩
  have nI2 : ∃ op, g.getNode init2 = some op ∧ op.inputs = [] := by
    obtain ⟨c, hi, -⟩ := arity_zero_one (wf_arity hwf h.hI2) h.kI2
    exact ⟨opI2, h.hI2, hi⟩
  unfold NvDlaIdentifyShufflePass.rewrite at hr
  unfold NvDlaIdentifyShufflePass.rewriteChecked
  rw [hoR1, andThen_some, hk1, andThen_some, List.getElem?_cons_zero, andThen_some, hdT,
    andThen_some, hoT, andThen_some, hkT, andThen_some, List.getElem?_cons_zero,
    andThen_some, hdR2, andThen_some, hi10, andThen_some, hi11, andThen_some, h.def1,
    andThen_some, andThen_some, andThen_some, hi21, andThen_some, h.def2, andThen_some,
    hoR2, andThen_some, andThen_some, h.shape, andThen_some, h.hgrp, andThen_some] at hr ⊢
  obtain ⟨g2, e2, hr⟩ := andThen_eq_some hr
  obtain ⟨g3, e3, hr⟩ := andThen_eq_some hr
  obtain ⟨g4, e4, hr⟩ := andThen_eq_some hr
  obtain ⟨g5, e5, hr⟩ := andThen_eq_some hr
  obtain ⟨g6, e6, hr⟩ := andThen_eq_some hr
  obtain ⟨g7, e7, hr⟩ := andThen_eq_some hr
  obtain ⟨g8, e8, hr⟩ := andThen_eq_some hr
  obtain ⟨g9, e9, hr⟩ := andThen_eq_some hr
  obtain ⟨g10, e10, hr⟩ := andThen_eq_some hr
  obtain ⟨g11, e11, hr⟩ := andThen_eq_some hr
  obtain ⟨g12, e12, hr⟩ := andThen_eq_some hr
  obtain ⟨g13, e13, hr⟩ := andThen_eq_some hr
  obtain ⟨g14, e14, hr⟩ := andThen_eq_some hr
  obtain ⟨g15, e15, hr⟩ := andThen_eq_some hr
  obtain ⟨g16, e16, hr⟩ := andThen_eq_some hr
  obtain ⟨g17, e17, hr⟩ := andThen_eq_some hr
  obtain ⟨g18, e18, hr⟩ := andThen_eq_some hr
  -- the five operators have no slot left once the eight detaching calls are done
  have s1 : g9.slotsEmpty r1 = true :=
    slotsEmpty_removeAllOutputs e9 (slotsEmpty_removeAllOutputs e8
      (slotsEmpty_removeAllOutputs e7 (slotsEmpty_removeAllInputs e6
        (slotsEmpty_removeAllOutputs e5 (slotsEmpty_removeAllInputs e4
          (slotsEmpty_of_removeAll e2 e3))))))
  have sT : g9.slotsEmpty tId = true :=
    slotsEmpty_removeAllOutputs e9 (slotsEmpty_removeAllOutputs e8
      (slotsEmpty_removeAllOutputs e7 (slotsEmpty_removeAllInputs e6
        (slotsEmpty_of_removeAll e4 e5))))
  have s2 : g9.slotsEmpty r2 = true :=
    slotsEmpty_removeAllOutputs e9 (slotsEmpty_removeAllOutputs e8
      (slotsEmpty_of_removeAll e6 e7))
  have sI1 : g9.slotsEmpty init1 = true :=
    slotsEmpty_removeAllOutputs e9 (slotsEmpty_of_removeAllOutputs e8
      (noInputs_removeAllOutputs e7 (noInputs_removeAllInputs e6
        (noInputs_removeAllOutputs e5 (noInputs_removeAllInputs e4
          (noInputs_removeAllOutputs e3 (noInputs_removeAllInputs e2
            (noInputs_addOperator g _ _ nI1))))))))
  have sI2 : g9.slotsEmpty init2 = true :=
    slotsEmpty_of_removeAllOutputs e9 (noInputs_removeAllOutputs e8
      (noInputs_removeAllOutputs e7 (noInputs_removeAllInputs e6
        (noInputs_removeAllOutputs e5 (noInputs_removeAllInputs e4
          (noInputs_removeAllOutputs e3 (noInputs_removeAllInputs e2
            (noInputs_addOperator g _ _ nI2))))))))
  have a9 : [r1, tId, r2, init1, init2].all g9.detached = true := by
    simp [detached_of_slotsEmpty s1, detached_of_slotsEmpty sT, detached_of_slotsEmpty s2,
      detached_of_slotsEmpty sI1, detached_of_slotsEmpty sI2]
  have a10 := all_detached_eraseNode e10 a9
  have a11 := all_detached_eraseNode e11 a10
  have a12 := all_detached_eraseNode e12 a11
  have a13 := all_detached_eraseNode e13 a12
  have a14 := all_detached_eraseNode e14 a13
  have a15 := all_detached_eraseValue e15 a14
  have a16 := all_detached_eraseValue e16 a15
  have a17 := all_detached_eraseValue e17 a16
  refine andThen_of_some e2 (andThen_of_some e3 (andThen_of_some e4 (andThen_of_some e5
    (andThen_of_some e6 (andThen_of_some e7 (andThen_of_some e8
      (andThen_of_some e9 ?_)))))))
  refine andThen_of_some
    ((eraseNodeIf_pos (detachedNodeErase_of_all e10 a9 (by simp))).trans e10) ?_
  refine andThen_of_some
    ((eraseNodeIf_pos (detachedNodeErase_of_all e11 a10 (by simp))).trans e11) ?_
  refine andThen_of_some
    ((eraseNodeIf_pos (detachedNodeErase_of_all e12 a11 (by simp))).trans e12) ?_
  refine andThen_of_some
    ((eraseNodeIf_pos (detachedNodeErase_of_all e13 a12 (by simp))).trans e13) ?_
  refine andThen_of_some
    ((eraseNodeIf_pos (detachedNodeErase_of_all e14 a13 (by simp))).trans e14) ?_
  refine andThen_of_some ((eraseValueIf_pos a14).trans e15) ?_
  refine andThen_of_some ((eraseValueIf_pos a15).trans e16) ?_
  refine andThen_of_some ((eraseValueIf_pos a16).trans e17) ?_
  refine andThen_of_some ((eraseValueIf_pos a17).trans e18) ?_
  exact hr

/-- Whenever the reorder rewrite goes through, the matched Mul and Add are detached at
both of its erases. -/
theorem reorder_rewrite_checked [Div F] {g : ComputeGraph F} {idx n : Nat}
    {res : ComputeGraph F × Nat} (h : NvDlaReorderMulAddPass.rewrite g idx n = some res) :
    NvDlaReorderMulAddPass.rewriteChecked afterDetachErase afterDetachErase g idx n =
      some res := by
  unfold NvDlaReorderMulAddPass.rewrite at h
  unfold NvDlaReorderMulAddPass.rewriteChecked
  obtain ⟨mul, r, h⟩ := andThen_eq_some h
  refine andThen_of_some r ?_
  iterate 3 obtain ⟨_, r, h⟩ := andThen_eq_some h; refine andThen_of_some r ?_
  obtain ⟨add, r, h⟩ := andThen_eq_some h
  refine andThen_of_some r ?_
  iterate 10 obtain ⟨_, r, h⟩ := andThen_eq_some h; refine andThen_of_some r ?_
  obtain ⟨g1, e1, h⟩ := andThen_eq_some h
  obtain ⟨g2, e2, h⟩ := andThen_eq_some h
  obtain ⟨g3, e3, h⟩ := andThen_eq_some h
  obtain ⟨g4, e4, h⟩ := andThen_eq_some h
  refine andThen_of_some e1 (andThen_of_some e2 (andThen_of_some e3 (andThen_of_some e4 ?_)))
  iterate 2 obtain ⟨_, r, h⟩ := andThen_eq_some h; refine andThen_of_some r ?_
  obtain ⟨added, e5, h⟩ := andThen_eq_some h
  refine andThen_of_some e5 ?_
  obtain ⟨g7, e7, h⟩ := andThen_eq_some h
  refine andThen_of_some e7 ?_
  iterate 3 obtain ⟨_, r, h⟩ := andThen_eq_some h; refine andThen_of_some r ?_
  obtain ⟨g8, e8, h⟩ := andThen_eq_some h
  refine andThen_of_some e8 ?_
  obtain ⟨betaInitializer, r, h⟩ := andThen_eq_some h
  refine andThen_of_some r ?_
  obtain ⟨g9, e9, h⟩ := andThen_eq_some h
  obtain ⟨g10, e10, h⟩ := andThen_eq_some h
  -- the Mul and the Add have no slot left when the erases begin
  have sM4 : g4.slotsEmpty mul = true :=
    slotsEmpty_removeAllOutputs e4 (slotsEmpty_removeAllInputs e3
      (slotsEmpty_of_removeAll e1 e2))
  have sA4 : g4.slotsEmpty add = true := slotsEmpty_of_removeAll e3 e4
  have sM5 := slotsEmpty_addValue e5 sM4
  have sA5 := slotsEmpty_addValue e5 sA4
  have neM : mul ≠ added.1.nodes.length := by
    obtain ⟨op, hn, -⟩ := slotsEmpty_iff.mp sM5
    exact ne_length_of_getNode hn
  have neA : add ≠ added.1.nodes.length := by
    obtain ⟨op, hn, -⟩ := slotsEmpty_iff.mp sA5
    exact ne_length_of_getNode hn
  have sM8 : g8.slotsEmpty mul = true :=
    slotsEmpty_setData e8 (slotsEmpty_addOutput e7
      (slotsEmpty_addOperator added.1 OpKind.Initializer 0 sM5) neM)
  have sA8 : g8.slotsEmpty add = true :=
    slotsEmpty_setData e8 (slotsEmpty_addOutput e7
      (slotsEmpty_addOperator added.1 OpKind.Initializer 0 sA5) neA)
  have a8 : [mul, add].all g8.detached = true := by
    simp [detached_of_slotsEmpty sM8, detached_of_slotsEmpty sA8]
  have a9 := all_detached_eraseNode e9 a8
  refine andThen_of_some ((eraseNodeIf_pos a8).trans e9) ?_
  refine andThen_of_some ((eraseValueIf_pos a9).trans e10) ?_
  exact h

theorem eraseNode_of_eraseNodeIf {ok : ComputeGraph F → Nat → Bool} {g g' : ComputeGraph F}
    {n : Nat} (h : g.eraseNodeIf ok n = some g') : g.eraseNode n = some g' := by
  unfold ComputeGraph.eraseNodeIf at h
  split at h
  · exact h
  · exact absurd h (by simp)

theorem eraseValue_of_eraseValueIf {ok : ComputeGraph F → Nat → Bool} {g g' : ComputeGraph F}
    {v : Nat} (h : g.eraseValueIf ok v = some g') : g.eraseValue v = some g' := by
  unfold ComputeGraph.eraseValueIf at h
  split at h
  · exact h
  · exact absurd h (by simp)

/-- A checked fusion rewrite that goes through is the fusion rewrite. -/
theorem fuse_rewrite_of_checked {okN okV : List Nat → ComputeGraph F → Nat → Bool}
    {g g' : ComputeGraph F} {n : Nat}
    (h : NvDlaFuseAddMulReluPass.rewriteChecked okN okV g n = some g') :
    NvDlaFuseAddMulReluPass.rewrite g n = some g' := by
  unfold NvDlaFuseAddMulReluPass.rewriteChecked at h
  unfold NvDlaFuseAddMulReluPass.rewrite
  iterate 30
    obtain ⟨_, r, h⟩ := andThen_eq_some h
    refine andThen_of_some (by
      first
      | exact r
      | exact eraseNode_of_eraseNodeIf r
      | exact eraseValue_of_eraseValueIf r) ?_
  exact h

/-- A checked reorder rewrite that goes through is the reorder rewrite. -/
theorem reorder_rewrite_of_checked [Div F]
    {okN okV : List Nat → ComputeGraph F → Nat → Bool}
    {g : ComputeGraph F} {idx n : Nat} {res : ComputeGraph F × Nat}
    (h : NvDlaReorderMulAddPass.rewriteChecked okN okV g idx n = some res) :
    NvDlaReorderMulAddPass.rewrite g idx n = some res := by
  unfold NvDlaReorderMulAddPass.rewriteChecked at h
  unfold NvDlaReorderMulAddPass.rewrite
  iterate 40
    obtain ⟨_, r, h⟩ := andThen_eq_some h
    refine andThen_of_some (by
      first
      | exact r
      | exact eraseNode_of_eraseNodeIf r
      | exact eraseValue_of_eraseValueIf r) ?_
  exact h

theorem option_eq_of_some_iff {α : Type} {a b : Option α}
    (h1 : ∀ x, a = some x → b = some x) (h2 : ∀ x, b = some x → a = some x) : a = b := by
  cases ha : a with
  | some x => exact (h1 x ha).symm
  | none =>
    cases hb : b with
    | some y =>
      rw [h2 y hb] at ha
      cases ha
    | none => rfl

/-- Where detachment does precede erasure.  The rewrite of an accepted channel-shuffle
pattern in a well-formed graph goes through, and it passes, at each of its erases, the
check that the five operators of the pattern are detached and, at each erase of an
operator, that this operator is live with empty input and output slot lists.  The
fusion rewrite passes the same checks (on its three matched operators) whenever it
goes through: the checked rewrite equals the rewrite.  The reorder rewrite passes at
both of its erases the check that the matched Mul and Add are detached. -/
theorem erases_follow_detachment [Div F] (g : ComputeGraph F) :
    (∀ r, g.wellFormed = true → g.isa OpKind.Reshape r = some true →
      is_shuffle g r = some true →
      (NvDlaIdentifyShufflePass.rewrite g r).isSome = true ∧
      NvDlaIdentifyShufflePass.rewriteChecked detachedNodeErase afterDetachErase g r =
        NvDlaIdentifyShufflePass.rewrite g r) ∧
    (∀ n, NvDlaFuseAddMulReluPass.rewriteChecked detachedNodeErase afterDetachErase g n =
      NvDlaFuseAddMulReluPass.rewrite g n) ∧
    (∀ idx n, NvDlaReorderMulAddPass.rewriteChecked afterDetachErase afterDetachErase g idx n =
      NvDlaReorderMulAddPass.rewrite g idx n) ∧
    (∀ n, NvDlaIdentifyShufflePass.rewriteChecked anyErase anyErase g n =
      NvDlaIdentifyShufflePass.rewrite g n) ∧
    (∀ n, NvDlaFuseAddMulReluPass.rewriteChecked anyErase anyErase g n =
      NvDlaFuseAddMulReluPass.rewrite g n) ∧
    (∀ idx n, NvDlaReorderMulAddPass.rewriteChecked anyErase anyErase g idx n =
      NvDlaReorderMulAddPass.rewrite g idx n) := by
  refine ⟨?_, ?_, ?_, fun _ => rfl, fun _ => rfl, fun _ _ => rfl⟩
  · intro r hwf hk hacc
    obtain ⟨tId, r2, init1, init2, op1, opT, op2, opI1, opI2, input, shape1, out1, outT,
      shape2, output, s, grp, hm, -⟩ := shuffleMatch_of_accept hwf hk hacc
    obtain ⟨g', hg', -⟩ := rewrite_of_shuffleMatch hm
    rw [shuffle_rewrite_checked hwf hm hg', hg']
    exact ⟨rfl, rfl⟩
  · intro n
    exact option_eq_of_some_iff (fun _ h => fuse_rewrite_of_checked h)
      (fun _ h => fuse_rewrite_checked h)
  · intro idx n
    exact option_eq_of_some_iff (fun _ h => reorder_rewrite_of_checked h)
      (fun _ h => reorder_rewrite_checked h)

/-- The three example rewrites go through under the checks they pass. -/
theorem erases_follow_detachment_witness :
    ((NvDlaIdentifyShufflePass.rewrite shuffleExample 2).isSome = true ∧
      NvDlaIdentifyShufflePass.rewriteChecked detachedNodeErase afterDetachErase
        shuffleExample 2 = NvDlaIdentifyShufflePass.rewrite shuffleExample 2) ∧
    (NvDlaFuseAddMulReluPass.rewriteChecked detachedNodeErase afterDetachErase
        fuseExample 1).isSome = true ∧
    (NvDlaReorderMulAddPass.rewriteChecked afterDetachErase afterDetachErase
        reorderExample 0 3).isSome = true :=
  ⟨(erases_follow_detachment shuffleExample).1 2 (by decide) (by decide) (by decide),
    by decide, by with_unfolding_all decide⟩

/-- C25, the failing input: on the well-formed graph `reorderExample` the reorder
rewrite of the accepted Mul 3 goes through, but it erases the Initializer of beta
(operator 2) without detaching it: at the moment it is erased, that operator still
holds beta (value 2) in its output slot, so the rewrite fails the check that an erased
operator has empty slot lists.  The shuffle and the fusion rewrite of the example
patterns, which detach every operator they erase, pass that check. -/
theorem reorder_erases_an_initializer_holding_its_output :
    reorderExample.wellFormed = true ∧
    NvDlaReorderMulAddPass.canBeReordered reorderExample 3 = some true ∧
    (NvDlaReorderMulAddPass.rewrite reorderExample 0 3).isSome = true ∧
    NvDlaReorderMulAddPass.rewriteChecked detachedNodeErase afterDetachErase
      reorderExample 0 3 = none ∧
    (NvDlaReorderMulAddPass.rewriteChecked
      (fun _ g n => decide (n = 2 ∧ (g.getNode n).map (fun op => op.outputs) = some [2]))
      anyErase reorderExample 0 3).isSome = true ∧
    (NvDlaIdentifyShufflePass.rewriteChecked detachedNodeErase afterDetachErase
      shuffleExample 2).isSome = true ∧
    (NvDlaFuseAddMulReluPass.rewriteChecked detachedNodeErase afterDetachErase
      fuseExample 1).isSome = true := by
  with_unfolding_all decide

/-! ## The fusion rewrite in full -/

theorem getValue_set_as_map {g g' : ComputeGraph F} {v : Nat} {t : Tensor F}
    (f : Tensor F → Tensor F) (hv : g.getValue v = some t)
    (h : ∀ w, g'.getValue w = if w = v then some (f t) else g.getValue w) (w : Nat) :
    g'.getValue w = (g.getValue w).map fun x => if w = v then f x else x := by
  rw [h w]
  by_cases e : w = v
  · subst e
    simp [hv]
  · cases g.getValue w <;> simp [e]

theorem dropUser_eq_self {n : Nat} {t : Tensor F} (h : ∀ u ∈ t.uses, u.user ≠ n) :
    dropUser n t = t := by
  unfold dropUser
  have : t.uses.filter (fun u => decide (u.user ≠ n)) = t.uses :=
    List.filter_eq_self.mpr (fun u hu => by simpa using h u hu)
  rw [this]

theorem ite_dropUser_eq {c : Prop} [Decidable c] {n : Nat} {t : Tensor F}
    (h : ¬ c → ∀ u ∈ t.uses, u.user ≠ n) :
    (if c then dropUser n t else t) = dropUser n t := by
  by_cases hc : c
  · rw [if_pos hc]
  · rw [if_neg hc, dropUser_eq_self (h hc)]

theorem mem_dropUser_uses {n : Nat} {t : Tensor F} {u : Use} :
    u ∈ (dropUser n t).uses ↔ u ∈ t.uses ∧ u.user ≠ n := by
  unfold dropUser
  simp

/-- In a well-formed graph a value used by an operator sits in one of its input slots. -/
theorem mem_inputs_of_use {g : ComputeGraph F} (hwf : g.wellFormed = true) {w : Nat}
    {t : Tensor F} (hw : g.getValue w = some t) {u : Use} (hu : u ∈ t.uses)
    {op : ComputeOperator} (hop : g.getNode u.user = some op) : w ∈ op.inputs := by
  obtain ⟨op2, h2, hi⟩ := wf_use hwf hw hu
  rw [hop] at h2
  cases h2
  exact List.getElem?_mem hi

/-- The fusion rewrite of a matched chain in a well-formed graph, in full: the
operators, the values with their use-lists and producers, and the iteration order. -/
theorem fuse_rewrite_full {g : ComputeGraph F} {n mulId reluId : Nat}
    {add mul relu : ComputeOperator} {addA addB addC mulB mulC reluY : Nat}
    (hwf : g.wellFormed = true)
    (h : FuseMatch g n mulId reluId add mul relu addA addB addC mulB mulC reluY) :
    ∃ g', NvDlaFuseAddMulReluPass.rewrite g n = some g' ∧
      (∀ m, g'.getNode m =
        if m = g.nodes.length then
          some { kind := OpKind.NvDlaAddMulRelu, inputs := [addA, addB, mulB],
                 outputs := [reluY] }
        else if m = n ∨ m = mulId ∨ m = reluId then none
        else g.getNode m) ∧
      (∀ w, g'.getValue w =
        if w = addC ∨ w = mulC then none
        else (g.getValue w).map
          (fuseTensor n mulId reluId g.nodes.length addA addB mulB reluY w)) ∧
      g'.order = (((g.order ++ [g.nodes.length]).erase n).erase mulId).erase reluId := by
  obtain ⟨⟨h1, h2, h3⟩, ⟨d1, d2, d3, d4, d5, d6, d7, d8⟩, ⟨l1, l2, l3, l4, l5, l6⟩⟩ :=
    h.distinct hwf
  have hcn := ne_length_of_getNode h.hadd
  have hcm := ne_length_of_getNode h.hmul
  have hcr := ne_length_of_getNode h.hrelu
  obtain ⟨i, hi⟩ := h.usesAddC
  -- the new operator
  obtain ⟨g1, hg1⟩ : ∃ g1, (g.addOperator OpKind.NvDlaAddMulRelu 0).1 = g1 := ⟨_, rfl⟩
  obtain ⟨hc, hN1, hV1, hO1⟩ := addOperator_spec g OpKind.NvDlaAddMulRelu 0
  rw [hg1] at hN1 hV1 hO1
  have hS1 : ∀ w, g1.statics w = g.statics w := statics_congr_same hV1
  -- detach the Add
  have A1 : g1.getNode n = some add := by rw [hN1, if_neg hcn, h.hadd]
  obtain ⟨g2, e2, hN2, hV2, hO2⟩ := removeAllInputs_spec A1
    (by simp [h.addIn, live_of_statics hS1 l1, live_of_statics hS1 l2])
  have hS2 : ∀ w, g2.statics w = g.statics w := fun w =>
    (statics_congr_map (fun _ _ => ite_dropUser_static _ _ _) hV2 w).trans (hS1 w)
  have A2 := hN2 n
  rw [if_pos rfl] at A2
  obtain ⟨g3, e3, hN3, hV3, hO3⟩ := removeAllOutputs_spec A2
    (by simp [h.addOut, live_of_statics hS2 l3])
  have hS3 : ∀ w, g3.statics w = g.statics w := fun w =>
    (statics_congr_map (fun _ _ => ite_clearDefine_static _ _) hV3 w).trans (hS2 w)
  -- detach the Mul
  have M3 : g3.getNode mulId = some mul := by
    rw [hN3, if_neg (Ne.symm h1), hN2, if_neg (Ne.symm h1), hN1, if_neg hcm, h.hmul]
  have lMulIn : ∀ v ∈ mul.inputs, (g.getValue v).isSome = true := by
    intro v hv
    rcases h.mulIn with e | e <;> rw [e] at hv <;> simp at hv <;> rcases hv with rfl | rfl <;>
      assumption
  obtain ⟨g4, e4, hN4, hV4, hO4⟩ := removeAllInputs_spec M3
    (fun v hv => live_of_statics hS3 (lMulIn v hv))
  have hS4 : ∀ w, g4.statics w = g.statics w := fun w =>
    (statics_congr_map (fun _ _ => ite_dropUser_static _ _ _) hV4 w).trans (hS3 w)
  have M4 := hN4 mulId
  rw [if_pos rfl] at M4
  obtain ⟨g5, e5, hN5, hV5, hO5⟩ := removeAllOutputs_spec M4
    (by simp [h.mulOut, live_of_statics hS4 l5])
  have hS5 : ∀ w, g5.statics w = g.statics w := fun w =>
    (statics_congr_map (fun _ _ => ite_clearDefine_static _ _) hV5 w).trans (hS4 w)
  -- detach the Relu
  have R5 : g5.getNode reluId = some relu := by
    rw [hN5, if_neg (Ne.symm h3), hN4, if_neg (Ne.symm h3), hN3, if_neg (Ne.symm h2), hN2,
      if_neg (Ne.symm h2), hN1, if_neg hcr, h.hrelu]
  obtain ⟨g6, e6, hN6, hV6, hO6⟩ := removeAllInputs_spec R5
    (by simp [h.reluIn, live_of_statics hS5 l5])
  have hS6 : ∀ w, g6.statics w = g.statics w := fun w =>
    (statics_congr_map (fun _ _ => ite_dropUser_static _ _ _) hV6 w).trans (hS5 w)
  have R6 := hN6 reluId
  rw [if_pos rfl] at R6
  obtain ⟨g7, e7, hN7, hV7, hO7⟩ := removeAllOutputs_spec R6
    (by simp [h.reluOut, live_of_statics hS6 l6])
  have hS7 : ∀ w, g7.statics w = g.statics w := fun w =>
    (statics_congr_map (fun _ _ => ite_clearDefine_static _ _) hV7 w).trans (hS6 w)
  -- erase the three operators
  have A7 : ∃ op, g7.getNode n = some op := by
    rw [hN7, if_neg h2, hN6, if_neg h2, hN5, if_neg h1, hN4, if_neg h1, hN3, if_pos rfl]
    exact ⟨_, rfl⟩
  obtain ⟨opA, A7⟩ := A7
  obtain ⟨g8, e8, hN8, hV8, hO8⟩ := eraseNode_spec A7
  have hS8 : ∀ w, g8.statics w = g.statics w := fun w =>
    (statics_congr_same hV8 w).trans (hS7 w)
  have M8 : ∃ op, g8.getNode mulId = some op := by
    rw [hN8, if_neg (Ne.symm h1), hN7, if_neg h3, hN6, if_neg h3, hN5, if_pos rfl]
    exact ⟨_, rfl⟩
  obtain ⟨opM, M8⟩ := M8
  obtain ⟨g9, e9, hN9, hV9, hO9⟩ := eraseNode_spec M8
  have hS9 : ∀ w, g9.statics w = g.statics w := fun w =>
    (statics_congr_same hV9 w).trans (hS8 w)
  have R9 : ∃ op, g9.getNode reluId = some op := by
    rw [hN9, if_neg (Ne.symm h3), hN8, if_neg (Ne.symm h2), hN7, if_pos rfl]
    exact ⟨_, rfl⟩
  obtain ⟨opR, R9⟩ := R9
  obtain ⟨g10, e10, hN10, hV10, hO10⟩ := eraseNode_spec R9
  have hS10 : ∀ w, g10.statics w = g.statics w := fun w =>
    (statics_congr_same hV10 w).trans (hS9 w)
  -- erase the two interior values
  obtain ⟨tC, htC⟩ := live_of_statics_eq (hS10 addC) l3
  obtain ⟨g11, e11, hN11, hV11, hO11⟩ := eraseValue_spec htC
  have hS11 : ∀ w, g11.statics w = if w = addC then none else g.statics w := fun w => by
    rw [statics_erase hV11 w, hS10 w]
  have hMC11 : g11.statics mulC = g.statics mulC := by rw [hS11, if_neg (Ne.symm d8)]
  obtain ⟨tMC, htMC⟩ := live_of_statics_eq hMC11 l5
  obtain ⟨g12, e12, hN12, hV12, hO12⟩ := eraseValue_spec htMC
  have hS12 : ∀ w, g12.statics w = if w = addC ∨ w = mulC then none else g.statics w :=
    fun w => by
      rw [statics_erase hV12 w, hS11 w]
      by_cases ea : w = addC <;> by_cases em : w = mulC <;> simp [ea, em]
  -- connect the new operator
  have C12 : g12.getNode g.nodes.length =
      some { kind := OpKind.NvDlaAddMulRelu, inputs := [], outputs := [], group := 0 } := by
    rw [hN12, hN11, hN10, if_neg (Ne.symm hcr), hN9, if_neg (Ne.symm hcm), hN8,
      if_neg (Ne.symm hcn), hN7, if_neg (Ne.symm hcr), hN6, if_neg (Ne.symm hcr), hN5,
      if_neg (Ne.symm hcm), hN4, if_neg (Ne.symm hcm), hN3, if_neg (Ne.symm hcn), hN2,
      if_neg (Ne.symm hcn), hN1, if_pos rfl]
  have keep : ∀ {g' : ComputeGraph F} {w : Nat},
      (∀ w, g'.statics w = if w = addC ∨ w = mulC then none else g.statics w) →
      w ≠ addC → w ≠ mulC → g'.statics w = g.statics w := by
    intro g' w hS ha hm
    rw [hS, if_neg (by simp [ha, hm])]
  obtain ⟨tA, htA⟩ := live_of_statics_eq (keep hS12 d1 d3) l1
  obtain ⟨g13, e13, hN13, hV13, hO13⟩ := addInput_spec C12 htA
  have hS13 : ∀ w, g13.statics w = if w = addC ∨ w = mulC then none else g.statics w :=
    fun w => (statics_congr_set htA hV13 rfl w).trans (hS12 w)
  have C13 := hN13 g.nodes.length
  rw [if_pos rfl] at C13
  obtain ⟨tB, htB⟩ := live_of_statics_eq (keep hS13 d2 d4) l2
  obtain ⟨g14, e14, hN14, hV14, hO14⟩ := addInput_spec C13 htB
  have hS14 : ∀ w, g14.statics w = if w = addC ∨ w = mulC then none else g.statics w :=
    fun w => (statics_congr_set htB hV14 rfl w).trans (hS13 w)
  have C14 := hN14 g.nodes.length
  rw [if_pos rfl] at C14
  obtain ⟨tMB, htMB⟩ := live_of_statics_eq (keep hS14 h.mulB_ne d5) l4
  obtain ⟨g15, e15, hN15, hV15, hO15⟩ := addInput_spec C14 htMB
  have hS15 : ∀ w, g15.statics w = if w = addC ∨ w = mulC then none else g.statics w :=
    fun w => (statics_congr_set htMB hV15 rfl w).trans (hS14 w)
  have C15 := hN15 g.nodes.length
  rw [if_pos rfl] at C15
  obtain ⟨tY, htY⟩ := live_of_statics_eq (keep hS15 d6 d7) l6
  obtain ⟨g16, e16, hN16, hV16, hO16⟩ := addOutput_spec C15 htY
  have hS16 : ∀ w, g16.statics w = if w = addC ∨ w = mulC then none else g.statics w :=
    fun w => (statics_congr_set htY hV16 rfl w).trans (hS15 w)
  refine ⟨g16, ?_, ?_, ?_, ?_⟩
  · have hdA : g.dynCast OpKind.Add n = some n := by
      simp [ComputeGraph.dynCast, h.hadd, h.addKind]
    have hdM : g.dynCast OpKind.Mul mulId = some mulId := by
      simp [ComputeGraph.dynCast, h.hmul, h.mulKind]
    have hdR : g.dynCast OpKind.Relu reluId = some reluId := by
      simp [ComputeGraph.dynCast, h.hrelu, h.reluKind]
    have hoA : g.getOutput n 0 = some addC := by
      simp [ComputeGraph.getOutput, h.hadd, h.addOut]
    have hoM : g.getOutput mulId 0 = some mulC := by
      simp [ComputeGraph.getOutput, h.hmul, h.mulOut]
    have hoR : g.getOutput reluId 0 = some reluY := by
      simp [ComputeGraph.getOutput, h.hrelu, h.reluOut]
    have hiA0 : g.getInput n 0 = some addA := by
      simp [ComputeGraph.getInput, h.hadd, h.addIn]
    have hiA1 : g.getInput n 1 = some addB := by
      simp [ComputeGraph.getInput, h.hadd, h.addIn]
    have hiM : ∃ m0, g.getInput mulId 0 = some m0 ∧
        (if addC = m0 then g.getInput mulId 1 else some m0) = some mulB := by
      rcases h.mulIn with e | e
      · exact ⟨addC, by simp [ComputeGraph.getInput, h.hmul, e],
          by simp [ComputeGraph.getInput, h.hmul, e]⟩
      · exact ⟨mulB, by simp [ComputeGraph.getInput, h.hmul, e],
          by simp [Ne.symm h.mulB_ne]⟩
    obtain ⟨m0, hiM0, hiMB⟩ := hiM
    unfold NvDlaFuseAddMulReluPass.rewrite
    rw [hdA, andThen_some, hoA, andThen_some, hi, andThen_some, List.getElem?_cons_zero,
      andThen_some, hdM, andThen_some, hoM, andThen_some, h.usesMulC, andThen_some,
      List.getElem?_cons_zero, andThen_some, hdR, andThen_some, hiA0, andThen_some, hiA1,
      andThen_some, andThen_some, hiM0, andThen_some, hiMB, andThen_some, andThen_some, hoR,
      andThen_some]
    dsimp only
    rw [hg1, hc, e2, andThen_some, e3, andThen_some, e4, andThen_some, e5, andThen_some, e6,
      andThen_some, e7, andThen_some, e8, andThen_some, e9, andThen_some, e10, andThen_some,
      e11, andThen_some, e12, andThen_some, e13, andThen_some, e14, andThen_some, e15,
      andThen_some, e16]
  · intro m
    rw [hN16, hN15, hN14, hN13]
    by_cases hmc : m = g.nodes.length
    · simp [hmc]
    · simp only [if_neg hmc]
      rw [hN12, hN11, hN10, hN9, hN8, hN7, hN6, hN5, hN4, hN3, hN2, hN1, if_neg hmc]
      by_cases e1 : m = n
      · simp [e1, h1, h2]
      · by_cases e2' : m = mulId
        · simp [e2', Ne.symm h1, h3]
        · by_cases e3' : m = reluId
          · simp [e3', Ne.symm h2, Ne.symm h3]
          · simp [e1, e2', e3']
  · intro w
    have hM13 := getValue_set_as_map
      (fun t => { t with uses := t.uses ++ [⟨g.nodes.length, 0⟩] }) htA hV13
    have hM14 := getValue_set_as_map
      (fun t => { t with uses := t.uses ++ [⟨g.nodes.length, 1⟩] }) htB hV14
    have hM15 := getValue_set_as_map
      (fun t => { t with uses := t.uses ++ [⟨g.nodes.length, 2⟩] }) htMB hV15
    have hM16 := getValue_set_as_map
      (fun t => { t with define := some g.nodes.length }) htY hV16
    by_cases ea : w = addC
    · rw [if_pos (Or.inl ea), ea, hV16, if_neg (Ne.symm d6), hV15, if_neg (Ne.symm h.mulB_ne),
        hV14, if_neg (Ne.symm d2), hV13, if_neg (Ne.symm d1), hV12, if_neg d8, hV11,
        if_pos rfl]
    by_cases em : w = mulC
    · rw [if_pos (Or.inr em), em, hV16, if_neg (Ne.symm d7), hV15, if_neg (Ne.symm d5),
        hV14, if_neg (Ne.symm d4), hV13, if_neg (Ne.symm d3), hV12, if_pos rfl]
    rw [if_neg (by simp [ea, em]), hM16 w, hM15 w, hM14 w, hM13 w, hV12 w, if_neg em, hV11 w,
      if_neg ea, hV10 w, hV9 w, hV8 w, hV7 w, hV6 w, hV5 w, hV4 w, hV3 w, hV2 w, hV1 w]
    cases hw : g.getValue w with
    | none => rfl
    | some t =>
      have hn : w ∉ add.inputs → ∀ u ∈ t.uses, u.user ≠ n := by
        intro hni u hu e
        exact hni (mem_inputs_of_use hwf hw hu (e ▸ h.hadd))
      have hm : w ∉ mul.inputs → ∀ u ∈ (dropUser n t).uses, u.user ≠ mulId := by
        intro hni u hu e
        exact hni (mem_inputs_of_use hwf hw (mem_dropUser_uses.mp hu).1 (e ▸ h.hmul))
      have hr : ∀ u ∈ (dropUser mulId (dropUser n t)).uses, u.user ≠ reluId := by
        intro u hu e
        have := mem_inputs_of_use hwf hw
          (mem_dropUser_uses.mp (mem_dropUser_uses.mp hu).1).1 (e ▸ h.hrelu)
        rw [h.reluIn] at this
        exact em (List.mem_singleton.mp this)
      simp only [Option.map_some', Option.some.injEq]
      rw [ite_dropUser_eq hn]
      simp only [h.addOut, h.mulOut, h.reluIn, h.reluOut, List.mem_singleton, ea, em,
        if_false]
      rw [ite_dropUser_eq hm]
      unfold fuseTensor fuseUses
      rw [dropUser_eq_self hr]
      split_ifs <;> simp [dropUser, clearDefine]
  · rw [hO16, hO15, hO14, hO13, hO12, hO11, hO10, hO9, hO8, hO7, hO6, hO5, hO4, hO3, hO2, hO1]

/-! ## Well-formedness after the fusion rewrite -/

namespace ComputeGraph

theorem wellFormed_of {g : ComputeGraph F}
    (hN : ∀ n op, g.getNode n = some op → g.nodeOK n op = true)
    (hV : ∀ v t, g.getValue v = some t → g.valueOK v t = true) : g.wellFormed = true := by
  unfold wellFormed
  rw [Bool.and_eq_true, List.all_eq_true, List.all_eq_true]
  constructor
  · intro n _
    cases hn : g.getNode n with
    | none => rfl
    | some op => exact hN n op hn
  · intro v _
    cases hv : g.getValue v with
    | none => rfl
    | some t => exact hV v t hv

theorem nodeOK_of {g : ComputeGraph F} {n : Nat} {op : ComputeOperator}
    (ha : arityOK op = true)
    (hi : ∀ i v, op.inputs[i]? = some v → ∃ t, g.getValue v = some t ∧ (⟨n, i⟩ : Use) ∈ t.uses)
    (ho : ∀ v ∈ op.outputs, ∃ t, g.getValue v = some t ∧ t.define = some n) :
    g.nodeOK n op = true := by
  unfold nodeOK
  simp only [Bool.and_eq_true, List.all_eq_true]
  refine ⟨⟨ha, ?_⟩, ?_⟩
  · intro i hir
    have hlt : i < op.inputs.length := List.mem_range.mp hir
    rw [List.getElem?_eq_getElem hlt]
    obtain ⟨t, ht, hu⟩ := hi i _ (List.getElem?_eq_getElem hlt)
    simp [hasUse, ht, hu]
  · intro v hv
    obtain ⟨t, ht, hd⟩ := ho v hv
    simp [definedBy, ht, hd]

theorem valueOK_of {g : ComputeGraph F} {v : Nat} {t : Tensor F}
    (hd : ∃ n op, t.define = some n ∧ g.getNode n = some op ∧ v ∈ op.outputs ∧
      (t.data.present = true → op.kind = OpKind.Initializer))
    (hu : ∀ u ∈ t.uses, ∃ op, g.getNode u.user = some op ∧ op.inputs[u.operandNo]? = some v) :
    g.valueOK v t = true := by
  obtain ⟨n, op, h1, h2, h3, h4⟩ := hd
  unfold valueOK
  simp only [Bool.and_eq_true, List.all_eq_true, decide_eq_true_eq]
  refine ⟨?_, ?_⟩
  · simp only [h1, h2, Bool.and_eq_true, decide_eq_true_eq, Bool.or_eq_true,
      Bool.not_eq_true']
    refine ⟨h3, ?_⟩
    cases hp : t.data.present with
    | false => exact Or.inl rfl
    | true => exact Or.inr (h4 hp)
  · intro u huu
    obtain ⟨op2, ho, hi⟩ := hu u huu
    simp [getInput, ho, hi]

end ComputeGraph

theorem mem_fuseUses {c a b m w : Nat} {u : Use} :
    u ∈ fuseUses c a b m w ↔
      (w = a ∧ u = ⟨c, 0⟩) ∨ (w = b ∧ u = ⟨c, 1⟩) ∨ (w = m ∧ u = ⟨c, 2⟩) := by
  unfold fuseUses
  split_ifs with h1 h2 h3 <;> subst_vars <;> simp_all

theorem user_of_mem_fuseUses {c a b m w : Nat} {u : Use} (h : u ∈ fuseUses c a b m w) :
    u.user = c := by
  rcases mem_fuseUses.mp h with ⟨-, rfl⟩ | ⟨-, rfl⟩ | ⟨-, rfl⟩ <;> rfl

theorem mem_fuseTensor_uses {n m r c a b mB y w : Nat} {t : Tensor F} {u : Use} :
    u ∈ (fuseTensor n m r c a b mB y w t).uses ↔
      (u ∈ t.uses ∧ u.user ≠ n ∧ u.user ≠ m ∧ u.user ≠ r) ∨ u ∈ fuseUses c a b mB w := by
  unfold fuseTensor
  simp only [List.mem_append, mem_dropUser_uses]
  constructor
  · rintro (⟨⟨⟨h1, h2⟩, h3⟩, h4⟩ | h)
    · exact Or.inl ⟨h1, h2, h3, h4⟩
    · exact Or.inr h
  · rintro (⟨h1, h2, h3, h4⟩ | h)
    · exact Or.inl ⟨⟨⟨h1, h2⟩, h3⟩, h4⟩
    · exact Or.inr h

/-- Facts about a matched chain in a well-formed graph that the later proofs share:
the producers of the three outputs, and where a value used by a matched operator
sits. -/
theorem FuseMatch.producers {g : ComputeGraph F} {n mulId reluId : Nat}
    {add mul relu : ComputeOperator} {addA addB addC mulB mulC reluY : Nat}
    (hwf : g.wellFormed = true)
    (h : FuseMatch g n mulId reluId add mul relu addA addB addC mulB mulC reluY) :
    (∀ x op, g.getNode x = some op → addC ∈ op.outputs → x = n) ∧
    (∀ x op, g.getNode x = some op → mulC ∈ op.outputs → x = mulId) ∧
    (∀ x op, g.getNode x = some op → reluY ∈ op.outputs → x = reluId) := by
  refine ⟨?_, ?_, ?_⟩
  · intro x op hx ho
    obtain ⟨t, ht, hd⟩ := wf_output hwf hx ho
    obtain ⟨t2, ht2, hd2⟩ := wf_output hwf h.hadd (v := addC) (by rw [h.addOut]; simp)
    rw [ht] at ht2
    cases ht2
    rw [hd] at hd2
    exact Option.some.inj hd2
  · intro x op hx ho
    obtain ⟨t, ht, hd⟩ := wf_output hwf hx ho
    obtain ⟨t2, ht2, hd2⟩ := wf_output hwf h.hmul (v := mulC) (by rw [h.mulOut]; simp)
    rw [ht] at ht2
    cases ht2
    rw [hd] at hd2
    exact Option.some.inj hd2
  · intro x op hx ho
    obtain ⟨t, ht, hd⟩ := wf_output hwf hx ho
    obtain ⟨t2, ht2, hd2⟩ := wf_output hwf h.hrelu (v := reluY) (by rw [h.reluOut]; simp)
    rw [ht] at ht2
    cases ht2
    rw [hd] at hd2
    exact Option.some.inj hd2

/-- The fusion rewrite of a matched chain keeps a well-formed graph well formed. -/
theorem fuse_wellFormed {g g' : ComputeGraph F} {n mulId reluId : Nat}
    {add mul relu : ComputeOperator} {addA addB addC mulB mulC reluY : Nat}
    (hwf : g.wellFormed = true)
    (h : FuseMatch g n mulId reluId add mul relu addA addB addC mulB mulC reluY)
    (hN : ∀ m, g'.getNode m =
      if m = g.nodes.length then
        some { kind := OpKind.NvDlaAddMulRelu, inputs := [addA, addB, mulB],
               outputs := [reluY] }
      else if m = n ∨ m = mulId ∨ m = reluId then none
      else g.getNode m)
    (hV : ∀ w, g'.getValue w =
      if w = addC ∨ w = mulC then none
      else (g.getValue w).map
        (fuseTensor n mulId reluId g.nodes.length addA addB mulB reluY w)) :
    g'.wellFormed = true := by
  obtain ⟨⟨h1, h2, h3⟩, ⟨d1, d2, d3, d4, d5, d6, d7, d8⟩, ⟨l1, l2, l3, l4, l5, l6⟩⟩ :=
    h.distinct hwf
  obtain ⟨pA, pM, pR⟩ := h.producers hwf
  obtain ⟨iA, hiA⟩ := h.usesAddC
  have hcn := ne_length_of_getNode h.hadd
  have hcm := ne_length_of_getNode h.hmul
  have hcr := ne_length_of_getNode h.hrelu
  -- lookups in the new graph
  have keepV : ∀ {w t}, g.getValue w = some t → w ≠ addC → w ≠ mulC →
      g'.getValue w =
        some (fuseTensor n mulId reluId g.nodes.length addA addB mulB reluY w t) := by
    intro w t hw ha hm
    rw [hV, if_neg (by simp [ha, hm]), hw]
    rfl
  have keepN : ∀ {x op}, g.getNode x = some op → x ≠ n → x ≠ mulId → x ≠ reluId →
      g'.getNode x = some op := by
    intro x op hx ha hm hr
    rw [hN, if_neg (ne_length_of_getNode hx), if_neg (by simp [ha, hm, hr]), hx]
  have hC : g'.getNode g.nodes.length =
      some { kind := OpKind.NvDlaAddMulRelu, inputs := [addA, addB, mulB],
             outputs := [reluY] } := by
    rw [hN, if_pos rfl]
  refine wellFormed_of ?_ ?_
  · intro x op hx
    rw [hN] at hx
    by_cases hxc : x = g.nodes.length
    · rw [if_pos hxc] at hx
      cases hx
      subst hxc
      refine nodeOK_of rfl ?_ ?_
      · intro i v hi
        match i, hi with
        | 0, hi =>
          cases hi
          obtain ⟨t, ht⟩ := Option.isSome_iff_exists.mp l1
          exact ⟨_, keepV ht d1 d3, mem_fuseTensor_uses.mpr
            (Or.inr (mem_fuseUses.mpr (Or.inl ⟨rfl, rfl⟩)))⟩
        | 1, hi =>
          cases hi
          obtain ⟨t, ht⟩ := Option.isSome_iff_exists.mp l2
          exact ⟨_, keepV ht d2 d4, mem_fuseTensor_uses.mpr
            (Or.inr (mem_fuseUses.mpr (Or.inr (Or.inl ⟨rfl, rfl⟩))))⟩
        | 2, hi =>
          cases hi
          obtain ⟨t, ht⟩ := Option.isSome_iff_exists.mp l4
          exact ⟨_, keepV ht h.mulB_ne d5, mem_fuseTensor_uses.mpr
            (Or.inr (mem_fuseUses.mpr (Or.inr (Or.inr ⟨rfl, rfl⟩))))⟩
        | k + 3, hi => simp at hi
      · intro v hv
        rw [List.mem_singleton] at hv
        subst hv
        obtain ⟨t, ht⟩ := Option.isSome_iff_exists.mp l6
        refine ⟨_, keepV ht d6 d7, ?_⟩
        unfold fuseTensor
        simp
    · rw [if_neg hxc] at hx
      by_cases hxe : x = n ∨ x = mulId ∨ x = reluId
      · rw [if_pos hxe] at hx
        cases hx
      · rw [if_neg hxe] at hx
        have hxn : x ≠ n := fun e => hxe (Or.inl e)
        have hxm : x ≠ mulId := fun e => hxe (Or.inr (Or.inl e))
        have hxr : x ≠ reluId := fun e => hxe (Or.inr (Or.inr e))
        refine nodeOK_of (wf_arity hwf hx) ?_ ?_
        · intro i v hi
          obtain ⟨t, ht, hu⟩ := wf_input hwf hx hi
          have va : v ≠ addC := by
            intro e
            obtain ⟨t2, ht2, hu2⟩ := getUses_eq_some hiA
            rw [e, ht2] at ht
            cases ht
            rw [hu2, List.mem_singleton] at hu
            exact hxm (congrArg Use.user hu)
          have vm : v ≠ mulC := by
            intro e
            obtain ⟨t2, ht2, hu2⟩ := getUses_eq_some h.usesMulC
            rw [e, ht2] at ht
            cases ht
            rw [hu2, List.mem_singleton] at hu
            exact hxr (congrArg Use.user hu)
          exact ⟨_, keepV ht va vm, mem_fuseTensor_uses.mpr (Or.inl ⟨hu, hxn, hxm, hxr⟩)⟩
        · intro v hv
          obtain ⟨t, ht, hd⟩ := wf_output hwf hx hv
          have va : v ≠ addC := fun e => hxn (pA x op hx (e ▸ hv))
          have vm : v ≠ mulC := fun e => hxm (pM x op hx (e ▸ hv))
          have vy : v ≠ reluY := fun e => hxr (pR x op hx (e ▸ hv))
          refine ⟨_, keepV ht va vm, ?_⟩
          unfold fuseTensor
          simp [vy, hd]
  · intro w t' hw'
    rw [hV] at hw'
    by_cases hwe : w = addC ∨ w = mulC
    · rw [if_pos hwe] at hw'
      cases hw'
    rw [if_neg hwe] at hw'
    have wa : w ≠ addC := fun e => hwe (Or.inl e)
    have wm : w ≠ mulC := fun e => hwe (Or.inr e)
    cases hw : g.getValue w with
    | none =>
      rw [hw] at hw'
      cases hw'
    | some t =>
      rw [hw] at hw'
      simp only [Option.map_some', Option.some.injEq] at hw'
      subst hw'
      obtain ⟨p, op, hd, hp, hout, hinit⟩ := wf_define hwf hw
      refine valueOK_of ?_ ?_
      · by_cases wy : w = reluY
        · refine ⟨g.nodes.length, _, ?_, hC, by simp [wy], ?_⟩
          · unfold fuseTensor
            simp [wy]
          · intro hpres
            have hpr : p = reluId := pR p op hp (wy ▸ hout)
            rw [hpr, h.hrelu] at hp
            cases hp
            have := hinit hpres
            rw [h.reluKind] at this
            cases this
        · have pn : p ≠ n := by
            intro e
            rw [e, h.hadd] at hp
            cases hp
            rw [h.addOut, List.mem_singleton] at hout
            exact wa hout
          have pm : p ≠ mulId := by
            intro e
            rw [e, h.hmul] at hp
            cases hp
            rw [h.mulOut, List.mem_singleton] at hout
            exact wm hout
          have pr : p ≠ reluId := by
            intro e
            rw [e, h.hrelu] at hp
            cases hp
            rw [h.reluOut, List.mem_singleton] at hout
            exact wy hout
          refine ⟨p, op, ?_, keepN hp pn pm pr, hout, hinit⟩
          unfold fuseTensor
          simp [wy, hd]
      · intro u hu
        rcases mem_fuseTensor_uses.mp hu with ⟨hut, un, um, ur⟩ | hf
        · obtain ⟨op2, ho2, hi2⟩ := wf_use hwf hw hut
          exact ⟨op2, keepN ho2 un um ur, hi2⟩
        · rcases mem_fuseUses.mp hf with ⟨e, rfl⟩ | ⟨e, rfl⟩ | ⟨e, rfl⟩
          · exact ⟨_, hC, by simp [e]⟩
          · exact ⟨_, hC, by simp [e]⟩
          · exact ⟨_, hC, by simp [e]⟩

/-! ## The matcher, stage by stage -/

/-- The matcher `isAddMulRelu` is two single-use stages followed by a test of the kind
of the third operator. -/
theorem isAddMulRelu_eq_singleUse (g : ComputeGraph F) (n : Nat) :
    isAddMulRelu g n =
      (g.singleUse OpKind.Add n).bind fun a =>
        match a with
        | none => some false
        | some m =>
          (g.singleUse OpKind.Mul m).bind fun b =>
            match b with
            | none => some false
            | some r => g.isa OpKind.Relu r := by
  unfold isAddMulRelu ComputeGraph.singleUse
  simp only [ComputeGraph.isa, ComputeGraph.getOutput, Option.bind_eq_bind, Option.pure_def]
  cases hn : g.getNode n with
  | none => simp
  | some add =>
  simp only [Option.map_some', Option.some_bind]
  by_cases hk : add.kind = OpKind.Add
  swap
  · simp [hk]
  cases ho : add.outputs[0]? with
  | none => simp [hk]
  | some addC =>
  simp only [Option.some_bind]
  cases hu : g.getUses addC with
  | none => simp [hk]
  | some us =>
  rcases us with _ | ⟨u, _ | ⟨u', rest⟩⟩
  · simp [hk]
  swap
  · simp [hk]
  simp only [Option.some_bind, List.getElem?_cons_zero]
  cases hm : g.getNode u.user with
  | none => simp [hk, hm]
  | some mul =>
  by_cases hmk : mul.kind = OpKind.Mul
  swap
  · simp [hk, hm, hmk]
  cases hmo : mul.outputs[0]? with
  | none => simp [hk, hm, hmk, hmo]
  | some mulC =>
  cases hu2 : g.getUses mulC with
  | none => simp [hk, hm, hmk, hmo, hu2]
  | some us2 =>
  rcases us2 with _ | ⟨u2, _ | ⟨u2', rest2⟩⟩
  · simp [hk, hm, hmk, hmo, hu2]
  swap
  · simp [hk, hm, hmk, hmo, hu2]
  cases hr : g.getNode u2.user with
  | none => simp [hk, hm, hmk, hmo, hu2, hr]
  | some relu =>
    by_cases hrk : relu.kind = OpKind.Relu <;> simp [hk, hm, hmk, hmo, hu2, hr, hrk]

theorem singleUse_eq_some {g : ComputeGraph F} {k : OpKind} {x : Nat} {a : Option Nat}
    (h : g.singleUse k x = some a) :
    ∃ op, g.getNode x = some op ∧
      ((op.kind ≠ k ∧ a = none) ∨
        (op.kind = k ∧ ∃ o us, op.outputs[0]? = some o ∧ g.getUses o = some us ∧
          ((1 < us.length ∧ a = none) ∨ ∃ u, us = [u] ∧ a = some u.user))) := by
  unfold ComputeGraph.singleUse at h
  cases hn : g.getNode x with
  | none => simp [hn] at h
  | some op =>
    refine ⟨op, rfl, ?_⟩
    rw [hn] at h
    simp only [Option.some_bind] at h
    by_cases hk : op.kind = k
    · rw [if_pos hk] at h
      right
      refine ⟨hk, ?_⟩
      cases ho : op.outputs[0]? with
      | none => simp [ho] at h
      | some o =>
        rw [ho] at h
        simp only [Option.some_bind] at h
        cases hu : g.getUses o with
        | none => simp [hu] at h
        | some us =>
          rw [hu] at h
          simp only [Option.some_bind] at h
          refine ⟨o, us, rfl, hu, ?_⟩
          rcases us with _ | ⟨u, _ | ⟨u', rest⟩⟩
          · simp at h
          · right
            refine ⟨u, rfl, ?_⟩
            simpa using h.symm
          · left
            refine ⟨by simp, ?_⟩
            simpa using h.symm
    · rw [if_neg hk] at h
      left
      exact ⟨hk, (Option.some.inj h).symm⟩

theorem singleUse_of_kind_ne {g : ComputeGraph F} {k : OpKind} {x : Nat}
    {op : ComputeOperator} (hx : g.getNode x = some op) (hk : op.kind ≠ k) :
    g.singleUse k x = some none := by
  unfold ComputeGraph.singleUse
  rw [hx]
  simp [hk]

theorem singleUse_of_uses {g : ComputeGraph F} {k : OpKind} {x o : Nat}
    {op : ComputeOperator} {us : List Use} (hx : g.getNode x = some op) (hk : op.kind = k)
    (ho : op.outputs[0]? = some o) (hu : g.getUses o = some us) :
    g.singleUse k x =
      if us.length > 1 then some none else (us[0]?).map fun u => some u.user := by
  unfold ComputeGraph.singleUse
  rw [hx]
  simp [hk, ho, hu]

/-- The use-list of a surviving value after the fusion rewrite: unchanged when no
matched operator uses the value; otherwise its uses by matched operators are replaced
by uses by the new operator. -/
theorem fuse_uses {g g' : ComputeGraph F} {n mulId reluId : Nat}
    {add mul relu : ComputeOperator} {addA addB addC mulB mulC reluY : Nat}
    (hwf : g.wellFormed = true)
    (h : FuseMatch g n mulId reluId add mul relu addA addB addC mulB mulC reluY)
    (hV : ∀ w, g'.getValue w =
      if w = addC ∨ w = mulC then none
      else (g.getValue w).map
        (fuseTensor n mulId reluId g.nodes.length addA addB mulB reluY w))
    {o : Nat} {us : List Use} (hu : g.getUses o = some us) (oa : o ≠ addC) (om : o ≠ mulC) :
    ∃ us', g'.getUses o = some us' ∧
      ((∀ u ∈ us, u.user ≠ n ∧ u.user ≠ mulId ∧ u.user ≠ reluId) → us' = us) ∧
      ((∃ u ∈ us, u.user = n ∨ u.user = mulId ∨ u.user = reluId) →
        1 < us'.length ∨ ∃ e, us' = [e] ∧ e.user = g.nodes.length) := by
  obtain ⟨t, ht, rfl⟩ := getUses_eq_some hu
  have hv' : g'.getValue o =
      some (fuseTensor n mulId reluId g.nodes.length addA addB mulB reluY o t) := by
    rw [hV, if_neg (by simp [oa, om]), ht]
    rfl
  refine ⟨(fuseTensor n mulId reluId g.nodes.length addA addB mulB reluY o t).uses,
    by simp [ComputeGraph.getUses, hv'], ?_, ?_⟩
  · intro hno
    have hA : o ≠ addA := by
      intro e
      obtain ⟨t2, ht2, hu2⟩ := wf_input hwf h.hadd (i := 0) (v := addA) (by simp [h.addIn])
      rw [← e, ht] at ht2
      cases ht2
      exact (hno _ hu2).1 rfl
    have hB : o ≠ addB := by
      intro e
      obtain ⟨t2, ht2, hu2⟩ := wf_input hwf h.hadd (i := 1) (v := addB) (by simp [h.addIn])
      rw [← e, ht] at ht2
      cases ht2
      exact (hno _ hu2).1 rfl
    have hM : o ≠ mulB := by
      intro e
      have : ∃ i : Nat, mul.inputs[i]? = some mulB := by
        rcases h.mulIn with e2 | e2
        · exact ⟨1, by simp [e2]⟩
        · exact ⟨0, by simp [e2]⟩
      obtain ⟨i, hi⟩ := this
      obtain ⟨t2, ht2, hu2⟩ := wf_input hwf h.hmul hi
      rw [← e, ht] at ht2
      cases ht2
      exact (hno _ hu2).2.1 rfl
    unfold fuseTensor fuseUses
    simp only [if_neg hA, if_neg hB, if_neg hM, List.append_nil]
    rw [dropUser_eq_self (fun u hu => (hno u hu).1),
      dropUser_eq_self (fun u hu => (hno u hu).2.1),
      dropUser_eq_self (fun u hu => (hno u hu).2.2)]
  · rintro ⟨u, hu, hE⟩
    have hX : fuseUses g.nodes.length addA addB mulB o ≠ [] := by
      have ho : o = addA ∨ o = addB ∨ o = mulB := by
        rcases hE with e | e | e
        · have := mem_inputs_of_use hwf ht hu (e ▸ h.hadd)
          rw [h.addIn] at this
          simp only [List.mem_cons, List.mem_singleton, List.not_mem_nil, or_false] at this
          rcases this with e1 | e1
          · exact Or.inl e1
          · exact Or.inr (Or.inl e1)
        · have := mem_inputs_of_use hwf ht hu (e ▸ h.hmul)
          rcases h.mulIn with e2 | e2 <;> rw [e2] at this <;>
            simp only [List.mem_cons, List.mem_singleton, List.not_mem_nil, or_false] at this
          · rcases this with e1 | e1
            · exact absurd e1 oa
            · exact Or.inr (Or.inr e1)
          · rcases this with e1 | e1
            · exact Or.inr (Or.inr e1)
            · exact absurd e1 oa
        · have := mem_inputs_of_use hwf ht hu (e ▸ h.hrelu)
          rw [h.reluIn, List.mem_singleton] at this
          exact absurd this om
      intro hnil
      have hmem : ∀ u, u ∉ fuseUses g.nodes.length addA addB mulB o := by
        intro u
        rw [hnil]
        exact List.not_mem_nil u
      rcases ho with e | e | e
      · exact hmem ⟨g.nodes.length, 0⟩ (mem_fuseUses.mpr (Or.inl ⟨e, rfl⟩))
      · exact hmem ⟨g.nodes.length, 1⟩ (mem_fuseUses.mpr (Or.inr (Or.inl ⟨e, rfl⟩)))
      · exact hmem ⟨g.nodes.length, 2⟩ (mem_fuseUses.mpr (Or.inr (Or.inr ⟨e, rfl⟩)))
    by_cases hlen : 1 < (fuseTensor n mulId reluId g.nodes.length addA addB mulB reluY o
        t).uses.length
    · exact Or.inl hlen
    · right
      have hsplit : (fuseTensor n mulId reluId g.nodes.length addA addB mulB reluY o t).uses =
          (dropUser reluId (dropUser mulId (dropUser n t))).uses ++
            fuseUses g.nodes.length addA addB mulB o := rfl
      rw [hsplit] at hlen ⊢
      match hX' : fuseUses g.nodes.length addA addB mulB o, hX with
      | e :: rest, _ =>
        rw [hX'] at hlen
        have hc : e.user = g.nodes.length :=
          user_of_mem_fuseUses (hX' ▸ List.mem_cons_self e rest)
        match hD : (dropUser reluId (dropUser mulId (dropUser n t))).uses, rest with
        | [], [] => exact ⟨e, by simp, hc⟩
        | [], _ :: _ =>
          rw [hD] at hlen
          simp at hlen
        | _ :: _, _ =>
          rw [hD] at hlen
          simp at hlen

/-! ## The matcher's answers after one fusion rewrite -/

theorem fuse_keeps_node {g g' : ComputeGraph F} {n mulId reluId : Nat}
    {new : ComputeOperator}
    (hN : ∀ m, g'.getNode m =
      if m = g.nodes.length then some new
      else if m = n ∨ m = mulId ∨ m = reluId then none
      else g.getNode m)
    {x : Nat} {op : ComputeOperator} (hx : g.getNode x = some op)
    (xn : x ≠ n) (xm : x ≠ mulId) (xr : x ≠ reluId) : g'.getNode x = some op := by
  rw [hN, if_neg (ne_length_of_getNode hx), if_neg (by simp [xn, xm, xr]), hx]

theorem fuse_isa {g g' : ComputeGraph F} {n mulId reluId : Nat} {new : ComputeOperator}
    (hN : ∀ m, g'.getNode m =
      if m = g.nodes.length then some new
      else if m = n ∨ m = mulId ∨ m = reluId then none
      else g.getNode m)
    {k : OpKind} {x : Nat} {v : Bool} (hx : g.isa k x = some v)
    (xn : x ≠ n) (xm : x ≠ mulId) (xr : x ≠ reluId) : g'.isa k x = some v := by
  unfold ComputeGraph.isa at hx ⊢
  cases hn : g.getNode x with
  | none => simp [hn] at hx
  | some op =>
    rw [fuse_keeps_node hN hn xn xm xr]
    rw [hn] at hx
    exact hx

/-- One stage of the matcher after the fusion rewrite, at a surviving operator: the
stage answers as before when the user it finds is not a matched operator; otherwise
it rejects or finds the new operator. -/
theorem fuse_singleUse {g g' : ComputeGraph F} {n mulId reluId : Nat}
    {add mul relu : ComputeOperator} {addA addB addC mulB mulC reluY : Nat}
    (hwf : g.wellFormed = true)
    (h : FuseMatch g n mulId reluId add mul relu addA addB addC mulB mulC reluY)
    (hN : ∀ m, g'.getNode m =
      if m = g.nodes.length then
        some { kind := OpKind.NvDlaAddMulRelu, inputs := [addA, addB, mulB],
               outputs := [reluY] }
      else if m = n ∨ m = mulId ∨ m = reluId then none
      else g.getNode m)
    (hV : ∀ w, g'.getValue w =
      if w = addC ∨ w = mulC then none
      else (g.getValue w).map
        (fuseTensor n mulId reluId g.nodes.length addA addB mulB reluY w))
    {k : OpKind} {x : Nat} {a : Option Nat} (hs : g.singleUse k x = some a)
    (xn : x ≠ n) (xm : x ≠ mulId) (xr : x ≠ reluId) :
    ∃ a', g'.singleUse k x = some a' ∧
      ((a' = a ∧ ∀ y, a = some y → y ≠ n ∧ y ≠ mulId ∧ y ≠ reluId) ∨ a' = none ∨
        a' = some g.nodes.length) ∧
      (∀ y, a = some y → y ≠ n → y ≠ mulId → y ≠ reluId → a' = a) := by
  obtain ⟨pA, pM, -⟩ := h.producers hwf
  obtain ⟨op, hx, hcase⟩ := singleUse_eq_some hs
  have hx' := fuse_keeps_node hN hx xn xm xr
  rcases hcase with ⟨hk, rfl⟩ | ⟨hk, o, us, ho, hu, hus⟩
  · exact ⟨none, singleUse_of_kind_ne hx' hk, Or.inl ⟨rfl, fun y hy => by cases hy⟩,
      fun y hy => by cases hy⟩
  · have oa : o ≠ addC := fun e => xn (pA x op hx (e ▸ List.getElem?_mem ho))
    have om : o ≠ mulC := fun e => xm (pM x op hx (e ▸ List.getElem?_mem ho))
    obtain ⟨us', hu', hsame, hnew⟩ := fuse_uses hwf h hV hu oa om
    have hs' := singleUse_of_uses hx' hk ho hu'
    have hs0 := singleUse_of_uses hx hk ho hu
    by_cases hE : ∃ u ∈ us, u.user = n ∨ u.user = mulId ∨ u.user = reluId
    · have hlast : ∀ y, a = some y → y ≠ n → y ≠ mulId → y ≠ reluId → False := by
        intro y hy yn ym yr
        rcases hus with ⟨-, e⟩ | ⟨u, e1, e2⟩
        · rw [e] at hy
          cases hy
        · rw [e2] at hy
          cases hy
          obtain ⟨u2, hu2, hE2⟩ := hE
          rw [e1, List.mem_singleton] at hu2
          subst hu2
          rcases hE2 with e | e | e
          · exact yn e
          · exact ym e
          · exact yr e
      rcases hnew hE with hlen | ⟨e, he, hc⟩
      · refine ⟨none, ?_, Or.inr (Or.inl rfl), fun y hy yn ym yr =>
          (hlast y hy yn ym yr).elim⟩
        rw [hs', if_pos hlen]
      · refine ⟨some g.nodes.length, ?_, Or.inr (Or.inr rfl), fun y hy yn ym yr =>
          (hlast y hy yn ym yr).elim⟩
        rw [hs', he]
        simp [hc]
    · have hno : ∀ u ∈ us, u.user ≠ n ∧ u.user ≠ mulId ∧ u.user ≠ reluId := by
        intro u hu
        refine ⟨fun e => hE ⟨u, hu, Or.inl e⟩, fun e => hE ⟨u, hu, Or.inr (Or.inl e)⟩,
          fun e => hE ⟨u, hu, Or.inr (Or.inr e)⟩⟩
      have hus' := hsame hno
      subst hus'
      refine ⟨a, ?_, Or.inl ⟨rfl, ?_⟩, fun _ _ _ _ _ => rfl⟩
      · rw [hs', ← hs0, hs]
      · intro y hy
        rcases hus with ⟨-, e⟩ | ⟨u, e1, e2⟩
        · rw [e] at hy
          cases hy
        · rw [e2] at hy
          cases hy
          exact hno u (by simp [e1])

/-- After one fusion rewrite the matcher still rejects every surviving operator that
it rejected before. -/
theorem fuse_keeps_rejected {g g' : ComputeGraph F} {n mulId reluId : Nat}
    {add mul relu : ComputeOperator} {addA addB addC mulB mulC reluY : Nat}
    (hwf : g.wellFormed = true)
    (h : FuseMatch g n mulId reluId add mul relu addA addB addC mulB mulC reluY)
    (hN : ∀ m, g'.getNode m =
      if m = g.nodes.length then
        some { kind := OpKind.NvDlaAddMulRelu, inputs := [addA, addB, mulB],
               outputs := [reluY] }
      else if m = n ∨ m = mulId ∨ m = reluId then none
      else g.getNode m)
    (hV : ∀ w, g'.getValue w =
      if w = addC ∨ w = mulC then none
      else (g.getValue w).map
        (fuseTensor n mulId reluId g.nodes.length addA addB mulB reluY w))
    {x : Nat} (hs : isAddMulRelu g x = some false)
    (xn : x ≠ n) (xm : x ≠ mulId) (xr : x ≠ reluId) :
    isAddMulRelu g' x = some false := by
  have hC : g'.getNode g.nodes.length =
      some { kind := OpKind.NvDlaAddMulRelu, inputs := [addA, addB, mulB],
             outputs := [reluY] } := by
    rw [hN, if_pos rfl]
  have hCm : g'.singleUse OpKind.Mul g.nodes.length = some none :=
    singleUse_of_kind_ne hC (fun e => by cases e)
  have hCr : g'.isa OpKind.Relu g.nodes.length = some false := by
    simp [ComputeGraph.isa, hC]
  rw [isAddMulRelu_eq_singleUse] at hs ⊢
  cases ha : g.singleUse OpKind.Add x with
  | none => simp [ha] at hs
  | some a =>
    rw [ha] at hs
    simp only [Option.some_bind] at hs
    obtain ⟨a', ha', hcase, -⟩ := fuse_singleUse hwf h hN hV ha xn xm xr
    rw [ha']
    simp only [Option.some_bind]
    rcases hcase with ⟨rfl, hy⟩ | rfl | rfl
    · cases a' with
      | none => rfl
      | some y =>
        obtain ⟨yn, ym, yr⟩ := hy y rfl
        simp only at hs ⊢
        cases hb : g.singleUse OpKind.Mul y with
        | none => simp [hb] at hs
        | some b =>
          rw [hb] at hs
          simp only [Option.some_bind] at hs
          obtain ⟨b', hb', hcase2, -⟩ := fuse_singleUse hwf h hN hV hb yn ym yr
          rw [hb']
          simp only [Option.some_bind]
          rcases hcase2 with ⟨rfl, hz⟩ | rfl | rfl
          · cases b' with
            | none => rfl
            | some z =>
              obtain ⟨zn, zm, zr⟩ := hz z rfl
              simp only at hs ⊢
              exact fuse_isa hN hs zn zm zr
          · rfl
          · exact hCr
    · rfl
    · simp only
      rw [hCm]
      rfl

/-- After one fusion rewrite the matcher still accepts every Add whose chain shares no
operator with the rewritten chain, and finds the same chain. -/
theorem fuse_keeps_accepted {g g' : ComputeGraph F} {n mulId reluId : Nat}
    {add mul relu : ComputeOperator} {addA addB addC mulB mulC reluY : Nat}
    (hwf : g.wellFormed = true)
    (h : FuseMatch g n mulId reluId add mul relu addA addB addC mulB mulC reluY)
    (hN : ∀ m, g'.getNode m =
      if m = g.nodes.length then
        some { kind := OpKind.NvDlaAddMulRelu, inputs := [addA, addB, mulB],
               outputs := [reluY] }
      else if m = n ∨ m = mulId ∨ m = reluId then none
      else g.getNode m)
    (hV : ∀ w, g'.getValue w =
      if w = addC ∨ w = mulC then none
      else (g.getValue w).map
        (fuseTensor n mulId reluId g.nodes.length addA addB mulB reluY w))
    {x y z : Nat} (h1 : g.singleUse OpKind.Add x = some (some y))
    (h2 : g.singleUse OpKind.Mul y = some (some z)) (h3 : g.isa OpKind.Relu z = some true)
    (xn : x ≠ n) (xm : x ≠ mulId) (xr : x ≠ reluId)
    (yn : y ≠ n) (ym : y ≠ mulId) (yr : y ≠ reluId)
    (zn : z ≠ n) (zm : z ≠ mulId) (zr : z ≠ reluId) :
    g'.singleUse OpKind.Add x = some (some y) ∧ g'.singleUse OpKind.Mul y = some (some z) ∧
      g'.isa OpKind.Relu z = some true := by
  obtain ⟨a', ha', -, hkeep⟩ := fuse_singleUse hwf h hN hV h1 xn xm xr
  obtain ⟨b', hb', -, hkeep2⟩ := fuse_singleUse hwf h hN hV h2 yn ym yr
  rw [hkeep y rfl yn ym yr] at ha'
  rw [hkeep2 z rfl zn zm zr] at hb'
  exact ⟨ha', hb', fuse_isa hN h3 zn zm zr⟩

theorem accept_of_stages {g : ComputeGraph F} {x y z : Nat}
    (h1 : g.singleUse OpKind.Add x = some (some y))
    (h2 : g.singleUse OpKind.Mul y = some (some z)) (h3 : g.isa OpKind.Relu z = some true) :
    isAddMulRelu g x = some true := by
  rw [isAddMulRelu_eq_singleUse, h1]
  simp only [Option.some_bind]
  rw [h2]
  exact h3

theorem stages_of_accept {g : ComputeGraph F} {x : Nat} (h : isAddMulRelu g x = some true) :
    ∃ y z, g.singleUse OpKind.Add x = some (some y) ∧
      g.singleUse OpKind.Mul y = some (some z) ∧ g.isa OpKind.Relu z = some true := by
  rw [isAddMulRelu_eq_singleUse] at h
  cases ha : g.singleUse OpKind.Add x with
  | none => simp [ha] at h
  | some a =>
    rw [ha] at h
    simp only [Option.some_bind] at h
    cases a with
    | none => simp at h
    | some y =>
      simp only at h
      cases hb : g.singleUse OpKind.Mul y with
      | none => simp [hb] at h
      | some b =>
        rw [hb] at h
        simp only [Option.some_bind] at h
        cases b with
        | none => simp at h
        | some z => exact ⟨y, z, rfl, hb, h⟩

/-! ## The fusion pass run to its end -/

theorem isAddMulRelu_dead {g : ComputeGraph F} {x : Nat} (h : g.getNode x = none) :
    isAddMulRelu g x = none := by
  rw [isAddMulRelu_eq_singleUse]
  unfold ComputeGraph.singleUse
  rw [h]
  rfl

theorem live_of_isAddMulRelu {g : ComputeGraph F} {x : Nat} {v : Bool}
    (h : isAddMulRelu g x = some v) : ∃ op, g.getNode x = some op := by
  cases hx : g.getNode x with
  | none =>
    rw [isAddMulRelu_dead hx] at h
    cases h
  | some op => exact ⟨op, rfl⟩

theorem live_of_isa {g : ComputeGraph F} {k : OpKind} {x : Nat} {v : Bool}
    (h : g.isa k x = some v) : ∃ op, g.getNode x = some op := by
  unfold ComputeGraph.isa at h
  cases hx : g.getNode x with
  | none => simp [hx] at h
  | some op => exact ⟨op, rfl⟩

/-- The stages of the matcher on a matched chain. -/
theorem FuseMatch.stages {g : ComputeGraph F} {n mulId reluId : Nat}
    {add mul relu : ComputeOperator} {addA addB addC mulB mulC reluY : Nat}
    (h : FuseMatch g n mulId reluId add mul relu addA addB addC mulB mulC reluY) :
    g.singleUse OpKind.Add n = some (some mulId) ∧
      g.singleUse OpKind.Mul mulId = some (some reluId) := by
  obtain ⟨i, hi⟩ := h.usesAddC
  constructor
  · rw [singleUse_of_uses h.hadd h.addKind (by simp [h.addOut]) hi]
    simp
  · rw [singleUse_of_uses h.hmul h.mulKind (by simp [h.mulOut]) h.usesMulC]
    simp

/-- One rewrite of the second loop, on an accepted Add `n` whose chain is
`(n, y, z)`: the rewrite goes through, the graph stays well formed, the three
operators leave the iteration order and the new one joins it, the new operator is
rejected by the matcher, and the matcher's answer on every other surviving operator
is kept (for an accepted one: if its chain shares no operator with the rewritten
chain). -/
theorem fuse_step {g : ComputeGraph F} {n y z : Nat} (hwf : g.wellFormed = true)
    (h1 : g.singleUse OpKind.Add n = some (some y))
    (h2 : g.singleUse OpKind.Mul y = some (some z))
    (h3 : g.isa OpKind.Relu z = some true) :
    ∃ g', NvDlaFuseAddMulReluPass.rewrite g n = some g' ∧ g'.wellFormed = true ∧
      g'.order = (((g.order ++ [g.nodes.length]).erase n).erase y).erase z ∧
      (∀ x, (g'.getNode x).isSome = true ↔
        x = g.nodes.length ∨ ((g.getNode x).isSome = true ∧ x ≠ n ∧ x ≠ y ∧ x ≠ z)) ∧
      isAddMulRelu g' g.nodes.length = some false ∧
      (∀ x, isAddMulRelu g x = some false → x ≠ n → x ≠ y → x ≠ z →
        isAddMulRelu g' x = some false) ∧
      (∀ a b c, g.singleUse OpKind.Add a = some (some b) →
        g.singleUse OpKind.Mul b = some (some c) → g.isa OpKind.Relu c = some true →
        a ≠ n → a ≠ y → a ≠ z → b ≠ n → b ≠ y → b ≠ z → c ≠ n → c ≠ y → c ≠ z →
        g'.singleUse OpKind.Add a = some (some b) ∧
          g'.singleUse OpKind.Mul b = some (some c) ∧ g'.isa OpKind.Relu c = some true) := by
  obtain ⟨mulId, reluId, add, mul, relu, addA, addB, addC, mulB, mulC, reluY, h⟩ :=
    fuseMatch_of_accept hwf (accept_of_stages h1 h2 h3)
  obtain ⟨s1, s2⟩ := h.stages
  rw [h1] at s1
  cases s1
  rw [h2] at s2
  cases s2
  obtain ⟨g', hr, hN, hV, hO⟩ := fuse_rewrite_full hwf h
  have hC : g'.getNode g.nodes.length =
      some { kind := OpKind.NvDlaAddMulRelu, inputs := [addA, addB, mulB],
             outputs := [reluY] } := by
    rw [hN, if_pos rfl]
  refine ⟨g', hr, fuse_wellFormed hwf h hN hV, hO, ?_, ?_, ?_, ?_⟩
  · intro x
    rw [hN]
    by_cases hxc : x = g.nodes.length
    · simp [hxc]
    · by_cases hxe : x = n ∨ x = y ∨ x = z
      · rw [if_neg hxc, if_pos hxe]
        simp only [Option.isSome_none, Bool.false_eq_true, false_iff]
        rintro (e | ⟨-, a, b, c⟩)
        · exact hxc e
        · rcases hxe with e | e | e
          · exact a e
          · exact b e
          · exact c e
      · rw [if_neg hxc, if_neg hxe]
        constructor
        · intro hl
          exact Or.inr ⟨hl, fun e => hxe (Or.inl e), fun e => hxe (Or.inr (Or.inl e)),
            fun e => hxe (Or.inr (Or.inr e))⟩
        · rintro (e | ⟨hl, -⟩)
          · exact absurd e hxc
          · exact hl
  · rw [isAddMulRelu_eq_singleUse, singleUse_of_kind_ne hC (fun e => by cases e)]
    rfl
  · intro x hx xn xy xz
    exact fuse_keeps_rejected hwf h hN hV hx xn xy xz
  · intro a b c ha hb hc an ay az bn by' bz cn cy cz
    exact fuse_keeps_accepted hwf h hN hV ha hb hc an ay az bn by' bz cn cy cz

/-- The second loop on a queue of accepted Adds with pairwise node-disjoint chains:
every rewrite goes through, and at the end the matcher rejects every operator of the
iteration order. -/
theorem fuse_fold (chain : Nat → Nat × Nat) :
    ∀ (q : List Nat) (g : ComputeGraph F),
      g.wellFormed = true → g.order.Nodup →
      (∀ x, (g.getNode x).isSome = true → x ∈ g.order) →
      (∀ x ∈ g.order, isAddMulRelu g x = some true ∨ isAddMulRelu g x = some false) →
      (∀ x ∈ g.order, isAddMulRelu g x = some true → x ∈ q) →
      (∀ x ∈ q, x ∈ g.order ∧ g.singleUse OpKind.Add x = some (some (chain x).1) ∧
        g.singleUse OpKind.Mul (chain x).1 = some (some (chain x).2) ∧
        g.isa OpKind.Relu (chain x).2 = some true) →
      q.Pairwise (fun a b => ∀ u ∈ [a, (chain a).1, (chain a).2],
        u ∉ [b, (chain b).1, (chain b).2]) →
      ∃ gf, q.foldlM NvDlaFuseAddMulReluPass.rewrite g = some gf ∧
        gf.wellFormed = true ∧ gf.order.Nodup ∧
        (∀ x, (gf.getNode x).isSome = true → x ∈ gf.order) ∧
        ∀ x ∈ gf.order, isAddMulRelu gf x = some false := by
  intro q
  induction q with
  | nil =>
    intro g hwf hnd hlive hdef hacc _ _
    refine ⟨g, rfl, hwf, hnd, hlive, ?_⟩
    intro x hx
    rcases hdef x hx with e | e
    · exact absurd (hacc x hx e) (List.not_mem_nil x)
    · exact e
  | cons n q ih =>
    intro g hwf hnd hlive hdef hacc hq hpw
    obtain ⟨hn, s1, s2, s3⟩ := hq n (List.mem_cons_self n q)
    obtain ⟨g', hr, hwf', hO, hL, hCf, hRej, hAcc⟩ := fuse_step hwf s1 s2 s3
    rw [List.pairwise_cons] at hpw
    obtain ⟨hD, hpw'⟩ := hpw
    -- the operators of the rewritten chain are live
    obtain ⟨opn, hln⟩ := live_of_isAddMulRelu (accept_of_stages s1 s2 s3)
    obtain ⟨opy, hly, -⟩ := singleUse_eq_some s2
    obtain ⟨opz, hlz⟩ := live_of_isa s3
    have cn : g.nodes.length ≠ n := Ne.symm (ne_length_of_getNode hln)
    have cy : g.nodes.length ≠ (chain n).1 := Ne.symm (ne_length_of_getNode hly)
    have cz : g.nodes.length ≠ (chain n).2 := Ne.symm (ne_length_of_getNode hlz)
    have hc : g.nodes.length ∉ g.order := by
      intro hm
      rcases hdef _ hm with e | e <;> obtain ⟨op, hop⟩ := live_of_isAddMulRelu e <;>
        exact ne_length_of_getNode hop rfl
    have hnd1 : (g.order ++ [g.nodes.length]).Nodup := by
      rw [List.nodup_append]
      refine ⟨hnd, List.nodup_singleton _, ?_⟩
      intro a ha hb
      rw [List.mem_singleton] at hb
      exact hc (hb ▸ ha)
    have hnd2 := hnd1.erase n
    have hnd3 := hnd2.erase (chain n).1
    have hmem : ∀ x, x ∈ g'.order ↔
        (x ≠ (chain n).2 ∧ x ≠ (chain n).1 ∧ x ≠ n ∧ (x ∈ g.order ∨ x = g.nodes.length)) := by
      intro x
      rw [hO, hnd3.mem_erase_iff, hnd2.mem_erase_iff, hnd1.mem_erase_iff, List.mem_append,
        List.mem_singleton]
    -- disjointness of the rewritten chain from a queued one
    have hdis : ∀ b ∈ q, (b ≠ n ∧ b ≠ (chain n).1 ∧ b ≠ (chain n).2) ∧
        ((chain b).1 ≠ n ∧ (chain b).1 ≠ (chain n).1 ∧ (chain b).1 ≠ (chain n).2) ∧
        ((chain b).2 ≠ n ∧ (chain b).2 ≠ (chain n).1 ∧ (chain b).2 ≠ (chain n).2) := by
      intro b hb
      have := hD b hb
      simp only [List.mem_cons, List.mem_singleton, List.not_mem_nil, or_false,
        forall_eq_or_imp, forall_eq, not_or] at this
      obtain ⟨⟨a1, a2, a3⟩, ⟨b1, b2, b3⟩, ⟨c1, c2, c3⟩⟩ := this
      exact ⟨⟨Ne.symm a1, Ne.symm b1, Ne.symm c1⟩, ⟨Ne.symm a2, Ne.symm b2, Ne.symm c2⟩,
        ⟨Ne.symm a3, Ne.symm b3, Ne.symm c3⟩⟩
    have hkeep : ∀ b ∈ q, g'.singleUse OpKind.Add b = some (some (chain b).1) ∧
        g'.singleUse OpKind.Mul (chain b).1 = some (some (chain b).2) ∧
        g'.isa OpKind.Relu (chain b).2 = some true := by
      intro b hb
      obtain ⟨-, t1, t2, t3⟩ := hq b (List.mem_cons_of_mem n hb)
      obtain ⟨⟨a1, a2, a3⟩, ⟨b1, b2, b3⟩, ⟨c1, c2, c3⟩⟩ := hdis b hb
      exact hAcc b _ _ t1 t2 t3 a1 a2 a3 b1 b2 b3 c1 c2 c3
    have hstat : ∀ x ∈ g'.order,
        (isAddMulRelu g' x = some true ∧ x ∈ q) ∨ isAddMulRelu g' x = some false := by
      intro x hx
      obtain ⟨xz, xy, xn, hxo⟩ := (hmem x).mp hx
      rcases hxo with hxo | rfl
      · rcases hdef x hxo with e | e
        · have hxq : x ∈ q := by
            rcases List.mem_cons.mp (hacc x hxo e) with e2 | e2
            · exact absurd e2 xn
            · exact e2
          obtain ⟨t1, t2, t3⟩ := hkeep x hxq
          exact Or.inl ⟨accept_of_stages t1 t2 t3, hxq⟩
        · exact Or.inr (hRej x e xn xy xz)
      · exact Or.inr hCf
    obtain ⟨gf, hf, r1, r2, r3, r4⟩ := ih g' hwf' (hO ▸ hnd3.erase (chain n).2)
      (by
        intro x hx
        rw [hL] at hx
        rw [hmem]
        rcases hx with rfl | ⟨hl, xn, xy, xz⟩
        · exact ⟨cz, cy, cn, Or.inr rfl⟩
        · exact ⟨xz, xy, xn, Or.inl (hlive x hl)⟩)
      (by
        intro x hx
        rcases hstat x hx with ⟨e, -⟩ | e
        · exact Or.inl e
        · exact Or.inr e)
      (by
        intro x hx e
        rcases hstat x hx with ⟨-, hxq⟩ | e2
        · exact hxq
        · rw [e] at e2
          cases e2)
      (by
        intro b hb
        obtain ⟨hbo, -⟩ := hq b (List.mem_cons_of_mem n hb)
        obtain ⟨⟨a1, a2, a3⟩, -⟩ := hdis b hb
        exact ⟨(hmem b).mpr ⟨a3, a2, a1, Or.inl hbo⟩, hkeep b hb⟩)
      hpw'
    refine ⟨gf, ?_, r1, r2, r3, r4⟩
    rw [List.foldlM_cons, hr]
    exact hf

theorem matchedNodes_of_stages {g : ComputeGraph F} {x y z : Nat}
    (h1 : g.singleUse OpKind.Add x = some (some y))
    (h2 : g.singleUse OpKind.Mul y = some (some z)) (h3 : g.isa OpKind.Relu z = some true) :
    NvDlaFuseAddMulReluPass.matchedNodes g x = some [x, y, z] := by
  obtain ⟨opx, hx, c1⟩ := singleUse_eq_some h1
  obtain ⟨opy, hy, c2⟩ := singleUse_eq_some h2
  obtain ⟨opz, hz⟩ := live_of_isa h3
  rcases c1 with ⟨-, e⟩ | ⟨kx, o, us, ho, hu, c1⟩
  · cases e
  rcases c1 with ⟨-, e⟩ | ⟨u, rfl, e⟩
  · cases e
  cases e
  rcases c2 with ⟨-, e⟩ | ⟨ky, o2, us2, ho2, hu2, c2⟩
  · cases e
  rcases c2 with ⟨-, e⟩ | ⟨u2, rfl, e⟩
  · cases e
  cases e
  have kz : opz.kind = OpKind.Relu := by
    simpa [ComputeGraph.isa, hz] using h3
  have d1 : g.dynCast OpKind.Add x = some x := by simp [ComputeGraph.dynCast, hx, kx]
  have d2 : g.dynCast OpKind.Mul u.user = some u.user := by
    simp [ComputeGraph.dynCast, hy, ky]
  have d3 : g.dynCast OpKind.Relu u2.user = some u2.user := by
    simp [ComputeGraph.dynCast, hz, kz]
  have o1 : g.getOutput x 0 = some o := by simp [ComputeGraph.getOutput, hx, ho]
  have o2' : g.getOutput u.user 0 = some o2 := by simp [ComputeGraph.getOutput, hy, ho2]
  unfold NvDlaFuseAddMulReluPass.matchedNodes
  rw [d1, andThen_some, o1, andThen_some, hu, andThen_some, List.getElem?_cons_zero,
    andThen_some, d2, andThen_some, o2', andThen_some, hu2, andThen_some,
    List.getElem?_cons_zero, andThen_some, d3, andThen_some]

theorem listsItsNodes_iff {g : ComputeGraph F} :
    g.listsItsNodes = true ↔
      g.order.Nodup ∧ (∀ x ∈ g.order, (g.getNode x).isSome = true) ∧
        ∀ x, (g.getNode x).isSome = true → x ∈ g.order := by
  unfold ComputeGraph.listsItsNodes
  simp only [Bool.and_eq_true, decide_eq_true_eq, List.all_eq_true, Bool.or_eq_true,
    Bool.not_eq_true', List.mem_range]
  constructor
  · rintro ⟨⟨a, b⟩, c⟩
    refine ⟨a, b, ?_⟩
    intro x hx
    obtain ⟨op, hop⟩ := Option.isSome_iff_exists.mp hx
    rcases c x (getNode_lt hop) with e | e
    · rw [hx] at e
      cases e
    · exact e
  · rintro ⟨a, b, c⟩
    refine ⟨⟨a, b⟩, ?_⟩
    intro x _
    cases hx : (g.getNode x).isSome with
    | false => exact Or.inl rfl
    | true => exact Or.inr (c x hx)

/-- The fixpoint of the fusion pass where the scanning loop is defined.  For every
graph that is well formed, whose iteration order lists exactly its live operators,
each once, whose queued matches are pairwise node-disjoint, and on which the scanning
loop is defined (the matcher answers on every operator), `runOnComputeGraph` returns;
the result is well formed, `isAddMulRelu` accepts none of its operators and rejects
every operator of its iteration order, so a second run queues nothing and returns
`kModuleNoChanged`. -/
theorem fusion_pass_reaches_fixpoint (g : ComputeGraph F)
    (hwf : g.wellFormed = true) (hord : g.listsItsNodes = true)
    (hdisj : NvDlaFuseAddMulReluPass.disjointMatches g = true)
    (hscan : (NvDlaFuseAddMulReluPass.collect g).isSome = true) :
    ∃ g' ret, NvDlaFuseAddMulReluPass.runOnComputeGraph g = some (g', ret) ∧
      g'.wellFormed = true ∧
      (∀ x, isAddMulRelu g' x ≠ some true) ∧
      (∀ x ∈ g'.order, isAddMulRelu g' x = some false) ∧
      NvDlaFuseAddMulReluPass.collect g' = some ([], kModuleNoChanged) ∧
      NvDlaFuseAddMulReluPass.runOnComputeGraph g' =
        some (g'.topologicalSort, kModuleNoChanged) := by
  obtain ⟨hnd, hlive1, hlive2⟩ := listsItsNodes_iff.mp hord
  obtain ⟨⟨q, ret⟩, hc⟩ := Option.isSome_iff_exists.mp hscan
  -- the scan
  have hstep := fun acc node => fuse_collect_step g acc node
  have hdef : ∀ x ∈ g.order, (isAddMulRelu g x).isSome = true :=
    foldlM_collect_defined _ (isAddMulRelu g) hstep g.order _ _ hc
  have hq : q = g.order.filter (fun x => isAddMulRelu g x == some true) := by
    have := foldlM_collect _ (isAddMulRelu g) hstep g.order ([], kModuleNoChanged) hdef
    unfold NvDlaFuseAddMulReluPass.collect at hc
    rw [this] at hc
    have := (Prod.mk.inj (Option.some.inj hc)).1
    simpa using this.symm
  have hmemq : ∀ x, x ∈ q ↔ x ∈ g.order ∧ isAddMulRelu g x = some true := by
    intro x
    rw [hq, List.mem_filter]
    simp
  -- the chains
  obtain ⟨chain, hchain⟩ : ∃ chain : Nat → Nat × Nat, chain = fun x =>
      (((g.singleUse OpKind.Add x).getD none).getD 0,
        ((g.singleUse OpKind.Mul (((g.singleUse OpKind.Add x).getD none).getD 0)).getD
          none).getD 0) := ⟨_, rfl⟩
  have hst : ∀ x, isAddMulRelu g x = some true →
      g.singleUse OpKind.Add x = some (some (chain x).1) ∧
      g.singleUse OpKind.Mul (chain x).1 = some (some (chain x).2) ∧
      g.isa OpKind.Relu (chain x).2 = some true := by
    intro x hx
    obtain ⟨y, z, t1, t2, t3⟩ := stages_of_accept hx
    have e1 : (chain x).1 = y := by
      rw [hchain]
      simp [t1]
    have e2 : (chain x).2 = z := by
      rw [hchain]
      simp [t1, t2]
    rw [e1, e2]
    exact ⟨t1, t2, t3⟩
  have hpw : q.Pairwise (fun a b => ∀ u ∈ [a, (chain a).1, (chain a).2],
      u ∉ [b, (chain b).1, (chain b).2]) := by
    have hqnd : q.Nodup := by
      rw [hq]
      exact hnd.filter _
    refine hqnd.pairwise_of_forall_ne ?_
    intro a ha b hb hab
    obtain ⟨hao, haa⟩ := (hmemq a).mp ha
    obtain ⟨hbo, hba⟩ := (hmemq b).mp hb
    obtain ⟨a1, a2, a3⟩ := hst a haa
    obtain ⟨b1, b2, b3⟩ := hst b hba
    unfold NvDlaFuseAddMulReluPass.disjointMatches at hdisj
    rw [List.all_eq_true] at hdisj
    have := hdisj a hao
    rw [List.all_eq_true] at this
    have := this b hbo
    rw [matchedNodes_of_stages a1 a2 a3, matchedNodes_of_stages b1 b2 b3, haa, hba] at this
    simp only [beq_self_eq_true, Bool.not_true, Bool.or_false, Bool.or_eq_true,
      beq_iff_eq, hab, false_or, List.all_eq_true, Bool.not_eq_true',
      List.contains_eq_any_beq, List.any_eq_false, beq_iff_eq] at this
    intro u hu hub
    exact this u hu u hub rfl
  obtain ⟨gf, hf, r1, r2, r3, r4⟩ := fuse_fold chain q g hwf hnd hlive2
    (by
      intro x hx
      obtain ⟨v, hv⟩ := Option.isSome_iff_exists.mp (hdef x hx)
      cases v with
      | true => exact Or.inl hv
      | false => exact Or.inr hv)
    (fun x hx e => (hmemq x).mpr ⟨hx, e⟩)
    (fun x hx => ⟨((hmemq x).mp hx).1, hst x ((hmemq x).mp hx).2⟩)
    hpw
  have hperm : ∀ x, x ∈ gf.topologicalSort.order ↔ x ∈ gf.order := by
    intro x
    have := (ComputeGraph.topologicalLoop_perm gf gf.order.length [] gf.order).mem_iff (a := x)
    simpa [ComputeGraph.topologicalSort] using this
  have hsame : ∀ x, isAddMulRelu gf.topologicalSort x = isAddMulRelu gf x := fun _ => rfl
  have hrej : ∀ x ∈ gf.topologicalSort.order, isAddMulRelu gf.topologicalSort x = some false :=
    fun x hx => (hsame x).trans (r4 x ((hperm x).mp hx))
  have hcol : NvDlaFuseAddMulReluPass.collect gf.topologicalSort =
      some ([], kModuleNoChanged) := by
    have hstep' := fun acc node => fuse_collect_step gf.topologicalSort acc node
    have := foldlM_collect _ (isAddMulRelu gf.topologicalSort) hstep'
      gf.topologicalSort.order ([], kModuleNoChanged)
      (fun x hx => by rw [hrej x hx]; rfl)
    unfold NvDlaFuseAddMulReluPass.collect
    rw [this]
    have hfil : gf.topologicalSort.order.filter
        (fun x => isAddMulRelu gf.topologicalSort x == some true) = [] := by
      rw [List.filter_eq_nil_iff]
      intro x hx
      rw [hrej x hx]
      decide
    have hany : gf.topologicalSort.order.any
        (fun x => isAddMulRelu gf.topologicalSort x == some true) = false := by
      rw [List.any_eq_false]
      intro x hx
      rw [hrej x hx]
      decide
    rw [hfil, hany]
    rfl
  refine ⟨gf.topologicalSort, ret, ?_, r1, ?_, hrej, hcol, ?_⟩
  · rw [fuse_run_eq, hc]
    simp only [Option.some_bind]
    rw [hf]
    rfl
  · intro x
    rw [hsame]
    cases hx : gf.getNode x with
    | none =>
      rw [isAddMulRelu_dead hx]
      exact fun e => by cases e
    | some op =>
      rw [r4 x (r3 x (by rw [hx]; rfl))]
      exact fun e => by cases e
  · rw [fuse_run_eq, hcol]
    rfl

/-- The graph `fuseTwoChains` meets the four conditions; its two chains (Adds 1 and 4)
are queued and fused in one run, and the second run returns `kModuleNoChanged`. -/
theorem fusion_pass_reaches_fixpoint_witness :
    NvDlaFuseAddMulReluPass.collect fuseTwoChains = some ([1, 4], kModuleChanged) ∧
    ((NvDlaFuseAddMulReluPass.runOnComputeGraph fuseTwoChains).bind fun r =>
      (NvDlaFuseAddMulReluPass.runOnComputeGraph r.1).map Prod.snd) =
      some kModuleNoChanged ∧
    ∃ g' ret, NvDlaFuseAddMulReluPass.runOnComputeGraph fuseTwoChains = some (g', ret) ∧
      g'.wellFormed = true ∧
      (∀ x, isAddMulRelu g' x ≠ some true) ∧
      (∀ x ∈ g'.order, isAddMulRelu g' x = some false) ∧
      NvDlaFuseAddMulReluPass.collect g' = some ([], kModuleNoChanged) ∧
      NvDlaFuseAddMulReluPass.runOnComputeGraph g' =
        some (g'.topologicalSort, kModuleNoChanged) :=
  ⟨by decide, by decide,
    fusion_pass_reaches_fixpoint fuseTwoChains (by decide) (by decide) (by decide)
      (by decide)⟩

/-- C27, the failing input: the graph `fuseDeadEnd` is well formed, its iteration
order lists its operators and its only match (the Add 1) is trivially disjoint from
every other, but the output of the Add 4 has no use: `isAddMulRelu` reads entry 0 of
that empty use-list, which is not defined, so the scanning loop and the run do not
return and there is no graph after the run on which the matcher could be asked
again. -/
theorem fusion_pass_undefined_on_an_unused_output :
    fuseDeadEnd.wellFormed = true ∧ fuseDeadEnd.listsItsNodes = true ∧
    NvDlaFuseAddMulReluPass.disjointMatches fuseDeadEnd = true ∧
    isAddMulRelu fuseDeadEnd 1 = some true ∧
    fuseDeadEnd.getOutput 4 0 = some 6 ∧ fuseDeadEnd.getUses 6 = some [] ∧
    isAddMulRelu fuseDeadEnd 4 = none ∧
    NvDlaFuseAddMulReluPass.collect fuseDeadEnd = none ∧
    NvDlaFuseAddMulReluPass.runOnComputeGraph fuseDeadEnd = none := by
  decide

/-! ## One constant in both roles of a matched pair -/

theorem andThen_assoc {α β γ : Type} (a : Option α) (f : α → Option β) (k : β → Option γ) :
    andThen (andThen a f) k = andThen a fun x => andThen (f x) k := by
  cases a <;> rfl

/-- The body of the reordering loop is its part up to the erase of beta followed by
the reconnection. -/
theorem rewrite_eq_reconnect_after_erase [Div F] (g : ComputeGraph F)
    (tensorIdx node : Nat) :
    NvDlaReorderMulAddPass.rewrite g tensorIdx node =
      andThen (rewriteToErase g tensorIdx node) (rewriteReconnect tensorIdx) := by
  unfold NvDlaReorderMulAddPass.rewrite rewriteToErase
  simp only [andThen_assoc]
  rfl

/-- The division of the type `float` on known values: `6 / 2 = 3`; `1 / 3` is the
`float` `11184811 * 2 ^ -25`; a nonzero number divided by a zero is an infinity with
the sign of the quotient and `0 / 0` is a NaN; `2 ^ 127 / 0.25` overflows to `+inf`;
half of the least subnormal number `2 ^ -149` is a tie and rounds to the even
neighbour `0`, and half of `3 * 2 ^ -149` rounds to the even neighbour
`2 * 2 ^ -149`. -/
theorem binary32_division_on_known_values :
    Binary32.finite false 6 / Binary32.finite false 2 = Binary32.finite false 3 ∧
    Binary32.finite false 1 / Binary32.finite false 3 =
      Binary32.finite false (11184811 / 33554432) ∧
    Binary32.finite false 6 / Binary32.finite false 0 = Binary32.infinite false ∧
    Binary32.finite true 6 / Binary32.finite false 0 = Binary32.infinite true ∧
    Binary32.finite false 6 / Binary32.finite true 0 = Binary32.infinite true ∧
    Binary32.finite false 0 / Binary32.finite false 0 = Binary32.nan ∧
    Binary32.finite false 170141183460469231731687303715884105728 /
      Binary32.finite false (1 / 4) = Binary32.infinite false ∧
    Binary32.finite false (1 / 713623846352979940529142984724747568191373312) /
      Binary32.finite false 2 = Binary32.finite false 0 ∧
    Binary32.finite false (3 / 713623846352979940529142984724747568191373312) /
      Binary32.finite false 2 =
      Binary32.finite false (2 / 713623846352979940529142984724747568191373312) ∧
    (713623846352979940529142984724747568191373312 : ℚ) = 2 ^ 149 ∧
    (170141183460469231731687303715884105728 : ℚ) = 2 ^ 127 ∧
    (33554432 : ℚ) = 2 ^ 25 := by
  refine ⟨by decide!, by decide!, by decide!, by decide!, by decide!, by decide!, by decide!,
    by decide!, by decide!, by norm_num, by norm_num, by norm_num⟩

/-! ## The affine identity behind the reordering -/

/-- C12 (amended): for tensors `x`, `alpha`, `beta` over the rationals of the same
length, fewer than `2 ^ 31` elements, with every element of `alpha` nonzero, the
folding loop of the pass yields a tensor `gamma` of that length with
`gamma[i] = beta[i] / alpha[i]` at every index, and `(x * alpha) + beta` and
`(x + gamma) * alpha` are the same tensor, element by element. -/
theorem reorder_preserves_affine_value (x alpha beta : List ℚ)
    (hx : x.length = beta.length) (ha : alpha.length = beta.length)
    (hnz : ∀ a ∈ alpha, a ≠ 0) (hsize : beta.length < 2 ^ 31) :
    ∃ gamma, foldGamma beta alpha = some gamma ∧ gamma.length = x.length ∧
      (∀ i, i < x.length → ∃ xi ai bi gi, x[i]? = some xi ∧ alpha[i]? = some ai ∧
        beta[i]? = some bi ∧ gamma[i]? = some gi ∧ gi = bi / ai ∧
        xi * ai + bi = (xi + gi) * ai) ∧
      List.zipWith (fun p b => p + b) (List.zipWith (fun xi ai => xi * ai) x alpha) beta =
        List.zipWith (fun s ai => s * ai) (List.zipWith (fun xi gi => xi + gi) x gamma)
          alpha := by
  have hpoint : ∀ xi ai bi : ℚ, ai ∈ alpha → xi * ai + bi = (xi + bi / ai) * ai := by
    intro xi ai bi hai
    have hane : ai ≠ 0 := hnz ai hai
    field_simp
  refine ⟨_, foldGamma_eq_zipWith beta alpha hsize (le_of_eq ha.symm), ?_, ?_, ?_⟩
  · rw [List.length_zipWith, ha, Nat.min_self, hx]
  · intro i hi
    have hib : i < beta.length := hx ▸ hi
    have hia : i < alpha.length := ha ▸ hib
    refine ⟨x[i], alpha[i], beta[i], beta[i] / alpha[i], List.getElem?_eq_getElem hi,
      List.getElem?_eq_getElem hia, List.getElem?_eq_getElem hib, ?_, rfl,
      hpoint _ _ _ (List.getElem_mem hia)⟩
    rw [List.getElem?_zipWith, List.getElem?_eq_getElem hib, List.getElem?_eq_getElem hia]
  · apply List.ext_getElem?
    intro i
    simp only [List.getElem?_zipWith]
    cases hxi : x[i]? with
    | none => simp
    | some xi =>
      cases hai : alpha[i]? with
      | none => simp
      | some ai =>
        cases hbi : beta[i]? with
        | none => simp
        | some bi =>
          simp only [Option.map_some', Option.bind_some, Option.some_bind]
          have := hpoint xi ai bi (List.getElem?_mem hai)
          simp [this]

/-- C12, witness: `x = [1]`, `alpha = [2]`, `beta = [6]` give `gamma = [3]` and the
value `[8]` on both sides. -/
theorem reorder_preserves_affine_value_witness :
    foldGamma [(6 : ℚ)] [2] = some [3] ∧
    List.zipWith (fun p b => p + b) (List.zipWith (fun xi ai => xi * ai) [(1 : ℚ)] [2]) [6] =
      [8] ∧
    ∃ gamma, foldGamma [(6 : ℚ)] [2] = some gamma ∧ gamma.length = [(1 : ℚ)].length ∧
      (∀ i, i < [(1 : ℚ)].length → ∃ xi ai bi gi, [(1 : ℚ)][i]? = some xi ∧
        [(2 : ℚ)][i]? = some ai ∧ [(6 : ℚ)][i]? = some bi ∧ gamma[i]? = some gi ∧
        gi = bi / ai ∧ xi * ai + bi = (xi + gi) * ai) ∧
      List.zipWith (fun p b => p + b) (List.zipWith (fun xi ai => xi * ai) [(1 : ℚ)] [2])
          [6] =
        List.zipWith (fun s ai => s * ai)
          (List.zipWith (fun xi gi => xi + gi) [(1 : ℚ)] gamma) [2] :=
  ⟨by with_unfolding_all decide, by with_unfolding_all decide,
    reorder_preserves_affine_value [1] [2] [6] rfl rfl (by simp) (by decide)⟩

/-- C12, counterexample.  Over the rationals, for `x`, `alpha` and `beta` of `2 ^ 31`
elements each, all equal to one, the folding loop yields a `gamma` without elements, so
`(x + gamma) * alpha` has no element where `(x * alpha) + beta` has `2 ^ 31`.  In the
arithmetic of the type `float`, for `x = [0.0]`, `alpha = [0.25]` and `beta = [2 ^ 127]`,
the folding loop yields `gamma = [+inf]`: `(x * alpha) + beta` is `2 ^ 127` and
`(x + gamma) * alpha` is `+inf`. -/
theorem affine_value_lost_at_int_limit_and_on_overflow :
    ((List.replicate 2147483648 (1 : ℚ)).length = 2 ^ 31 ∧
      (∀ a ∈ List.replicate 2147483648 (1 : ℚ), a ≠ 0) ∧
      foldGamma (List.replicate 2147483648 (1 : ℚ)) (List.replicate 2147483648 1) =
        some [] ∧
      (List.zipWith (fun p b => p + b)
        (List.zipWith (fun xi ai => xi * ai) (List.replicate 2147483648 (1 : ℚ))
          (List.replicate 2147483648 1)) (List.replicate 2147483648 1)).length = 2 ^ 31 ∧
      List.zipWith (fun s ai => s * ai)
        (List.zipWith (fun xi gi => xi + gi) (List.replicate 2147483648 (1 : ℚ)) [])
        (List.replicate 2147483648 1) = []) ∧
    (foldGamma [Binary32.finite false 170141183460469231731687303715884105728]
        [Binary32.finite false (1 / 4)] = some [Binary32.infinite false] ∧
      (170141183460469231731687303715884105728 : ℚ) = 2 ^ 127 ∧
      List.zipWith (fun p b => p + b)
        (List.zipWith (fun xi ai => xi * ai) [Binary32.finite false 0]
          [Binary32.finite false (1 / 4)])
        [Binary32.finite false 170141183460469231731687303715884105728] =
        [Binary32.finite false 170141183460469231731687303715884105728] ∧
      List.zipWith (fun s ai => s * ai)
        (List.zipWith (fun xi gi => xi + gi) [Binary32.finite false 0]
          [Binary32.infinite false])
        [Binary32.finite false (1 / 4)] = [Binary32.infinite false]) := by
  refine ⟨⟨by rw [List.length_replicate]; norm_num, ?_, ?_, ?_, ?_⟩,
    by decide!, by norm_num, by decide!, by decide!⟩
  · intro a ha
    rw [List.eq_of_mem_replicate ha]
    exact one_ne_zero
  · rw [foldGamma_eq_take _ _ (le_refl _)]
    have hz : (toInt ((List.replicate 2147483648 (1 : ℚ)).length : Int)).toNat = 0 := by
      rw [List.length_replicate]
      decide
    rw [hz, List.take_zero]
  · rw [List.length_zipWith, List.length_zipWith, List.length_replicate]
    norm_num
  · rw [List.zipWith_nil_right, List.zipWith_nil_left]

/-! ## The names of the tensors the reorder rewrite creates -/

/-- A rewrite that returns has advanced the counter by one, modulo `2 ^ 32`. -/
theorem rewrite_counter [Div F] {g : ComputeGraph F} {i n : Nat} {r : ComputeGraph F × Nat}
    (h : NvDlaReorderMulAddPass.rewrite g i n = some r) : r.2 = (i + 1) % 2 ^ 32 := by
  unfold NvDlaReorderMulAddPass.rewrite at h
  iterate 40 obtain ⟨_, -, h⟩ := andThen_eq_some h
  rw [← Option.some.inj h]

/-- The rewriting loop advances the counter by the number of queued matches: the
counter is never set back between two rewrites. -/
theorem foldlM_rewrite_counter [Div F] (q : List Nat) :
    ∀ (g : ComputeGraph F) (i : Nat) (st : ComputeGraph F × Nat),
      q.foldlM (fun (st : ComputeGraph F × Nat) node =>
        NvDlaReorderMulAddPass.rewrite st.1 st.2 node) (g, i) = some st →
      st.2 % 2 ^ 32 = (i + q.length) % 2 ^ 32 := by
  induction q with
  | nil =>
    intro g i st h
    simp only [List.foldlM_nil, Option.pure_def, Option.some.injEq] at h
    rw [← h]
    rfl
  | cons n q ih =>
    intro g i st h
    rw [List.foldlM_cons] at h
    cases h1 : NvDlaReorderMulAddPass.rewrite g i n with
    | none => simp [h1] at h
    | some r =>
      rw [h1] at h
      simp only [Option.bind_eq_bind, Option.some_bind] at h
      have hc := rewrite_counter h1
      obtain ⟨g1, c⟩ := r
      simp only at hc
      subst hc
      rw [ih g1 _ st h, List.length_cons]
      omega

/-- C17 (amended): the tensor that the reorder rewrite creates for a matched pair
(under the conditions of the rewrite: a well-formed graph, distinct constant float
operands, gamma's name not yet taken) is a new value, read by the Add, whose name is
beta's name followed by `__gamma_`, the decimal value of the counter and `)`.  Every
rewrite that returns leaves the counter at `(tensorIdx + 1) mod 2 ^ 32`, which is
`tensorIdx + 1` unless the counter was `2 ^ 32 - 1`, and a run that returns leaves it
advanced by the number of queued matches, modulo `2 ^ 32`: the counter is never reset.
The name generated at any other counter value, for any beta, is a different string. -/
theorem gamma_names_differ_for_different_counters [Div F] (g : ComputeGraph F)
    (tensorIdx n addId : Nat) (mul add : ComputeOperator)
    (x alpha beta tmp outputY betaInit : Nat) (alphaData betaData : List F)
    (betaName : String) (hwf : g.wellFormed = true)
    (h : ReorderMatch g n addId mul add x alpha beta tmp outputY betaInit alphaData betaData)
    (hname : g.getName beta = some betaName)
    (hfresh : g.hasName (gammaName betaName tensorIdx) = false) :
    ∃ g',
      NvDlaReorderMulAddPass.rewrite g tensorIdx n = some (g', (tensorIdx + 1) % 2 ^ 32) ∧
      g.getValue g.values.length = none ∧
      g'.getInput addId 1 = some g.values.length ∧
      g'.getName g.values.length =
        some (betaName ++ "__gamma_" ++ toString tensorIdx ++ ")") ∧
      (tensorIdx + 1 < 2 ^ 32 → (tensorIdx + 1) % 2 ^ 32 = tensorIdx + 1) ∧
      (∀ (g2 : ComputeGraph F) (j m : Nat) (r : ComputeGraph F × Nat),
        NvDlaReorderMulAddPass.rewrite g2 j m = some r → r.2 = (j + 1) % 2 ^ 32) ∧
      (∀ (g2 : ComputeGraph F) (j : Nat) (r : (ComputeGraph F × Nat) × Nat),
        NvDlaReorderMulAddPass.runOnComputeGraph g2 j = some r →
        ∃ q, NvDlaReorderMulAddPass.collect g2 = some (q, r.2) ∧
          r.1.2 % 2 ^ 32 = (j + q.length) % 2 ^ 32) ∧
      (∀ (otherName : String) (j : Nat), j ≠ tensorIdx →
        otherName ++ "__gamma_" ++ toString j ++ ")" ≠
          betaName ++ "__gamma_" ++ toString tensorIdx ++ ")") := by
  obtain ⟨-, -, ⟨-, -, l3, l4, l5⟩, -, -⟩ := reorderMatch_distinct hwf h
  have hca := ne_length_of_getNode h.hadd
  have vb := ne_length_of_live l3
  have vt := ne_length_of_live l4
  have vy := ne_length_of_live l5
  obtain ⟨betaT, hbeta⟩ := Option.isSome_iff_exists.mp l3
  obtain ⟨tmpT, htmp⟩ := Option.isSome_iff_exists.mp l4
  obtain ⟨yT, hy⟩ := Option.isSome_iff_exists.mp l5
  have hbn : betaT.name = betaName := by
    simpa [ComputeGraph.getName, hbeta] using hname
  obtain ⟨⟨h1, h2, h3, opI, hI⟩, -, -, -, -⟩ := reorderMatch_distinct hwf h
  obtain ⟨g', gammaData, hrw, -, hN, hS, -, -, -⟩ :=
    rewrite_of_reorderMatch tensorIdx hwf h hbeta htmp hy (by rw [hbn]; exact hfresh)
  obtain ⟨gamma, hg, hgname, -, -⟩ := exists_of_statics_some
    (show g'.statics g.values.length =
        some (gammaName betaT.name tensorIdx, betaT.dims, TensorData.float gammaData) by
      rw [hS, if_neg (Ne.symm vy), if_neg (Ne.symm vt), if_neg (Ne.symm vb), if_pos rfl])
  refine ⟨g', hrw, getValue_length g, ?_, ?_, fun hi => Nat.mod_eq_of_lt hi,
    fun g2 j m r hr => rewrite_counter hr, ?_, ?_⟩
  · unfold ComputeGraph.getInput
    rw [hN, if_neg hca, if_neg (Ne.symm h3), if_pos rfl]
    rfl
  · unfold ComputeGraph.getName
    rw [hg, Option.map_some', hgname, hbn]
    rfl
  · intro g2 j r hr
    rw [reorder_run_eq] at hr
    cases hc : NvDlaReorderMulAddPass.collect g2 with
    | none => simp [hc] at hr
    | some c =>
      obtain ⟨q, ret⟩ := c
      rw [hc] at hr
      simp only [Option.some_bind] at hr
      cases hf : q.foldlM (fun (st : ComputeGraph F × Nat) node =>
          NvDlaReorderMulAddPass.rewrite st.1 st.2 node) (g2, j) with
      | none => simp [hf] at hr
      | some st =>
        rw [hf] at hr
        simp only [Option.map_some', Option.some.injEq] at hr
        subst hr
        exact ⟨q, rfl, foldlM_rewrite_counter q g2 j st hf⟩
  · intro otherName j hj e
    have := congrArg trailingCounter
      (show gammaName otherName j = gammaName betaName tensorIdx from e)
    rw [trailingCounter_gammaName, trailingCounter_gammaName] at this
    exact hj this

/-- C17, witness: the first rewrite of `reorderExample` names its gamma
`beta__gamma_0)`. -/
theorem gamma_names_differ_for_different_counters_witness :
    ((NvDlaReorderMulAddPass.rewrite reorderExample 0 3).bind fun r => r.1.getName 5) =
      some "beta__gamma_0)" ∧
    ∃ g',
      NvDlaReorderMulAddPass.rewrite reorderExample 0 3 = some (g', (0 + 1) % 2 ^ 32) ∧
      reorderExample.getValue reorderExample.values.length = none ∧
      g'.getInput 4 1 = some reorderExample.values.length ∧
      g'.getName reorderExample.values.length =
        some ("beta" ++ "__gamma_" ++ toString 0 ++ ")") ∧
      (0 + 1 < 2 ^ 32 → (0 + 1) % 2 ^ 32 = 0 + 1) ∧
      (∀ (g2 : ComputeGraph ℚ) (j m : Nat) (r : ComputeGraph ℚ × Nat),
        NvDlaReorderMulAddPass.rewrite g2 j m = some r → r.2 = (j + 1) % 2 ^ 32) ∧
      (∀ (g2 : ComputeGraph ℚ) (j : Nat) (r : (ComputeGraph ℚ × Nat) × Nat),
        NvDlaReorderMulAddPass.runOnComputeGraph g2 j = some r →
        ∃ q, NvDlaReorderMulAddPass.collect g2 = some (q, r.2) ∧
          r.1.2 % 2 ^ 32 = (j + q.length) % 2 ^ 32) ∧
      (∀ (otherName : String) (j : Nat), j ≠ 0 →
        otherName ++ "__gamma_" ++ toString j ++ ")" ≠
          "beta" ++ "__gamma_" ++ toString 0 ++ ")") :=
  ⟨by with_unfolding_all decide,
    gamma_names_differ_for_different_counters reorderExample 0 3 4
      { kind := OpKind.Mul, inputs := [0, 1], outputs := [3] }
      { kind := OpKind.Add, inputs := [3, 2], outputs := [4] } 0 1 2 3 4 2 [2] [6] "beta"
      (by decide)
      ⟨rfl, rfl, Or.inl rfl, rfl, rfl, rfl, Or.inl rfl, rfl, ⟨0, rfl⟩, by decide, by decide,
        rfl, by decide, rfl, rfl, by decide, by decide⟩
      rfl (by decide)⟩

/-! ## Runs that return no flag -/

/-- C19, the failing input: three well-formed graphs on which a pass returns no flag.
In `fuseShared` the Add 1 is in the iteration order and accepted by `isAddMulRelu`,
and the scanning loop raises `kModuleChanged`, but the run of the fusion pass fails in
its second rewrite and returns nothing.  In `reorderShared` the Mul 3 is accepted by
`canBeReordered` and the scanning loop raises `kModuleChanged`, but the run of the
reorder pass fails in its first rewrite, which takes the output of the Mul 4 for a
constant float tensor, and returns nothing.  In `shuffleWithPerm []`
no operator is accepted by `is_shuffle`, which throws on the Reshape 2, and the run of
the shuffle pass does not return `kModuleNoChanged`: it returns nothing. -/
theorem runOnComputeGraph_returns_no_flag :
    (fuseShared.wellFormed = true ∧ 1 ∈ fuseShared.order ∧
      isAddMulRelu fuseShared 1 = some true ∧
      (NvDlaFuseAddMulReluPass.collect fuseShared).map Prod.snd = some kModuleChanged ∧
      (NvDlaFuseAddMulReluPass.rewrite fuseShared 1).isSome = true ∧
      ((NvDlaFuseAddMulReluPass.rewrite fuseShared 1).bind fun g =>
        NvDlaFuseAddMulReluPass.rewrite g 2) = none ∧
      (NvDlaFuseAddMulReluPass.runOnComputeGraph fuseShared).map Prod.snd = none) ∧
    (reorderShared.wellFormed = true ∧ 3 ∈ reorderShared.order ∧
      canBeReordered reorderShared 3 = some true ∧
      (NvDlaReorderMulAddPass.collect reorderShared).map Prod.snd = some kModuleChanged ∧
      NvDlaReorderMulAddPass.rewrite reorderShared 0 3 = none ∧
      (NvDlaReorderMulAddPass.runOnComputeGraph reorderShared 0).map Prod.snd = none) ∧
    ((shuffleWithPerm []).wellFormed = true ∧
      (∀ n ∈ (shuffleWithPerm []).order,
        ¬ ((shuffleWithPerm []).isa OpKind.Reshape n = some true ∧
          is_shuffle (shuffleWithPerm []) n = some true)) ∧
      (shuffleWithPerm []).isa OpKind.Reshape 2 = some true ∧
      is_shuffle (shuffleWithPerm []) 2 = none ∧
      (NvDlaIdentifyShufflePass.runOnComputeGraph (shuffleWithPerm [])).map Prod.snd =
        none) := by
  decide

/-! ## The division by a zero divisor, for every matched pair -/

/-- A matched pair is accepted by the matcher. -/
theorem canBeReordered_of_reorderMatch {g : ComputeGraph F} {n addId : Nat}
    {mul add : ComputeOperator} {x alpha beta tmp outputY betaInit : Nat}
    {alphaData betaData : List F}
    (h : ReorderMatch g n addId mul add x alpha beta tmp outputY betaInit alphaData betaData) :
    canBeReordered g n = some true := by
  obtain ⟨k, hk⟩ := h.usesTmp
  have hx := h.xNotConst
  have ha := h.alphaConst
  rcases h.mulIn with hi | hi
  · simp [canBeReordered, ComputeGraph.isa, ComputeGraph.getInput, ComputeGraph.getOutput,
      h.hmul, h.mulKind, hi, h.mulOut, hx, ha, hk, h.hadd, h.addKind]
  · simp [canBeReordered, ComputeGraph.isa, ComputeGraph.getInput, ComputeGraph.getOutput,
      h.hmul, h.mulKind, hi, h.mulOut, hx, ha, hk, h.hadd, h.addKind]

/-- An accepted operator of the iteration order is queued by the scanning loop, which
then raises the flag. -/
theorem reorder_collect_queues {g : ComputeGraph F} {n : Nat} {q : List Nat} {ret : Nat}
    (hacc : canBeReordered g n = some true) (hn : n ∈ g.order)
    (hc : NvDlaReorderMulAddPass.collect g = some (q, ret)) :
    n ∈ q ∧ ret = kModuleChanged := by
  have hstep := fun acc node => reorder_collect_step g acc node
  have hdef : ∀ x ∈ g.order, (canBeReordered g x).isSome = true :=
    foldlM_collect_defined _ (canBeReordered g) hstep g.order _ _ hc
  have hflag := ((collect_flag _ (canBeReordered g) hstep g.order).2 q ret hc).1
  have := foldlM_collect _ (canBeReordered g) hstep g.order ([], kModuleNoChanged) hdef
  unfold NvDlaReorderMulAddPass.collect at hc
  rw [this] at hc
  have hq := (Prod.mk.inj (Option.some.inj hc)).1
  refine ⟨?_, hflag.mpr ⟨n, hn, hacc⟩⟩
  rw [← hq]
  simp [List.mem_filter, hn, hacc]

/-- C20 (amended): the reorder pass divides without looking at the divisor.  The answer
of `canBeReordered` is the same whatever element values a tensor holds (replacing the
data of any value leaves it unchanged).  Under the conditions of the reorder rewrite
(a matched pair in a well-formed graph, distinct constant float operands, gamma's name
not yet taken) and for a `beta` of fewer than `2 ^ 31` elements, whatever the elements
of `alpha` are, zero included, the Mul is accepted, the rewrite goes through and stores
in gamma the quotient `beta[i] / alpha[i]` of the type `float` at every index of
`beta`; the scanning loop queues the Mul and raises the flag, and a run whose queue is
that Mul returns the rewritten graph, re-sorted, with `kModuleChanged`. -/
theorem reorder_divides_unconditionally [Div F] (g : ComputeGraph F)
    (tensorIdx n addId : Nat) (mul add : ComputeOperator)
    (x alpha beta tmp outputY betaInit : Nat) (alphaData betaData : List F)
    (betaName : String) (hwf : g.wellFormed = true)
    (h : ReorderMatch g n addId mul add x alpha beta tmp outputY betaInit alphaData betaData)
    (hname : g.getName beta = some betaName)
    (hfresh : g.hasName (gammaName betaName tensorIdx) = false)
    (hsize : betaData.length < 2 ^ 31) :
    (∀ (v : Nat) (d : TensorData F) (g2 : ComputeGraph F), g.setData v d = some g2 →
      ∀ m, canBeReordered g2 m = canBeReordered g m) ∧
    canBeReordered g n = some true ∧
    ∃ g' gammaData,
      NvDlaReorderMulAddPass.rewrite g tensorIdx n = some (g', (tensorIdx + 1) % 2 ^ 32) ∧
      g'.getFloatValues g.values.length = some gammaData ∧
      gammaData.length = betaData.length ∧
      (∀ i, i < betaData.length →
        ∃ b a, betaData[i]? = some b ∧ alphaData[i]? = some a ∧
          gammaData[i]? = some (b / a)) ∧
      (n ∈ g.order → ∀ q ret, NvDlaReorderMulAddPass.collect g = some (q, ret) →
        n ∈ q ∧ ret = kModuleChanged) ∧
      (NvDlaReorderMulAddPass.collect g = some ([n], kModuleChanged) →
        NvDlaReorderMulAddPass.runOnComputeGraph g tensorIdx =
          some ((g'.topologicalSort, (tensorIdx + 1) % 2 ^ 32), kModuleChanged)) := by
  have hacc := canBeReordered_of_reorderMatch h
  obtain ⟨-, -, ⟨-, -, l3, l4, l5⟩, -, -⟩ := reorderMatch_distinct hwf h
  have vb := ne_length_of_live l3
  have vt := ne_length_of_live l4
  have vy := ne_length_of_live l5
  obtain ⟨betaT, hbeta⟩ := Option.isSome_iff_exists.mp l3
  obtain ⟨tmpT, htmp⟩ := Option.isSome_iff_exists.mp l4
  obtain ⟨yT, hy⟩ := Option.isSome_iff_exists.mp l5
  have hbn : betaT.name = betaName := by
    simpa [ComputeGraph.getName, hbeta] using hname
  obtain ⟨g', gammaData, hrw, hfold, -, hS, -, -, -⟩ :=
    rewrite_of_reorderMatch tensorIdx hwf h hbeta htmp hy (by rw [hbn]; exact hfresh)
  rw [foldGamma_eq_zipWith betaData alphaData hsize h.hlen] at hfold
  have hgd : gammaData = List.zipWith (fun b a => b / a) betaData alphaData :=
    (Option.some.inj hfold).symm
  refine ⟨fun v d g2 hs m => canBeReordered_setData hs m, hacc, g', gammaData, hrw, ?_, ?_, ?_,
    fun hn q ret hc => reorder_collect_queues hacc hn hc, ?_⟩
  · exact getFloatValues_of_statics_some (a := gammaName betaT.name tensorIdx) (b := betaT.dims)
      (by rw [hS, if_neg (Ne.symm vy), if_neg (Ne.symm vt), if_neg (Ne.symm vb), if_pos rfl])
  · rw [hgd, List.length_zipWith, Nat.min_eq_left h.hlen]
  · intro i hi
    have hia : i < alphaData.length := Nat.lt_of_lt_of_le hi h.hlen
    refine ⟨betaData[i], alphaData[i], List.getElem?_eq_getElem hi,
      List.getElem?_eq_getElem hia, ?_⟩
    rw [hgd, List.getElem?_zipWith, List.getElem?_eq_getElem hi, List.getElem?_eq_getElem hia]
  · intro hc
    rw [reorder_run_eq, hc]
    simp only [Option.some_bind, List.foldlM_cons, List.foldlM_nil, hrw, Option.bind_eq_bind,
      Option.pure_def, Option.map_some']

/-- C20, witness: in `reorderZero`, whose `alpha` is `[+0.0, -0.0, +0.0, 2.0]` and whose
`beta` is `[6.0, 6.0, 0.0, 6.0]`, the pass rewrites the pair and stores
`[+inf, -inf, NaN, 3.0]` in gamma. -/
theorem reorder_divides_unconditionally_witness :
    ((NvDlaReorderMulAddPass.runOnComputeGraph reorderZero 0).bind fun r =>
      r.1.1.getFloatValues 5) =
      some [Binary32.infinite false, Binary32.infinite true, Binary32.nan,
        Binary32.finite false 3] ∧
    ((NvDlaReorderMulAddPass.runOnComputeGraph reorderZero 0).map fun r => r.2) =
      some kModuleChanged ∧
    ((∀ (v : Nat) (d : TensorData Binary32) (g2 : ComputeGraph Binary32),
        reorderZero.setData v d = some g2 →
        ∀ m, canBeReordered g2 m = canBeReordered reorderZero m) ∧
      canBeReordered reorderZero 3 = some true ∧
      ∃ g' gammaData,
        NvDlaReorderMulAddPass.rewrite reorderZero 0 3 = some (g', (0 + 1) % 2 ^ 32) ∧
        g'.getFloatValues reorderZero.values.length = some gammaData ∧
        gammaData.length =
          [Binary32.finite false 6, Binary32.finite false 6, Binary32.finite false 0,
            Binary32.finite false 6].length ∧
        (∀ i, i < [Binary32.finite false 6, Binary32.finite false 6, Binary32.finite false 0,
            Binary32.finite false 6].length →
          ∃ b a, [Binary32.finite false 6, Binary32.finite false 6, Binary32.finite false 0,
              Binary32.finite false 6][i]? = some b ∧
            [Binary32.finite false 0, Binary32.finite true 0, Binary32.finite false 0,
              Binary32.finite false 2][i]? = some a ∧
            gammaData[i]? = some (b / a)) ∧
        (3 ∈ reorderZero.order → ∀ q ret,
          NvDlaReorderMulAddPass.collect reorderZero = some (q, ret) →
          3 ∈ q ∧ ret = kModuleChanged) ∧
        (NvDlaReorderMulAddPass.collect reorderZero = some ([3], kModuleChanged) →
          NvDlaReorderMulAddPass.runOnComputeGraph reorderZero 0 =
            some ((g'.topologicalSort, (0 + 1) % 2 ^ 32), kModuleChanged))) :=
  ⟨by decide!, by decide!,
    reorder_divides_unconditionally reorderZero 0 3 4
      { kind := OpKind.Mul, inputs := [0, 1], outputs := [3] }
      { kind := OpKind.Add, inputs := [3, 2], outputs := [4] } 0 1 2 3 4 2
      [Binary32.finite false 0, Binary32.finite true 0, Binary32.finite false 0,
        Binary32.finite false 2]
      [Binary32.finite false 6, Binary32.finite false 6, Binary32.finite false 0,
        Binary32.finite false 6] "beta"
      (by decide)
      ⟨rfl, rfl, Or.inl rfl, rfl, rfl, rfl, Or.inl rfl, rfl, ⟨0, rfl⟩, by decide, by decide,
        rfl, by decide, rfl, rfl, by decide, by decide⟩
      rfl (by decide) (by decide)⟩

/-- C20, counterexample: in the well-formed graph `reorderHugeZero`, whose `alpha` has
`2 ^ 31` elements, all zero, and whose `beta` has as many, the Mul is accepted and the
rewrite goes through, but the element count wraps to a negative `int`, the folding loop
does not run, and no quotient `beta[i] / alpha[i]` is computed: gamma has no element. -/
theorem reorder_divides_nothing_at_int_limit :
    reorderHugeZero.wellFormed = true ∧ canBeReordered reorderHugeZero 3 = some true ∧
    reorderHugeZero.getFloatValues 1 =
      some (List.replicate 2147483648 (Binary32.finite false 0)) ∧
    reorderHugeZero.getFloatValues 2 =
      some (List.replicate 2147483648 (Binary32.finite false 6)) ∧
    (List.replicate 2147483648 (Binary32.finite false 6)).length = 2 ^ 31 ∧
    ∃ g', NvDlaReorderMulAddPass.rewrite reorderHugeZero 0 3 = some (g', (0 + 1) % 2 ^ 32) ∧
      g'.getFloatValues reorderHugeZero.values.length = some [] := by
  have hwf : reorderHugeZero.wellFormed = true := by decide
  have hm : ReorderMatch reorderHugeZero 3 4
      { kind := OpKind.Mul, inputs := [0, 1], outputs := [3] }
      { kind := OpKind.Add, inputs := [3, 2], outputs := [4] } 0 1 2 3 4 2
      (List.replicate 2147483648 (Binary32.finite false 0))
      (List.replicate 2147483648 (Binary32.finite false 6)) :=
    ⟨rfl, rfl, Or.inl rfl, rfl, rfl, rfl, Or.inl rfl, rfl, ⟨0, rfl⟩, by decide, by decide,
      rfl, by decide, rfl, rfl, by decide,
      by rw [List.length_replicate, List.length_replicate]⟩
  refine ⟨hwf, by decide, rfl, rfl, by rw [List.length_replicate]; norm_num, ?_⟩
  have hb : reorderHugeZero.getValue 2 = some
      { name := "beta", dims := [2147483648],
        data := TensorData.float (List.replicate 2147483648 (Binary32.finite false 6)),
        define := some 2, uses := [⟨4, 1⟩] } := rfl
  have ht : reorderHugeZero.getValue 3 = some
      { name := "tmp", dims := [2147483648], data := TensorData.other, define := some 3,
        uses := [⟨4, 0⟩] } := rfl
  have hy : reorderHugeZero.getValue 4 = some
      { name := "y", dims := [2147483648], data := TensorData.other, define := some 4,
        uses := [] } := rfl
  obtain ⟨g', gammaData, hrw, hfold, -, hS, -, -, -⟩ :=
    rewrite_of_reorderMatch 0 hwf hm hb ht hy (by decide)
  rw [foldGamma_eq_take _ _ (by rw [List.length_replicate, List.length_replicate])] at hfold
  have hz : (toInt ((List.replicate 2147483648 (Binary32.finite false 6)).length : Int)).toNat
      = 0 := by
    rw [List.length_replicate]
    decide
  rw [hz, List.take_zero] at hfold
  have hgd : gammaData = [] := (Option.some.inj hfold).symm
  subst hgd
  refine ⟨g', hrw, ?_⟩
  exact getFloatValues_of_statics_some (a := gammaName "beta" 0) (b := [2147483648])
    (by rw [hS, if_neg (by decide), if_neg (by decide), if_neg (by decide), if_pos rfl])

/-! ## The single re-sort of a pass run -/

end onnc
